import Mathlib

/-!
# A shallow embedding of the `li` Lisp interpreter

The development follows the C++ sources:

* `src/include/li/ast.hpp`, `src/lib/ast.cpp`   — the node classes, printing and evaluation
* `src/include/li/env.hpp`, `src/lib/env.cpp`   — the three-layer environment and the
  argument checks of the built-ins
* `src/include/li/builtins.hpp`                 — the table of built-in procedures
* `src/lib/parse.cpp`                           — tokenizer and immediate parser
* `src/app/main.cpp`                            — the batch driver

Modelling conventions.

* The interpreter has a single class hierarchy `ASTNode`; the result of evaluating a node is
  again a node.  The embedding keeps this: values are terms of `ASTNode`.
* A `LambdaNode` object is the only node with a mutable member (`env_`).  Every `LambdaNode`
  object is created by the parser, so the embedding gives each one an identity `id` and keeps
  the contents of the `env_` members in a store (`World.env_`) indexed by that identity.
* `Env` is passed by reference in C++; `eval` here takes the local frame and returns it.
  The top-level map, shared by pointer between all `Env` copies, lives in `World.toplvl`.
* `std::cout` is the string `World.out`.
* `int` is modelled by `Int` wrapped to 32 bits (`wrap32`).  Signed overflow is undefined
  behaviour in C++; the wrap is the value the usual two's-complement targets compute.  The
  quotient and the remainder of `INT_MIN` by `-1` trap on these targets: there the model stops
  with `Err.undefined`.
* C++ leaves the order unspecified in which the arguments of one call are evaluated.  Where the
  order can be observed (`PairNode::eval`, and the `cons` and `if` branches of
  `parse_immediate`) the model takes the order of the program as built with GCC: the last
  argument first.  The elements of a braced list are evaluated from left to right.
* Recursion of the evaluator and of the parser is bounded by a fuel argument.
-/

namespace lisp.interpreter

/-! ## Nodes (`ast.hpp`) -/

/-- The class hierarchy below `ASTNode`.  `NullNode` is the "quiet" value.  The field `id` of
`LambdaNode` stands for the address of the object: two occurrences with the same `id` are the
same object and share the member `env_`. -/
inductive ASTNode where
  | IntNode (value_ : Int)
  | BoolNode (value_ : Bool)
  | UnitNode
  | NullNode (msg_ : String)
  | SeqNode (sequence_ : List ASTNode)
  | VarNode (name_ : String)
  | BindNode (name_ : String) (value_ : ASTNode)
  | LetNode (bindings_ : List (String × ASTNode)) (body_ : ASTNode) (star_ : Bool)
  | ProcNode (nodes_ : List ASTNode)
  | BuiltinNode (name_ : String)
  | LambdaNode (id : Nat) (arg_list_ : List String) (body_ : ASTNode) (name_ : String)
  | PairNode (first_ : ASTNode) (second_ : ASTNode)
  | CondNode (predicate_seq_ : List ASTNode) (node_seq_ : List ASTNode)
  | AndNode (nodes_ : List ASTNode)
  | OrNode (nodes_ : List ASTNode)
  deriving Repr, Inhabited

open ASTNode

/-- What a `throw` carries, plus the two ways the model itself can stop. -/
inductive Err where
  /-- Raised by `throw_error` / `assert_throw`: a `std::string` is thrown. -/
  | thrown (msg : String)
  /-- A string literal (`const char *`) is thrown, as in `NullNode::eval`. -/
  | thrown_cstr (msg : String)
  /-- The C++ program has undefined behaviour at this point. -/
  | undefined (what : String)
  /-- The fuel of the model ran out. -/
  | out_of_fuel
  deriving Repr, DecidableEq, Inhabited

/-! ### Virtual predicates and accessors -/

def is_numeric : ASTNode → Bool
  | IntNode _ => true
  | _ => false

def is_boolean : ASTNode → Bool
  | BoolNode _ => true
  | _ => false

def is_callable : ASTNode → Bool
  | BuiltinNode _ => true
  | LambdaNode _ _ _ _ => true
  | _ => false

def is_pair : ASTNode → Bool
  | PairNode _ _ => true
  | _ => false

def is_unit : ASTNode → Bool
  | UnitNode => true
  | _ => false

def is_null : ASTNode → Bool
  | NullNode _ => true
  | _ => false

def is_var : ASTNode → Bool
  | VarNode _ => true
  | _ => false

/-- Method `ASTNode::get_numeric`, overridden by `IntNode`. -/
def get_numeric : ASTNode → Except Err Int
  | IntNode v => .ok v
  | _ => .error (.thrown "non-numeric type cannot be interpreted as an integer")

/-- Method `ASTNode::get_boolean`: everything but `#f` is true; overridden by `BoolNode`. -/
def get_boolean : ASTNode → Bool
  | BoolNode v => v
  | _ => true

/-- Method `ASTNode::get`, overridden by `PairNode`: `idx == 0 ? first_ : second_`. -/
def get : ASTNode → Nat → Except Err ASTNode
  | PairNode first_ second_, idx => .ok (if idx = 0 then first_ else second_)
  | _, _ => .error (.thrown "cannot get element of non-pair type")

/-- Method `ASTNode::get_identifier`, overridden by `VarNode`. -/
def get_identifier : ASTNode → Except Err String
  | VarNode name_ => .ok name_
  | _ => .error (.thrown "cannot get identifier of non-variable type")

/-- Check if a node can be interpreted as a valid list (`is_list` of `ast.cpp`). -/
def is_list : ASTNode → Bool
  | UnitNode => true
  | PairNode _ second_ => is_list second_
  | _ => false

/-! ### Printing -/

/-- The loops of the debug renderings: the items separated by `", "`. -/
def join_comma : List String → Bool → String
  | [], _ => ""
  | c :: cs, first => (if !first then ", " else "") ++ c ++ join_comma cs false

/-- Function `std::to_string(int)`. -/
def int_to_string (v : Int) : String := toString v

mutual
/-- Method `PairNode::to_string_internal(outer)` on a `PairNode`, and on every other node its virtual
`to_string()` (which has no use for `outer`).  In the C++ the pair case dispatches
`first_->is_pair() ? first_->to_string_internal(true) : first_->to_string()` and likewise for
`second_` with `false`; both alternatives are this function. -/
def to_string_internal : ASTNode → Bool → String
  | IntNode v, _ => int_to_string v
  | BoolNode v, _ => if v then "#t" else "#f"
  | UnitNode, _ => "()"
  | NullNode msg_, _ => msg_
  | SeqNode s, _ => "#<Seq>[ " ++ join_comma (to_string_each s) true ++ " ]"
  | VarNode name_, _ => "#<Var> " ++ name_
  | BindNode name_ value_, _ =>
      "#<Bind> (" ++ name_ ++ ", " ++ to_string_internal value_ true ++ ")"
  | LetNode bindings_ _ star_, _ =>
      "#<Let" ++ (if star_ then "*" else "") ++ "> ("
        ++ join_comma (to_string_bindings bindings_) true ++ ")"
  | ProcNode s, _ => "#<Proc>[ " ++ join_comma (to_string_each s) true ++ " ]"
  | BuiltinNode name_, _ => "#<Builtin>: " ++ name_
  | LambdaNode _ arg_list_ _ name_, _ =>
      "#<Lambda>: [" ++ name_ ++ "] ( " ++ String.join (arg_list_.map (fun a => a ++ " ")) ++ ") "
  | PairNode first_ second_, outer =>
      -- Logic for representing pairs and lists accurately.
      let il := is_list second_
      let out := ""
      let out := if !il || outer then out ++ "(" else out
      let out := out ++ to_string_internal first_ true
      let out :=
        if !is_unit second_ then
          (out ++ (if il then " " else " . ")) ++ to_string_internal second_ false
        else out
      if !il || outer then out ++ ")" else out
  | CondNode p n, _ =>
      "#<Cond>" ++ join_comma
        (List.zipWith (fun l r => "(" ++ l ++ ", " ++ r ++ ")") (to_string_each p) (to_string_each n))
        true
  | AndNode s, _ => "#<And>[ " ++ join_comma (to_string_each s) true ++ " ]"
  | OrNode s, _ => "#<Or>[ " ++ join_comma (to_string_each s) true ++ " ]"
/-- The `to_string()` of every child of a node list. -/
def to_string_each : List ASTNode → List String
  | [] => []
  | c :: cs => to_string_internal c true :: to_string_each cs
/-- The rendering `(name, expr)` of every binding of a `LetNode`. -/
def to_string_bindings : List (String × ASTNode) → List String
  | [] => []
  | (n, e) :: cs => ("(" ++ n ++ ", " ++ to_string_internal e true ++ ")") :: to_string_bindings cs
end

/-- The virtual `to_string()`; for a `PairNode` it is `to_string_internal()` with the default
argument `outer = true`. -/
def to_string (node : ASTNode) : String := to_string_internal node true

/-! ## Environment (`env.hpp`, `env.cpp`) -/

/-- A `std::unordered_map<K, V>`: only `count`, `find` and `insert_or_assign` are used by the
interpreter, and no code iterates over a map. -/
abbrev unordered_map (κ : Type) (α : Type) := List (κ × α)

namespace unordered_map

def find {κ α : Type} [DecidableEq κ] : unordered_map κ α → κ → Option α
  | [], _ => none
  | (k', v') :: m, k => if k' = k then some v' else find m k

def count {κ α : Type} [DecidableEq κ] (m : unordered_map κ α) (k : κ) : Nat :=
  if (find m k).isSome then 1 else 0

def insert_or_assign {κ α : Type} [DecidableEq κ] : unordered_map κ α → κ → α → unordered_map κ α
  | [], k, v => [(k, v)]
  | (k', v') :: m, k, v =>
      if k' = k then (k, v) :: m else (k', v') :: insert_or_assign m k v

end unordered_map

/-- A name-to-node map, the type of `Env::bindings_` and of the top-level. -/
abbrev Frame := unordered_map String ASTNode

/-- The class `Env`.  `bindings_` is the constructed (local) environment, owned by value.  The
members `toplvl_` and `builtins_` are pointers to the two objects created in `main`; every `Env`
is a copy of the one built there, so they are the same for all of them: the top-level is
`World.toplvl` and the built-ins are the constant table `Builtins.functions`. -/
structure Env where
  bindings_ : Frame
  deriving Repr, Inhabited

/-- Everything the evaluator can change apart from the `Env` it is handed. -/
structure World where
  /-- The map `toplvl_` points to. -/
  toplvl : Frame
  /-- The member `env_` of each `LambdaNode` object that has been evaluated, by identity. -/
  env_ : unordered_map Nat Env
  /-- What has been written to `std::cout`. -/
  out : String
  deriving Repr, Inhabited

/-- Function `throw_error`. -/
def throw_error {α : Type} (error_string : String) : Except Err α :=
  .error (.thrown error_string)

/-- Function `assert_throw`: throw error to be caught (recoverable). -/
def assert_throw (loc : String) (msg : String) (condition : Bool) : Except Err Unit :=
  if !condition then .error (.thrown ("procedure `" ++ loc ++ "`: " ++ msg)) else .ok ()

def enforce_arg_exact_count (fname : String) (args : List ASTNode) (count : Nat) :
    Except Err Unit :=
  assert_throw fname
    ("expected exactly " ++ toString count ++ " args, got " ++ toString args.length)
    (args.length == count)

def enforce_min_arg_count (fname : String) (args : List ASTNode) (count : Nat) :
    Except Err Unit :=
  assert_throw fname
    ("expected at least " ++ toString count ++ " args, got " ++ toString args.length)
    (args.length ≥ count)

def enforce_all_numeric (fname : String) (args : List ASTNode) : Except Err Unit :=
  assert_throw fname "all arguments must be numeric" (args.all is_numeric)

def enforce_all_boolean (fname : String) (args : List ASTNode) : Except Err Unit :=
  assert_throw fname "all arguments must be boolean" (args.all is_boolean)

def enforce_all_list (fname : String) (args : List ASTNode) : Except Err Unit :=
  assert_throw fname "argument(s) must be of type list" (args.all is_list)

/-! ## Built-in procedures (`builtins.hpp`) -/

/-- The C++ type `int`: the representative of `x` in the 32-bit two's-complement range.  An
overflow of `+`, `-` or `*` on `int` is undefined in C++; the model takes the wrapped value,
which is what the machine instructions give. -/
def wrap32 (x : Int) : Int := (x + 2147483648) % 4294967296 - 2147483648

def INT_MIN : Int := -2147483648
def INT_MAX : Int := 2147483647

/-- A built-in: a function over the list of evaluated arguments.  The lambdas of the table
capture nothing; the only state they touch is `std::cout`, threaded here as a string. -/
abbrev builtin_fxn := List ASTNode → String → Except Err ASTNode × String

/-- A built-in that does not write. -/
def no_output (f : List ASTNode → Except Err ASTNode) : builtin_fxn :=
  fun args out => (f args, out)

/-- Member `front()` of a `std::list`; undefined on an empty list. -/
def front (args : List ASTNode) : Except Err ASTNode :=
  match args with
  | [] => .error (.undefined "front() of an empty list")
  | a :: _ => .ok a

/-- Member `back()` of a `std::list`; undefined on an empty list. -/
def back (args : List ASTNode) : Except Err ASTNode :=
  match args.getLast? with
  | none => .error (.undefined "back() of an empty list")
  | some a => .ok a

/-- Algorithm `std::accumulate` with a binary operation on `int` and a node. -/
def accumulate (args : List ASTNode) (init : Int) (op : Int → Int → Except Err Int) :
    Except Err Int :=
  args.foldlM (fun a b => do let n ← get_numeric b; op a n) init

/-- Algorithm `std::adjacent_find(...) == args.cend()`: no two neighbours satisfy `pred`. -/
def adjacent_find_is_end (pred : Int → Int → Bool) : List ASTNode → Except Err Bool
  | a :: b :: rest => do
      let x ← get_numeric a
      let y ← get_numeric b
      if pred x y then pure false else adjacent_find_is_end pred (b :: rest)
  | _ => pure true

/-- Algorithm `std::max_element` followed by `get_numeric`: `largest` moves when
`comp(*largest, *it)`. -/
def max_element (comp : Int → Int → Bool) : List ASTNode → Except Err Int
  | [] => .error (.undefined "dereference of end()")
  | a :: rest => do
      let x ← get_numeric a
      rest.foldlM (fun largest b => do
        let y ← get_numeric b
        pure (if comp largest y then y else largest)) x

/-- Algorithm `std::min_element` followed by `get_numeric`: `smallest` moves when
`comp(*it, *smallest)`. -/
def min_element (comp : Int → Int → Bool) : List ASTNode → Except Err Int
  | [] => .error (.undefined "dereference of end()")
  | a :: rest => do
      let x ← get_numeric a
      rest.foldlM (fun smallest b => do
        let y ← get_numeric b
        pure (if comp y smallest then y else smallest)) x

/-- Modelled `std::pow` on the two `int`s converted to `double`, and the conversion of its
result back to `int` in the `IntNode` constructor.  A power that fits in 32 bits is exact; for
a result that does not fit (or is infinite) the conversion is undefined in C++ and the model
returns `INT_MIN`, the value the x86 conversion instruction gives. -/
def pow_int (a b : Int) : Int :=
  if 0 ≤ b then
    let r := a ^ b.toNat
    if INT_MIN ≤ r ∧ r ≤ INT_MAX then r else INT_MIN
  else if a = 0 then INT_MIN
  else if a = 1 then 1
  else if a = -1 then (if b % 2 = 0 then 1 else -1)
  else 0

/-- The recursive lambda `get_length` of the built-in `length`. -/
def get_length : ASTNode → Nat → Except Err Nat
  | UnitNode, count => .ok count
  | PairNode _ second_, count => get_length second_ (count + 1)
  | _, _ => .error (.thrown "cannot get element of non-pair type")

/-- The recursive lambda `concat` of the built-in `append`. -/
def concat : ASTNode → ASTNode → Except Err ASTNode
  | UnitNode, r => .ok r
  | PairNode first_ second_, r => do
      let rest ← concat second_ r
      pure (PairNode first_ rest)
  | _, _ => .error (.thrown "cannot get element of non-pair type")

/-- The quotient `a / b` and the remainder `a % b` of two `int`s are undefined in C++ when the
quotient does not fit, which is the case of `INT_MIN` and `-1` (the division instruction traps
and the process is killed). -/
def quotient_overflows (a b : Int) : Bool := a = INT_MIN && b = -1

namespace Builtins

def mul : builtin_fxn := no_output fun args => do
  enforce_all_numeric "*" args
  let r ← accumulate args 1 (fun a b => pure (wrap32 (a * b)))
  pure (IntNode r)

def add : builtin_fxn := no_output fun args => do
  enforce_all_numeric "+" args
  let r ← accumulate args 0 (fun a b => pure (wrap32 (a + b)))
  pure (IntNode r)

def sub : builtin_fxn := no_output fun args => do
  enforce_min_arg_count "-" args 1
  enforce_all_numeric "-" args
  let f ← front args
  let init ← get_numeric f
  let r ← accumulate args.tail init (fun a b => pure (wrap32 (a - b)))
  pure (IntNode r)

def div : builtin_fxn := no_output fun args => do
  enforce_min_arg_count "/" args 1
  enforce_all_numeric "/" args
  let f ← front args
  let init ← get_numeric f
  let r ← accumulate args.tail init (fun a b =>
    if b = 0 then throw_error "runtime: division by zero"
    else if quotient_overflows a b then .error (.undefined "quotient of INT_MIN by -1")
    else pure (wrap32 (Int.tdiv a b)))
  pure (IntNode r)

def max : builtin_fxn := no_output fun args => do
  enforce_all_numeric "max" args
  enforce_min_arg_count "max" args 1
  let r ← max_element (fun a b => decide (a < b)) args
  pure (IntNode r)

def min : builtin_fxn := no_output fun args => do
  enforce_all_numeric "min" args
  enforce_min_arg_count "min" args 1
  let r ← min_element (fun a b => decide (a < b)) args
  pure (IntNode r)

def eq : builtin_fxn := no_output fun args => do
  enforce_all_numeric "=" args
  let r ← adjacent_find_is_end (fun a b => decide (a ≠ b)) args
  pure (BoolNode r)

def lt : builtin_fxn := no_output fun args => do
  enforce_all_numeric "<" args
  let r ← adjacent_find_is_end (fun a b => decide (a ≥ b)) args
  pure (BoolNode r)

def gt : builtin_fxn := no_output fun args => do
  enforce_all_numeric ">" args
  let r ← adjacent_find_is_end (fun a b => decide (a ≤ b)) args
  pure (BoolNode r)

def le : builtin_fxn := no_output fun args => do
  enforce_all_numeric "<=" args
  let r ← adjacent_find_is_end (fun a b => decide (a > b)) args
  pure (BoolNode r)

def ge : builtin_fxn := no_output fun args => do
  enforce_all_numeric ">=" args
  let r ← adjacent_find_is_end (fun a b => decide (a < b)) args
  pure (BoolNode r)

def abs : builtin_fxn := no_output fun args => do
  enforce_arg_exact_count "abs" args 1
  enforce_all_numeric "abs" args
  let f ← front args
  let x ← get_numeric f
  pure (IntNode (wrap32 (Int.natAbs x)))

def expt : builtin_fxn := no_output fun args => do
  enforce_arg_exact_count "expt" args 2
  enforce_all_numeric "expt" args
  let f ← front args
  let b ← back args
  let x ← get_numeric f
  let y ← get_numeric b
  pure (IntNode (pow_int x y))

def modulo : builtin_fxn := no_output fun args => do
  enforce_arg_exact_count "modulo" args 2
  enforce_all_numeric "modulo" args
  let f ← front args
  let b ← back args
  let y ← get_numeric b
  if y = 0 then throw_error "runtime: division by zero" else
  let x ← get_numeric f
  if quotient_overflows x y then .error (.undefined "remainder of INT_MIN by -1") else
  pure (IntNode (wrap32 (Int.tmod x y)))

def zero_p : builtin_fxn := no_output fun args => do
  enforce_arg_exact_count "zero?" args 1
  enforce_all_numeric "zero?" args
  let f ← front args
  let x ← get_numeric f
  pure (BoolNode (decide (x = 0)))

def car : builtin_fxn := no_output fun args => do
  enforce_arg_exact_count "car" args 1
  let f ← front args
  get f 0

def cdr : builtin_fxn := no_output fun args => do
  enforce_arg_exact_count "cdr" args 1
  let f ← front args
  get f 1

def length : builtin_fxn := no_output fun args => do
  enforce_arg_exact_count "length" args 1
  enforce_all_list "length" args
  let f ← front args
  let n ← get_length f 0
  pure (IntNode (wrap32 n))

def append : builtin_fxn := no_output fun args => do
  enforce_arg_exact_count "append" args 2
  enforce_all_list "append" args
  let f ← front args
  let b ← back args
  concat f b

def display : builtin_fxn := fun args out =>
  match enforce_arg_exact_count "display" args 1, front args with
  | .ok _, .ok f => (.ok (NullNode ""), out ++ to_string f)
  | .error e, _ => (.error e, out)
  | .ok _, .error e => (.error e, out)

def newline : builtin_fxn := fun args out =>
  match enforce_arg_exact_count "newline" args 0 with
  | .ok _ => (.ok (NullNode ""), out ++ "\n")
  | .error e => (.error e, out)

/-- The source passes the name `newline` to the arity check of `not`. -/
def not : builtin_fxn := no_output fun args => do
  enforce_arg_exact_count "newline" args 1
  let f ← front args
  pure (BoolNode (!get_boolean f))

def boolean_p : builtin_fxn := no_output fun args => do
  enforce_arg_exact_count "boolean?" args 1
  let f ← front args
  pure (BoolNode (is_boolean f))

def integer_p : builtin_fxn := no_output fun args => do
  enforce_arg_exact_count "integer?" args 1
  let f ← front args
  pure (BoolNode (is_numeric f))

def pair_p : builtin_fxn := no_output fun args => do
  enforce_arg_exact_count "pair?" args 1
  let f ← front args
  pure (BoolNode (is_pair f))

def list_p : builtin_fxn := no_output fun args => do
  enforce_arg_exact_count "list?" args 1
  let f ← front args
  pure (BoolNode (is_list f))

def procedure_p : builtin_fxn := no_output fun args => do
  enforce_arg_exact_count "procedure?" args 1
  let f ← front args
  pure (BoolNode (is_callable f))

def null_p : builtin_fxn := no_output fun args => do
  enforce_arg_exact_count "null?" args 1
  let f ← front args
  pure (BoolNode (is_unit f))

/-- The table `Builtins::functions`. -/
def functions : unordered_map String builtin_fxn :=
  [ ("*", mul), ("+", add), ("-", sub), ("/", div),
    ("max", max), ("min", min),
    ("=", eq), ("<", lt), (">", gt), ("<=", le), (">=", ge),
    ("abs", abs), ("expt", expt), ("modulo", modulo), ("zero?", zero_p),
    ("car", car), ("cdr", cdr),
    ("length", length), ("append", append),
    ("display", display), ("newline", newline), ("not", not),
    ("boolean?", boolean_p), ("integer?", integer_p), ("pair?", pair_p), ("list?", list_p),
    ("procedure?", procedure_p), ("null?", null_p) ]

end Builtins

/-! ### `Env::insert` and `Env::find` -/

/-- Method `Env::insert(name, value, top)`: `insert_or_assign` into the top-level if `top`,
else into `bindings_`. -/
def Env.insert (env : Env) (w : World) (name : String) (value : ASTNode) (top : Bool) :
    Env × World :=
  if top then (env, { w with toplvl := w.toplvl.insert_or_assign name value })
  else ({ env with bindings_ := env.bindings_.insert_or_assign name value }, w)

/-- Method `Env::find(name)`. -/
def Env.find (env : Env) (w : World) (name : String) : Except Err ASTNode :=
  -- Check immediate environment (lets)
  match env.bindings_.find name with
  | some v => .ok v
  | none =>
    -- Check top level (begins)
    match w.toplvl.find name with
    | some v => .ok v
    | none =>
      -- Check builtins
      if Builtins.functions.count name ≠ 0 then .ok (BuiltinNode name)
      -- Report not found
      else throw_error ("unbound variable: " ++ name)

/-! ## Evaluation (`ast.cpp`) -/

/-- What a call of `eval(Env & env)` leaves behind: the returned node or the exception, the
`Env` that was passed by reference, and the rest of the state. -/
abbrev Outcome := Except Err ASTNode × Env × World

/-- The virtual `eval` at the recursive positions of the methods below. -/
abbrev Evaluator := ASTNode → Env → World → Outcome

/-- Method `SeqNode::eval`: an empty sequence gives an empty `NullNode`; otherwise every child
but the last is evaluated for its effect and the last one gives the value. -/
def SeqNode_eval (ev : Evaluator) : List ASTNode → Env → World → Outcome
  | [], env, w => (.ok (NullNode ""), env, w)
  | [last], env, w => ev last env w
  | it :: rest, env, w =>
      match ev it env w with
      | (.ok _, env1, w1) => SeqNode_eval ev rest env1 w1
      | (.error e, env1, w1) => (.error e, env1, w1)

/-- Method `VarNode::eval`: `env.find(name_)->eval(env)`.  The node found is evaluated again. -/
def VarNode_eval (ev : Evaluator) (name_ : String) (env : Env) (w : World) : Outcome :=
  match env.find w name_ with
  | .ok found => ev found env w
  | .error e => (.error e, env, w)

/-- Method `BindNode::eval`: `env.insert(name_, value_->eval(env), true)`, then a `NullNode`
carrying the name. -/
def BindNode_eval (ev : Evaluator) (name_ : String) (value_ : ASTNode) (env : Env) (w : World) :
    Outcome :=
  match ev value_ env w with
  | (.ok v, env1, w1) =>
      let (env2, w2) := env1.insert w1 name_ v true
      (.ok (NullNode name_), env2, w2)
  | (.error e, env1, w1) => (.error e, env1, w1)

/-- The loop of `LetNode::eval`:
`current.insert(binding.first, binding.second->eval(star_ ? current : env), false)`.
Returns the frame `current` next to the outcome for `env`. -/
def LetNode_loop (ev : Evaluator) (star_ : Bool) :
    List (String × ASTNode) → Env → Env → World → Except Err Env × Env × World
  | [], current, env, w => (.ok current, env, w)
  | binding :: rest, current, env, w =>
      if star_ then
        match ev binding.2 current w with
        | (.ok v, current1, w1) =>
            let (current2, w2) := current1.insert w1 binding.1 v false
            LetNode_loop ev star_ rest current2 env w2
        | (.error e, _, w1) => (.error e, env, w1)
      else
        match ev binding.2 env w with
        | (.ok v, env1, w1) =>
            let (current2, w2) := current.insert w1 binding.1 v false
            LetNode_loop ev star_ rest current2 env1 w2
        | (.error e, env1, w1) => (.error e, env1, w1)

/-- Method `LetNode::eval`: `Env current = env`, the loop over the bindings, and the body in
`current`. -/
def LetNode_eval (ev : Evaluator) (bindings_ : List (String × ASTNode)) (body_ : ASTNode)
    (star_ : Bool) (env : Env) (w : World) : Outcome :=
  let current := env -- Seed new environment
  match LetNode_loop ev star_ bindings_ current env w with
  | (.ok current1, env1, w1) =>
      match ev body_ current1 w1 with
      | (r, _, w2) => (r, env1, w2)
  | (.error e, env1, w1) => (.error e, env1, w1)

/-- The `std::transform` of `ProcNode::eval`: the arguments are evaluated in order and their
values appended to `args`.  (The standard leaves the order in which `std::transform` applies
the operation open; over input iterators and a `back_inserter` the implementations apply it
from the first element to the last, and so does the model.) -/
def eval_args (ev : Evaluator) : List ASTNode → Env → World → Except Err (List ASTNode) × Env × World
  | [], env, w => (.ok [], env, w)
  | node :: rest, env, w =>
      match ev node env w with
      | (.ok v, env1, w1) =>
          match eval_args ev rest env1 w1 with
          | (.ok vs, env2, w2) => (.ok (v :: vs), env2, w2)
          | (.error e, env2, w2) => (.error e, env2, w2)
      | (.error e, env1, w1) => (.error e, env1, w1)

/-- The loop of `LambdaNode::call` that adds the arguments into the environment:
`current.insert(*l, *r, false)` for the parameters and the values side by side. -/
def bind_arguments : List String → List ASTNode → Env → World → Env × World
  | l :: ls, r :: rs, current, w =>
      let (current1, w1) := current.insert w l r false
      bind_arguments ls rs current1 w1
  | _, _, current, w => (current, w)

/-- Method `LambdaNode::call`. -/
def LambdaNode_call (ev : Evaluator) (id : Nat) (arg_list_ : List String) (body_ : ASTNode)
    (name_ : String) (args : List ASTNode) (w : World) : Except Err ASTNode × World :=
  if args.length ≠ arg_list_.length then
    (throw_error ("runtime: lambda function requires " ++ toString arg_list_.length
      ++ " args; called with " ++ toString args.length), w)
  else
    match w.env_.find id with
    | none => (.error (.undefined "call of a LambdaNode whose env_ was never assigned"), w)
    | some env_ =>
        -- Add arguments into environment
        let current := env_
        let (current1, w1) := bind_arguments arg_list_ args current w
        -- Add function itself into the environment (to allow for recursion).
        let (current2, w2) :=
          if name_ ≠ "" then current1.insert w1 name_ (LambdaNode id arg_list_ body_ name_) false
          else (current1, w1)
        -- Eval
        match ev body_ current2 w2 with
        | (r, _, w3) => (r, w3)

/-- The virtual `call(node_list &)`: `BuiltinNode::call` runs the function of the table,
`LambdaNode::call` is above, and the base class throws. -/
def call (ev : Evaluator) : ASTNode → List ASTNode → World → Except Err ASTNode × World
  | BuiltinNode name_, args, w =>
      match Builtins.functions.find name_ with
      | some fxn_ =>
          match fxn_ args w.out with
          | (r, out) => (r, { w with out := out })
      | none => (.error (.undefined "BuiltinNode outside the table of built-ins"), w)
  | LambdaNode id arg_list_ body_ name_, args, w =>
      LambdaNode_call ev id arg_list_ body_ name_ args w
  | _, _, w => (throw_error "non-callable type cannot be called", w)

/-- Method `ProcNode::eval`: the head, then the arguments, then the call. -/
def ProcNode_eval (ev : Evaluator) : List ASTNode → Env → World → Outcome
  | [], env, w => (.error (.undefined "front() of an empty list"), env, w)
  | head :: rest, env, w =>
      match ev head env w with
      | (.ok proc, env1, w1) =>
          match eval_args ev rest env1 w1 with
          | (.ok args, env2, w2) =>
              match call ev proc args w2 with
              | (r, w3) => (r, env2, w3)
          | (.error e, env2, w2) => (.error e, env2, w2)
      | (.error e, env1, w1) => (.error e, env1, w1)

/-- Method `LambdaNode::eval`: `env_ = env` (capture the environment), return the node itself. -/
def LambdaNode_eval (id : Nat) (arg_list_ : List String) (body_ : ASTNode) (name_ : String)
    (env : Env) (w : World) : Outcome :=
  (.ok (LambdaNode id arg_list_ body_ name_), env,
    { w with env_ := w.env_.insert_or_assign id env })

/-- Method `PairNode::eval`: a new pair of the two evaluated components.  The two calls
`first_->eval(env)` and `second_->eval(env)` are the arguments of one call of
`std::make_shared`, so C++ leaves their order unspecified; the program as built evaluates the
last argument first, so `second_` is evaluated before `first_`. -/
def PairNode_eval (ev : Evaluator) (first_ second_ : ASTNode) (env : Env) (w : World) : Outcome :=
  match ev second_ env w with
  | (.ok r, env1, w1) =>
      match ev first_ env1 w1 with
      | (.ok l, env2, w2) => (.ok (PairNode l r), env2, w2)
      | (.error e, env2, w2) => (.error e, env2, w2)
  | (.error e, env1, w1) => (.error e, env1, w1)

/-- Method `CondNode::eval`: the predicates in order; the branch of the first true one.  The two
lists have the same length (asserted by the constructor). -/
def CondNode_eval (ev : Evaluator) : List ASTNode → List ASTNode → Env → World → Outcome
  | [], _, env, w => (.ok (NullNode ""), env, w)
  | l :: ls, r :: rs, env, w =>
      match ev l env w with
      | (.ok v, env1, w1) =>
          if get_boolean v then ev r env1 w1 else CondNode_eval ev ls rs env1 w1
      | (.error e, env1, w1) => (.error e, env1, w1)
  | _ :: _, [], env, w => (.error (.undefined "node_seq_ shorter than predicate_seq_"), env, w)

/-- The loop of `AndNode::eval`; `val` starts as `nullptr`. -/
def AndNode_loop (ev : Evaluator) : List ASTNode → Option ASTNode → Env → World → Outcome
  | [], val, env, w =>
      match val with
      | some v => (.ok v, env, w)
      | none => (.error (.undefined "nullptr returned"), env, w)
  | node :: rest, _, env, w =>
      match ev node env w with
      | (.ok v, env1, w1) =>
          if !get_boolean v then (.ok v, env1, w1) else AndNode_loop ev rest (some v) env1 w1
      | (.error e, env1, w1) => (.error e, env1, w1)

/-- Method `AndNode::eval`. -/
def AndNode_eval (ev : Evaluator) (nodes_ : List ASTNode) (env : Env) (w : World) : Outcome :=
  if nodes_.length = 0 then (.ok (BoolNode true), env, w)
  else AndNode_loop ev nodes_ none env w

/-- Method `OrNode::eval`. -/
def OrNode_eval (ev : Evaluator) : List ASTNode → Env → World → Outcome
  | [], env, w => (.ok (BoolNode false), env, w)
  | node :: rest, env, w =>
      match ev node env w with
      | (.ok val, env1, w1) =>
          if get_boolean val then (.ok val, env1, w1) else OrNode_eval ev rest env1 w1
      | (.error e, env1, w1) => (.error e, env1, w1)

/-- The virtual `eval(Env & env)`, with a bound `fuel` on the depth of nested calls. -/
def eval : Nat → ASTNode → Env → World → Outcome
  | 0, _, env, w => (.error .out_of_fuel, env, w)
  | fuel + 1, node, env, w =>
      match node with
      | IntNode v => (.ok (IntNode v), env, w)
      | BoolNode v => (.ok (BoolNode v), env, w)
      | UnitNode => (.ok UnitNode, env, w)
      | NullNode _ => (.error (.thrown_cstr "runtime: cannot evaluate empty return type"), env, w)
      | SeqNode sequence_ => SeqNode_eval (eval fuel) sequence_ env w
      | VarNode name_ => VarNode_eval (eval fuel) name_ env w
      | BindNode name_ value_ => BindNode_eval (eval fuel) name_ value_ env w
      | LetNode bindings_ body_ star_ => LetNode_eval (eval fuel) bindings_ body_ star_ env w
      | ProcNode nodes_ => ProcNode_eval (eval fuel) nodes_ env w
      | BuiltinNode name_ => (.ok (BuiltinNode name_), env, w)
      | LambdaNode id arg_list_ body_ name_ => LambdaNode_eval id arg_list_ body_ name_ env w
      | PairNode first_ second_ => PairNode_eval (eval fuel) first_ second_ env w
      | CondNode predicate_seq_ node_seq_ => CondNode_eval (eval fuel) predicate_seq_ node_seq_ env w
      | AndNode nodes_ => AndNode_eval (eval fuel) nodes_ env w
      | OrNode nodes_ => OrNode_eval (eval fuel) nodes_ env w

/-! ## Tokenizer (`parse.cpp`) -/

/-- The enumeration `Parser::status`. -/
inductive status where
  | success
  | failure
  | incomplete
  deriving Repr, DecidableEq, Inhabited

/-- The data members of the class `Parser`. -/
structure Parser where
  paren_ : Nat
  multiline_ : Bool
  tokens_ : List String
  deriving Repr, DecidableEq, Inhabited

/-- A freshly constructed `Parser(ml)`. -/
def Parser.new (ml : Bool) : Parser := { paren_ := 0, multiline_ := ml, tokens_ := [] }

/-- Method `Parser::reset`. -/
def Parser.reset (p : Parser) : Parser := { p with paren_ := 0, tokens_ := [] }

/-- What `report_error` writes to `std::cout`. -/
def report_error (text : String) : String := "error: " ++ text ++ "\n"

/-- Function `std::isspace` in the "C" locale.  The tokenizer passes it a `char`; for a byte
above 127 that is a negative value, on which the call is undefined in C++ unless it is `EOF`;
the model gives false there, which is what the table of the C library gives. -/
def isspace (c : Char) : Bool :=
  c = ' ' || c = '\t' || c = '\n' || c = Char.ofNat 11 || c = Char.ofNat 12 || c = '\r'

/-- Function `std::tolower` in the "C" locale. -/
def tolower (c : Char) : Char := c.toLower

/-- The test `c == EOF` on the `char c` that holds the result of `src.get()`: true at the end of
the stream and for the byte 255. -/
def is_EOF (c : Char) : Bool := c.toNat = 255

/-- The lambda `try_push` of `tokenize`: if the token buffer contains a token, push it
(converted to lower case) and erase the buffer. -/
def try_push (p : Parser) (token : String) : Parser × String :=
  if token ≠ "" then
    ({ p with tokens_ := p.tokens_ ++ [String.mk (token.data.map tolower)] }, "")
  else (p, token)

/-- The `while (src.good())` loop of `Parser::tokenize` and the lines after it.  The stream is
the list of its characters (bytes); `in_comment` says that the inner loop of the comment case,
`while (src.good() && (src.get() != newline))`, is running. -/
def tokenize_loop : List Char → Parser → String → Bool → status × Parser
  | [], p, token, _ =>
      let (p, _) := try_push p token
      -- We either now have a complete or an incomplete s-expression stored in the token list.
      (if p.paren_ = 0 then status.success else status.incomplete, p)
  | c :: src, p, token, in_comment =>
      if in_comment then tokenize_loop src p token (c ≠ '\n')
      else if c = ';' then -- Comment
        let (p, token) := try_push p token
        tokenize_loop src p token true
      else if c = '(' then -- Open paren
        let (p, token) := try_push p token
        tokenize_loop src { p with tokens_ := p.tokens_ ++ ["("], paren_ := p.paren_ + 1 } token false
      else if c = ')' then -- Close paren
        let (p, token) := try_push p token
        if p.paren_ ≤ 0 then (status.failure, p)
        else
          tokenize_loop src { p with tokens_ := p.tokens_ ++ [")"], paren_ := p.paren_ - 1 } token
            false
      else -- Either part of a token or a space
        if isspace c then
          let (p, token) := try_push p token
          tokenize_loop src p token false
        else if !is_EOF c then tokenize_loop src p (token.push c) false
        else tokenize_loop src p token false

/-- Method `Parser::tokenize`.  On `failure` the text
`report_error "tokenizer: unable to match ) to any previous ("` has been written. -/
def Parser.tokenize (p : Parser) (src : List Char) : status × Parser :=
  tokenize_loop src p "" false

/-- The characters that the loop of `Parser::tokenize` leaves in the stream.  The loop reads
the stream to its end unless it returns `failure` at a `)` that has no `(` before it: then the
characters after that `)` stay in the stream.  `paren_` is the counter of the parser and
`in_comment` is as in `tokenize_loop`; the branches are those of `tokenize_loop`. -/
def tokenize_unread : List Char → Nat → Bool → List Char
  | [], _, _ => []
  | c :: src, paren_, in_comment =>
      if in_comment then tokenize_unread src paren_ (c ≠ '\n')
      else if c = ';' then tokenize_unread src paren_ true
      else if c = '(' then tokenize_unread src (paren_ + 1) false
      else if c = ')' then
        if paren_ ≤ 0 then src else tokenize_unread src (paren_ - 1) false
      else tokenize_unread src paren_ false

/-! ## Immediate parser (`parse.cpp`) -/

/-- Dereference of an iterator into the token vector; a position outside it is undefined. -/
def deref (tokens : List String) (it : Nat) : Except Err String :=
  match tokens.get? it with
  | some t => .ok t
  | none => .error (.undefined "read outside the token vector")

/-- The iterator `it - 1`. -/
def prev (it : Nat) : Except Err Nat :=
  if it = 0 then .error (.undefined "iterator before begin()") else .ok (it - 1)

/-- Element access `level[k]` of a vector of iterators; an index outside it is undefined. -/
def index (level : List Nat) (k : Nat) : Except Err Nat :=
  match level.get? k with
  | some it => .ok it
  | none => .error (.undefined "index outside the vector")

/-- The `for` loop of `find_match`.  Every round reads a token, so `tokens.length + 1` rounds
are never exceeded. -/
def find_match_loop (tokens : List String) (end_ : Nat) : Nat → Nat → Nat → Except Err (Nat × Nat)
  | 0, _, _ => .error .out_of_fuel
  | rounds + 1, it, paren =>
      if it = end_ then .ok (it, paren)
      else do
        let t ← deref tokens it
        let paren := if t = "(" then paren + 1 else if t = ")" then paren - 1 else paren
        if paren = 0 then pure (it, paren)
        else find_match_loop tokens end_ rounds (it + 1) paren

/-- Find matching `)` given iterator to initial `(`.  If not initial `(`, return begin + 1.
If not found, exception is thrown. -/
def find_match (tokens : List String) (begin end_ : Nat) : Except Err Nat := do
  let b ← deref tokens begin
  if b ≠ "(" then pure (begin + 1)
  else
    let (it, paren) ← find_match_loop tokens end_ (tokens.length + 1) (begin + 1) 1
    if paren ≠ 0 then throw_error "parser: could not match `(` during immediate parsing "
    else pure it

/-- The `while (*it != ")")` loop of `split_level`: scan for beginnings of elements. -/
def split_level_scan (tokens : List String) (end_ : Nat) :
    Nat → Nat → List Nat → Except Err (List Nat)
  | 0, _, _ => .error .out_of_fuel
  | rounds + 1, it, indices => do
      let t ← deref tokens it
      if t = ")" then pure indices
      else
        let indices := indices ++ [it]
        if t = "(" then
          let m ← find_match tokens it end_
          split_level_scan tokens end_ rounds (m + 1) indices
        else split_level_scan tokens end_ rounds (it + 1) indices

/-- Get iterators to each element of sequence, at a given level of the tree.  Each adjacent
pair denotes an element's begin and end iterators. -/
def split_level (tokens : List String) (begin end_ : Nat) : Except Err (List Nat) := do
  let b ← deref tokens begin
  if b ≠ "(" then throw_error "parser: could not parse s-expression"
  else
    let last ← prev end_
    let e ← deref tokens last
    if e ≠ ")" then throw_error "parser: could not parse s-expression"
    else
      let indices ←
        if begin + 1 ≠ last then split_level_scan tokens end_ (tokens.length + 1) (begin + 1) []
        else pure []
      -- One-past-the-end of last element (if any)
      pure (indices ++ [last])

def is_bool (s : String) : Bool := s = "#t" || s = "#f"

/-- The three ways a call of `std::stoi` ends. -/
inductive stoi_result where
  | value (v : Int)
  | invalid_argument
  | out_of_range
  deriving Repr, DecidableEq

/-- Function `std::stoi(s)` (base 10): leading white space is skipped, an optional sign and the
longest run of digits are read and the rest of the string is ignored. -/
def stoi (s : String) : stoi_result :=
  let cs := s.data.dropWhile isspace
  let signed : Bool × List Char :=
    match cs with
    | c :: r => if c = '-' then (true, r) else if c = '+' then (false, r) else (false, cs)
    | [] => (false, cs)
  let digits := signed.2.takeWhile Char.isDigit
  if digits = [] then .invalid_argument
  else
    let n : Int := digits.foldl (fun a d => 10 * a + ((d.toNat : Int) - 48)) 0
    let v : Int := if signed.1 then -n else n
    if v < INT_MIN ∨ INT_MAX < v then .out_of_range else .value v

def is_int (s : String) : Bool :=
  -- Not ideal, but ensures the parsing is consistent.
  match stoi s with
  | .value _ => true
  | .invalid_argument => false
  | .out_of_range => true

def is_identifier (s : String) : Bool := !is_bool s && !is_int s

/-- Nest vector elements into a lisp list. -/
def construct_list : List ASTNode → ASTNode
  | [] => UnitNode
  | elem :: lst => PairNode elem (construct_list lst)

/-- The loops `for (; r_ind < level.size(); ++l_ind, ++r_ind)` that parse every range
`[level[l_ind], level[r_ind])`; `level` is the part of the vector from the first `l_ind` on. -/
def parse_ranges (parse : Nat → Nat → Except Err ASTNode) : List Nat → Except Err (List ASTNode)
  | l :: r :: rest => do
      let node ← parse l r
      let nodes ← parse_ranges parse (r :: rest)
      pure (node :: nodes)
  | _ => pure []

/-- The loops over an argument list (`define` and `lambda`): nesting and non-identifiers are
disallowed. -/
def parse_arg_list (tokens : List String) : List Nat → Except Err (List String)
  | l :: r :: rest => do
      if (r : Int) - (l : Int) ≠ 1 then throw_error "lambda: illegal argument list"
      else
        let t ← deref tokens l
        if !is_identifier t then throw_error "lambda: illegal argument list"
        else
          let args ← parse_arg_list tokens (r :: rest)
          pure (t :: args)
  | _ => pure []

/-- The loop over the clauses of `cond`. -/
def parse_cond_list (tokens : List String) (parse : Nat → Nat → Except Err ASTNode) :
    List Nat → Except Err (List ASTNode × List ASTNode)
  | l :: r :: rest => do
      let pair ← split_level tokens l r
      if pair.length ≠ 3 then throw_error "cond: illegal condition list"
      else
        let p0 ← index pair 0
        let p1 ← index pair 1
        let p2 ← index pair 2
        let pred ← parse p0 p1
        let seq ← parse p1 p2
        let (preds, seqs) ← parse_cond_list tokens parse (r :: rest)
        pure (pred :: preds, seq :: seqs)
  | _ => pure ([], [])

/-- The loop over the binding list of `let` / `let*`. -/
def parse_bindings (tokens : List String) (parse : Nat → Nat → Except Err ASTNode) :
    List Nat → Except Err (List (String × ASTNode))
  | l :: r :: rest => do
      let pair ← split_level tokens l r
      if pair.length ≠ 3 then throw_error "let: illegal binding list"
      else
        let t ← deref tokens l
        if !is_identifier t then throw_error "let: illegal binding list"
        else
          let p0 ← index pair 0
          let p1 ← index pair 1
          let p2 ← index pair 2
          let name ← deref tokens p0
          let node ← parse p1 p2
          let bindings ← parse_bindings tokens parse (r :: rest)
          pure ((name, node) :: bindings)
  | _ => pure []

/-- The body of `parse_immediate`, main element of parser: parses the range `[begin, end_)` of
the token list into a node.  The recursive calls of `parse_immediate` are the calls of `parse`.
The `LambdaNode` object created for the form that starts at `begin` gets the identity
`base + begin`. -/
def parse_immediate_body (base : Nat) (tokens : List String)
    (parse : Nat → Nat → Except Err ASTNode) (begin end_ : Nat) : Except Err ASTNode :=
    if begin = end_ then throw_error "parser: nothing to parse"
    else do
      let b ← deref tokens begin
      if b = "(" then
        -- s-expression
        let last ← prev end_
        let e ← deref tokens last
        if e ≠ ")" then throw_error "parser: encountered malformed s-expression"
        -- Unit
        else if begin + 1 = last then pure UnitNode
        else
          -- Split into individual elements
          let level ← split_level tokens begin end_
          -- Note that a size of 1 represents 0 complete elements.
          if level.length ≤ 1 then throw_error "parser: failed to split s-expression"
          else
            let l0 ← index level 0
            let head ← deref tokens l0
            -- Cons
            if head = "cons" then
              if level.length ≠ 4 then throw_error "cons: illegal syntax"
              else
                let l1 ← index level 1
                let l2 ← index level 2
                let l3 ← index level 3
                -- the two parses are arguments of one call: the last one runs first
                let second ← parse l2 l3
                let first ← parse l1 l2
                pure (PairNode first second)
            -- List
            else if head = "list" then
              let nodes ← parse_ranges parse (level.drop 1)
              pure (construct_list nodes)
            -- If
            else if head = "if" then
              if level.length ≠ 5 then throw_error "if: illegal syntax"
              else
                let l1 ← index level 1
                let l2 ← index level 2
                let l3 ← index level 3
                let l4 ← index level 4
                -- Re-use CondNode for ifs as well.
                -- the two lists are arguments of one call: the last one, the bodies, is
                -- built first; inside the braces of a list the order is left to right
                let t ← parse l2 l3
                let f ← parse l3 l4
                let p ← parse l1 l2
                pure (CondNode [p, BoolNode true] [t, f])
            -- Cond
            else if head = "cond" then
              let (pred, seq) ← parse_cond_list tokens parse (level.drop 1)
              pure (CondNode pred seq)
            -- Define
            else if head = "define" then
              if level.length ≠ 4 then throw_error "define: illegal syntax"
              else
                let l1 ← index level 1
                let l2 ← index level 2
                let l3 ← index level 3
                let t1 ← deref tokens l1
                -- Special function definition syntax
                if t1 = "(" then
                  let arg_iter ← split_level tokens l1 l2
                  if arg_iter.length < 2 then throw_error "lambda: illegal argument list"
                  else
                    let arg_list ← parse_arg_list tokens (arg_iter.drop 1)
                    -- Materialize
                    let a0 ← index arg_iter 0
                    let name ← deref tokens a0
                    let body ← parse l2 l3
                    pure (BindNode name (LambdaNode (base + begin) arg_list body name))
                -- Binding a regular variable identifier
                else
                  if !is_identifier t1 then throw_error "define: illegal syntax"
                  else
                    let value ← parse l2 l3
                    pure (BindNode t1 value)
            -- Let[*]
            else if head = "let" ∨ head = "let*" then
              if level.length < 4 then throw_error "let: illegal syntax"
              else
                let l1 ← index level 1
                let l2 ← index level 2
                -- Extract the bindings
                let pair_iter ← split_level tokens l1 l2
                let bindings ← parse_bindings tokens parse pair_iter
                -- Extract the expression sequence
                let nodes ← parse_ranges parse (level.drop 2)
                -- Materialize
                pure (LetNode bindings (SeqNode nodes) (head = "let*"))
            -- Lambda
            else if head = "lambda" then
              if level.length ≠ 4 then throw_error "lambda: illegal syntax"
              else
                let l1 ← index level 1
                let l2 ← index level 2
                let l3 ← index level 3
                -- Parse argument list
                let arg_iter ← split_level tokens l1 l2
                let arg_list ← parse_arg_list tokens arg_iter
                let body ← parse l2 l3
                pure (LambdaNode (base + begin) arg_list body "")
            -- Procedure Call / Sequence / And / Or
            else
              let skip := if head = "begin" ∨ head = "and" ∨ head = "or" then 1 else 0
              let nodes ← parse_ranges parse (level.drop skip)
              if head = "begin" then pure (SeqNode nodes)
              else if head = "and" then pure (AndNode nodes)
              else if head = "or" then pure (OrNode nodes)
              else pure (ProcNode nodes)
      else
        -- literal or identifier
        if (end_ : Int) - (begin : Int) ≠ 1 then throw_error "parser: invalid s-expression"
        -- bool
        else if b = "#t" then pure (BoolNode true)
        else if b = "#f" then pure (BoolNode false)
        else
          -- integer
          match stoi b with
          | .value v => pure (IntNode v)
          | .out_of_range => throw_error "parser: integer too large"
          -- identifier
          | .invalid_argument => pure (VarNode b)

/-- Function `parse_immediate(begin, end)`, with a bound `fuel` on the nesting of its calls. -/
def parse_immediate (base : Nat) (tokens : List String) : Nat → Nat → Nat → Except Err ASTNode
  | 0, _, _ => .error .out_of_fuel
  | fuel + 1, begin, end_ =>
      parse_immediate_body base tokens (parse_immediate base tokens fuel) begin end_

/-- Method `Parser::parse(src, dst)`; `dst` is the member `sequence_` of the `SeqNode`. -/
def Parser.parse (base fuel : Nat) (p : Parser) (src : List Char) (dst : List ASTNode) :
    Except Err status × Parser × List ASTNode :=
  match p.tokenize src with
  | (result, p1) =>
      if result = status.incomplete ∧ !p1.multiline_ then
        (throw_error "parser: input does not form a valid expression", p1, dst)
      else if result ≠ status.success then (.ok result, p1, dst)
      else if p1.tokens_ = [] then (.ok status.success, p1, dst)
      else
        match parse_immediate base p1.tokens_ fuel 0 p1.tokens_.length with
        | .ok node => (.ok status.success, p1, node :: dst)
        | .error e => (.error e, p1, dst)

/-! ## Driver (`main.cpp`) -/

/-- The message the `catch` clauses of `main` print after `error: `.  The two stops of the model
have no counterpart in the program. -/
def Err.message : Err → Option String
  | .thrown msg => some msg
  | .thrown_cstr msg => some msg
  | .undefined _ => none
  | .out_of_fuel => none

/-- The environment constructed by `main`: empty local frame, empty top-level. -/
def Env.initial : Env := { bindings_ := [] }

/-- The state at the start of `main`: nothing defined, no lambda evaluated, nothing written. -/
def World.initial : World := { toplvl := [], env_ := [], out := "" }

/-- The batch branch of `main` on the contents `file` of the file (or of standard input): the
text is wrapped in `(begin ` and `)`, parsed by a `Parser(false)` into the `SeqNode program`,
which is evaluated; the value is printed unless it is a `NullNode`, and an exception is printed
after `error: `.  The result is everything written to `std::cout`, or `none` when the model
stops. -/
def main_batch (fuel : Nat) (file : String) : Option String :=
  let ss := "(begin " ++ file ++ ")"
  match Parser.parse 0 fuel (Parser.new false) ss.data [] with
  | (.error e, _, _) => (Err.message e).map (fun msg => "error: " ++ msg ++ "\n")
  | (.ok result, _, program) =>
      let reported :=
        if result = status.failure then
          report_error "tokenizer: unable to match `)` to any previous `(`"
        else ""
      match eval fuel (SeqNode program) Env.initial { World.initial with out := reported } with
      | (.ok value, _, w) =>
          some (if !is_null value then w.out ++ to_string value ++ "\n" else w.out)
      | (.error e, _, w) => (Err.message e).map (fun msg => w.out ++ "error: " ++ msg ++ "\n")

/-! ## Notions used in the statements -/

/-- An evaluator that hands back the `Env` it was given. -/
def EnvPreserving (ev : Evaluator) : Prop := ∀ x env w, (ev x env w).2.1 = env

/-- The items of a list written one after the other with a single blank between neighbours. -/
def spaced : List String → String
  | [] => ""
  | [x] => x
  | x :: y :: rest => x ++ " " ++ spaced (y :: rest)

/-- The nodes `eval` can return: integers, booleans, Unit, quiet values, built-ins, lambdas, and
pairs of such nodes. -/
def is_value : ASTNode → Bool
  | IntNode _ => true
  | BoolNode _ => true
  | UnitNode => true
  | NullNode _ => true
  | BuiltinNode _ => true
  | LambdaNode _ _ _ _ => true
  | PairNode first_ second_ => is_value first_ && is_value second_
  | _ => false

/-- The values without state and without a quiet part: integers, booleans, Unit, built-ins, and
pairs of such values. -/
def is_plain : ASTNode → Bool
  | IntNode _ => true
  | BoolNode _ => true
  | UnitNode => true
  | BuiltinNode _ => true
  | PairNode first_ second_ => is_plain first_ && is_plain second_
  | _ => false

/-- How deep pairs are nested in a node. -/
def pair_depth : ASTNode → Nat
  | PairNode first_ second_ => Nat.max (pair_depth first_) (pair_depth second_) + 1
  | _ => 0

/-- A quiet value, or a pair with a quiet value somewhere inside. -/
def has_quiet : ASTNode → Bool
  | NullNode _ => true
  | PairNode first_ second_ => has_quiet first_ || has_quiet second_
  | _ => false

/-! ### Programs used in the statements -/

/-- The closure object the parser creates for
`(define (f n) (if (= n 0) 1 (* n (f (- n 1)))))` when the form starts at token 0. -/
def fact_closure : ASTNode :=
  LambdaNode 0 ["n"]
    (CondNode
      [ProcNode [VarNode "=", VarNode "n", IntNode 0], BoolNode true]
      [IntNode 1,
        ProcNode [VarNode "*", VarNode "n",
          ProcNode [VarNode "f", ProcNode [VarNode "-", VarNode "n", IntNode 1]]]])
    "f"

/-- The state after that definition has been evaluated in the initial state. -/
def fact_world : World :=
  { toplvl := [("f", fact_closure)], env_ := [(0, Env.initial)], out := "" }

/-- The closure object the parser creates for the inner `(lambda (x) (+ x n))` of
`(begin (define (make-adder n) (lambda (x) (+ x n))) ...)`; the form starts at token 8. -/
def adder_closure : ASTNode :=
  LambdaNode 8 ["x"] (ProcNode [VarNode "+", VarNode "x", VarNode "n"]) ""

/-- The closure object for `make-adder` itself; its form starts at token 2. -/
def make_adder_closure : ASTNode := LambdaNode 2 ["n"] adder_closure "make-adder"

/-- The state after `(define (make-adder n) (lambda (x) (+ x n)))` and
`(define add5 (make-adder 5))` have been evaluated in the initial state: `add5` is bound to the
inner closure object, whose `env_` holds the frame of the call `(make-adder 5)`. -/
def adder_world : World :=
  { toplvl := [("make-adder", make_adder_closure), ("add5", adder_closure)],
    env_ := [(2, Env.initial),
      (8, { bindings_ := [("n", IntNode 5), ("make-adder", make_adder_closure)] })],
    out := "" }

/-- One round of the read-eval-print loop of `main` that gets a single line, without the
printing of the result.  The parser is reset; the line is appended to the stream `ss` of the
loop (`ss.clear(); ss << line`), which still holds the characters that the rounds before have
left unread; the stream is parsed into the `SeqNode program`, and the program is evaluated.
The nodes of a round are created by its own call of `parse_immediate`, so the `LambdaNode`
objects of different rounds are different objects: `base` is the first identity that is free
when the round starts, and the round uses the identities `base + k` for the positions `k` of
its token buffer.  The first component of the result is `none` when the tokenizer reports
`incomplete`: the loop then waits for another line.  The second component is what the round
leaves unread in `ss`. -/
def read_eval (base fuel : Nat) (ss : List Char) (line : String) (env : Env) (w : World) :
    Option Outcome × List Char :=
  let unread := tokenize_unread (ss ++ line.data) 0 false
  match Parser.parse base fuel (Parser.new true).reset (ss ++ line.data) [] with
  | (.error e, _, _) => (some (.error e, env, w), unread)
  | (.ok status.incomplete, _, _) => (none, unread)
  | (.ok status.failure, _, program) =>
      (some (eval fuel (SeqNode program) env
        { w with out := w.out ++ report_error "tokenizer: unable to match `)` to any previous `(`" }),
        unread)
  | (.ok status.success, _, program) => (some (eval fuel (SeqNode program) env w), unread)

/-- The first identity that is free after a round of the loop on the stream `src`, when `base`
was the first one free before it: the round has used identities below `base` plus the length of
its token buffer. -/
def next_base (base : Nat) (src : List Char) : Nat :=
  base + ((Parser.new true).reset.tokenize src).2.tokens_.length

/-- The characters the tokenizer collects into a token: not a comment sign, not a parenthesis,
not white space and not the byte 255. -/
def token_char (c : Char) : Bool :=
  c ≠ ';' && c ≠ '(' && c ≠ ')' && !isspace c && !is_EOF c

/-- The evaluator `ev2` agrees with `ev` wherever `ev` does not run out of fuel. -/
def Extends (ev ev2 : Evaluator) : Prop :=
  ∀ x env w, (ev x env w).1 ≠ .error .out_of_fuel → ev2 x env w = ev x env w

/-- The parser `parse2` agrees with `parse` wherever `parse` does not run out of fuel. -/
def ParseExtends (parse parse2 : Nat → Nat → Except Err ASTNode) : Prop :=
  ∀ l r, parse l r ≠ .error .out_of_fuel → parse2 l r = parse l r

/-- A proper list in the words of the specification: Unit, or a pair whose second component is
a proper list. -/
inductive ProperList : ASTNode → Prop where
  | unit : ProperList UnitNode
  | pair (first_ second_ : ASTNode) : ProperList second_ → ProperList (PairNode first_ second_)

/-- The nodes of a list are evaluated one after the other, each of them once, from first to
last: `ev` run on the first node in the state `w` gives the first value, run on the second node
in the state the first evaluation left gives the second value, and so on; the last state is the
state after the last evaluation. -/
inductive evaluated_in_order (ev : Evaluator) (env : Env) :
    List ASTNode → World → List ASTNode → World → Prop where
  | nil (w : World) : evaluated_in_order ev env [] w [] w
  | cons (e : ASTNode) (es : List ASTNode) (v : ASTNode) (vs : List ASTNode) (w w1 w2 : World) :
      ev e env w = (.ok v, env, w1) → evaluated_in_order ev env es w1 vs w2 →
      evaluated_in_order ev env (e :: es) w (v :: vs) w2

/-- The nodes of a list are evaluated one after the other, each of them once, from last to
first: `ev` run on the last node in the state `w` gives the last value, run on the node before
it in the state that evaluation left gives the value before the last, and so on; the last state
is the state after the evaluation of the first node. -/
inductive evaluated_last_to_first (ev : Evaluator) (env : Env) :
    List ASTNode → World → List ASTNode → World → Prop where
  | nil (w : World) : evaluated_last_to_first ev env [] w [] w
  | cons (e : ASTNode) (es : List ASTNode) (v : ASTNode) (vs : List ASTNode) (w w1 w2 : World) :
      evaluated_last_to_first ev env es w vs w1 → ev e env w1 = (.ok v, env, w2) →
      evaluated_last_to_first ev env (e :: es) w (v :: vs) w2

/-- The characters of a text that are outside comments.  A comment runs from a `;` through the
next newline, or to the end of the text; `in_comment` says that the text starts inside one. -/
def outside_comments : List Char → Bool → List Char
  | [], _ => []
  | c :: cs, true => outside_comments cs (c ≠ '\n')
  | c :: cs, false => if c = ';' then outside_comments cs true else c :: outside_comments cs false

/-- Some `)` of the text stands at a point where, counted from the depth `depth`, as many `)` as
`(` have gone before: a `)` at depth zero. -/
def closes_at_depth_zero : List Char → Nat → Bool
  | [], _ => false
  | c :: cs, depth =>
      if c = '(' then closes_at_depth_zero cs (depth + 1)
      else if c = ')' then (if depth = 0 then true else closes_at_depth_zero cs (depth - 1))
      else closes_at_depth_zero cs depth

mutual
/-- No `define` occurs in the node: no `BindNode` at any depth, the bodies of lambda expressions
and closures included. -/
def no_define : ASTNode → Bool
  | BindNode _ _ => false
  | SeqNode sequence_ => no_define_each sequence_
  | LetNode bindings_ body_ _ => no_define_bindings bindings_ && no_define body_
  | ProcNode nodes_ => no_define_each nodes_
  | LambdaNode _ _ body_ _ => no_define body_
  | PairNode first_ second_ => no_define first_ && no_define second_
  | CondNode predicate_seq_ node_seq_ => no_define_each predicate_seq_ && no_define_each node_seq_
  | AndNode nodes_ => no_define_each nodes_
  | OrNode nodes_ => no_define_each nodes_
  | _ => true
/-- No `define` occurs in any node of the list. -/
def no_define_each : List ASTNode → Bool
  | [] => true
  | node :: nodes => no_define node && no_define_each nodes
/-- No `define` occurs in any expression of the binding list. -/
def no_define_bindings : List (String × ASTNode) → Bool
  | [] => true
  | binding :: bindings => no_define binding.2 && no_define_bindings bindings
end

/-- No `define` occurs in any node bound in the frame. -/
def frame_no_define (frame : Frame) : Bool := frame.all fun kv => no_define kv.2

/-- No `define` occurs in any node the state holds: the nodes bound at top level and the nodes
bound in the captured environments of the closures. -/
def world_no_define (w : World) : Bool :=
  frame_no_define w.toplvl && w.env_.all fun ie => frame_no_define ie.2.bindings_

/-- An evaluator that, run on a node without `define` in a frame and a state without `define`,
leaves the frame and the top-level as they were, keeps the state without `define`, and returns
a value without `define`. -/
def DefineFree (ev : Evaluator) : Prop :=
  ∀ x env w, no_define x = true → frame_no_define env.bindings_ = true →
    world_no_define w = true →
    (ev x env w).2.1 = env ∧ (ev x env w).2.2.toplvl = w.toplvl ∧
      world_no_define (ev x env w).2.2 = true ∧ ∀ v, (ev x env w).1 = .ok v → no_define v = true

/-- The message of `LambdaNode::call` for a closure with `expected` parameters called on
`actual` arguments. -/
def arity_message (expected actual : Nat) : String :=
  "runtime: lambda function requires " ++ toString expected ++ " args; called with "
    ++ toString actual

/-- The exception is a `std::string` that starts like the message of the arity check of
`LambdaNode::call`. -/
def is_arity_error : Err → Bool
  | .thrown msg => "runtime: lambda function requires ".data.isPrefixOf msg.data
  | _ => false

/-- The places an exception of the evaluator comes from: the two stops of the model and the
undefined behaviour, `NullNode::eval`, `Env::find`, the `call` of the base class, the arity
check of `LambdaNode::call` (which fails only when the numbers differ), and the built-ins. -/
inductive thrown_by_eval : Err → Prop where
  | out_of_fuel : thrown_by_eval .out_of_fuel
  | undefined (what : String) : thrown_by_eval (.undefined what)
  | quiet : thrown_by_eval (.thrown_cstr "runtime: cannot evaluate empty return type")
  | unbound (name : String) : thrown_by_eval (.thrown ("unbound variable: " ++ name))
  | non_callable : thrown_by_eval (.thrown "non-callable type cannot be called")
  | arity_check (expected actual : Nat) : actual ≠ expected →
      thrown_by_eval (.thrown (arity_message expected actual))
  | builtin (name : String) (fxn_ : builtin_fxn) (args : List ASTNode) (out : String) (e : Err) :
      Builtins.functions.find name = some fxn_ → (fxn_ args out).1 = .error e →
      thrown_by_eval e

/-- A relation between the state before and the state after that holds across every single
change the evaluator makes: it is reflexive and transitive, and it holds across a write to the
top-level, across the capture of an environment by a closure, and across the output of a
built-in. -/
def WorldRelation (R : World → World → Prop) : Prop :=
  (∀ w, R w w) ∧ (∀ a b c, R a b → R b c → R a c) ∧
  (∀ (w : World) name v, R w { w with toplvl := w.toplvl.insert_or_assign name v }) ∧
  (∀ (w : World) id (env : Env), R w { w with env_ := w.env_.insert_or_assign id env }) ∧
  (∀ (w : World) name (fxn_ : builtin_fxn) args, Builtins.functions.find name = some fxn_ →
    R w { w with out := (fxn_ args w.out).2 })

/-- The evaluator `ev` takes every state to a state related to it. -/
def Respects (R : World → World → Prop) (ev : Evaluator) : Prop :=
  ∀ x env w, R w (ev x env w).2.2

/-- The state `w2` has the output of `w` followed by `written`. -/
def has_written (w w2 : World) (written : String) : Prop := w2.out = w.out ++ written

/-- The value fits in the C++ type `int`. -/
def fits_int (x : Int) : Bool := INT_MIN ≤ x && x ≤ INT_MAX

/-- The intermediate results of the left fold of `op` over `as` that starts from `acc`, the
final result included. -/
def partial_results (op : Int → Int → Int) : Int → List Int → List Int
  | _, [] => []
  | acc, a :: as => op acc a :: partial_results op (op acc a) as

/-- No step of the left fold of `/` over `bs` that starts from `a` is the quotient of `INT_MIN`
by `-1`. -/
def quotients_defined : Int → List Int → Bool
  | _, [] => true
  | a, b :: bs => !quotient_overflows a b && quotients_defined (wrap32 (Int.tdiv a b)) bs

/-- Every two neighbours of the list are in the relation `R`: `as[i]` and `as[i + 1]` for every
position `i` that has a successor. -/
def adjacent_pairs_hold (R : Int → Int → Prop) (as : List Int) : Prop :=
  ∀ (i : Nat) (h : i + 1 < as.length), R (as.get ⟨i, Nat.lt_of_succ_lt h⟩) (as.get ⟨i + 1, h⟩)

/-- The precondition of each built-in in the words of the specification: how many arguments it
takes and of which kind they must be. -/
def precondition (name : String) (args : List ASTNode) : Bool :=
  if name ∈ ["+", "*", "=", "<", ">", "<=", ">="] then args.all is_numeric
  else if name ∈ ["-", "/", "max", "min"] then decide (1 ≤ args.length) && args.all is_numeric
  else if name ∈ ["abs", "zero?"] then decide (args.length = 1) && args.all is_numeric
  else if name ∈ ["expt", "modulo"] then decide (args.length = 2) && args.all is_numeric
  else if name ∈ ["car", "cdr"] then decide (args.length = 1) && args.all is_pair
  else if name = "length" then decide (args.length = 1) && args.all is_list
  else if name = "append" then decide (args.length = 2) && args.all is_list
  else if name ∈ ["boolean?", "integer?", "pair?", "list?", "procedure?", "null?", "not",
      "display"] then
    decide (args.length = 1)
  else if name = "newline" then decide (args.length = 0)
  else true

/-- The text with every comment replaced by one newline: a comment runs from a `;` through the
next newline, or to the end of the text, and separates what stands before it from what stands
after it; `in_comment` says that the text starts inside a comment. -/
def without_comments : List Char → Bool → List Char
  | [], _ => []
  | c :: cs, true => without_comments cs (c ≠ '\n')
  | c :: cs, false =>
      if c = ';' then '\n' :: without_comments cs true else c :: without_comments cs false

/-- A run of characters that has come to its end: one token, unless it is empty. -/
def finished (run : List Char) : List (List Char) := if run = [] then [] else [run]

/-- The tokens of a text without comments, in order: each `(` and each `)` is a token of its
own, and each maximal run of other characters that are not white space is one token; `run` is
the run read so far. -/
def runs : List Char → List Char → List (List Char)
  | [], run => finished run
  | c :: cs, run =>
      if c = '(' ∨ c = ')' then finished run ++ [c] :: runs cs []
      else if isspace c then finished run ++ runs cs []
      else runs cs (run ++ [c])

/-- The reference tokenization of the specification: the comments deleted, the text cut into
parentheses and maximal runs, and every token converted to lower case. -/
def reference_tokens (src : List Char) : List String :=
  (runs (without_comments src false) []).map fun run => String.mk (run.map tolower)

/-- A token as the specification describes it: not empty, and either one of the tokens `(` and
`)` or free of white space, `;` and parentheses. -/
def clean_token (t : String) : Prop :=
  t ≠ "" ∧ (t = "(" ∨ t = ")" ∨
    ∀ c ∈ t.data, c ≠ '(' ∧ c ≠ ')' ∧ c ≠ ';' ∧ isspace c = false)

/-- The number a run of decimal digits denotes. -/
def decimal (ds : List Char) : Int := ds.foldl (fun a d => 10 * a + ((d.toNat : Int) - 48)) 0

/-- The token starts with a numeral: a decimal digit, or a sign `-` or `+` and a decimal
digit. -/
def starts_with_numeral (t : String) : Bool :=
  match t.data with
  | c :: d :: _ => if c = '-' ∨ c = '+' then d.isDigit else c.isDigit
  | [c] => c.isDigit
  | [] => false

/-- The integer a sign (nothing, `-` or `+`) and a run of decimal digits denote. -/
def numeral_value (sign ds : List Char) : Int := if sign = ['-'] then -decimal ds else decimal ds

/-- The text ends inside a comment: its last `;` outside a comment has no newline after it;
`in_comment` says that the text starts inside a comment. -/
def ends_in_comment : List Char → Bool → Bool
  | [], in_comment => in_comment
  | c :: cs, true => ends_in_comment cs (c ≠ '\n')
  | c :: cs, false => ends_in_comment cs (c = ';')

/-- Where the form that `ts` continues is closed: the position in `ts` of the first `)` that
has as many `(` as `)` before it, when `depth` forms inside the form are open at the start of
`ts`. -/
def close_pos : List String → Nat → Option Nat
  | [], _ => none
  | t :: ts, depth =>
      if t = "(" then (close_pos ts (depth + 1)).map (· + 1)
      else if t = ")" then
        (if depth = 0 then some 0 else (close_pos ts (depth - 1)).map (· + 1))
      else (close_pos ts depth).map (· + 1)

/-- The depth after the tokens `ts`, read from the depth `depth`; nothing when a `)` stands at
depth zero. -/
def depth_after : List String → Nat → Option Nat
  | [], depth => some depth
  | t :: ts, depth =>
      if t = "(" then depth_after ts (depth + 1)
      else if t = ")" then (if depth = 0 then none else depth_after ts (depth - 1))
      else depth_after ts depth

/-- The range `[begin, end_)` of the token list is not empty, lies inside the list and, when it
starts with `(`, holds the `)` that closes it. -/
def closed_start (tokens : List String) (begin end_ : Nat) : Prop :=
  begin < end_ ∧ end_ ≤ tokens.length ∧
    (tokens.get? begin = some "(" →
      ∃ k, close_pos (tokens.drop (begin + 1)) 0 = some k ∧ begin + 1 + k < end_)

/-- The token list `tokens2` has the tokens of `tokens` at the positions of the range
`[begin, end_)`; elsewhere it may differ, and it may end at `end_`. -/
def agree (tokens tokens2 : List String) (begin end_ : Nat) : Prop :=
  ∀ i, begin ≤ i → i < end_ → tokens2.get? i = tokens.get? i

/-- Every two neighbours `l`, `r` of the list of positions are in the relation `R`: the ranges
`[l, r)` the loops of the parser go over. -/
def each_range (R : Nat → Nat → Prop) : List Nat → Prop
  | l :: r :: rest => R l r ∧ each_range R (r :: rest)
  | _ => True

/-- The range `[l, r)` lies strictly after `begin` and before `end_` and holds the `)` of its
first `(`: the ranges a call of `parse_immediate` on `[begin, end_)` hands on. -/
def sub_range (tokens : List String) (begin end_ l r : Nat) : Prop :=
  closed_start tokens l r ∧ begin < l ∧ r < end_

/-- The call returns a value or throws a `std::string`: it neither stops the model (undefined
behaviour, fuel) nor throws anything else. -/
def recoverable {α : Type} (x : Except Err α) : Prop :=
  (∃ a, x = .ok a) ∨ (∃ msg, x = .error (.thrown msg))

/-- The call on the second token list returns what the call on the first returns, and that is a
value or a `std::string` thrown. -/
def same_recoverable {α : Type} (x x2 : Except Err α) : Prop := x2 = x ∧ recoverable x

/-! # Properties -/

/-! ## Maps -/

theorem unordered_map.find_insert_same {κ α : Type} [DecidableEq κ] (m : unordered_map κ α)
    (k : κ) (v : α) : (m.insert_or_assign k v).find k = some v := by
  induction m with
  | nil => simp [unordered_map.insert_or_assign, unordered_map.find]
  | cons hd tl ih =>
    obtain ⟨k', v'⟩ := hd
    by_cases h : k' = k
    · simp [unordered_map.insert_or_assign, unordered_map.find, h]
    · simp [unordered_map.insert_or_assign, unordered_map.find, h, ih]

theorem unordered_map.find_insert_other {κ α : Type} [DecidableEq κ] (m : unordered_map κ α)
    (k k2 : κ) (v : α) (hne : k2 ≠ k) : (m.insert_or_assign k v).find k2 = m.find k2 := by
  have hne2 : ¬ k = k2 := fun h => hne h.symm
  induction m with
  | nil => simp [unordered_map.insert_or_assign, unordered_map.find, hne2]
  | cons hd tl ih =>
    obtain ⟨k', v'⟩ := hd
    by_cases h : k' = k
    · subst h
      simp [unordered_map.insert_or_assign, unordered_map.find, hne2]
    · by_cases h4 : k' = k2
      · subst h4
        simp [unordered_map.insert_or_assign, unordered_map.find, h]
      · simp [unordered_map.insert_or_assign, unordered_map.find, h, h4, ih]

theorem unordered_map.find_insert_ne_none {κ α : Type} [DecidableEq κ] (m : unordered_map κ α)
    (k k2 : κ) (v : α) (h : k2 = k ∨ m.find k2 ≠ none) :
    (m.insert_or_assign k v).find k2 ≠ none := by
  by_cases e : k2 = k
  · subst e
    simp [unordered_map.find_insert_same]
  · rw [unordered_map.find_insert_other m k k2 v e]
    rcases h with h | h
    · exact absurd h e
    · exact h

/-! ## The `Env` passed to `eval` is never changed -/

theorem Env.insert_top_env (env : Env) (w : World) (name : String) (v : ASTNode) :
    (env.insert w name v true).1 = env := by
  simp [Env.insert]

theorem Env.insert_local_world (env : Env) (w : World) (name : String) (v : ASTNode) :
    (env.insert w name v false).2 = w := by
  simp [Env.insert]

theorem SeqNode_eval_env {ev : Evaluator} (hev : EnvPreserving ev) (seq : List ASTNode)
    (env : Env) (w : World) : (SeqNode_eval ev seq env w).2.1 = env := by
  induction seq generalizing env w with
  | nil => simp [SeqNode_eval]
  | cons it rest ih =>
    cases rest with
    | nil => simpa [SeqNode_eval] using hev it env w
    | cons y ys =>
      have h := hev it env w
      rcases hr : ev it env w with ⟨r, env1, w1⟩
      rw [hr] at h
      simp only at h
      subst h
      cases r with
      | error e => simp [SeqNode_eval, hr]
      | ok v => simpa [SeqNode_eval, hr] using ih env1 w1

theorem eval_args_env {ev : Evaluator} (hev : EnvPreserving ev) (nodes : List ASTNode)
    (env : Env) (w : World) : (eval_args ev nodes env w).2.1 = env := by
  induction nodes generalizing env w with
  | nil => simp [eval_args]
  | cons node rest ih =>
    have h := hev node env w
    rcases hr : ev node env w with ⟨r, env1, w1⟩
    rw [hr] at h
    simp only at h
    subst h
    cases r with
    | error e => simp [eval_args, hr]
    | ok v =>
      have h2 := ih env1 w1
      rcases hr2 : eval_args ev rest env1 w1 with ⟨r2, env2, w2⟩
      rw [hr2] at h2
      simp only at h2
      subst h2
      cases r2 <;> simp [eval_args, hr, hr2]

theorem LetNode_loop_env {ev : Evaluator} (hev : EnvPreserving ev) (star_ : Bool)
    (bs : List (String × ASTNode)) (current env : Env) (w : World) :
    (LetNode_loop ev star_ bs current env w).2.1 = env := by
  induction bs generalizing current env w with
  | nil => simp [LetNode_loop]
  | cons b rest ih =>
    cases star_ with
    | true =>
      rcases hr : ev b.2 current w with ⟨r, c1, w1⟩
      cases r with
      | error e => simp [LetNode_loop, hr]
      | ok v => simpa [LetNode_loop, hr] using ih _ env _
    | false =>
      have h := hev b.2 env w
      rcases hr : ev b.2 env w with ⟨r, env1, w1⟩
      rw [hr] at h
      simp only at h
      subst h
      cases r with
      | error e => simp [LetNode_loop, hr]
      | ok v => simpa [LetNode_loop, hr] using ih _ env1 _

theorem LetNode_eval_env {ev : Evaluator} (hev : EnvPreserving ev)
    (bs : List (String × ASTNode)) (body : ASTNode) (star_ : Bool) (env : Env) (w : World) :
    (LetNode_eval ev bs body star_ env w).2.1 = env := by
  have h := LetNode_loop_env hev star_ bs env env w
  rcases hr : LetNode_loop ev star_ bs env env w with ⟨r, env1, w1⟩
  rw [hr] at h
  simp only at h
  subst h
  cases r <;> simp [LetNode_eval, hr]

theorem ProcNode_eval_env {ev : Evaluator} (hev : EnvPreserving ev) (nodes : List ASTNode)
    (env : Env) (w : World) : (ProcNode_eval ev nodes env w).2.1 = env := by
  cases nodes with
  | nil => simp [ProcNode_eval]
  | cons head rest =>
    have h := hev head env w
    rcases hr : ev head env w with ⟨r, env1, w1⟩
    rw [hr] at h
    simp only at h
    subst h
    cases r with
    | error e => simp [ProcNode_eval, hr]
    | ok proc =>
      have h2 := eval_args_env hev rest env1 w1
      rcases hr2 : eval_args ev rest env1 w1 with ⟨r2, env2, w2⟩
      rw [hr2] at h2
      simp only at h2
      subst h2
      cases r2 <;> simp [ProcNode_eval, hr, hr2]

theorem PairNode_eval_env {ev : Evaluator} (hev : EnvPreserving ev) (first_ second_ : ASTNode)
    (env : Env) (w : World) : (PairNode_eval ev first_ second_ env w).2.1 = env := by
  have h := hev second_ env w
  rcases hr : ev second_ env w with ⟨r, env1, w1⟩
  rw [hr] at h
  simp only at h
  subst h
  cases r with
  | error e => simp [PairNode_eval, hr]
  | ok l =>
    have h2 := hev first_ env1 w1
    rcases hr2 : ev first_ env1 w1 with ⟨r2, env2, w2⟩
    rw [hr2] at h2
    simp only at h2
    subst h2
    cases r2 <;> simp [PairNode_eval, hr, hr2]

theorem CondNode_eval_env {ev : Evaluator} (hev : EnvPreserving ev) (ps ns : List ASTNode)
    (env : Env) (w : World) : (CondNode_eval ev ps ns env w).2.1 = env := by
  induction ps generalizing ns env w with
  | nil => simp [CondNode_eval]
  | cons l ls ih =>
    cases ns with
    | nil => simp [CondNode_eval]
    | cons r rs =>
      have h := hev l env w
      rcases hr : ev l env w with ⟨res, env1, w1⟩
      rw [hr] at h
      simp only at h
      subst h
      cases res with
      | error e => simp [CondNode_eval, hr]
      | ok v =>
        by_cases hb : get_boolean v = true
        · simpa [CondNode_eval, hr, hb] using hev r env1 w1
        · simpa [CondNode_eval, hr, hb] using ih rs env1 w1

theorem AndNode_loop_env {ev : Evaluator} (hev : EnvPreserving ev) (nodes : List ASTNode)
    (val : Option ASTNode) (env : Env) (w : World) :
    (AndNode_loop ev nodes val env w).2.1 = env := by
  induction nodes generalizing val env w with
  | nil => cases val <;> simp [AndNode_loop]
  | cons node rest ih =>
    have h := hev node env w
    rcases hr : ev node env w with ⟨res, env1, w1⟩
    rw [hr] at h
    simp only at h
    subst h
    cases res with
    | error e => simp [AndNode_loop, hr]
    | ok v =>
      by_cases hb : get_boolean v = true
      · simpa [AndNode_loop, hr, hb] using ih (some v) env1 w1
      · simp [AndNode_loop, hr, hb]

theorem OrNode_eval_env {ev : Evaluator} (hev : EnvPreserving ev) (nodes : List ASTNode)
    (env : Env) (w : World) : (OrNode_eval ev nodes env w).2.1 = env := by
  induction nodes generalizing env w with
  | nil => simp [OrNode_eval]
  | cons node rest ih =>
    have h := hev node env w
    rcases hr : ev node env w with ⟨res, env1, w1⟩
    rw [hr] at h
    simp only at h
    subst h
    cases res with
    | error e => simp [OrNode_eval, hr]
    | ok v =>
      by_cases hb : get_boolean v = true
      · simp [OrNode_eval, hr, hb]
      · simpa [OrNode_eval, hr, hb] using ih env1 w1

/-- No call of `eval` changes the `Env` it is given: the local frame of the caller is the same
after the call, whatever the node and whether or not an exception is thrown. -/
theorem eval_env (fuel : Nat) : EnvPreserving (eval fuel) := by
  induction fuel with
  | zero => intro x env w; simp [eval]
  | succ n ih =>
    intro x env w
    cases x with
    | IntNode v => simp [eval]
    | BoolNode v => simp [eval]
    | UnitNode => simp [eval]
    | NullNode m => simp [eval]
    | SeqNode s => simpa [eval] using SeqNode_eval_env ih s env w
    | VarNode name =>
      simp only [eval, VarNode_eval]
      cases env.find w name with
      | error e => simp
      | ok found => simpa using ih found env w
    | BindNode name value =>
      simp only [eval, BindNode_eval]
      have h := ih value env w
      rcases hr : eval n value env w with ⟨r, env1, w1⟩
      rw [hr] at h
      simp only at h
      subst h
      cases r <;> simp [Env.insert]
    | LetNode bs body star => simpa [eval] using LetNode_eval_env ih bs body star env w
    | ProcNode nodes => simpa [eval] using ProcNode_eval_env ih nodes env w
    | BuiltinNode name => simp [eval]
    | LambdaNode id al body name => simp [eval, LambdaNode_eval]
    | PairNode a b => simpa [eval] using PairNode_eval_env ih a b env w
    | CondNode ps ns => simpa [eval] using CondNode_eval_env ih ps ns env w
    | AndNode nodes =>
      simp only [eval, AndNode_eval]
      split
      · rfl
      · exact AndNode_loop_env ih nodes none env w
    | OrNode nodes => simpa [eval] using OrNode_eval_env ih nodes env w

/-! ## Lemmas about the loops of the evaluator -/

theorem get_boolean_eq_false_iff (v : ASTNode) : get_boolean v = false ↔ v = BoolNode false := by
  cases v <;> simp [get_boolean]

theorem get_boolean_eq_true_iff (v : ASTNode) : get_boolean v = true ↔ v ≠ BoolNode false := by
  cases v <;> simp [get_boolean]

/-- What `eval_args` returns on a non-empty list, in terms of its first element. -/
theorem eval_args_cons_ok {ev : Evaluator} {p : ASTNode} {ps vs : List ASTNode} {env env1 : Env}
    {w w1 : World} (h : eval_args ev (p :: ps) env w = (.ok vs, env1, w1)) :
    ∃ v vs1 env0 w0, ev p env w = (.ok v, env0, w0) ∧
      eval_args ev ps env0 w0 = (.ok vs1, env1, w1) ∧ vs = v :: vs1 := by
  simp only [eval_args] at h
  rcases hr : ev p env w with ⟨r, env0, w0⟩
  rw [hr] at h
  cases r with
  | error e => simp at h
  | ok v =>
    simp only at h
    rcases hr2 : eval_args ev ps env0 w0 with ⟨r2, env2, w2⟩
    rw [hr2] at h
    cases r2 with
    | error e => simp at h
    | ok vs1 =>
      simp only [Prod.mk.injEq, Except.ok.injEq] at h
      obtain ⟨h1, h2, h3⟩ := h
      subst h1 h2 h3
      exact ⟨v, vs1, env0, w0, rfl, hr2, rfl⟩

theorem eval_args_nil_ok {ev : Evaluator} {vs : List ASTNode} {env env1 : Env}
    {w w1 : World} (h : eval_args ev [] env w = (.ok vs, env1, w1)) :
    vs = [] ∧ env1 = env ∧ w1 = w := by
  simp only [eval_args, Prod.mk.injEq, Except.ok.injEq] at h
  obtain ⟨h1, h2, h3⟩ := h
  exact ⟨h1.symm, h2.symm, h3.symm⟩

theorem eval_args_length {ev : Evaluator} (nodes vs : List ASTNode) (env env1 : Env)
    (w w1 : World) (h : eval_args ev nodes env w = (.ok vs, env1, w1)) :
    vs.length = nodes.length := by
  induction nodes generalizing vs env w with
  | nil =>
    obtain ⟨h1, _, _⟩ := eval_args_nil_ok h
    simp [h1]
  | cons p ps ih =>
    obtain ⟨v, vs1, env0, w0, _, hps, hvs⟩ := eval_args_cons_ok h
    subst hvs
    simp [ih vs1 env0 w0 hps]

/-- Binding arguments does not touch the state outside the frame. -/
theorem bind_arguments_world (names : List String) (vs : List ASTNode) (current : Env)
    (w : World) : (bind_arguments names vs current w).2 = w := by
  induction names generalizing vs current w with
  | nil => cases vs <;> simp [bind_arguments]
  | cons l ls ih =>
    cases vs with
    | nil => simp [bind_arguments]
    | cons r rs => simpa [bind_arguments, Env.insert] using ih rs _ w

/-- The frame built by binding arguments does not depend on the rest of the state. -/
theorem bind_arguments_frame (names : List String) (vs : List ASTNode) (current : Env)
    (w w2 : World) : (bind_arguments names vs current w).1 = (bind_arguments names vs current w2).1 := by
  induction names generalizing vs current w with
  | nil => cases vs <;> simp [bind_arguments]
  | cons l ls ih =>
    cases vs with
    | nil => simp [bind_arguments]
    | cons r rs => simpa [bind_arguments, Env.insert] using ih rs _ w

/-- The names bound by `bind_arguments` are bound in the resulting frame, and what was bound
stays bound. -/
theorem bind_arguments_bound (names : List String) (vs : List ASTNode) (current : Env)
    (w : World) (hlen : names.length = vs.length) (n : String)
    (h : n ∈ names ∨ current.bindings_.find n ≠ none) :
    (bind_arguments names vs current w).1.bindings_.find n ≠ none := by
  induction names generalizing vs current w with
  | nil =>
    cases vs with
    | nil =>
      rcases h with h | h
      · simp at h
      · simpa [bind_arguments] using h
    | cons _ _ => simp at hlen
  | cons l ls ih =>
    cases vs with
    | nil => simp at hlen
    | cons r rs =>
      simp only [List.length_cons, Nat.add_right_cancel_iff] at hlen
      simp only [bind_arguments, Env.insert, Bool.false_eq_true, if_false]
      apply ih rs _ w hlen
      rcases h with h | h
      · rcases List.mem_cons.mp h with e | e
        · right
          exact unordered_map.find_insert_ne_none _ _ _ _ (Or.inl e)
        · left
          exact e
      · right
        exact unordered_map.find_insert_ne_none _ _ _ _ (Or.inr h)

/-! ## More fuel does not change a finished evaluation -/

theorem SeqNode_eval_extends {ev ev2 : Evaluator} (hext : Extends ev ev2) (seq : List ASTNode)
    (env : Env) (w : World) (h : (SeqNode_eval ev seq env w).1 ≠ .error .out_of_fuel) :
    SeqNode_eval ev2 seq env w = SeqNode_eval ev seq env w := by
  induction seq generalizing env w with
  | nil => simp [SeqNode_eval]
  | cons it rest ih =>
    cases rest with
    | nil =>
      simp only [SeqNode_eval] at h ⊢
      exact hext it env w h
    | cons y ys =>
      rcases hr : ev it env w with ⟨r, env1, w1⟩
      cases r with
      | error e =>
        simp only [SeqNode_eval, hr] at h ⊢
        have := hext it env w (by rw [hr]; simpa using h)
        simp [this, hr]
      | ok v =>
        simp only [SeqNode_eval, hr] at h ⊢
        have := hext it env w (by rw [hr]; simp)
        simp only [this, hr]
        exact ih env1 w1 h

theorem eval_args_extends {ev ev2 : Evaluator} (hext : Extends ev ev2) (nodes : List ASTNode)
    (env : Env) (w : World) (h : (eval_args ev nodes env w).1 ≠ .error .out_of_fuel) :
    eval_args ev2 nodes env w = eval_args ev nodes env w := by
  induction nodes generalizing env w with
  | nil => simp [eval_args]
  | cons node rest ih =>
    rcases hr : ev node env w with ⟨r, env1, w1⟩
    cases r with
    | error e =>
      simp only [eval_args, hr] at h ⊢
      have := hext node env w (by rw [hr]; simpa using h)
      simp [this, hr]
    | ok v =>
      have h1 := hext node env w (by rw [hr]; simp)
      simp only [eval_args, hr, h1] at h ⊢
      rcases hr2 : eval_args ev rest env1 w1 with ⟨r2, env2, w2⟩
      rw [hr2] at h
      have h2 := ih env1 w1 (by
        rw [hr2]
        cases r2 with
        | error e => simpa using h
        | ok vs => simp)
      rw [h2, hr2]

theorem LetNode_loop_extends {ev ev2 : Evaluator} (hext : Extends ev ev2) (star_ : Bool)
    (bs : List (String × ASTNode)) (current env : Env) (w : World)
    (h : (LetNode_loop ev star_ bs current env w).1 ≠ .error .out_of_fuel) :
    LetNode_loop ev2 star_ bs current env w = LetNode_loop ev star_ bs current env w := by
  induction bs generalizing current env w with
  | nil => simp [LetNode_loop]
  | cons b rest ih =>
    cases star_ with
    | true =>
      rcases hr : ev b.2 current w with ⟨r, c1, w1⟩
      cases r with
      | error e =>
        simp only [LetNode_loop, hr, if_true] at h ⊢
        have := hext b.2 current w (by rw [hr]; simpa using h)
        simp [this, hr]
      | ok v =>
        have h1 := hext b.2 current w (by rw [hr]; simp)
        simp only [LetNode_loop, hr, h1, if_true] at h ⊢
        exact ih _ _ _ h
    | false =>
      rcases hr : ev b.2 env w with ⟨r, e1, w1⟩
      cases r with
      | error e =>
        simp only [LetNode_loop, hr, Bool.false_eq_true, if_false] at h ⊢
        have := hext b.2 env w (by rw [hr]; simpa using h)
        simp [this, hr]
      | ok v =>
        have h1 := hext b.2 env w (by rw [hr]; simp)
        simp only [LetNode_loop, hr, h1, Bool.false_eq_true, if_false] at h ⊢
        exact ih _ _ _ h

theorem LetNode_eval_extends {ev ev2 : Evaluator} (hext : Extends ev ev2)
    (bs : List (String × ASTNode)) (body : ASTNode) (star_ : Bool) (env : Env) (w : World)
    (h : (LetNode_eval ev bs body star_ env w).1 ≠ .error .out_of_fuel) :
    LetNode_eval ev2 bs body star_ env w = LetNode_eval ev bs body star_ env w := by
  rcases hr : LetNode_loop ev star_ bs env env w with ⟨r, env1, w1⟩
  cases r with
  | error e =>
    simp only [LetNode_eval, hr] at h ⊢
    have := LetNode_loop_extends hext star_ bs env env w (by rw [hr]; simpa using h)
    simp [this, hr]
  | ok cur =>
    have h1 := LetNode_loop_extends hext star_ bs env env w (by rw [hr]; simp)
    simp only [LetNode_eval, hr, h1] at h ⊢
    have h2 := hext body cur w1 h
    rw [h2]

theorem LambdaNode_call_extends {ev ev2 : Evaluator} (hext : Extends ev ev2) (id : Nat)
    (arg_list_ : List String) (body_ : ASTNode) (name_ : String) (args : List ASTNode)
    (w : World)
    (h : (LambdaNode_call ev id arg_list_ body_ name_ args w).1 ≠ .error .out_of_fuel) :
    LambdaNode_call ev2 id arg_list_ body_ name_ args w
      = LambdaNode_call ev id arg_list_ body_ name_ args w := by
  unfold LambdaNode_call at h ⊢
  by_cases hlen : args.length ≠ arg_list_.length
  · simp [hlen]
  · simp only [hlen, if_false] at h ⊢
    cases hc : w.env_.find id with
    | none => simp
    | some captured =>
      simp only [hc] at h ⊢
      rw [hext _ _ _ h]

theorem call_extends {ev ev2 : Evaluator} (hext : Extends ev ev2) (proc : ASTNode)
    (args : List ASTNode) (w : World) (h : (call ev proc args w).1 ≠ .error .out_of_fuel) :
    call ev2 proc args w = call ev proc args w := by
  cases proc with
  | LambdaNode id al body name =>
    simp only [call] at h ⊢
    exact LambdaNode_call_extends hext id al body name args w h
  | _ => simp [call]

theorem ProcNode_eval_extends {ev ev2 : Evaluator} (hext : Extends ev ev2)
    (nodes : List ASTNode) (env : Env) (w : World)
    (h : (ProcNode_eval ev nodes env w).1 ≠ .error .out_of_fuel) :
    ProcNode_eval ev2 nodes env w = ProcNode_eval ev nodes env w := by
  cases nodes with
  | nil => simp [ProcNode_eval]
  | cons head rest =>
    rcases hr : ev head env w with ⟨r, env1, w1⟩
    cases r with
    | error e =>
      simp only [ProcNode_eval, hr] at h ⊢
      have := hext head env w (by rw [hr]; simpa using h)
      simp [this, hr]
    | ok proc =>
      have h1 := hext head env w (by rw [hr]; simp)
      simp only [ProcNode_eval, hr, h1] at h ⊢
      rcases hr2 : eval_args ev rest env1 w1 with ⟨r2, env2, w2⟩
      rw [hr2] at h
      cases r2 with
      | error e =>
        have := eval_args_extends hext rest env1 w1 (by rw [hr2]; simpa using h)
        simp [this, hr2]
      | ok vs =>
        have h2 := eval_args_extends hext rest env1 w1 (by rw [hr2]; simp)
        simp only [h2, hr2] at h ⊢
        rw [call_extends hext proc vs w2 h]

theorem PairNode_eval_extends {ev ev2 : Evaluator} (hext : Extends ev ev2)
    (first_ second_ : ASTNode) (env : Env) (w : World)
    (h : (PairNode_eval ev first_ second_ env w).1 ≠ .error .out_of_fuel) :
    PairNode_eval ev2 first_ second_ env w = PairNode_eval ev first_ second_ env w := by
  rcases hr : ev second_ env w with ⟨r, env1, w1⟩
  cases r with
  | error e =>
    simp only [PairNode_eval, hr] at h ⊢
    have := hext second_ env w (by rw [hr]; simpa using h)
    simp [this, hr]
  | ok l =>
    have h1 := hext second_ env w (by rw [hr]; simp)
    simp only [PairNode_eval, hr, h1] at h ⊢
    rcases hr2 : ev first_ env1 w1 with ⟨r2, env2, w2⟩
    rw [hr2] at h
    cases r2 with
    | error e =>
      have := hext first_ env1 w1 (by rw [hr2]; simpa using h)
      simp [this, hr2]
    | ok rv =>
      have := hext first_ env1 w1 (by rw [hr2]; simp)
      simp [this, hr2]

theorem CondNode_eval_extends {ev ev2 : Evaluator} (hext : Extends ev ev2)
    (ps ns : List ASTNode) (env : Env) (w : World)
    (h : (CondNode_eval ev ps ns env w).1 ≠ .error .out_of_fuel) :
    CondNode_eval ev2 ps ns env w = CondNode_eval ev ps ns env w := by
  induction ps generalizing ns env w with
  | nil => simp [CondNode_eval]
  | cons l ls ih =>
    cases ns with
    | nil => simp [CondNode_eval]
    | cons r rs =>
      rcases hr : ev l env w with ⟨res, env1, w1⟩
      cases res with
      | error e =>
        simp only [CondNode_eval, hr] at h ⊢
        have := hext l env w (by rw [hr]; simpa using h)
        simp [this, hr]
      | ok v =>
        have h1 := hext l env w (by rw [hr]; simp)
        simp only [CondNode_eval, hr, h1] at h ⊢
        by_cases hb : get_boolean v = true
        · simp only [hb, if_true] at h ⊢
          exact hext r env1 w1 h
        · simp only [hb, if_false] at h ⊢
          exact ih rs env1 w1 h

theorem AndNode_loop_extends {ev ev2 : Evaluator} (hext : Extends ev ev2)
    (nodes : List ASTNode) (val : Option ASTNode) (env : Env) (w : World)
    (h : (AndNode_loop ev nodes val env w).1 ≠ .error .out_of_fuel) :
    AndNode_loop ev2 nodes val env w = AndNode_loop ev nodes val env w := by
  induction nodes generalizing val env w with
  | nil => simp [AndNode_loop]
  | cons node rest ih =>
    rcases hr : ev node env w with ⟨res, env1, w1⟩
    cases res with
    | error e =>
      simp only [AndNode_loop, hr] at h ⊢
      have := hext node env w (by rw [hr]; simpa using h)
      simp [this, hr]
    | ok v =>
      have h1 := hext node env w (by rw [hr]; simp)
      simp only [AndNode_loop, hr, h1] at h ⊢
      by_cases hb : get_boolean v = true
      · simp only [hb, Bool.not_true, Bool.false_eq_true, if_false] at h ⊢
        exact ih (some v) env1 w1 h
      · simp [hb]

theorem OrNode_eval_extends {ev ev2 : Evaluator} (hext : Extends ev ev2)
    (nodes : List ASTNode) (env : Env) (w : World)
    (h : (OrNode_eval ev nodes env w).1 ≠ .error .out_of_fuel) :
    OrNode_eval ev2 nodes env w = OrNode_eval ev nodes env w := by
  induction nodes generalizing env w with
  | nil => simp [OrNode_eval]
  | cons node rest ih =>
    rcases hr : ev node env w with ⟨res, env1, w1⟩
    cases res with
    | error e =>
      simp only [OrNode_eval, hr] at h ⊢
      have := hext node env w (by rw [hr]; simpa using h)
      simp [this, hr]
    | ok v =>
      have h1 := hext node env w (by rw [hr]; simp)
      simp only [OrNode_eval, hr, h1] at h ⊢
      by_cases hb : get_boolean v = true
      · simp [hb]
      · simp only [hb, if_false] at h ⊢
        exact ih env1 w1 h

/-- One more unit of fuel does not change an evaluation that did not run out of fuel. -/
theorem eval_extends (fuel : Nat) : Extends (eval fuel) (eval (fuel + 1)) := by
  induction fuel with
  | zero => intro x env w h; simp [eval] at h
  | succ n ih =>
    intro x env w h
    cases x with
    | IntNode v => simp [eval]
    | BoolNode v => simp [eval]
    | UnitNode => simp [eval]
    | NullNode m => simp [eval]
    | BuiltinNode name => simp [eval]
    | LambdaNode id al body name => simp [eval]
    | SeqNode s =>
      rw [eval] at h
      rw [eval, eval]
      exact SeqNode_eval_extends ih s env w h
    | VarNode name =>
      rw [eval] at h
      rw [eval, eval]
      simp only [VarNode_eval] at h ⊢
      cases hf : env.find w name with
      | error e => simp
      | ok found =>
        simp only [hf] at h ⊢
        exact ih found env w h
    | BindNode name value =>
      rw [eval] at h
      rw [eval, eval]
      simp only [BindNode_eval] at h ⊢
      rcases hr : eval n value env w with ⟨r, env1, w1⟩
      rw [hr] at h
      cases r with
      | error e =>
        have := ih value env w (by rw [hr]; simpa using h)
        simp [this, hr]
      | ok v =>
        have := ih value env w (by rw [hr]; simp)
        simp [this, hr]
    | LetNode bs body star =>
      rw [eval] at h
      rw [eval, eval]
      exact LetNode_eval_extends ih bs body star env w h
    | ProcNode nodes =>
      rw [eval] at h
      rw [eval, eval]
      exact ProcNode_eval_extends ih nodes env w h
    | PairNode a b =>
      rw [eval] at h
      rw [eval, eval]
      exact PairNode_eval_extends ih a b env w h
    | CondNode ps ns =>
      rw [eval] at h
      rw [eval, eval]
      exact CondNode_eval_extends ih ps ns env w h
    | AndNode nodes =>
      rw [eval] at h
      rw [eval, eval]
      simp only [AndNode_eval] at h ⊢
      split
      · rfl
      · rename_i hlen
        simp only [hlen, if_false] at h
        exact AndNode_loop_extends ih nodes none env w h
    | OrNode nodes =>
      rw [eval] at h
      rw [eval, eval]
      exact OrNode_eval_extends ih nodes env w h

/-- An evaluation that did not run out of fuel has the same outcome with any larger fuel. -/
theorem eval_fuel_mono (fuel more : Nat) (x : ASTNode) (env : Env) (w : World)
    (h : (eval fuel x env w).1 ≠ .error .out_of_fuel) :
    eval (fuel + more) x env w = eval fuel x env w := by
  induction more with
  | zero => rfl
  | succ m ih =>
    have h2 : (eval (fuel + m) x env w).1 ≠ .error .out_of_fuel := by rw [ih]; exact h
    have := eval_extends (fuel + m) x env w h2
    rw [← ih, ← this]
    rfl

/-- An outcome reached with some fuel is the outcome with any larger fuel. -/
theorem eval_fuel_mono_of_eq (fuel more : Nat) (x : ASTNode) (env : Env) (w : World)
    (o : Outcome) (h : eval fuel x env w = o) (ho : o.1 ≠ .error .out_of_fuel) :
    eval (fuel + more) x env w = o := by
  rw [← h]
  exact eval_fuel_mono fuel more x env w (by rw [h]; exact ho)

/-! ## More fuel does not change a finished parse -/

theorem parse_ranges_extends {parse parse2 : Nat → Nat → Except Err ASTNode}
    (hext : ParseExtends parse parse2) (level : List Nat)
    (h : parse_ranges parse level ≠ .error .out_of_fuel) :
    parse_ranges parse2 level = parse_ranges parse level := by
  induction level with
  | nil => simp [parse_ranges]
  | cons l rest ih =>
    cases rest with
    | nil => simp [parse_ranges]
    | cons r rest2 =>
      simp only [parse_ranges, bind, Except.bind] at h ⊢
      cases hp : parse l r with
      | error e =>
        rw [hp] at h
        have := hext l r (by rw [hp]; simpa using h)
        simp [this, hp]
      | ok node =>
        have h1 := hext l r (by rw [hp]; simp)
        rw [hp] at h
        simp only [h1, hp] at h ⊢
        cases hq : parse_ranges parse (r :: rest2) with
        | error e =>
          rw [hq] at h
          have := ih (by rw [hq]; simpa using h)
          simp [this, hq]
        | ok nodes =>
          have := ih (by rw [hq]; simp)
          simp [this, hq]

/-- A step of a computation in `Except`: if the first part and the rest agree wherever the
original does not run out of fuel, so does the whole. -/
theorem bind_extends {α β : Type} (x x2 : Except Err α) (k k2 : α → Except Err β)
    (hx : x ≠ .error .out_of_fuel → x2 = x)
    (hk : ∀ v, k v ≠ .error .out_of_fuel → k2 v = k v)
    (h : (x >>= k) ≠ .error .out_of_fuel) : (x2 >>= k2) = (x >>= k) := by
  cases x with
  | error e =>
    have he : e ≠ .out_of_fuel := by
      intro he
      apply h
      simp [bind, Except.bind, he]
    have := hx (by simpa using he)
    simp [this, bind, Except.bind]
  | ok v =>
    have := hx (by simp)
    have hv : k v ≠ .error .out_of_fuel := by simpa [bind, Except.bind] using h
    simp [this, bind, Except.bind, hk v hv]

theorem parse_cond_list_extends {parse parse2 : Nat → Nat → Except Err ASTNode}
    (hext : ParseExtends parse parse2) (tokens : List String) (level : List Nat)
    (h : parse_cond_list tokens parse level ≠ .error .out_of_fuel) :
    parse_cond_list tokens parse2 level = parse_cond_list tokens parse level := by
  induction level with
  | nil => simp [parse_cond_list]
  | cons l rest ih =>
    cases rest with
    | nil => simp [parse_cond_list]
    | cons r rest2 =>
      simp only [parse_cond_list] at h ⊢
      refine bind_extends _ _ _ _ (fun _ => rfl) ?_ h
      intro pair h
      by_cases hlen : pair.length ≠ 3
      · simp [hlen]
      · simp only [hlen, if_false] at h ⊢
        refine bind_extends _ _ _ _ (fun _ => rfl) ?_ h
        intro p0 h
        refine bind_extends _ _ _ _ (fun _ => rfl) ?_ h
        intro p1 h
        refine bind_extends _ _ _ _ (fun _ => rfl) ?_ h
        intro p2 h
        refine bind_extends _ _ _ _ (hext _ _) ?_ h
        intro pred h
        refine bind_extends _ _ _ _ (hext _ _) ?_ h
        intro seq h
        refine bind_extends _ _ _ _ ih ?_ h
        intro rest3 _
        rfl

theorem parse_bindings_extends {parse parse2 : Nat → Nat → Except Err ASTNode}
    (hext : ParseExtends parse parse2) (tokens : List String) (level : List Nat)
    (h : parse_bindings tokens parse level ≠ .error .out_of_fuel) :
    parse_bindings tokens parse2 level = parse_bindings tokens parse level := by
  induction level with
  | nil => simp [parse_bindings]
  | cons l rest ih =>
    cases rest with
    | nil => simp [parse_bindings]
    | cons r rest2 =>
      simp only [parse_bindings] at h ⊢
      refine bind_extends _ _ _ _ (fun _ => rfl) ?_ h
      intro pair h
      by_cases hlen : pair.length ≠ 3
      · simp [hlen]
      · simp only [hlen, if_false] at h ⊢
        refine bind_extends _ _ _ _ (fun _ => rfl) ?_ h
        intro t h
        by_cases hid : (!is_identifier t) = true
        · simp [hid]
        · simp only [hid, if_false] at h ⊢
          refine bind_extends _ _ _ _ (fun _ => rfl) ?_ h
          intro p0 h
          refine bind_extends _ _ _ _ (fun _ => rfl) ?_ h
          intro p1 h
          refine bind_extends _ _ _ _ (fun _ => rfl) ?_ h
          intro p2 h
          refine bind_extends _ _ _ _ (fun _ => rfl) ?_ h
          intro name h
          refine bind_extends _ _ _ _ (hext _ _) ?_ h
          intro node h
          refine bind_extends _ _ _ _ ih ?_ h
          intro rest3 _
          rfl

/-- A branch in `Except`: if both alternatives agree wherever the original does not run out of
fuel, so does the conditional. -/
theorem ite_extends {β : Type} (c : Prop) [Decidable c] (a a2 b b2 : Except Err β)
    (ha : a ≠ .error .out_of_fuel → a2 = a) (hb : b ≠ .error .out_of_fuel → b2 = b)
    (h : (if c then a else b) ≠ .error .out_of_fuel) :
    (if c then a2 else b2) = (if c then a else b) := by
  by_cases hc : c
  · simp only [hc, if_true] at h ⊢
    exact ha h
  · simp only [hc, if_false] at h ⊢
    exact hb h

theorem parse_immediate_body_extends {parse parse2 : Nat → Nat → Except Err ASTNode}
    (hext : ParseExtends parse parse2) (base : Nat) (tokens : List String) (begin end_ : Nat)
    (h : parse_immediate_body base tokens parse begin end_ ≠ .error .out_of_fuel) :
    parse_immediate_body base tokens parse2 begin end_
      = parse_immediate_body base tokens parse begin end_ := by
  unfold parse_immediate_body at h ⊢
  refine ite_extends _ _ _ _ _ (fun _ => rfl) ?_ h
  refine bind_extends _ _ _ _ (fun _ => rfl) ?_
  intro b
  refine ite_extends _ _ _ _ _ ?_ (fun _ => rfl)
  refine bind_extends _ _ _ _ (fun _ => rfl) ?_
  intro last
  refine bind_extends _ _ _ _ (fun _ => rfl) ?_
  intro e
  refine ite_extends _ _ _ _ _ (fun _ => rfl) ?_
  refine ite_extends _ _ _ _ _ (fun _ => rfl) ?_
  refine bind_extends _ _ _ _ (fun _ => rfl) ?_
  intro level
  refine ite_extends _ _ _ _ _ (fun _ => rfl) ?_
  refine bind_extends _ _ _ _ (fun _ => rfl) ?_
  intro l0
  refine bind_extends _ _ _ _ (fun _ => rfl) ?_
  intro head
  -- cons
  refine ite_extends _ _ _ _ _ ?_ ?_
  · refine ite_extends _ _ _ _ _ (fun _ => rfl) ?_
    refine bind_extends _ _ _ _ (fun _ => rfl) ?_
    intro l1
    refine bind_extends _ _ _ _ (fun _ => rfl) ?_
    intro l2
    refine bind_extends _ _ _ _ (fun _ => rfl) ?_
    intro l3
    refine bind_extends _ _ _ _ (hext _ _) ?_
    intro first
    refine bind_extends _ _ _ _ (hext _ _) ?_
    intro second _
    rfl
  -- list
  refine ite_extends _ _ _ _ _ ?_ ?_
  · refine bind_extends _ _ _ _ (parse_ranges_extends hext _) ?_
    intro nodes _
    rfl
  -- if
  refine ite_extends _ _ _ _ _ ?_ ?_
  · refine ite_extends _ _ _ _ _ (fun _ => rfl) ?_
    refine bind_extends _ _ _ _ (fun _ => rfl) ?_
    intro l1
    refine bind_extends _ _ _ _ (fun _ => rfl) ?_
    intro l2
    refine bind_extends _ _ _ _ (fun _ => rfl) ?_
    intro l3
    refine bind_extends _ _ _ _ (fun _ => rfl) ?_
    intro l4
    refine bind_extends _ _ _ _ (hext _ _) ?_
    intro p
    refine bind_extends _ _ _ _ (hext _ _) ?_
    intro t
    refine bind_extends _ _ _ _ (hext _ _) ?_
    intro f _
    rfl
  -- cond
  refine ite_extends _ _ _ _ _ ?_ ?_
  · refine bind_extends _ _ _ _ (parse_cond_list_extends hext _ _) ?_
    intro discr _
    rfl
  -- define
  refine ite_extends _ _ _ _ _ ?_ ?_
  · refine ite_extends _ _ _ _ _ (fun _ => rfl) ?_
    refine bind_extends _ _ _ _ (fun _ => rfl) ?_
    intro l1
    refine bind_extends _ _ _ _ (fun _ => rfl) ?_
    intro l2
    refine bind_extends _ _ _ _ (fun _ => rfl) ?_
    intro l3
    refine bind_extends _ _ _ _ (fun _ => rfl) ?_
    intro t1
    refine ite_extends _ _ _ _ _ ?_ ?_
    · refine bind_extends _ _ _ _ (fun _ => rfl) ?_
      intro arg_iter
      refine ite_extends _ _ _ _ _ (fun _ => rfl) ?_
      refine bind_extends _ _ _ _ (fun _ => rfl) ?_
      intro arg_list
      refine bind_extends _ _ _ _ (fun _ => rfl) ?_
      intro a0
      refine bind_extends _ _ _ _ (fun _ => rfl) ?_
      intro name
      refine bind_extends _ _ _ _ (hext _ _) ?_
      intro body _
      rfl
    · refine ite_extends _ _ _ _ _ (fun _ => rfl) ?_
      refine bind_extends _ _ _ _ (hext _ _) ?_
      intro value _
      rfl
  -- let
  refine ite_extends _ _ _ _ _ ?_ ?_
  · refine ite_extends _ _ _ _ _ (fun _ => rfl) ?_
    refine bind_extends _ _ _ _ (fun _ => rfl) ?_
    intro l1
    refine bind_extends _ _ _ _ (fun _ => rfl) ?_
    intro l2
    refine bind_extends _ _ _ _ (fun _ => rfl) ?_
    intro pair_iter
    refine bind_extends _ _ _ _ (parse_bindings_extends hext _ _) ?_
    intro bindings
    refine bind_extends _ _ _ _ (parse_ranges_extends hext _) ?_
    intro nodes _
    rfl
  -- lambda
  refine ite_extends _ _ _ _ _ ?_ ?_
  · refine ite_extends _ _ _ _ _ (fun _ => rfl) ?_
    refine bind_extends _ _ _ _ (fun _ => rfl) ?_
    intro l1
    refine bind_extends _ _ _ _ (fun _ => rfl) ?_
    intro l2
    refine bind_extends _ _ _ _ (fun _ => rfl) ?_
    intro l3
    refine bind_extends _ _ _ _ (fun _ => rfl) ?_
    intro arg_iter
    refine bind_extends _ _ _ _ (fun _ => rfl) ?_
    intro arg_list
    refine bind_extends _ _ _ _ (hext _ _) ?_
    intro body _
    rfl
  -- begin / and / or / procedure call
  refine bind_extends _ _ _ _ (parse_ranges_extends hext _) ?_
  intro nodes _
  rfl

/-- One more unit of fuel does not change a parse that did not run out of fuel. -/
theorem parse_immediate_extends (base : Nat) (tokens : List String) (fuel : Nat) :
    ParseExtends (parse_immediate base tokens fuel) (parse_immediate base tokens (fuel + 1)) := by
  induction fuel with
  | zero => intro l r h; simp [parse_immediate] at h
  | succ n ih =>
    intro l r h
    rw [parse_immediate] at h
    rw [parse_immediate, parse_immediate]
    exact parse_immediate_body_extends ih base tokens l r h

/-- A parse that did not run out of fuel has the same result with any larger fuel. -/
theorem parse_fuel_mono (base : Nat) (tokens : List String) (fuel more begin end_ : Nat)
    (h : parse_immediate base tokens fuel begin end_ ≠ .error .out_of_fuel) :
    parse_immediate base tokens (fuel + more) begin end_
      = parse_immediate base tokens fuel begin end_ := by
  induction more with
  | zero => rfl
  | succ m ih =>
    have h2 : parse_immediate base tokens (fuel + m) begin end_ ≠ .error .out_of_fuel := by
      rw [ih]; exact h
    have := parse_immediate_extends base tokens (fuel + m) begin end_ h2
    rw [← ih, ← this]
    rfl

/-! ## The batch driver and fuel -/

/-- With more fuel `Parser::parse` gives the same result, unless it ran out of fuel. -/
theorem Parser_parse_fuel_mono (base fuel more : Nat) (p : Parser) (src : List Char)
    (dst : List ASTNode) (h : (Parser.parse base fuel p src dst).1 ≠ .error .out_of_fuel) :
    Parser.parse base (fuel + more) p src dst = Parser.parse base fuel p src dst := by
  unfold Parser.parse at h ⊢
  generalize p.tokenize src = tk at h ⊢
  obtain ⟨result, p1⟩ := tk
  simp only at h ⊢
  split
  · rfl
  · split
    · rfl
    · split
      · rfl
      · rename_i h1 h2 h3
        rw [if_neg h1, if_neg h2, if_neg h3] at h
        have hm : parse_immediate base p1.tokens_ fuel 0 p1.tokens_.length
            ≠ .error .out_of_fuel := by
          intro he
          rw [he] at h
          exact h rfl
        rw [parse_fuel_mono base p1.tokens_ fuel more 0 p1.tokens_.length hm]

/-- What the batch driver prints does not depend on the fuel, once there is enough of it. -/
theorem main_batch_fuel_mono (fuel more : Nat) (file out : String)
    (h : main_batch fuel file = some out) : main_batch (fuel + more) file = some out := by
  unfold main_batch at h ⊢
  simp only at h ⊢
  have key : (Parser.parse 0 fuel (Parser.new false) ("(begin " ++ file ++ ")").data []).1
      ≠ .error .out_of_fuel := by
    intro he
    rcases hp : Parser.parse 0 fuel (Parser.new false) ("(begin " ++ file ++ ")").data []
      with ⟨r, p1, prog⟩
    rw [hp] at he h
    simp only at he
    subst he
    simp [Err.message] at h
  rw [Parser_parse_fuel_mono 0 fuel more _ _ _ key]
  rcases hp : Parser.parse 0 fuel (Parser.new false) ("(begin " ++ file ++ ")").data []
    with ⟨r, p1, prog⟩
  rw [hp] at h
  cases r with
  | error e => simpa using h
  | ok result =>
    simp only at h ⊢
    generalize hw0 : ({ World.initial with out := if result = status.failure then
        (report_error "tokenizer: unable to match `)` to any previous `(`") else "" } : World)
      = w0 at h ⊢
    have key2 : (eval fuel (SeqNode prog) Env.initial w0).1 ≠ .error .out_of_fuel := by
      intro he
      rcases hq : eval fuel (SeqNode prog) Env.initial w0 with ⟨r2, e2, w2⟩
      rw [hq] at he h
      simp only at he
      subst he
      simp [Err.message] at h
    rw [eval_fuel_mono fuel more _ _ _ key2]
    exact h

/-! ## C1: lexical capture -/

set_option maxRecDepth 100000 in
/-- C1 fails on its own witness.  After `(define (make-adder n) (lambda (x) (+ x n)))` and
`(define add5 (make-adder 5))` the closure bound to `add5` holds the frame with `n = 5`, but the
reference to the name `add5` evaluates the closure again, which overwrites the captured frame
with the frame of the caller: `(add5 10)` throws `unbound variable: n`, and with a top-level `n`
it uses that one.  Called without going through a name, the closure does see `n = 5`.  All of
this holds for every amount of fuel from the stated one on. -/
theorem C1_lexical_capture_lost :
    parse_immediate 0 (Parser.tokenize (Parser.new false)
        ("(begin (define (make-adder n) (lambda (x) (+ x n))) "
          ++ "(define add5 (make-adder 5)))").data).2.tokens_ 100 0 29
      = .ok (SeqNode [BindNode "make-adder" make_adder_closure,
          BindNode "add5" (ProcNode [VarNode "make-adder", IntNode 5])]) ∧
    (∀ more, eval (10 + more) (SeqNode [BindNode "make-adder" make_adder_closure,
        BindNode "add5" (ProcNode [VarNode "make-adder", IntNode 5])]) Env.initial World.initial
      = (.ok (NullNode "add5"), Env.initial, adder_world)) ∧
    adder_world.env_.find 8
      = some { bindings_ := [("n", IntNode 5), ("make-adder", make_adder_closure)] } ∧
    (∀ more, eval (10 + more) (VarNode "add5") Env.initial adder_world
      = (.ok adder_closure, Env.initial,
          { adder_world with env_ := [(2, Env.initial), (8, Env.initial)] })) ∧
    (∀ more, eval (10 + more) (ProcNode [VarNode "add5", IntNode 10]) Env.initial adder_world
      = (.error (.thrown "unbound variable: n"), Env.initial,
          { adder_world with env_ := [(2, Env.initial), (8, Env.initial)] })) ∧
    (∀ more, main_batch (100 + more)
        "(define (make-adder n) (lambda (x) (+ x n))) (define add5 (make-adder 5)) (add5 10)"
      = some "error: unbound variable: n\n") ∧
    (∀ more, main_batch (100 + more)
        ("(define (make-adder n) (lambda (x) (+ x n))) (define n 100) "
          ++ "(define add5 (make-adder 5)) (add5 10)")
      = some "110\n") ∧
    (∀ more, main_batch (100 + more)
        "(define add5 (let ((n 5)) (lambda (x) (+ x n)))) (add5 10)"
      = some "error: unbound variable: n\n") ∧
    (∀ more, main_batch (100 + more)
        "(define (make-adder n) (lambda (x) (+ x n))) ((make-adder 5) 10)"
      = some "15\n") :=
  ⟨rfl,
    fun more => eval_fuel_mono_of_eq 10 more _ _ _ _ rfl (by simp),
    rfl,
    fun more => eval_fuel_mono_of_eq 10 more _ _ _ _ rfl (by simp),
    fun more => eval_fuel_mono_of_eq 10 more _ _ _ _ rfl (by simp),
    fun more => main_batch_fuel_mono 100 more _ _ (by decide),
    fun more => main_batch_fuel_mono 100 more _ _ (by decide),
    fun more => main_batch_fuel_mono 100 more _ _ (by decide),
    fun more => main_batch_fuel_mono 100 more _ _ (by decide)⟩

/-! ## C2: recursion through the self-name -/

/-- A call of a closure that has a self-name evaluates the body in a frame in which that name
is bound, locally, to the closure itself. -/
theorem LambdaNode_call_self_name (ev : Evaluator) (id : Nat) (arg_list_ : List String)
    (body_ : ASTNode) (name_ : String) (args : List ASTNode) (w : World) (captured : Env)
    (hname : name_ ≠ "") (hlen : args.length = arg_list_.length)
    (hcap : w.env_.find id = some captured) :
    ∃ current : Env,
      LambdaNode_call ev id arg_list_ body_ name_ args w
        = ((ev body_ current w).1, (ev body_ current w).2.2) ∧
      current.bindings_.find name_ = some (LambdaNode id arg_list_ body_ name_) ∧
      current.find w name_ = .ok (LambdaNode id arg_list_ body_ name_) := by
  refine ⟨((bind_arguments arg_list_ args captured w).1.insert
      (bind_arguments arg_list_ args captured w).2 name_
      (LambdaNode id arg_list_ body_ name_) false).1, ?_, ?_, ?_⟩
  · have hw := bind_arguments_world arg_list_ args captured w
    simp only [LambdaNode_call, hlen, ne_eq, not_true_eq_false, if_false, hcap, hname,
      not_false_eq_true, if_true, hw, Env.insert_local_world]
  · simp [Env.insert, unordered_map.find_insert_same]
  · simp [Env.find, Env.insert, unordered_map.find_insert_same]

set_option maxRecDepth 100000 in
/-- C2.  The text `(define (f n) (if (= n 0) 1 (* n (f (- n 1)))))` followed by `(f k)` prints
`k!` for every `k` from 0 to 12; evaluated in the state the definition leaves behind, the call
`(f k)` returns the integer `k!`; and the body of a closure with a self-name runs in a frame in
which the self-name is bound to the closure that is being called.  The fuel is any amount from
100 on. -/
theorem C2_recursion_via_self_name :
    (∀ k : Nat, k ≤ 12 → ∀ more : Nat,
      main_batch (100 + more)
          ("(define (f n) (if (= n 0) 1 (* n (f (- n 1))))) (f " ++ toString k ++ ")")
        = some (toString (Nat.factorial k) ++ "\n")) ∧
    (parse_immediate 0
        (Parser.tokenize (Parser.new true)
          "(define (f n) (if (= n 0) 1 (* n (f (- n 1)))))".data).2.tokens_ 100 0 28
        = .ok (BindNode "f" fact_closure) ∧
      (∀ more : Nat, eval (100 + more) (BindNode "f" fact_closure) Env.initial World.initial
        = (.ok (NullNode "f"), Env.initial, fact_world)) ∧
      ∀ k : Nat, k ≤ 12 → ∀ more : Nat,
        (eval (100 + more) (ProcNode [VarNode "f", IntNode k]) Env.initial fact_world).1
          = .ok (IntNode (Nat.factorial k))) ∧
    (∀ (ev : Evaluator) (id : Nat) (arg_list_ : List String) (body_ : ASTNode) (name_ : String)
        (args : List ASTNode) (w : World) (captured : Env),
      name_ ≠ "" → args.length = arg_list_.length → w.env_.find id = some captured →
      ∃ current : Env,
        LambdaNode_call ev id arg_list_ body_ name_ args w
          = ((ev body_ current w).1, (ev body_ current w).2.2) ∧
        current.find w name_ = .ok (LambdaNode id arg_list_ body_ name_)) := by
  refine ⟨?_, ?_, ?_⟩
  · intro k hk more
    apply main_batch_fuel_mono
    interval_cases k <;> decide
  · refine ⟨rfl, fun more => eval_fuel_mono_of_eq 100 more _ _ _ _ rfl (by simp), ?_⟩
    intro k hk more
    have h : (eval 100 (ProcNode [VarNode "f", IntNode k]) Env.initial fact_world).1
        = .ok (IntNode (Nat.factorial k)) := by
      interval_cases k <;> rfl
    rw [eval_fuel_mono 100 more _ _ _ (by rw [h]; simp)]
    exact h
  · intro ev id arg_list_ body_ name_ args w captured hname hlen hcap
    obtain ⟨current, h1, _, h3⟩ :=
      LambdaNode_call_self_name ev id arg_list_ body_ name_ args w captured hname hlen hcap
    exact ⟨current, h1, h3⟩

set_option maxRecDepth 100000 in
/-- C2 at `k = 5` and `k = 6`: the batch driver prints 120 and 720. -/
theorem C2_recursion_via_self_name_witness :
    main_batch (100 + 0)
        ("(define (f n) (if (= n 0) 1 (* n (f (- n 1))))) (f " ++ toString 5 ++ ")")
      = some (toString (Nat.factorial 5) ++ "\n") ∧
    main_batch (100 + 0) "(define (f n) (if (= n 0) 1 (* n (f (- n 1))))) (f 6)"
      = some "720\n" ∧
    main_batch 100 "(define (fact n) (if (= n 0) 1 (* n (fact (- n 1))))) (fact 6)"
      = some "720\n" :=
  ⟨C2_recursion_via_self_name.1 5 (by decide) 0, C2_recursion_via_self_name.1 6 (by decide) 0,
    by decide⟩

/-! ## C3: `let` and `let*` -/

/-- The parallel loop of `let` evaluates all the expressions in the outer environment, one after
the other, and binds the names to the values side by side. -/
theorem LetNode_loop_parallel (ev : Evaluator) (bs : List (String × ASTNode))
    (current env : Env) (w : World) :
    LetNode_loop ev false bs current env w =
      match eval_args ev (bs.map Prod.snd) env w with
      | (.ok vs, env1, w1) => (.ok (bind_arguments (bs.map Prod.fst) vs current w1).1, env1, w1)
      | (.error e, env1, w1) => (.error e, env1, w1) := by
  induction bs generalizing current env w with
  | nil => simp [LetNode_loop, eval_args, bind_arguments]
  | cons b rest ih =>
    rcases hr : ev b.2 env w with ⟨r, env1, w1⟩
    cases r with
    | error e => simp [LetNode_loop, eval_args, hr]
    | ok v =>
      simp only [LetNode_loop, List.map, eval_args, hr, Bool.false_eq_true, if_false]
      rw [ih]
      rcases hr2 : eval_args ev (rest.map Prod.snd) env1 w1 with ⟨r2, env2, w2⟩
      cases r2 with
      | error e => simp [Env.insert, hr2]
      | ok vs =>
        simp only [Env.insert, Bool.false_eq_true, if_false, hr2, bind_arguments]

/-- The frame in which the body of a `let` or `let*` is evaluated binds every name of the
binding list, and keeps what the outer frame binds. -/
theorem LetNode_loop_bound (fuel : Nat) (star_ : Bool) (bs : List (String × ASTNode))
    (current env cur env1 : Env) (w w1 : World)
    (h : LetNode_loop (eval fuel) star_ bs current env w = (.ok cur, env1, w1)) (n : String)
    (hn : n ∈ bs.map Prod.fst ∨ current.bindings_.find n ≠ none) :
    cur.bindings_.find n ≠ none := by
  induction bs generalizing current env w with
  | nil =>
    simp only [LetNode_loop, Prod.mk.injEq, Except.ok.injEq] at h
    obtain ⟨h1, _, _⟩ := h
    subst h1
    rcases hn with hn | hn
    · simp at hn
    · exact hn
  | cons b rest ih =>
    have step : ∀ (c : Env) (v : ASTNode),
        (n ∈ rest.map Prod.fst ∨ (c.bindings_.insert_or_assign b.1 v).find n ≠ none) ∨
          ¬ (n ∈ (b :: rest).map Prod.fst ∨ c.bindings_.find n ≠ none) := by
      intro c v
      by_cases hc : n ∈ (b :: rest).map Prod.fst ∨ c.bindings_.find n ≠ none
      · left
        rcases hc with hc | hc
        · simp only [List.map, List.mem_cons] at hc
          rcases hc with e | e
          · right
            exact unordered_map.find_insert_ne_none _ _ _ _ (Or.inl e)
          · left
            exact e
        · right
          exact unordered_map.find_insert_ne_none _ _ _ _ (Or.inr hc)
      · right
        exact hc
    cases star_ with
    | true =>
      have hpres := eval_env fuel b.2 current w
      rcases hr : eval fuel b.2 current w with ⟨r, c1, w0⟩
      rw [hr] at hpres
      simp only at hpres
      subst hpres
      cases r with
      | error e => simp [LetNode_loop, hr] at h
      | ok v =>
        simp only [LetNode_loop, hr, if_true, Env.insert, Bool.false_eq_true, if_false] at h
        apply ih _ env w0 h
        rcases step c1 v with s | s
        · exact s
        · exact absurd hn s
    | false =>
      rcases hr : eval fuel b.2 env w with ⟨r, e1, w0⟩
      cases r with
      | error e => simp [LetNode_loop, hr] at h
      | ok v =>
        simp only [LetNode_loop, hr, Bool.false_eq_true, if_false, Env.insert] at h
        apply ih _ e1 w0 h
        rcases step current v with s | s
        · exact s
        · exact absurd hn s

/-- The sequential loop of `let*` never looks at the outer environment: it hands it back. -/
theorem LetNode_loop_star_outer (ev : Evaluator) (bs : List (String × ASTNode))
    (current env env2 : Env) (w : World) :
    LetNode_loop ev true bs current env w
      = ((LetNode_loop ev true bs current env2 w).1, env,
          (LetNode_loop ev true bs current env2 w).2.2) := by
  induction bs generalizing current w with
  | nil => simp [LetNode_loop]
  | cons b rest ih =>
    rcases hr : ev b.2 current w with ⟨r, c1, w1⟩
    cases r with
    | error e => simp [LetNode_loop, hr]
    | ok v =>
      simp only [LetNode_loop, hr, if_true]
      exact ih _ _

/-- C3.  In `(let ((n1 e1) ... (nk ek)) body)` the expressions are evaluated one after the
other in the environment outside the `let`, and only then are the names bound, side by side, in
a copy of that environment.  In `(let* ...)` the first expression is evaluated outside, its name
is bound, and the remaining bindings and the body are evaluated as a `let*` in the extended
frame.  In both forms the body runs in a frame that binds every one of the names, and the frame
of the caller is left as it was. -/
theorem C3_let_vs_let_star (fuel : Nat) (bs : List (String × ASTNode)) (body : ASTNode)
    (env : Env) (w : World) :
    (eval (fuel + 1) (LetNode bs body false) env w =
      match eval_args (eval fuel) (bs.map Prod.snd) env w with
      | (.ok vs, _, w1) =>
          ((eval fuel body (bind_arguments (bs.map Prod.fst) vs env w1).1 w1).1, env,
            (eval fuel body (bind_arguments (bs.map Prod.fst) vs env w1).1 w1).2.2)
      | (.error e, _, w1) => (.error e, env, w1)) ∧
    (eval (fuel + 1) (LetNode [] body true) env w
      = ((eval fuel body env w).1, env, (eval fuel body env w).2.2)) ∧
    (∀ n e rest, eval (fuel + 1) (LetNode ((n, e) :: rest) body true) env w =
      match eval fuel e env w with
      | (.ok v, _, w1) =>
          ((eval (fuel + 1) (LetNode rest body true) (env.insert w1 n v false).1 w1).1, env,
            (eval (fuel + 1) (LetNode rest body true) (env.insert w1 n v false).1 w1).2.2)
      | (.error err, _, w1) => (.error err, env, w1)) ∧
    (∀ star_ cur env1 w1, LetNode_loop (eval fuel) star_ bs env env w = (.ok cur, env1, w1) →
      (∀ n ∈ bs.map Prod.fst, cur.bindings_.find n ≠ none) ∧
      eval (fuel + 1) (LetNode bs body star_) env w
        = ((eval fuel body cur w1).1, env, (eval fuel body cur w1).2.2)) := by
  refine ⟨?_, ?_, ?_, ?_⟩
  · simp only [eval, LetNode_eval]
    rw [LetNode_loop_parallel]
    have henv := eval_args_env (eval_env fuel) (bs.map Prod.snd) env w
    rcases hr : eval_args (eval fuel) (bs.map Prod.snd) env w with ⟨r, env1, w1⟩
    rw [hr] at henv
    simp only at henv
    subst henv
    cases r <;> simp
  · simp [eval, LetNode_eval, LetNode_loop]
  · intro n e rest
    have henv := eval_env fuel e env w
    rcases hr : eval fuel e env w with ⟨r, env1, w1⟩
    rw [hr] at henv
    simp only at henv
    subst henv
    cases r with
    | error err => simp [eval, LetNode_eval, LetNode_loop, hr]
    | ok v =>
      simp only [eval, LetNode_eval, LetNode_loop, hr, if_true]
      have hw : (env1.insert w1 n v false).2 = w1 := Env.insert_local_world _ _ _ _
      simp only [hw]
      rw [LetNode_loop_star_outer (eval fuel) rest (env1.insert w1 n v false).1 env1
        (env1.insert w1 n v false).1 w1]
      rcases LetNode_loop (eval fuel) true rest (env1.insert w1 n v false).1
        (env1.insert w1 n v false).1 w1 with ⟨r2, e2, w2⟩
      cases r2 <;> simp
  · intro star_ cur env1 w1 h
    constructor
    · intro n hn
      exact LetNode_loop_bound fuel star_ bs env env cur env1 w w1 h n (Or.inl hn)
    · have henv := LetNode_loop_env (eval_env fuel) star_ bs env env w
      rw [h] at henv
      simp only at henv
      subst henv
      simp [eval, LetNode_eval, h]

/-- C3 on the two forms of the claim.  The body of `(let* ((x 1) (y x)) y)` runs in a frame
that binds `x` and `y`; the batch driver prints 1 for it and `unbound variable: x` for the
`let` form; with `x` defined outside, the `let` form sees the outer `x`. -/
theorem C3_let_vs_let_star_witness :
    ((∀ n ∈ [("x", IntNode 1), ("y", VarNode "x")].map Prod.fst,
        (Env.mk [("x", IntNode 1), ("y", IntNode 1)]).bindings_.find n ≠ none) ∧
      eval (5 + 1) (LetNode [("x", IntNode 1), ("y", VarNode "x")] (SeqNode [VarNode "y"]) true)
          Env.initial World.initial
        = ((eval 5 (SeqNode [VarNode "y"]) ⟨[("x", IntNode 1), ("y", IntNode 1)]⟩
              World.initial).1, Env.initial,
            (eval 5 (SeqNode [VarNode "y"]) ⟨[("x", IntNode 1), ("y", IntNode 1)]⟩
              World.initial).2.2)) ∧
    main_batch 20 "(let ((x 1) (y x)) y)" = some "error: unbound variable: x\n" ∧
    main_batch 20 "(let* ((x 1) (y x)) y)" = some "1\n" ∧
    main_batch 20 "(define x 5) (let ((x 1) (y x)) y)" = some "5\n" ∧
    main_batch 20 "(define x 5) (let* ((x 1) (y x)) y)" = some "1\n" ∧
    main_batch 20 "(let ((x 2) (y 3)) (+ x y))" = some "5\n" ∧
    main_batch 20 "(let* ((x 2) (y (+ x 1))) y)" = some "3\n" :=
  ⟨(C3_let_vs_let_star 5 [("x", IntNode 1), ("y", VarNode "x")] (SeqNode [VarNode "y"])
      Env.initial World.initial).2.2.2 true ⟨[("x", IntNode 1), ("y", IntNode 1)]⟩ Env.initial
      World.initial rfl,
    by decide, by decide, by decide, by decide, by decide, by decide⟩

/-! ## C4: `if` -/

/-- What `split_level` has checked when it returns. -/
theorem split_level_ok {tokens : List String} {begin end_ : Nat} {level : List Nat}
    (h : split_level tokens begin end_ = .ok level) :
    deref tokens begin = .ok "(" ∧ ∃ last, prev end_ = .ok last ∧ deref tokens last = .ok ")" ∧
      (begin + 1 = last → level = [last]) := by
  unfold split_level at h
  cases hb : deref tokens begin with
  | error e => simp [hb, bind, Except.bind] at h
  | ok b =>
    simp only [hb, bind, Except.bind] at h
    by_cases hb2 : b = "("
    · subst hb2
      simp only [ne_eq, not_true_eq_false, if_false] at h
      cases hl : prev end_ with
      | error e => simp [hl] at h
      | ok last =>
        simp only [hl] at h
        cases he : deref tokens last with
        | error e => simp [he] at h
        | ok e =>
          simp only [he] at h
          by_cases he2 : e = ")"
          · subst he2
            refine ⟨rfl, last, rfl, he, ?_⟩
            intro hul
            simp [hul, pure, Except.pure] at h
            exact h.symm
          · simp [he2, throw_error] at h
    · simp [hb2, throw_error] at h

/-- The lowering of `if` in `parse_immediate`: a form whose elements are `if` and three
expressions becomes the two-armed `CondNode` whose second predicate is the literal `#t`. -/
theorem parse_immediate_if (base : Nat) (tokens : List String) (pf begin end_ : Nat)
    (l0 l1 l2 l3 l4 : Nat) (v A B : ASTNode) (hne : begin ≠ end_)
    (hsplit : split_level tokens begin end_ = .ok [l0, l1, l2, l3, l4])
    (hhead : deref tokens l0 = .ok "if")
    (hv : parse_immediate base tokens pf l1 l2 = .ok v)
    (hA : parse_immediate base tokens pf l2 l3 = .ok A)
    (hB : parse_immediate base tokens pf l3 l4 = .ok B) :
    parse_immediate base tokens (pf + 1) begin end_ = .ok (CondNode [v, BoolNode true] [A, B]) := by
  obtain ⟨hb, last, hl, he, hunit⟩ := split_level_ok hsplit
  have hnu : ¬ begin + 1 = last := by
    intro h
    have := hunit h
    simp at this
  simp [parse_immediate, parse_immediate_body, hne, hb, hl, he, hnu, hsplit, index, hhead, hv, hA, hB, bind,
    Except.bind, pure, Except.pure]

/-- The two-armed `CondNode` of an `if`: after the condition, exactly one arm is evaluated. -/
theorem eval_if (fuel : Nat) (v A B : ASTNode) (env : Env) (w : World) :
    (∀ c env1 w1, eval (fuel + 1) v env w = (.ok c, env1, w1) → c ≠ BoolNode false →
      eval (fuel + 2) (CondNode [v, BoolNode true] [A, B]) env w = eval (fuel + 1) A env1 w1) ∧
    (∀ env1 w1, eval (fuel + 1) v env w = (.ok (BoolNode false), env1, w1) →
      eval (fuel + 2) (CondNode [v, BoolNode true] [A, B]) env w = eval (fuel + 1) B env1 w1) ∧
    (∀ e env1 w1, eval (fuel + 1) v env w = (.error e, env1, w1) →
      eval (fuel + 2) (CondNode [v, BoolNode true] [A, B]) env w = (.error e, env1, w1)) := by
  refine ⟨?_, ?_, ?_⟩
  · intro c env1 w1 hc hne
    have hb := (get_boolean_eq_true_iff c).2 hne
    rw [eval]
    simp [CondNode_eval, hc, hb]
  · intro env1 w1 hc
    rw [eval]
    simp only [CondNode_eval, hc, get_boolean, Bool.false_eq_true, if_false]
    simp [eval, get_boolean]
  · intro e env1 w1 hc
    rw [eval]
    simp [CondNode_eval, hc]

/-- C4.  A form `(if v A B)` is parsed into the `CondNode` with the predicates `v`, `#t` and the
branches `A`, `B`.  Evaluating it evaluates `v`; if the value is anything but `#f` the outcome
(value and state) is that of evaluating `A` next, and if it is `#f` the outcome is that of
evaluating `B` next.  The other branch is not evaluated: it leaves no trace in the state. -/
theorem C4_if_truthiness (base : Nat) (tokens : List String) (pf begin end_ : Nat)
    (l0 l1 l2 l3 l4 : Nat) (v A B : ASTNode) (hne : begin ≠ end_)
    (hsplit : split_level tokens begin end_ = .ok [l0, l1, l2, l3, l4])
    (hhead : deref tokens l0 = .ok "if")
    (hv : parse_immediate base tokens pf l1 l2 = .ok v)
    (hA : parse_immediate base tokens pf l2 l3 = .ok A)
    (hB : parse_immediate base tokens pf l3 l4 = .ok B) :
    ∃ node, parse_immediate base tokens (pf + 1) begin end_ = .ok node ∧
      ∀ (fuel : Nat) (env : Env) (w : World),
        (∀ c env1 w1, eval (fuel + 1) v env w = (.ok c, env1, w1) → c ≠ BoolNode false →
          eval (fuel + 2) node env w = eval (fuel + 1) A env1 w1) ∧
        (∀ env1 w1, eval (fuel + 1) v env w = (.ok (BoolNode false), env1, w1) →
          eval (fuel + 2) node env w = eval (fuel + 1) B env1 w1) :=
  ⟨CondNode [v, BoolNode true] [A, B],
    parse_immediate_if base tokens pf begin end_ l0 l1 l2 l3 l4 v A B hne hsplit hhead hv hA hB,
    fun fuel env w => ⟨(eval_if fuel v A B env w).1, (eval_if fuel v A B env w).2.1⟩⟩

/-- C4 on the tokens of `(if 0 (display 1) (display 2))`, and the outputs of the batch driver
for conditions of every kind: the integer 0, Unit, a pair, a procedure, a quiet value take the
first branch, `#f` takes the second, and only the branch taken writes. -/
theorem C4_if_truthiness_witness :
    (∃ node, parse_immediate 0
        ["(", "if", "0", "(", "display", "1", ")", "(", "display", "2", ")", ")"] 3 0 12
          = .ok node ∧
      ∀ (fuel : Nat) (env : Env) (w : World),
        (∀ c env1 w1, eval (fuel + 1) (IntNode 0) env w = (.ok c, env1, w1) →
          c ≠ BoolNode false →
          eval (fuel + 2) node env w
            = eval (fuel + 1) (ProcNode [VarNode "display", IntNode 1]) env1 w1) ∧
        (∀ env1 w1, eval (fuel + 1) (IntNode 0) env w = (.ok (BoolNode false), env1, w1) →
          eval (fuel + 2) node env w
            = eval (fuel + 1) (ProcNode [VarNode "display", IntNode 2]) env1 w1)) ∧
    main_batch 20 "(if 0 (display 1) (display 2))" = some "1" ∧
    main_batch 20 "(if () (display 1) (display 2))" = some "1" ∧
    main_batch 20 "(if (cons 1 2) (display 1) (display 2))" = some "1" ∧
    main_batch 20 "(if car (display 1) (display 2))" = some "1" ∧
    main_batch 20 "(if (lambda (x) x) (display 1) (display 2))" = some "1" ∧
    main_batch 20 "(if (newline) (display 1) (display 2))" = some "\n1" ∧
    main_batch 20 "(if #f (display 1) (display 2))" = some "2" ∧
    main_batch 20 "(if (= 1 2) 10 20)" = some "20\n" :=
  ⟨C4_if_truthiness 0 ["(", "if", "0", "(", "display", "1", ")", "(", "display", "2", ")", ")"]
      2 0 12 1 2 3 7 11 (IntNode 0) (ProcNode [VarNode "display", IntNode 1])
      (ProcNode [VarNode "display", IntNode 2]) (by decide) rfl rfl rfl rfl rfl,
    by decide, by decide, by decide, by decide, by decide, by decide, by decide, by decide⟩

/-! ## C5: `and` / `or` -/

/-- The loop of `and` runs through a prefix whose values are all true and goes on behind it. -/
theorem AndNode_loop_through {ev : Evaluator} (pre rest : List ASTNode) (vs : List ASTNode)
    (val : Option ASTNode) (env env1 : Env) (w w1 : World)
    (h : eval_args ev pre env w = (.ok vs, env1, w1))
    (ht : ∀ v ∈ vs, v ≠ BoolNode false) :
    AndNode_loop ev (pre ++ rest) val env w
      = AndNode_loop ev rest (vs.getLast?.or val) env1 w1 := by
  induction pre generalizing vs val env w with
  | nil =>
    obtain ⟨h1, h2, h3⟩ := eval_args_nil_ok h
    subst h1 h2 h3
    simp
  | cons p ps ih =>
    obtain ⟨v, vs1, env0, w0, hp, hps, hvs⟩ := eval_args_cons_ok h
    subst hvs
    have hv : get_boolean v = true :=
      (get_boolean_eq_true_iff v).2 (ht v (List.mem_cons_self _ _))
    have ht1 : ∀ x ∈ vs1, x ≠ BoolNode false := fun x hx => ht x (List.mem_cons_of_mem _ hx)
    have := ih vs1 (some v) env0 w0 hps ht1
    have hl : vs1.getLast?.or (some v) = (v :: vs1).getLast?.or val := by
      cases vs1 with
      | nil => simp
      | cons y ys =>
        rw [List.getLast?_cons_cons, List.getLast?_eq_getLast _ (List.cons_ne_nil y ys)]
        simp
    have e : AndNode_loop ev ((p :: ps) ++ rest) val env w
        = AndNode_loop ev (ps ++ rest) (some v) env0 w0 := by
      simp [AndNode_loop, hp, hv]
    rw [e, this, hl]

/-- The loop of `or` runs through a prefix whose values are all `#f` and goes on behind it. -/
theorem OrNode_eval_through {ev : Evaluator} (pre rest : List ASTNode) (vs : List ASTNode)
    (env env1 : Env) (w w1 : World)
    (h : eval_args ev pre env w = (.ok vs, env1, w1))
    (ht : ∀ v ∈ vs, v = BoolNode false) :
    OrNode_eval ev (pre ++ rest) env w = OrNode_eval ev rest env1 w1 := by
  induction pre generalizing vs env w with
  | nil =>
    obtain ⟨h1, h2, h3⟩ := eval_args_nil_ok h
    subst h1 h2 h3
    simp
  | cons p ps ih =>
    obtain ⟨v, vs1, env0, w0, hp, hps, hvs⟩ := eval_args_cons_ok h
    subst hvs
    have hv : get_boolean v = false :=
      (get_boolean_eq_false_iff v).2 (ht v (List.mem_cons_self _ _))
    have ht1 : ∀ x ∈ vs1, x = BoolNode false := fun x hx => ht x (List.mem_cons_of_mem _ hx)
    have e : OrNode_eval ev ((p :: ps) ++ rest) env w = OrNode_eval ev (ps ++ rest) env0 w0 := by
      simp [OrNode_eval, hp, hv]
    rw [e]
    exact ih vs1 env0 w0 hps ht1

/-- C5.  `(and)` is `#t`; `and` stops at the first operand whose value is `#f` and returns it,
and returns the value of the last operand if none is `#f`.  `(or)` is `#f`; `or` stops at the
first operand whose value is not `#f` and returns it, and returns `#f` if there is none.  In
every case the state after the form (output, top-level, captured environments) is the state
after the evaluated prefix: no later operand is evaluated. -/
theorem C5_and_or_short_circuit (fuel : Nat) (env : Env) (w : World) :
    eval (fuel + 1) (AndNode []) env w = (.ok (BoolNode true), env, w) ∧
    (∀ pre e post vs env1 w1 env2 w2,
      eval_args (eval fuel) pre env w = (.ok vs, env1, w1) →
      (∀ v ∈ vs, v ≠ BoolNode false) →
      eval fuel e env1 w1 = (.ok (BoolNode false), env2, w2) →
      eval (fuel + 1) (AndNode (pre ++ e :: post)) env w = (.ok (BoolNode false), env2, w2)) ∧
    (∀ es vs v env2 w2,
      eval_args (eval fuel) es env w = (.ok vs, env2, w2) →
      (∀ x ∈ vs, x ≠ BoolNode false) → vs.getLast? = some v →
      eval (fuel + 1) (AndNode es) env w = (.ok v, env2, w2)) ∧
    eval (fuel + 1) (OrNode []) env w = (.ok (BoolNode false), env, w) ∧
    (∀ pre e post vs env1 w1 v env2 w2,
      eval_args (eval fuel) pre env w = (.ok vs, env1, w1) →
      (∀ x ∈ vs, x = BoolNode false) →
      eval fuel e env1 w1 = (.ok v, env2, w2) → v ≠ BoolNode false →
      eval (fuel + 1) (OrNode (pre ++ e :: post)) env w = (.ok v, env2, w2)) ∧
    (∀ es vs env2 w2,
      eval_args (eval fuel) es env w = (.ok vs, env2, w2) →
      (∀ x ∈ vs, x = BoolNode false) →
      eval (fuel + 1) (OrNode es) env w = (.ok (BoolNode false), env2, w2)) := by
  refine ⟨?_, ?_, ?_, ?_, ?_, ?_⟩
  · simp [eval, AndNode_eval]
  · intro pre e post vs env1 w1 env2 w2 hpre ht he
    have hlen : (pre ++ e :: post).length ≠ 0 := by simp
    simp only [eval, AndNode_eval, hlen, if_false]
    rw [AndNode_loop_through pre (e :: post) vs none env env1 w w1 hpre ht]
    simp [AndNode_loop, he, get_boolean]
  · intro es vs v env2 w2 hes ht hlast
    have hne : es.length ≠ 0 := by
      intro h0
      have : es = [] := List.length_eq_zero.mp h0
      subst this
      obtain ⟨h1, _, _⟩ := eval_args_nil_ok hes
      subst h1
      simp at hlast
    simp only [eval, AndNode_eval, hne, if_false]
    have := AndNode_loop_through es [] vs none env env2 w w2 hes ht
    rw [List.append_nil] at this
    rw [this, hlast]
    simp [AndNode_loop]
  · simp [eval, OrNode_eval]
  · intro pre e post vs env1 w1 v env2 w2 hpre ht he hv
    simp only [eval]
    rw [OrNode_eval_through pre (e :: post) vs env env1 w w1 hpre ht]
    simp [OrNode_eval, he, (get_boolean_eq_true_iff v).2 hv]
  · intro es vs env2 w2 hes ht
    simp only [eval]
    have := OrNode_eval_through es [] vs env env2 w w2 hes ht
    rw [List.append_nil] at this
    rw [this]
    simp [OrNode_eval]

/-- C5 on concrete forms, each with `display` calls around the stopping point:
`(and 1 (display 2) #f (display 3))` is `#f` and writes only `2`;
`(and (display 1) 7)` is 7; `(or #f (display 1) (display 2))` stops at the quiet value of the
first `display`; `(or #f #f)` is `#f`. -/
theorem C5_and_or_short_circuit_witness :
    eval 6 (AndNode [IntNode 1, ProcNode [VarNode "display", IntNode 2], BoolNode false,
        ProcNode [VarNode "display", IntNode 3]]) Env.initial World.initial
      = (.ok (BoolNode false), Env.initial, ⟨[], [], "2"⟩) ∧
    eval 6 (AndNode [ProcNode [VarNode "display", IntNode 1], IntNode 7]) Env.initial
        World.initial
      = (.ok (IntNode 7), Env.initial, ⟨[], [], "1"⟩) ∧
    eval 6 (OrNode [BoolNode false, ProcNode [VarNode "display", IntNode 1],
        ProcNode [VarNode "display", IntNode 2]]) Env.initial World.initial
      = (.ok (NullNode ""), Env.initial, ⟨[], [], "1"⟩) ∧
    eval 6 (OrNode [BoolNode false, BoolNode false]) Env.initial World.initial
      = (.ok (BoolNode false), Env.initial, World.initial) :=
  ⟨(C5_and_or_short_circuit 5 Env.initial World.initial).2.1
      [IntNode 1, ProcNode [VarNode "display", IntNode 2]] (BoolNode false)
      [ProcNode [VarNode "display", IntNode 3]] [IntNode 1, NullNode ""]
      Env.initial ⟨[], [], "2"⟩ Env.initial ⟨[], [], "2"⟩ rfl (by simp) rfl,
   (C5_and_or_short_circuit 5 Env.initial World.initial).2.2.1
      [ProcNode [VarNode "display", IntNode 1], IntNode 7] [NullNode "", IntNode 7] (IntNode 7)
      Env.initial ⟨[], [], "1"⟩ rfl (by simp) rfl,
   (C5_and_or_short_circuit 5 Env.initial World.initial).2.2.2.2.1
      [BoolNode false] (ProcNode [VarNode "display", IntNode 1])
      [ProcNode [VarNode "display", IntNode 2]] [BoolNode false]
      Env.initial World.initial (NullNode "") Env.initial ⟨[], [], "1"⟩ rfl (by simp) rfl
      (by simp),
   (C5_and_or_short_circuit 5 Env.initial World.initial).2.2.2.2.2
      [BoolNode false, BoolNode false] [BoolNode false, BoolNode false]
      Env.initial World.initial rfl (by simp)⟩

/-! ## C6: variable reference -/

/-- Evaluating a plain value gives the value back and changes nothing. -/
theorem eval_plain (fuel : Nat) (v : ASTNode) (env : Env) (w : World) (hp : is_plain v = true)
    (hd : pair_depth v < fuel) : eval fuel v env w = (.ok v, env, w) := by
  induction fuel generalizing v env w with
  | zero => omega
  | succ n ih =>
    cases v with
    | PairNode a b =>
      simp only [is_plain, Bool.and_eq_true] at hp
      simp only [pair_depth] at hd
      have ha : pair_depth a < n := by
        have := Nat.le_max_left (pair_depth a) (pair_depth b)
        simp only [Nat.max_def] at *
        split at hd <;> omega
      have hb : pair_depth b < n := by
        have := Nat.le_max_right (pair_depth a) (pair_depth b)
        simp only [Nat.max_def] at *
        split at hd <;> omega
      simp [eval, PairNode_eval, ih a env w hp.1 ha, ih b env w hp.2 hb]
    | IntNode _ => simp [eval]
    | BoolNode _ => simp [eval]
    | UnitNode => simp [eval]
    | BuiltinNode _ => simp [eval]
    | _ => simp [is_plain] at hp

/-- Evaluating a value never throws a `std::string`: in particular it never reports an unbound
variable. -/
theorem eval_value_not_thrown (fuel : Nat) (v : ASTNode) (env : Env) (w : World)
    (hv : is_value v = true) (msg : String) : (eval fuel v env w).1 ≠ .error (.thrown msg) := by
  induction fuel generalizing v env w with
  | zero => simp [eval]
  | succ n ih =>
    cases v with
    | PairNode a b =>
      simp only [is_value, Bool.and_eq_true] at hv
      have h1 := ih b env w hv.2
      simp only [eval, PairNode_eval]
      rcases hr : eval n b env w with ⟨r, env1, w1⟩
      rw [hr] at h1
      cases r with
      | error e => simpa using h1
      | ok l =>
        have h2 := ih a env1 w1 hv.1
        rcases hr2 : eval n a env1 w1 with ⟨r2, env2, w2⟩
        rw [hr2] at h2
        cases r2 with
        | error e => simpa [hr2] using h2
        | ok r => simp [hr2]
    | IntNode _ => simp [eval]
    | BoolNode _ => simp [eval]
    | UnitNode => simp [eval]
    | NullNode _ => simp [eval]
    | BuiltinNode _ => simp [eval]
    | LambdaNode _ _ _ _ => simp [eval, LambdaNode_eval]
    | _ => simp [is_value] at hv

theorem pair_depth_lt {a b : ASTNode} {n : Nat} (hd : pair_depth (PairNode a b) < n + 1) :
    pair_depth a < n ∧ pair_depth b < n := by
  simp only [pair_depth] at hd
  have h1 : pair_depth a ≤ Nat.max (pair_depth a) (pair_depth b) := Nat.le_max_left _ _
  have h2 : pair_depth b ≤ Nat.max (pair_depth a) (pair_depth b) := Nat.le_max_right _ _
  generalize Nat.max (pair_depth a) (pair_depth b) = m at hd h1 h2
  constructor <;> omega

/-- Evaluating a value without a quiet part returns the value; the frame is unchanged (the
rest of the state may change: a closure inside is evaluated again). -/
theorem eval_value_ok (fuel : Nat) (v : ASTNode) (env : Env) (w : World)
    (hv : is_value v = true) (hq : has_quiet v = false) (hd : pair_depth v < fuel) :
    ∃ w2, eval fuel v env w = (.ok v, env, w2) := by
  induction fuel generalizing v env w with
  | zero => omega
  | succ n ih =>
    cases v with
    | PairNode a b =>
      simp only [is_value, Bool.and_eq_true] at hv
      simp only [has_quiet, Bool.or_eq_false_iff] at hq
      obtain ⟨ha, hb⟩ := pair_depth_lt hd
      obtain ⟨w1, h1⟩ := ih b env w hv.2 hq.2 hb
      obtain ⟨w2, h2⟩ := ih a env w1 hv.1 hq.1 ha
      exact ⟨w2, by simp [eval, PairNode_eval, h1, h2]⟩
    | IntNode _ => exact ⟨w, by simp [eval]⟩
    | BoolNode _ => exact ⟨w, by simp [eval]⟩
    | UnitNode => exact ⟨w, by simp [eval]⟩
    | BuiltinNode _ => exact ⟨w, by simp [eval]⟩
    | LambdaNode id _ _ _ =>
      exact ⟨{ w with env_ := w.env_.insert_or_assign id env }, by simp [eval, LambdaNode_eval]⟩
    | NullNode _ => simp [has_quiet] at hq
    | _ => simp [is_value] at hv

/-- Evaluating a value with a quiet part throws the string literal of `NullNode::eval`. -/
theorem eval_value_quiet (fuel : Nat) (v : ASTNode) (env : Env) (w : World)
    (hv : is_value v = true) (hq : has_quiet v = true) (hd : pair_depth v < fuel) :
    (eval fuel v env w).1
      = .error (.thrown_cstr "runtime: cannot evaluate empty return type") := by
  induction fuel generalizing v env w with
  | zero => omega
  | succ n ih =>
    cases v with
    | PairNode a b =>
      simp only [is_value, Bool.and_eq_true] at hv
      obtain ⟨ha, hb⟩ := pair_depth_lt hd
      by_cases hqb : has_quiet b = true
      · have h1 := ih b env w hv.2 hqb hb
        rcases hr : eval n b env w with ⟨r, env1, w1⟩
        rw [hr] at h1
        simp only at h1
        subst h1
        simp [eval, PairNode_eval, hr]
      · have hqb2 : has_quiet b = false := by simpa using hqb
        have hqa : has_quiet a = true := by simpa [has_quiet, hqb2] using hq
        obtain ⟨w1, h1⟩ := eval_value_ok n b env w hv.2 hqb2 hb
        have h2 := ih a env w1 hv.1 hqa ha
        rcases hr : eval n a env w1 with ⟨r, env2, w2⟩
        rw [hr] at h2
        simp only at h2
        subst h2
        simp [eval, PairNode_eval, h1, hr]
    | NullNode _ => simp [eval]
    | IntNode _ => simp [has_quiet] at hq
    | BoolNode _ => simp [has_quiet] at hq
    | UnitNode => simp [has_quiet] at hq
    | BuiltinNode _ => simp [has_quiet] at hq
    | LambdaNode _ _ _ _ => simp [has_quiet] at hq
    | _ => simp [is_value] at hv

/-- C6 as the source has it.  `Var(name)` looks the name up with `Env::find` and evaluates the
node found.  If no layer binds the name it throws `unbound variable: NAME`, and for a name bound
to a value it never throws that.  A bound value built from integers, booleans, Unit, built-ins
and pairs of these is returned unchanged.  A bound quiet value makes the reference throw
`runtime: cannot evaluate empty return type`, and so does a bound pair with a quiet value
anywhere inside. -/
theorem C6_var_reference (env : Env) (w : World) (name : String) :
    (env.bindings_.find name = none → w.toplvl.find name = none →
      Builtins.functions.count name = 0 → ∀ fuel,
      eval (fuel + 1) (VarNode name) env w
        = (.error (.thrown ("unbound variable: " ++ name)), env, w)) ∧
    (∀ v, env.find w name = .ok v → is_value v = true → ∀ fuel,
      (eval fuel (VarNode name) env w).1 ≠ .error (.thrown ("unbound variable: " ++ name))) ∧
    (∀ v, env.find w name = .ok v → is_plain v = true → ∀ fuel, pair_depth v < fuel →
      eval (fuel + 1) (VarNode name) env w = (.ok v, env, w)) ∧
    (∀ msg, env.find w name = .ok (NullNode msg) → ∀ fuel,
      eval (fuel + 2) (VarNode name) env w
        = (.error (.thrown_cstr "runtime: cannot evaluate empty return type"), env, w)) ∧
    (∀ v, env.find w name = .ok v → is_value v = true → has_quiet v = true →
      ∀ fuel, pair_depth v < fuel →
      (eval (fuel + 1) (VarNode name) env w).1
        = .error (.thrown_cstr "runtime: cannot evaluate empty return type")) := by
  refine ⟨?_, ?_, ?_, ?_, ?_⟩
  · intro h1 h2 h3 fuel
    have hf : env.find w name = .error (.thrown ("unbound variable: " ++ name)) := by
      simp [Env.find, h1, h2, h3, throw_error]
    simp [eval, VarNode_eval, hf]
  · intro v hf hv fuel
    cases fuel with
    | zero => simp [eval]
    | succ n =>
      simp only [eval, VarNode_eval, hf]
      exact eval_value_not_thrown n v env w hv _
  · intro v hf hp fuel hd
    simp only [eval, VarNode_eval, hf]
    exact eval_plain fuel v env w hp hd
  · intro msg hf fuel
    simp [eval, VarNode_eval, hf]
  · intro v hf hv hq fuel hd
    simp only [eval, VarNode_eval, hf]
    exact eval_value_quiet fuel v env w hv hq hd

/-- The five parts of C6 on concrete environments: `foo` bound nowhere, `x` bound to the pair
`(1 . #t)` at top level, `q` bound to a quiet value, and `p` bound to a pair whose first
component is a closure and whose second component is a quiet value. -/
theorem C6_var_reference_witness :
    eval 1 (VarNode "foo") ⟨[]⟩ ⟨[], [], ""⟩
      = (.error (.thrown ("unbound variable: " ++ "foo")), ⟨[]⟩, ⟨[], [], ""⟩) ∧
    (eval 5 (VarNode "x") ⟨[]⟩ ⟨[("x", PairNode (IntNode 1) (BoolNode true))], [], ""⟩).1
      ≠ .error (.thrown ("unbound variable: " ++ "x")) ∧
    eval 3 (VarNode "x") ⟨[]⟩ ⟨[("x", PairNode (IntNode 1) (BoolNode true))], [], ""⟩
      = (.ok (PairNode (IntNode 1) (BoolNode true)), ⟨[]⟩,
          ⟨[("x", PairNode (IntNode 1) (BoolNode true))], [], ""⟩) ∧
    eval 2 (VarNode "q") ⟨[("q", NullNode "")]⟩ ⟨[], [], ""⟩
      = (.error (.thrown_cstr "runtime: cannot evaluate empty return type"),
          ⟨[("q", NullNode "")]⟩, ⟨[], [], ""⟩) ∧
    (eval 3 (VarNode "p") ⟨[]⟩
        ⟨[("p", PairNode (LambdaNode 7 ["x"] (VarNode "x") "") (NullNode ""))], [], ""⟩).1
      = .error (.thrown_cstr "runtime: cannot evaluate empty return type") :=
  ⟨(C6_var_reference ⟨[]⟩ ⟨[], [], ""⟩ "foo").1 rfl rfl (by decide) 0,
   (C6_var_reference ⟨[]⟩ ⟨[("x", PairNode (IntNode 1) (BoolNode true))], [], ""⟩ "x").2.1
      (PairNode (IntNode 1) (BoolNode true)) rfl rfl 5,
   (C6_var_reference ⟨[]⟩ ⟨[("x", PairNode (IntNode 1) (BoolNode true))], [], ""⟩ "x").2.2.1
      (PairNode (IntNode 1) (BoolNode true)) rfl rfl 2 (by decide),
   (C6_var_reference ⟨[("q", NullNode "")]⟩ ⟨[], [], ""⟩ "q").2.2.2.1 "" rfl 0,
   (C6_var_reference ⟨[]⟩
      ⟨[("p", PairNode (LambdaNode 7 ["x"] (VarNode "x") "") (NullNode ""))], [], ""⟩
      "p").2.2.2.2 (PairNode (LambdaNode 7 ["x"] (VarNode "x") "") (NullNode "")) rfl rfl rfl 2
      (by decide)⟩

/-- C6 as stated fails.  After `(define p (cons (newline) 2))` the name `p` is bound at top
level to the pair of a quiet value and 2, and evaluating `p` does not return that pair: it
throws `runtime: cannot evaluate empty return type`, with every amount of fuel from 10 on. -/
theorem C6_counterexample :
    eval 10 (BindNode "p" (PairNode (ProcNode [VarNode "newline"]) (IntNode 2)))
        Env.initial World.initial
      = (.ok (NullNode "p"), Env.initial,
          ⟨[("p", PairNode (NullNode "") (IntNode 2))], [], "\n"⟩) ∧
    Env.find Env.initial ⟨[("p", PairNode (NullNode "") (IntNode 2))], [], "\n"⟩ "p"
      = .ok (PairNode (NullNode "") (IntNode 2)) ∧
    (∀ more, eval (10 + more) (VarNode "p") Env.initial
        ⟨[("p", PairNode (NullNode "") (IntNode 2))], [], "\n"⟩
      = (.error (.thrown_cstr "runtime: cannot evaluate empty return type"), Env.initial,
          ⟨[("p", PairNode (NullNode "") (IntNode 2))], [], "\n"⟩)) ∧
    (∀ more, main_batch (20 + more) "(define p (cons (newline) 2)) p"
      = some "\nerror: runtime: cannot evaluate empty return type\n") :=
  ⟨rfl, rfl, fun more => eval_fuel_mono_of_eq 10 more _ _ _ _ rfl (by simp),
    fun more => main_batch_fuel_mono 20 more _ _ (by decide)⟩

/-! ## C7: `define` -/

/-- C7.  If `e` evaluates to `v`, then `Bind(name, e)` returns the quiet value whose message is
`name`; afterwards the top-level maps `name` to `v`, every other top-level entry is as the
evaluation of `e` left it, and so are the output and the captured environments; the local frame
of the caller is unchanged. -/
theorem C7_bind (fuel : Nat) (name : String) (e v : ASTNode) (env env1 : Env) (w w1 : World)
    (h : eval fuel e env w = (.ok v, env1, w1)) :
    ∃ w2, eval (fuel + 1) (BindNode name e) env w = (.ok (NullNode name), env, w2) ∧
      to_string (NullNode name) = name ∧
      w2.toplvl.find name = some v ∧
      (∀ other, other ≠ name → w2.toplvl.find other = w1.toplvl.find other) ∧
      w2.out = w1.out ∧ w2.env_ = w1.env_ := by
  have henv : env1 = env := by
    have := eval_env fuel e env w
    rw [h] at this
    exact this
  subst henv
  refine ⟨{ w1 with toplvl := w1.toplvl.insert_or_assign name v }, ?_, ?_, ?_, ?_, rfl, rfl⟩
  · simp [eval, BindNode_eval, h, Env.insert]
  · simp [to_string, to_string_internal]
  · exact unordered_map.find_insert_same _ _ _
  · intro other hne
    exact unordered_map.find_insert_other _ _ _ _ hne

/-- C7 on `(define x (+ 1 2))` evaluated in a frame that binds `y`, with `x` and `z` already
defined at top level: the old binding of `x` is replaced and `z` is kept. -/
theorem C7_bind_witness :
    ∃ w2, eval 4 (BindNode "x" (ProcNode [VarNode "+", IntNode 1, IntNode 2]))
        ⟨[("y", IntNode 7)]⟩ ⟨[("x", IntNode 0), ("z", IntNode 9)], [], ""⟩
          = (.ok (NullNode "x"), ⟨[("y", IntNode 7)]⟩, w2) ∧
      to_string (NullNode "x") = "x" ∧
      w2.toplvl.find "x" = some (IntNode 3) ∧
      (∀ other, other ≠ "x" → w2.toplvl.find other
        = unordered_map.find [("x", IntNode 0), ("z", IntNode 9)] other) ∧
      w2.out = "" ∧ w2.env_ = [] :=
  C7_bind 3 "x" (ProcNode [VarNode "+", IntNode 1, IntNode 2]) (IntNode 3)
    ⟨[("y", IntNode 7)]⟩ ⟨[("y", IntNode 7)]⟩ ⟨[("x", IntNode 0), ("z", IntNode 9)], [], ""⟩
    ⟨[("x", IntNode 0), ("z", IntNode 9)], [], ""⟩ rfl

/-! ## C8: the order of the layers in `Env::find` -/

/-- C8.  `Env::find` returns the binding of the local frame if the local frame binds the name;
otherwise the top-level binding if there is one; otherwise a `BuiltinNode` carrying the name if
the table of built-ins has it; otherwise it throws `unbound variable: NAME`.  Hence a local
binding shadows everything, and a top-level binding shadows a built-in. -/
theorem C8_find_layer_order (env : Env) (w : World) (name : String) :
    (∀ v, env.bindings_.find name = some v → env.find w name = .ok v) ∧
    (∀ v, env.bindings_.find name = none → w.toplvl.find name = some v →
      env.find w name = .ok v) ∧
    (env.bindings_.find name = none → w.toplvl.find name = none →
      Builtins.functions.count name ≠ 0 → env.find w name = .ok (BuiltinNode name)) ∧
    (env.bindings_.find name = none → w.toplvl.find name = none →
      Builtins.functions.count name = 0 →
      env.find w name = .error (.thrown ("unbound variable: " ++ name))) ∧
    (∀ v, (env.insert w name v false).1.find (env.insert w name v false).2 name = .ok v) ∧
    (∀ v, env.bindings_.find name = none →
      (env.insert w name v true).1.find (env.insert w name v true).2 name = .ok v) := by
  refine ⟨?_, ?_, ?_, ?_, ?_, ?_⟩
  · intro v h
    simp [Env.find, h]
  · intro v h1 h2
    simp [Env.find, h1, h2]
  · intro h1 h2 h3
    simp [Env.find, h1, h2, h3]
  · intro h1 h2 h3
    simp [Env.find, h1, h2, h3, throw_error]
  · intro v
    simp [Env.find, Env.insert, unordered_map.find_insert_same]
  · intro v h
    simp [Env.find, Env.insert, unordered_map.find_insert_same, h]

/-- The four layers of C8 on concrete environments: `car` bound locally, at top level, only as
a built-in, and the name `foo` bound nowhere; then a local and a top-level binding of `car`. -/
theorem C8_find_layer_order_witness :
    Env.find ⟨[("car", IntNode 1)]⟩ ⟨[("car", IntNode 2)], [], ""⟩ "car" = .ok (IntNode 1) ∧
    Env.find ⟨[]⟩ ⟨[("car", IntNode 2)], [], ""⟩ "car" = .ok (IntNode 2) ∧
    Env.find ⟨[]⟩ ⟨[], [], ""⟩ "car" = .ok (BuiltinNode "car") ∧
    Env.find ⟨[]⟩ ⟨[], [], ""⟩ "foo" = .error (.thrown ("unbound variable: " ++ "foo")) ∧
    (Env.insert ⟨[]⟩ ⟨[("car", IntNode 2)], [], ""⟩ "car" (IntNode 3) false).1.find
      (Env.insert ⟨[]⟩ ⟨[("car", IntNode 2)], [], ""⟩ "car" (IntNode 3) false).2 "car"
        = .ok (IntNode 3) ∧
    (Env.insert ⟨[]⟩ ⟨[], [], ""⟩ "car" (IntNode 4) true).1.find
      (Env.insert ⟨[]⟩ ⟨[], [], ""⟩ "car" (IntNode 4) true).2 "car" = .ok (IntNode 4) :=
  ⟨(C8_find_layer_order ⟨[("car", IntNode 1)]⟩ ⟨[("car", IntNode 2)], [], ""⟩ "car").1
      (IntNode 1) rfl,
   (C8_find_layer_order ⟨[]⟩ ⟨[("car", IntNode 2)], [], ""⟩ "car").2.1 (IntNode 2) rfl rfl,
   (C8_find_layer_order ⟨[]⟩ ⟨[], [], ""⟩ "car").2.2.1 rfl rfl (by decide),
   (C8_find_layer_order ⟨[]⟩ ⟨[], [], ""⟩ "foo").2.2.2.1 rfl rfl (by decide),
   (C8_find_layer_order ⟨[]⟩ ⟨[("car", IntNode 2)], [], ""⟩ "car").2.2.2.2.1 (IntNode 3),
   (C8_find_layer_order ⟨[]⟩ ⟨[], [], ""⟩ "car").2.2.2.2.2 (IntNode 4) rfl⟩

/-! ## C9: printing and reading back -/

/-- The ten decimal digits. -/
theorem digitChar_mem (m : Nat) (h : m < 10) :
    Nat.digitChar m ∈ ['0', '1', '2', '3', '4', '5', '6', '7', '8', '9'] := by
  interval_cases m <;> decide

theorem digitChar_value (m : Nat) (h : m < 10) : ((Nat.digitChar m).toNat : Int) - 48 = m := by
  interval_cases m <;> decide

/-- The digits `Nat.toDigitsCore` puts in front of its accumulator: they are decimal digits and
reading them back, from any start value, appends the number. -/
theorem toDigitsCore_spec (fuel n : Nat) (ds : List Char) (h : n < fuel) :
    ∃ pre : List Char, Nat.toDigitsCore 10 fuel n ds = pre ++ ds ∧ pre ≠ [] ∧
      (∀ c ∈ pre, c ∈ ['0', '1', '2', '3', '4', '5', '6', '7', '8', '9']) ∧
      ∀ acc : Int, pre.foldl (fun a d => 10 * a + ((d.toNat : Int) - 48)) acc
        = acc * 10 ^ pre.length + n := by
  induction fuel generalizing n ds with
  | zero => omega
  | succ f ih =>
    have hmod : n % 10 < 10 := Nat.mod_lt _ (by decide)
    by_cases h0 : n / 10 = 0
    · refine ⟨[Nat.digitChar (n % 10)], ?_, by simp, ?_, ?_⟩
      · simp [Nat.toDigitsCore, h0]
      · intro c hc
        simp only [List.mem_singleton] at hc
        subst hc
        exact digitChar_mem _ hmod
      · intro acc
        have hn : n % 10 = n := by omega
        have hv := digitChar_value _ hmod
        rw [hn] at hv
        simp only [List.foldl, List.length_singleton, pow_one, hn, hv]
        ring
    · have hlt : n / 10 < f := by omega
      obtain ⟨pre, hpre, hne, hmem, hfold⟩ := ih (n / 10) (Nat.digitChar (n % 10) :: ds) hlt
      refine ⟨pre ++ [Nat.digitChar (n % 10)], ?_, by simp, ?_, ?_⟩
      · simp [Nat.toDigitsCore, h0, hpre]
      · intro c hc
        rcases List.mem_append.mp hc with hc | hc
        · exact hmem c hc
        · simp only [List.mem_singleton] at hc
          subst hc
          exact digitChar_mem _ hmod
      · intro acc
        simp only [List.foldl_append, List.foldl, hfold, digitChar_value _ hmod,
          List.length_append, List.length_singleton, pow_succ]
        have : (n : Int) = 10 * ((n / 10 : Nat) : Int) + ((n % 10 : Nat) : Int) := by
          have := Nat.div_add_mod n 10
          omega
        rw [this]
        push_cast
        ring

/-- What the tokenizer and `stoi` need to know about a decimal digit. -/
theorem digit_facts (c : Char) (h : c ∈ ['0', '1', '2', '3', '4', '5', '6', '7', '8', '9']) :
    c.isDigit = true ∧ token_char c = true ∧ tolower c = c ∧ c ≠ '-' ∧ c ≠ '+' ∧
      isspace c = false ∧ c ≠ '(' ∧ c ≠ '#' := by
  simp only [List.mem_cons, List.mem_singleton, List.not_mem_nil, or_false] at h
  rcases h with rfl | rfl | rfl | rfl | rfl | rfl | rfl | rfl | rfl | rfl <;> decide

/-- A run of token characters is collected into the token buffer. -/
theorem tokenize_loop_token (cs : List Char) (hcs : ∀ c ∈ cs, token_char c = true) (p : Parser)
    (token : String) :
    tokenize_loop cs p token false = tokenize_loop [] p (String.mk (token.data ++ cs)) false := by
  induction cs generalizing token with
  | nil => simp
  | cons c cs ih =>
    have hc := hcs c (List.mem_cons_self _ _)
    simp only [token_char, Bool.and_eq_true, decide_eq_true_eq, Bool.not_eq_true',
      ne_eq] at hc
    obtain ⟨⟨⟨⟨h1, h2⟩, h3⟩, h4⟩, h5⟩ := hc
    have step : tokenize_loop (c :: cs) p token false
        = tokenize_loop cs p (token.push c) false := by
      rw [tokenize_loop]
      simp only [Bool.false_eq_true, if_false, h1, h2, h3, h4, h5, Bool.not_false, if_true]
    rw [step, ih (fun x hx => hcs x (List.mem_cons_of_mem _ hx))]
    simp [String.push]

/-- A text that is one run of token characters already in lower case is one token. -/
theorem tokenize_single (cs : List Char) (hne : cs ≠ []) (hcs : ∀ c ∈ cs, token_char c = true)
    (hlow : ∀ c ∈ cs, tolower c = c) (ml : Bool) :
    (Parser.new ml).reset.tokenize cs
      = (status.success, { paren_ := 0, multiline_ := ml, tokens_ := [String.mk cs] }) := by
  have hmap : cs.map tolower = cs := by
    conv_rhs => rw [← List.map_id cs]
    exact List.map_congr_left (fun c hc => by simpa using hlow c hc)
  have hs : String.mk cs ≠ "" := by
    intro h
    have : cs = [] := by simpa using congrArg String.data h
    exact hne this
  rw [Parser.tokenize, tokenize_loop_token cs hcs]
  simp [tokenize_loop, try_push, hs, hmap, Parser.new, Parser.reset]

/-- Function `std::stoi` on an optional minus sign followed by decimal digits only. -/
theorem stoi_digits (ds : List Char) (hne : ds ≠ [])
    (hd : ∀ c ∈ ds, c ∈ ['0', '1', '2', '3', '4', '5', '6', '7', '8', '9']) (neg : Bool) :
    stoi (String.mk ((if neg then ['-'] else []) ++ ds)) =
      (if (if neg then -(ds.foldl (fun a d => 10 * a + ((d.toNat : Int) - 48)) 0)
            else ds.foldl (fun a d => 10 * a + ((d.toNat : Int) - 48)) 0) < INT_MIN ∨
          INT_MAX < (if neg then -(ds.foldl (fun a d => 10 * a + ((d.toNat : Int) - 48)) 0)
            else ds.foldl (fun a d => 10 * a + ((d.toNat : Int) - 48)) 0)
        then .out_of_range
        else .value (if neg then -(ds.foldl (fun a d => 10 * a + ((d.toNat : Int) - 48)) 0)
            else ds.foldl (fun a d => 10 * a + ((d.toNat : Int) - 48)) 0)) := by
  have htake : ds.takeWhile Char.isDigit = ds :=
    List.takeWhile_eq_self_iff.mpr (fun c hc => (digit_facts c (hd c hc)).1)
  obtain ⟨d, rest, hds⟩ := List.exists_cons_of_ne_nil hne
  have hdf := digit_facts d (hd d (by rw [hds]; exact List.mem_cons_self _ _))
  cases neg with
  | true =>
    have hsp : isspace '-' = false := by decide
    simp only [stoi, if_true, List.singleton_append, List.dropWhile_cons, hsp,
      Bool.false_eq_true, if_false, htake, hne]
  | false =>
    subst hds
    simp only [stoi, if_false, Bool.false_eq_true, List.nil_append, List.dropWhile_cons,
      hdf.2.2.2.2.2.1, hdf.2.2.2.1, hdf.2.2.2.2.1, htake]
    simp

/-- The print form of an integer: an optional minus sign and the decimal digits of its
absolute value. -/
theorem int_to_string_spec (n : Int) :
    ∃ (ds : List Char) (neg : Bool),
      int_to_string n = String.mk ((if neg then ['-'] else []) ++ ds) ∧ ds ≠ [] ∧
      (∀ c ∈ ds, c ∈ ['0', '1', '2', '3', '4', '5', '6', '7', '8', '9']) ∧
      (if neg then -(ds.foldl (fun a d => 10 * a + ((d.toNat : Int) - 48)) 0)
        else ds.foldl (fun a d => 10 * a + ((d.toNat : Int) - 48)) 0) = n := by
  cases n with
  | ofNat m =>
    obtain ⟨pre, hpre, hne, hmem, hfold⟩ := toDigitsCore_spec (m + 1) m [] (Nat.lt_succ_self m)
    refine ⟨pre, false, ?_, hne, hmem, ?_⟩
    · have : int_to_string (Int.ofNat m) = String.mk (Nat.toDigitsCore 10 (m + 1) m []) := rfl
      rw [this, hpre]
      simp
    · simp [hfold 0]
  | negSucc m =>
    obtain ⟨pre, hpre, hne, hmem, hfold⟩ :=
      toDigitsCore_spec (m + 1 + 1) (m + 1) [] (Nat.lt_succ_self _)
    refine ⟨pre, true, ?_, hne, hmem, ?_⟩
    · have : int_to_string (Int.negSucc m)
          = String.mk ('-' :: Nat.toDigitsCore 10 (m + 1 + 1) (m + 1) []) := rfl
      rw [this, hpre]
      simp
    · simp only [if_true, hfold 0, zero_mul, zero_add]
      rw [Int.negSucc_eq]
      push_cast
      ring

/-! ### The stream of the read-eval-print loop -/

/-- The loop of the tokenizer reads the stream to its end unless it returns `failure`. -/
theorem tokenize_unread_nil (src : List Char) (p : Parser) (token : String) (in_comment : Bool)
    (h : (tokenize_loop src p token in_comment).1 ≠ status.failure) :
    tokenize_unread src p.paren_ in_comment = [] := by
  induction src generalizing p token in_comment with
  | nil => rfl
  | cons c src ih =>
    have hp : (try_push p token).1.paren_ = p.paren_ := by
      unfold try_push
      split <;> rfl
    rcases hr : try_push p token with ⟨q, tk⟩
    rw [hr] at hp
    simp only at hp
    cases in_comment with
    | true =>
      simp only [tokenize_loop, if_true] at h
      simp only [tokenize_unread, if_true]
      exact ih p token _ h
    | false =>
      by_cases hsemi : c = ';'
      · simp only [tokenize_loop, hsemi, hr, if_true, Bool.false_eq_true, if_false] at h
        simp only [tokenize_unread, hsemi, if_true, Bool.false_eq_true, if_false]
        rw [← hp]
        exact ih q tk true h
      · by_cases hopen : c = '('
        · simp only [tokenize_loop, hsemi, hopen, hr, if_true, Bool.false_eq_true, if_false] at h
          simp only [tokenize_unread, hsemi, hopen, if_true, Bool.false_eq_true, if_false]
          rw [← hp]
          exact ih { q with tokens_ := q.tokens_ ++ ["("], paren_ := q.paren_ + 1 } tk false
            (by simpa using h)
        · by_cases hclose : c = ')'
          · simp only [tokenize_loop, hsemi, hopen, hclose, hr, if_true, Bool.false_eq_true,
              if_false] at h
            simp only [tokenize_unread, hsemi, hopen, hclose, if_true, Bool.false_eq_true,
              if_false]
            rw [← hp]
            by_cases hz : q.paren_ ≤ 0
            · simp [hz] at h
            · simp only [hz, if_false] at h ⊢
              exact ih { q with tokens_ := q.tokens_ ++ [")"], paren_ := q.paren_ - 1 } tk false h
          · simp only [tokenize_loop, hsemi, hopen, hclose, hr, if_true, Bool.false_eq_true,
              if_false] at h
            simp only [tokenize_unread, hsemi, hopen, hclose, if_true, Bool.false_eq_true,
              if_false]
            by_cases hsp : isspace c = true
            · simp only [hsp, if_true] at h
              rw [← hp]
              exact ih q tk false h
            · simp only [hsp, if_false] at h
              by_cases heof : is_EOF c = true
              · simp only [heof, Bool.not_true, Bool.false_eq_true, if_false] at h
                exact ih p token false h
              · simp only [heof, Bool.not_false, if_true] at h
                have := ih p (token.push c) false
                exact this h

/-- When the loop of the tokenizer returns `failure`, it has stopped behind a `)`: the stream is
what it has read, that `)`, and what it leaves unread. -/
theorem tokenize_unread_failure (src : List Char) (p : Parser) (token : String)
    (in_comment : Bool) (h : (tokenize_loop src p token in_comment).1 = status.failure) :
    ∃ read, src = read ++ ')' :: tokenize_unread src p.paren_ in_comment := by
  induction src generalizing p token in_comment with
  | nil =>
    simp only [tokenize_loop] at h
    split at h <;> simp at h
  | cons c src ih =>
    have hp : (try_push p token).1.paren_ = p.paren_ := by
      unfold try_push
      split <;> rfl
    rcases hr : try_push p token with ⟨q, tk⟩
    rw [hr] at hp
    simp only at hp
    have step : ∀ (d : Char) (q2 : Parser) (tk2 : String) (ic : Bool),
        (tokenize_loop src q2 tk2 ic).1 = status.failure →
        ∃ read, d :: src = read ++ ')' :: tokenize_unread src q2.paren_ ic := by
      intro d q2 tk2 ic h2
      obtain ⟨read, hread⟩ := ih q2 tk2 ic h2
      exact ⟨d :: read, by rw [List.cons_append, ← hread]⟩
    cases in_comment with
    | true =>
      simp only [tokenize_loop, if_true] at h
      simp only [tokenize_unread, if_true]
      exact step _ p token _ h
    | false =>
      by_cases hsemi : c = ';'
      · simp only [tokenize_loop, hsemi, hr, if_true, Bool.false_eq_true, if_false] at h
        simp only [tokenize_unread, hsemi, if_true, Bool.false_eq_true, if_false]
        rw [← hp]
        exact step _ q tk true h
      · by_cases hopen : c = '('
        · simp only [tokenize_loop, hsemi, hopen, hr, if_true, Bool.false_eq_true, if_false] at h
          simp only [tokenize_unread, hsemi, hopen, if_true, Bool.false_eq_true, if_false]
          rw [← hp]
          exact step _ { q with tokens_ := q.tokens_ ++ ["("], paren_ := q.paren_ + 1 } tk false
            (by simpa using h)
        · by_cases hclose : c = ')'
          · simp only [tokenize_loop, hsemi, hopen, hclose, hr, if_true, Bool.false_eq_true,
              if_false] at h
            simp only [tokenize_unread, hsemi, hopen, hclose, if_true, Bool.false_eq_true,
              if_false]
            rw [← hp]
            by_cases hz : q.paren_ ≤ 0
            · simp only [hz, if_true]
              exact ⟨[], rfl⟩
            · simp only [hz, if_false] at h ⊢
              exact step _ { q with tokens_ := q.tokens_ ++ [")"], paren_ := q.paren_ - 1 } tk
                false h
          · simp only [tokenize_loop, hsemi, hopen, hclose, hr, if_true, Bool.false_eq_true,
              if_false] at h
            simp only [tokenize_unread, hsemi, hopen, hclose, if_true, Bool.false_eq_true,
              if_false]
            by_cases hsp : isspace c = true
            · simp only [hsp, if_true] at h
              rw [← hp]
              exact step _ q tk false h
            · simp only [hsp, if_false] at h
              by_cases heof : is_EOF c = true
              · simp only [heof, Bool.not_true, Bool.false_eq_true, if_false] at h
                exact step _ p token false h
              · simp only [heof, Bool.not_false, if_true] at h
                exact step _ p (token.push c) false h

set_option maxRecDepth 100000 in
/-- Rounds of the loop that follow one another.  The tokenizer stops at the second `)` of the
line `(list)) (display 5)`; the rest of the line stays in the stream, and the next round reads
it in front of its own line: in front of an empty line it is the form `(display 5)`, in front
of the line `(display 6)` the stream holds two forms and is rejected.  The closures that two
rounds create have different identities, so each has its own member `env_`. -/
theorem read_eval_rounds :
    read_eval 0 20 [] "(list)) (display 5)" Env.initial World.initial
      = (some (.ok (NullNode ""), Env.initial,
          ⟨[], [], "error: tokenizer: unable to match `)` to any previous `(`\n"⟩),
        " (display 5)".data) ∧
    read_eval (next_base 0 "(list)) (display 5)".data) 20 " (display 5)".data "" Env.initial
        ⟨[], [], ""⟩
      = (some (.ok (NullNode ""), Env.initial, ⟨[], [], "5"⟩), []) ∧
    read_eval (next_base 0 "(list)) (display 5)".data) 20 " (display 5)".data "(display 6)"
        Env.initial ⟨[], [], ""⟩
      = (some (.error (.thrown "parser: invalid s-expression"), Env.initial, ⟨[], [], ""⟩),
        []) ∧
    read_eval 0 20 [] "(define (f) 1)" Env.initial World.initial
      = (some (.ok (NullNode "f"), Env.initial,
          ⟨[("f", LambdaNode 0 [] (IntNode 1) "f")], [(0, Env.initial)], ""⟩), []) ∧
    next_base 0 "(define (f) 1)".data = 7 ∧
    read_eval 7 20 [] "(define (g) 2)" Env.initial
        ⟨[("f", LambdaNode 0 [] (IntNode 1) "f")], [(0, Env.initial)], ""⟩
      = (some (.ok (NullNode "g"), Env.initial,
          ⟨[("f", LambdaNode 0 [] (IntNode 1) "f"), ("g", LambdaNode 7 [] (IntNode 2) "g")],
            [(0, Env.initial), (7, Env.initial)], ""⟩), []) :=
  ⟨rfl, rfl, rfl, rfl, by decide, rfl⟩

/-- The reading of a text that consists of one integer literal. -/
theorem read_eval_int (base fuel : Nat) (n : Int) (hlo : INT_MIN ≤ n) (hhi : n ≤ INT_MAX)
    (env : Env) (w : World) :
    read_eval base (fuel + 2) [] (to_string (IntNode n)) env w
      = (some (.ok (IntNode n), env, w), []) := by
  obtain ⟨ds, neg, hstr, hne, hmem, hval⟩ := int_to_string_spec n
  have hts : to_string (IntNode n) = int_to_string n := by simp [to_string, to_string_internal]
  obtain ⟨d, rest, hds⟩ := List.exists_cons_of_ne_nil hne
  have hdf := digit_facts d (hmem d (by rw [hds]; exact List.mem_cons_self _ _))
  -- the characters of the text
  have hall : ∀ c ∈ (if neg then ['-'] else []) ++ ds, token_char c = true ∧ tolower c = c := by
    intro c hc
    rcases List.mem_append.mp hc with hc | hc
    · cases neg with
      | true =>
        simp only [if_true, List.mem_singleton] at hc
        subst hc
        decide
      | false => simp at hc
    · exact ⟨(digit_facts c (hmem c hc)).2.1, (digit_facts c (hmem c hc)).2.2.1⟩
  have hcsne : (if neg then ['-'] else []) ++ ds ≠ [] := by
    intro h
    exact hne (List.append_eq_nil.mp h).2
  have htok := tokenize_single _ hcsne (fun c hc => (hall c hc).1) (fun c hc => (hall c hc).2) true
  -- the shape of the token
  have hstoi := stoi_digits ds hne hmem neg
  rw [hval] at hstoi
  have hrange : ¬ (n < INT_MIN ∨ INT_MAX < n) := by omega
  simp only [hrange, if_false] at hstoi
  have hhead : ∀ s : String, s.data.head? = some '(' ∨ s.data.head? = some '#' →
      String.mk ((if neg then ['-'] else []) ++ ds) ≠ s := by
    intro s hs heq
    have hd2 : ((if neg then ['-'] else []) ++ ds).head? = s.data.head? := by
      rw [← heq]
    cases neg with
    | true =>
      simp only [if_true, List.singleton_append, List.head?_cons] at hd2
      rcases hs with hs | hs <;> rw [hs] at hd2 <;> simp at hd2
    | false =>
      subst hds
      simp only [if_false, Bool.false_eq_true, List.nil_append, List.head?_cons] at hd2
      rcases hs with hs | hs <;> rw [hs] at hd2 <;> simp only [Option.some.injEq] at hd2
      · exact hdf.2.2.2.2.2.2.1 hd2
      · exact hdf.2.2.2.2.2.2.2 hd2
  have h1 := hhead "(" (Or.inl rfl)
  have h2 := hhead "#t" (Or.inr rfl)
  have h3 := hhead "#f" (Or.inr rfl)
  have hun := tokenize_unread_nil ((if neg then ['-'] else []) ++ ds) (Parser.new true).reset ""
    false (by
      have := htok
      rw [Parser.tokenize] at this
      rw [this]
      exact fun h => status.noConfusion h)
  have hp0 : (Parser.new true).reset.paren_ = 0 := rfl
  rw [hp0] at hun
  rw [hts, hstr]
  simp only [read_eval, Parser.parse, List.nil_append, htok, hun]
  simp [parse_immediate, parse_immediate_body, deref, h1, h2, h3, hstoi, bind, Except.bind, pure, Except.pure, eval,
    SeqNode_eval]

/-- C9 as far as it holds.  The print form of an integer (in the range of `int`), of a
boolean and of Unit, given to the reader as a line of input (in any round of the loop, with
nothing left unread before it), is tokenized, parsed and evaluated without error, in any
environment, to the value that was printed; the state is unchanged and the line is read to its
end. -/
theorem C9_print_parse_round_trip (fuel : Nat) (env : Env) (w : World) :
    (∀ (base : Nat) (n : Int), INT_MIN ≤ n → n ≤ INT_MAX →
      read_eval base (fuel + 2) [] (to_string (IntNode n)) env w
        = (some (.ok (IntNode n), env, w), [])) ∧
    (∀ (base : Nat) (b : Bool),
      read_eval base (fuel + 2) [] (to_string (BoolNode b)) env w
        = (some (.ok (BoolNode b), env, w), [])) ∧
    (∀ base : Nat,
      read_eval base (fuel + 2) [] (to_string UnitNode) env w
        = (some (.ok UnitNode, env, w), [])) := by
  refine ⟨fun base n hlo hhi => read_eval_int base fuel n hlo hhi env w, ?_, ?_⟩
  · intro base b
    have ht : (Parser.new true).reset.tokenize "#t".data
        = (status.success, { paren_ := 0, multiline_ := true, tokens_ := ["#t"] }) := by decide
    have hf : (Parser.new true).reset.tokenize "#f".data
        = (status.success, { paren_ := 0, multiline_ := true, tokens_ := ["#f"] }) := by decide
    have hut : tokenize_unread "#t".data 0 false = [] := by decide
    have huf : tokenize_unread "#f".data 0 false = [] := by decide
    cases b
    · simp [read_eval, Parser.parse, to_string, to_string_internal, hf, huf, parse_immediate,
        parse_immediate_body, deref, bind, Except.bind, pure, Except.pure, eval, SeqNode_eval]
    · simp [read_eval, Parser.parse, to_string, to_string_internal, ht, hut, parse_immediate,
        parse_immediate_body, deref, bind, Except.bind, pure, Except.pure, eval, SeqNode_eval]
  · intro base
    have hu : (Parser.new true).reset.tokenize "()".data
        = (status.success, { paren_ := 0, multiline_ := true, tokens_ := ["(", ")"] }) := by
      decide
    have huu : tokenize_unread "()".data 0 false = [] := by decide
    simp [read_eval, Parser.parse, to_string, to_string_internal, hu, huu, parse_immediate,
      parse_immediate_body, deref, prev, bind, Except.bind, pure, Except.pure, eval,
      SeqNode_eval]

/-- C9 on the print forms `5`, `-3`, `#t` and `()`. -/
theorem C9_print_parse_round_trip_witness :
    to_string (IntNode 5) = "5" ∧ to_string (IntNode (-3)) = "-3" ∧
    read_eval 0 (0 + 2) [] (to_string (IntNode 5)) Env.initial World.initial
      = (some (.ok (IntNode 5), Env.initial, World.initial), []) ∧
    read_eval 0 (0 + 2) [] (to_string (IntNode (-3))) Env.initial World.initial
      = (some (.ok (IntNode (-3)), Env.initial, World.initial), []) ∧
    read_eval 0 (0 + 2) [] (to_string (BoolNode true)) Env.initial World.initial
      = (some (.ok (BoolNode true), Env.initial, World.initial), []) ∧
    read_eval 0 (0 + 2) [] (to_string UnitNode) Env.initial World.initial
      = (some (.ok UnitNode, Env.initial, World.initial), []) :=
  ⟨by decide, by decide,
    (C9_print_parse_round_trip 0 Env.initial World.initial).1 0 5 (by decide) (by decide),
    (C9_print_parse_round_trip 0 Env.initial World.initial).1 0 (-3) (by decide) (by decide),
    (C9_print_parse_round_trip 0 Env.initial World.initial).2.1 0 true,
    (C9_print_parse_round_trip 0 Env.initial World.initial).2.2 0⟩

/-- C9 as stated fails for the list of the claim.  The value of `(list 1 2 3)` is a proper list
of integers and prints as `(1 2 3)`; read back, that text is the call of `1` with the arguments
2 and 3, and evaluating it throws `non-callable type cannot be called`, with every amount of
fuel from 10 on. -/
theorem C9_counterexample :
    eval 10 (construct_list [IntNode 1, IntNode 2, IntNode 3]) Env.initial World.initial
      = (.ok (PairNode (IntNode 1) (PairNode (IntNode 2) (PairNode (IntNode 3) UnitNode))),
          Env.initial, World.initial) ∧
    is_list (PairNode (IntNode 1) (PairNode (IntNode 2) (PairNode (IntNode 3) UnitNode)))
      = true ∧
    to_string (PairNode (IntNode 1) (PairNode (IntNode 2) (PairNode (IntNode 3) UnitNode)))
      = "(1 2 3)" ∧
    parse_immediate 0 ["(", "1", "2", "3", ")"] 10 0 5
      = .ok (ProcNode [IntNode 1, IntNode 2, IntNode 3]) ∧
    read_eval 0 10 []
        (to_string (PairNode (IntNode 1) (PairNode (IntNode 2) (PairNode (IntNode 3) UnitNode))))
        Env.initial World.initial
      = (some (.error (.thrown "non-callable type cannot be called"), Env.initial,
          World.initial), []) ∧
    (∀ more, eval (10 + more) (ProcNode [IntNode 1, IntNode 2, IntNode 3]) Env.initial
        World.initial
      = (.error (.thrown "non-callable type cannot be called"), Env.initial, World.initial)) ∧
    (∀ more, main_batch (10 + more) "(display (list 1 2 3))" = some "(1 2 3)") ∧
    (∀ more, main_batch (10 + more) "(1 2 3)"
      = some "error: non-callable type cannot be called\n") :=
  ⟨rfl, rfl, by decide, rfl, rfl,
    fun more => eval_fuel_mono_of_eq 10 more _ _ _ _ rfl (by simp),
    fun more => main_batch_fuel_mono 10 more _ _ (by decide),
    fun more => main_batch_fuel_mono 10 more _ _ (by decide)⟩

/-! ## C10: the print form of pairs -/

theorem is_list_construct_list (vs : List ASTNode) : is_list (construct_list vs) = true := by
  induction vs with
  | nil => rfl
  | cons v vs ih => simpa [construct_list, is_list] using ih

/-- A node that is not a proper list prints the same inside and outside a list spine. -/
theorem to_string_internal_not_list (b : ASTNode) (h : is_list b = false) :
    to_string_internal b false = to_string_internal b true := by
  cases b with
  | PairNode first_ second_ =>
    have h2 : is_list second_ = false := by simpa [is_list] using h
    simp [to_string_internal, h2]
  | UnitNode => simp [is_list] at h
  | _ => simp [to_string_internal]

/-- One step along the spine of a proper list that goes on. -/
theorem to_string_internal_cons (a t : ASTNode) (outer : Bool) (hl : is_list t = true)
    (hu : is_unit t = false) :
    to_string_internal (PairNode a t) outer
      = (if outer then "(" else "") ++ (to_string_internal a true ++ " "
          ++ to_string_internal t false) ++ (if outer then ")" else "") := by
  cases outer <;> simp [to_string_internal, hl, hu, String.append_assoc]

/-- The spine of a proper list, printed without the enclosing parentheses. -/
theorem to_string_internal_spine (v : ASTNode) (vs : List ASTNode) :
    to_string_internal (construct_list (v :: vs)) false
      = spaced ((v :: vs).map to_string) := by
  induction vs generalizing v with
  | nil => simp [construct_list, to_string_internal, is_list, is_unit, spaced, to_string]
  | cons y ys ih =>
    have hl : is_list (construct_list (y :: ys)) = true := is_list_construct_list _
    have hu : is_unit (construct_list (y :: ys)) = false := by simp [construct_list, is_unit]
    have e : construct_list (v :: y :: ys) = PairNode v (construct_list (y :: ys)) := rfl
    rw [e, to_string_internal_cons v _ false hl hu, ih y]
    simp [spaced, to_string, String.append_assoc]

/-- C10.  A pair that is a proper list with the elements `v :: vs` prints as one pair of
parentheses around the full print forms of the elements, separated by single blanks; a pair
whose second component is not a proper list prints as `(first . second)` with both components
in their full print form. -/
theorem C10_pair_printing :
    (∀ (v : ASTNode) (vs : List ASTNode),
      to_string (construct_list (v :: vs)) = "(" ++ spaced ((v :: vs).map to_string) ++ ")") ∧
    (∀ (first_ second_ : ASTNode), is_list second_ = false →
      to_string (PairNode first_ second_)
        = "(" ++ to_string first_ ++ " . " ++ to_string second_ ++ ")") := by
  constructor
  · intro v vs
    cases vs with
    | nil => simp [construct_list, to_string, to_string_internal, is_list, is_unit, spaced]
    | cons y ys =>
      have hl : is_list (construct_list (y :: ys)) = true := is_list_construct_list _
      have hu : is_unit (construct_list (y :: ys)) = false := by simp [construct_list, is_unit]
      have e : construct_list (v :: y :: ys) = PairNode v (construct_list (y :: ys)) := rfl
      rw [to_string, e, to_string_internal_cons v _ true hl hu, to_string_internal_spine y ys]
      simp [spaced, to_string, String.append_assoc]
  · intro first_ second_ h
    have hu : is_unit second_ = false := by
      cases second_ <;> simp [is_unit, is_list] at h ⊢
    simp only [to_string, to_string_internal, h, hu, to_string_internal_not_list second_ h]
    simp [String.append_assoc]

/-- The second half of C10 on `(cons 1 2)`, and the three print forms named in the claim, each
evaluated from the source text. -/
theorem C10_pair_printing_witness :
    to_string (PairNode (IntNode 1) (IntNode 2))
      = "(" ++ to_string (IntNode 1) ++ " . " ++ to_string (IntNode 2) ++ ")" ∧
    main_batch 20 "(cons 1 2)" = some "(1 . 2)\n" ∧
    main_batch 20 "(list 1 2 3)" = some "(1 2 3)\n" ∧
    main_batch 20 "(cons 1 (list 2 3))" = some "(1 2 3)\n" :=
  ⟨C10_pair_printing.2 (IntNode 1) (IntNode 2) rfl, by decide, by decide, by decide⟩

/-! ## Proper lists -/

/-- What `is_list` accepts is a proper list. -/
theorem ProperList_of_is_list : ∀ v : ASTNode, is_list v = true → ProperList v
  | UnitNode, _ => .unit
  | PairNode a b, h => .pair a b (ProperList_of_is_list b (by simpa [is_list] using h))
  | IntNode _, h => by simp [is_list] at h
  | BoolNode _, h => by simp [is_list] at h
  | NullNode _, h => by simp [is_list] at h
  | SeqNode _, h => by simp [is_list] at h
  | VarNode _, h => by simp [is_list] at h
  | BindNode _ _, h => by simp [is_list] at h
  | LetNode _ _ _, h => by simp [is_list] at h
  | ProcNode _, h => by simp [is_list] at h
  | BuiltinNode _, h => by simp [is_list] at h
  | LambdaNode _ _ _ _, h => by simp [is_list] at h
  | CondNode _ _, h => by simp [is_list] at h
  | AndNode _, h => by simp [is_list] at h
  | OrNode _, h => by simp [is_list] at h

/-- The function `is_list` decides the proper lists. -/
theorem is_list_iff_ProperList (v : ASTNode) : is_list v = true ↔ ProperList v := by
  constructor
  · exact ProperList_of_is_list v
  · intro h
    induction h with
    | unit => rfl
    | pair a b _ ih => simpa [is_list] using ih

/-- A proper list is the nesting of its elements. -/
theorem ProperList_iff_construct_list (v : ASTNode) :
    ProperList v ↔ ∃ vs, v = construct_list vs := by
  constructor
  · intro h
    induction h with
    | unit => exact ⟨[], rfl⟩
    | pair a b _ ih =>
      obtain ⟨vs, hvs⟩ := ih
      exact ⟨a :: vs, by simp [construct_list, hvs]⟩
  · rintro ⟨vs, rfl⟩
    induction vs with
    | nil => exact .unit
    | cons a vs ih => exact .pair a _ ih

theorem is_list_elements {v : ASTNode} (h : is_list v = true) : ∃ vs, v = construct_list vs :=
  (ProperList_iff_construct_list v).1 ((is_list_iff_ProperList v).1 h)

/-- The lambda `get_length` counts the elements. -/
theorem get_length_construct_list (vs : List ASTNode) (count : Nat) :
    get_length (construct_list vs) count = .ok (count + vs.length) := by
  induction vs generalizing count with
  | nil => simp [construct_list, get_length]
  | cons a vs ih =>
    simp only [construct_list, get_length, ih, List.length_cons]
    congr 1
    omega

/-- The lambda `concat` puts the elements of the first list before the second list. -/
theorem concat_construct_list (xs : List ASTNode) (r : ASTNode) :
    concat (construct_list xs) r = .ok (xs.foldr PairNode r) := by
  induction xs with
  | nil => simp [construct_list, concat]
  | cons a xs ih => simp [construct_list, concat, ih, bind, Except.bind, pure, Except.pure]

theorem foldr_construct_list (xs ys : List ASTNode) :
    xs.foldr PairNode (construct_list ys) = construct_list (xs ++ ys) := by
  induction xs with
  | nil => rfl
  | cons a xs ih => simp [construct_list, ih]

/-! ## C11: `append` and `length` -/

/-- The arity check of a built-in, when the count is wrong. -/
theorem enforce_arg_exact_count_ne (fname : String) (args : List ASTNode) (count : Nat)
    (h : args.length ≠ count) :
    enforce_arg_exact_count fname args count
      = .error (.thrown ("procedure `" ++ fname ++ "`: " ++ ("expected exactly " ++ toString count
          ++ " args, got " ++ toString args.length))) := by
  simp [enforce_arg_exact_count, assert_throw, h]

/-- The arity check of a built-in, when the count is right. -/
theorem enforce_arg_exact_count_eq (fname : String) (args : List ASTNode) (count : Nat)
    (h : args.length = count) : enforce_arg_exact_count fname args count = .ok () := by
  simp [enforce_arg_exact_count, assert_throw, h]

/-- The built-in `length` on a proper list. -/
theorem length_construct_list (vs : List ASTNode) (out : String) :
    Builtins.length [construct_list vs] out = (.ok (IntNode (wrap32 vs.length)), out) := by
  simp [Builtins.length, no_output, enforce_arg_exact_count, enforce_all_list, assert_throw,
    is_list_construct_list, front, get_length_construct_list, bind, Except.bind, pure,
    Except.pure]

/-- The built-in `append` on two proper lists. -/
theorem append_construct_list (xs ys : List ASTNode) (out : String) :
    Builtins.append [construct_list xs, construct_list ys] out
      = (.ok (construct_list (xs ++ ys)), out) := by
  simp [Builtins.append, no_output, enforce_arg_exact_count, enforce_all_list, assert_throw,
    is_list_construct_list, front, back, concat_construct_list, foldr_construct_list, bind,
    Except.bind]

/-- The sum of two lengths, as the built-in `+` computes it. -/
theorem add_lengths (a b : Nat) (out : String) :
    Builtins.add [IntNode (wrap32 a), IntNode (wrap32 b)] out
      = (.ok (IntNode (wrap32 (a + b))), out) := by
  have h : wrap32 (wrap32 (wrap32 a) + wrap32 b) = wrap32 (a + b) := by
    unfold wrap32
    omega
  simp [Builtins.add, no_output, enforce_all_numeric, assert_throw, is_numeric, accumulate,
    get_numeric, bind, Except.bind, pure, Except.pure, h]


/-- C11.  On two proper lists, with the elements `xs` and `ys`, the built-in `append` returns
the proper list of the elements `xs ++ ys`; the built-in `length` returns the number of
elements as an `int`, so the length of the result is the sum of the two lengths, also as the
built-in `+` computes it, and it is the exact sum when that fits in 32 bits.  Both built-ins
throw a `std::string` (recoverable) when the number of arguments is wrong or an argument is not
a proper list. -/
theorem C11_append_length (ev : Evaluator) (w : World) :
    (∀ L1 L2 : ASTNode, is_list L1 = true → is_list L2 = true →
      ∃ (xs ys : List ASTNode) (r : ASTNode),
        L1 = construct_list xs ∧ L2 = construct_list ys ∧ r = construct_list (xs ++ ys) ∧
        call ev (BuiltinNode "append") [L1, L2] w = (.ok r, w) ∧
        is_list r = true ∧
        call ev (BuiltinNode "length") [L1] w = (.ok (IntNode (wrap32 xs.length)), w) ∧
        call ev (BuiltinNode "length") [L2] w = (.ok (IntNode (wrap32 ys.length)), w) ∧
        call ev (BuiltinNode "length") [r] w
          = (.ok (IntNode (wrap32 (xs.length + ys.length))), w) ∧
        call ev (BuiltinNode "+") [IntNode (wrap32 xs.length), IntNode (wrap32 ys.length)] w
          = (.ok (IntNode (wrap32 (xs.length + ys.length))), w) ∧
        ((xs.length + ys.length : Int) ≤ INT_MAX →
          wrap32 xs.length = xs.length ∧ wrap32 ys.length = ys.length ∧
          wrap32 (xs.length + ys.length) = xs.length + ys.length)) ∧
    (∀ args : List ASTNode, args.length ≠ 2 →
      call ev (BuiltinNode "append") args w
        = (.error (.thrown ("procedure `append`: expected exactly 2 args, got "
            ++ toString args.length)), w)) ∧
    (∀ L1 L2 : ASTNode, (is_list L1 && is_list L2) = false →
      call ev (BuiltinNode "append") [L1, L2] w
        = (.error (.thrown "procedure `append`: argument(s) must be of type list"), w)) ∧
    (∀ args : List ASTNode, args.length ≠ 1 →
      call ev (BuiltinNode "length") args w
        = (.error (.thrown ("procedure `length`: expected exactly 1 args, got "
            ++ toString args.length)), w)) ∧
    (∀ L : ASTNode, is_list L = false →
      call ev (BuiltinNode "length") [L] w
        = (.error (.thrown "procedure `length`: argument(s) must be of type list"), w)) := by
  have happ : Builtins.functions.find "append" = some Builtins.append := rfl
  have hlen : Builtins.functions.find "length" = some Builtins.length := rfl
  have hadd : Builtins.functions.find "+" = some Builtins.add := rfl
  refine ⟨?_, ?_, ?_, ?_, ?_⟩
  · intro L1 L2 h1 h2
    obtain ⟨xs, rfl⟩ := is_list_elements h1
    obtain ⟨ys, rfl⟩ := is_list_elements h2
    refine ⟨xs, ys, construct_list (xs ++ ys), rfl, rfl, rfl, ?_, is_list_construct_list _,
      ?_, ?_, ?_, ?_, ?_⟩
    · simp [call, happ, append_construct_list]
    · simp [call, hlen, length_construct_list]
    · simp [call, hlen, length_construct_list]
    · simp [call, hlen, length_construct_list]
    · simp [call, hadd, add_lengths]
    · intro hfit
      unfold INT_MAX at hfit
      unfold wrap32
      omega
  · intro args hn
    have e : "procedure `" ++ "append" ++ "`: " ++ ("expected exactly " ++ toString 2
        ++ " args, got ") = "procedure `append`: expected exactly 2 args, got " := by decide
    simp only [call, happ, Builtins.append, no_output, enforce_arg_exact_count_ne _ _ _ hn,
      bind, Except.bind]
    rw [← e]
    simp [String.append_assoc]
  · intro L1 L2 hl
    have hl2 : is_list L1 = false ∨ is_list L2 = false := by
      cases h1 : is_list L1 <;> simp [h1] at hl ⊢
      exact hl
    simp [call, happ, Builtins.append, no_output, enforce_arg_exact_count, enforce_all_list,
      assert_throw, hl2, bind, Except.bind]
  · intro args hn
    have e : "procedure `" ++ "length" ++ "`: " ++ ("expected exactly " ++ toString 1
        ++ " args, got ") = "procedure `length`: expected exactly 1 args, got " := by decide
    simp only [call, hlen, Builtins.length, no_output, enforce_arg_exact_count_ne _ _ _ hn,
      bind, Except.bind]
    rw [← e]
    simp [String.append_assoc]
  · intro L hl
    simp [call, hlen, Builtins.length, no_output, enforce_arg_exact_count, enforce_all_list,
      assert_throw, hl, bind, Except.bind]


set_option maxRecDepth 100000 in
/-- C11 on the lists `(1 2)` and `(3 4 5)`, and what the batch driver prints for the law and
for the four kinds of misuse. -/
theorem C11_append_length_witness :
    (∃ (xs ys : List ASTNode) (r : ASTNode),
        construct_list [IntNode 1, IntNode 2] = construct_list xs ∧
        construct_list [IntNode 3, IntNode 4, IntNode 5] = construct_list ys ∧
        r = construct_list (xs ++ ys) ∧
        call (eval 0) (BuiltinNode "append")
          [construct_list [IntNode 1, IntNode 2],
            construct_list [IntNode 3, IntNode 4, IntNode 5]] World.initial
          = (.ok r, World.initial) ∧
        is_list r = true ∧
        call (eval 0) (BuiltinNode "length") [construct_list [IntNode 1, IntNode 2]]
            World.initial
          = (.ok (IntNode (wrap32 xs.length)), World.initial) ∧
        call (eval 0) (BuiltinNode "length") [construct_list [IntNode 3, IntNode 4, IntNode 5]]
            World.initial
          = (.ok (IntNode (wrap32 ys.length)), World.initial) ∧
        call (eval 0) (BuiltinNode "length") [r] World.initial
          = (.ok (IntNode (wrap32 (xs.length + ys.length))), World.initial) ∧
        call (eval 0) (BuiltinNode "+")
            [IntNode (wrap32 xs.length), IntNode (wrap32 ys.length)] World.initial
          = (.ok (IntNode (wrap32 (xs.length + ys.length))), World.initial) ∧
        ((xs.length + ys.length : Int) ≤ INT_MAX →
          wrap32 xs.length = xs.length ∧ wrap32 ys.length = ys.length ∧
          wrap32 (xs.length + ys.length) = xs.length + ys.length)) ∧
    main_batch 20 "(append (list 1 2) (list 3 4 5))" = some "(1 2 3 4 5)\n" ∧
    main_batch 20 "(length (append (list 1 2) (list 3 4 5)))" = some "5\n" ∧
    main_batch 20 "(+ (length (list 1 2)) (length (list 3 4 5)))" = some "5\n" ∧
    main_batch 20 "(length (append (list) (list)))" = some "0\n" ∧
    main_batch 20 "(append (list 1) 2)"
      = some "error: procedure `append`: argument(s) must be of type list\n" ∧
    main_batch 20 "(append (list 1))"
      = some "error: procedure `append`: expected exactly 2 args, got 1\n" ∧
    main_batch 20 "(length (cons 1 2))"
      = some "error: procedure `length`: argument(s) must be of type list\n" ∧
    main_batch 20 "(length (list 1) (list 2))"
      = some "error: procedure `length`: expected exactly 1 args, got 2\n" :=
  ⟨(C11_append_length (eval 0) World.initial).1 (construct_list [IntNode 1, IntNode 2])
      (construct_list [IntNode 3, IntNode 4, IntNode 5]) rfl rfl,
    by decide, by decide, by decide, by decide, by decide, by decide, by decide, by decide⟩

/-! ## Evaluation of a list of nodes in order -/

/-- The loop `eval_args` succeeds exactly when its nodes can be evaluated in order, and then it
returns their values and the state after the last of them. -/
theorem eval_args_iff_in_order {ev : Evaluator} (hev : EnvPreserving ev) (es vs : List ASTNode)
    (env env1 : Env) (w w2 : World) :
    eval_args ev es env w = (.ok vs, env1, w2) ↔
      env1 = env ∧ evaluated_in_order ev env es w vs w2 := by
  constructor
  · intro h
    induction es generalizing vs w with
    | nil =>
      obtain ⟨h1, h2, h3⟩ := eval_args_nil_ok h
      subst h1 h2 h3
      exact ⟨rfl, .nil _⟩
    | cons e es ih =>
      obtain ⟨v, vs1, env0, w0, he, hes, hvs⟩ := eval_args_cons_ok h
      have h0 : env0 = env := by
        have := hev e env w
        rw [he] at this
        exact this
      subst h0 hvs
      obtain ⟨h1, h2⟩ := ih vs1 w0 hes
      exact ⟨h1, .cons e es v vs1 w w0 w2 he h2⟩
  · rintro ⟨rfl, h⟩
    induction h with
    | nil w => rfl
    | cons e es v vs w w1 w2 he _ ih => simp [eval_args, he, ih]

/-- Evaluation in order gives one value for each node. -/
theorem evaluated_in_order_length {ev : Evaluator} {env : Env} {es vs : List ASTNode}
    {w w2 : World} (h : evaluated_in_order ev env es w vs w2) : vs.length = es.length := by
  induction h with
  | nil w => rfl
  | cons e es v vs w w1 w2 _ _ ih => simp [ih]

/-- Evaluation in order with some fuel is evaluation in order with more fuel. -/
theorem evaluated_in_order_fuel_mono (fuel more : Nat) {env : Env} {es vs : List ASTNode}
    {w w2 : World} (h : evaluated_in_order (eval fuel) env es w vs w2) :
    evaluated_in_order (eval (fuel + more)) env es w vs w2 := by
  induction h with
  | nil w => exact .nil w
  | cons e es v vs w w1 w2 he _ ih =>
    exact .cons e es v vs w w1 w2 (eval_fuel_mono_of_eq fuel more e env w _ he (by simp)) ih

/-! ## C12: proper lists and the form `list` -/

/-- Evaluation from last to first gives one value for each node. -/
theorem evaluated_last_to_first_length {ev : Evaluator} {env : Env} {es vs : List ASTNode}
    {w w2 : World} (h : evaluated_last_to_first ev env es w vs w2) : vs.length = es.length := by
  induction h with
  | nil w => rfl
  | cons e es v vs w w1 w2 _ _ ih => simp [ih]

/-- Evaluation from last to first with some fuel is evaluation from last to first with more
fuel. -/
theorem evaluated_last_to_first_fuel_mono (fuel more : Nat) {env : Env} {es vs : List ASTNode}
    {w w2 : World} (h : evaluated_last_to_first (eval fuel) env es w vs w2) :
    evaluated_last_to_first (eval (fuel + more)) env es w vs w2 := by
  induction h with
  | nil w => exact .nil w
  | cons e es v vs w w1 w2 _ he ih =>
    exact .cons e es v vs w w1 w2 ih (eval_fuel_mono_of_eq fuel more e env w1 _ he (by simp))

/-- Evaluation from last to first is evaluation in order of the reversed list. -/
theorem evaluated_last_to_first_iff_reverse {ev : Evaluator} {env : Env} (es vs : List ASTNode)
    (w w2 : World) :
    evaluated_last_to_first ev env es w vs w2 ↔
      vs.length = es.length ∧ evaluated_in_order ev env es.reverse w vs.reverse w2 := by
  have snoc : ∀ (xs ys : List ASTNode) (e v : ASTNode) (wa wb wc : World),
      evaluated_in_order ev env xs wa ys wb → ev e env wb = (.ok v, env, wc) →
      evaluated_in_order ev env (xs ++ [e]) wa (ys ++ [v]) wc := by
    intro xs ys e v wa wb wc h he
    induction h with
    | nil w0 => exact .cons e [] v [] _ _ _ he (.nil _)
    | cons e0 es0 v0 vs0 w0 w1 w3 he0 _ ih => exact .cons e0 _ v0 _ _ _ _ he0 (ih he)
  have unsnoc : ∀ (xs ys : List ASTNode) (e v : ASTNode) (wa wc : World),
      ys.length = xs.length → evaluated_in_order ev env (xs ++ [e]) wa (ys ++ [v]) wc →
      ∃ wb, evaluated_in_order ev env xs wa ys wb ∧ ev e env wb = (.ok v, env, wc) := by
    intro xs
    induction xs with
    | nil =>
      intro ys e v wa wc hl h
      have hys : ys = [] := List.length_eq_zero.mp hl
      subst hys
      cases h with
      | cons _ _ _ _ _ w1 _ he hrest =>
        cases hrest
        exact ⟨wa, .nil _, he⟩
    | cons x xs ih =>
      intro ys e v wa wc hl h
      cases ys with
      | nil => simp at hl
      | cons y ys =>
        cases h with
        | cons _ _ _ _ _ w1 _ he hrest =>
          obtain ⟨wb, h1, h2⟩ := ih ys e v w1 wc (by simpa using hl) hrest
          exact ⟨wb, .cons x xs y ys _ _ _ he h1, h2⟩
  constructor
  · intro h
    induction h with
    | nil w0 => exact ⟨rfl, .nil _⟩
    | cons e es v vs w0 w1 w3 _ he ih =>
      refine ⟨by simp [ih.1], ?_⟩
      rw [List.reverse_cons, List.reverse_cons]
      exact snoc _ _ e v _ _ _ ih.2 he
  · induction es generalizing vs w2 with
    | nil =>
      rintro ⟨hl, h⟩
      have hvs : vs = [] := List.length_eq_zero.mp hl
      subst hvs
      cases h
      exact .nil _
    | cons e es ih =>
      rintro ⟨hl, h⟩
      cases vs with
      | nil => simp at hl
      | cons v vs =>
        rw [List.reverse_cons, List.reverse_cons] at h
        obtain ⟨wb, h1, h2⟩ := unsnoc es.reverse vs.reverse e v w w2
          (by simpa using hl) h
        exact .cons e es v vs _ _ _ (ih vs wb ⟨by simpa using hl, h1⟩) h2

/-- The nested pairs that the parser builds for `(list e1 ... en)` evaluate to the list of the
values of the elements; the elements are evaluated from the last to the first. -/
theorem eval_construct_list (fuel : Nat) (env : Env) (es vs : List ASTNode) (w w2 : World)
    (h : evaluated_last_to_first (eval fuel) env es w vs w2) :
    eval (fuel + es.length + 1) (construct_list es) env w = (.ok (construct_list vs), env, w2) := by
  induction h with
  | nil w => simp [construct_list, eval]
  | cons e es v vs w w1 w2 _ he ih =>
    have he2 : eval (fuel + es.length + 1) e env w1 = (.ok v, env, w2) := by
      rw [Nat.add_assoc]
      exact eval_fuel_mono_of_eq fuel (es.length + 1) e env w1 _ he (by simp)
    have e1 : fuel + (e :: es).length + 1 = (fuel + es.length + 1) + 1 := by
      simp only [List.length_cons]
      omega
    have e2 : eval (fuel + es.length + 1 + 1) (PairNode e (construct_list es)) env w
        = PairNode_eval (eval (fuel + es.length + 1)) e (construct_list es) env w := rfl
    rw [e1]
    simp only [construct_list, e2, PairNode_eval, ih, he2]

/-- When the nested pairs of `(list e1 ... en)` evaluate to a value, the elements have been
evaluated from the last to the first, and the value is the list of their values. -/
theorem construct_list_evaluated (fuel : Nat) (env env1 : Env) (es : List ASTNode) (v : ASTNode)
    (w w2 : World) (h : eval fuel (construct_list es) env w = (.ok v, env1, w2)) :
    ∃ vs, v = construct_list vs ∧ env1 = env ∧
      evaluated_last_to_first (eval fuel) env es w vs w2 := by
  induction es generalizing fuel v env1 w2 with
  | nil =>
    cases fuel with
    | zero => simp [eval] at h
    | succ n =>
      simp only [construct_list, eval, Prod.mk.injEq, Except.ok.injEq] at h
      obtain ⟨h1, h2, h3⟩ := h
      subst h1 h2 h3
      exact ⟨[], rfl, rfl, .nil _⟩
  | cons e es ih =>
    cases fuel with
    | zero => simp [eval] at h
    | succ n =>
      have e2 : eval (n + 1) (construct_list (e :: es)) env w
          = PairNode_eval (eval n) e (construct_list es) env w := rfl
      rw [e2] at h
      rcases hr : eval n (construct_list es) env w with ⟨r, enva, wa⟩
      cases r with
      | error err => simp [PairNode_eval, hr] at h
      | ok rv =>
        obtain ⟨vs, hvs, henv, hrest⟩ := ih n enva rv wa hr
        subst henv
        rcases hr2 : eval n e enva wa with ⟨r2, envb, wb⟩
        cases r2 with
        | error err => simp [PairNode_eval, hr, hr2] at h
        | ok lv =>
          simp only [PairNode_eval, hr, hr2, Prod.mk.injEq, Except.ok.injEq] at h
          obtain ⟨h1, h2, h3⟩ := h
          have henvb : envb = enva := by
            have := eval_env n e enva wa
            rw [hr2] at this
            exact this
          subst h1 h2 h3 henvb hvs
          exact ⟨lv :: vs, rfl, rfl, .cons e es lv vs w wa wb
            (evaluated_last_to_first_fuel_mono n 1 hrest)
            (eval_fuel_mono_of_eq n 1 e envb wa _ hr2 (by simp))⟩

/-- The lowering of `list` in `parse_immediate`: the elements are parsed one by one and nested
into pairs by `construct_list`. -/
theorem parse_immediate_list (base : Nat) (tokens : List String) (pf begin end_ : Nat)
    (l0 : Nat) (rest : List Nat) (nodes : List ASTNode) (hne : begin ≠ end_)
    (hsplit : split_level tokens begin end_ = .ok (l0 :: rest)) (hrest : rest ≠ [])
    (hhead : deref tokens l0 = .ok "list")
    (hnodes : parse_ranges (parse_immediate base tokens pf) rest = .ok nodes) :
    parse_immediate base tokens (pf + 1) begin end_ = .ok (construct_list nodes) := by
  obtain ⟨hb, last, hl, he, hunit⟩ := split_level_ok hsplit
  have hnu : ¬ begin + 1 = last := by
    intro h
    have := hunit h
    simp only [List.cons.injEq] at this
    exact hrest this.2
  have hlen : ¬ (rest.length + 1 ≤ 1) := by
    cases rest with
    | nil => exact absurd rfl hrest
    | cons _ _ => simp
  simp [parse_immediate, parse_immediate_body, hne, hb, hl, he, hnu, hsplit, index, hhead,
    hnodes, hlen, bind, Except.bind, pure, Except.pure]


set_option maxRecDepth 100000 in
/-- C12.  The built-in `list?` returns `#t` on the proper lists (Unit, or a pair whose second
component is a proper list) and `#f` on every other value.  A form `(list e1 ... en)` is parsed
into the nesting of its parsed elements.  The nesting evaluates its elements from the last to
the first: when the elements evaluate in that order to `vn ... v1`, the form evaluates to the
proper list `v1 ... vn` of these `n` values, on which `list?` gives `#t`; and whenever the form
evaluates to a value, its elements have been evaluated in that order and the value is the list
of their values.  The batch driver prints `#f` for `(list? (cons 1 2))`, and `#t` for
`(pair? (cons 1 2))` and `(null? (list))`, with every amount of fuel from 20 on; for
`(define a 5) (list (define a 1) a)` it prints `(a 5)`: the second element is evaluated before
the first one. -/
theorem C12_list_identity (ev : Evaluator) (w : World) :
    (∀ v : ASTNode,
      call ev (BuiltinNode "list?") [v] w = (.ok (BoolNode (is_list v)), w) ∧
      (is_list v = true ↔ ProperList v)) ∧
    (∀ (base : Nat) (tokens : List String) (pf begin end_ l0 : Nat) (rest : List Nat)
        (nodes : List ASTNode), begin ≠ end_ →
      split_level tokens begin end_ = .ok (l0 :: rest) → rest ≠ [] →
      deref tokens l0 = .ok "list" →
      parse_ranges (parse_immediate base tokens pf) rest = .ok nodes →
      parse_immediate base tokens (pf + 1) begin end_ = .ok (construct_list nodes)) ∧
    (∀ (fuel : Nat) (env : Env) (es vs : List ASTNode) (w1 w2 : World),
      evaluated_last_to_first (eval fuel) env es w1 vs w2 →
      eval (fuel + es.length + 1) (construct_list es) env w1
          = (.ok (construct_list vs), env, w2) ∧
        vs.length = es.length ∧ ProperList (construct_list vs) ∧
        call ev (BuiltinNode "length") [construct_list vs] w2
          = (.ok (IntNode (wrap32 vs.length)), w2) ∧
        call ev (BuiltinNode "list?") [construct_list vs] w2 = (.ok (BoolNode true), w2)) ∧
    (∀ (fuel : Nat) (env env1 : Env) (es : List ASTNode) (v : ASTNode) (w1 w2 : World),
      eval fuel (construct_list es) env w1 = (.ok v, env1, w2) →
      ∃ vs, v = construct_list vs ∧ env1 = env ∧ vs.length = es.length ∧
        evaluated_last_to_first (eval fuel) env es w1 vs w2 ∧
        evaluated_in_order (eval fuel) env es.reverse w1 vs.reverse w2) ∧
    (∀ more, main_batch (20 + more) "(list? (cons 1 2))" = some "#f\n") ∧
    (∀ more, main_batch (20 + more) "(pair? (cons 1 2))" = some "#t\n") ∧
    (∀ more, main_batch (20 + more) "(null? (list))" = some "#t\n") ∧
    (∀ more, main_batch (20 + more) "(define a 5) (list (define a 1) a)" = some "(a 5)\n") ∧
    (∀ more, main_batch (20 + more) "(list (display 1) (display 2) 3)" = some "21(  3)\n") := by
  have hlp : Builtins.functions.find "list?" = some Builtins.list_p := rfl
  have hlen : Builtins.functions.find "length" = some Builtins.length := rfl
  have hcall : ∀ (v : ASTNode) (w0 : World),
      call ev (BuiltinNode "list?") [v] w0 = (.ok (BoolNode (is_list v)), w0) := by
    intro v w0
    simp [call, hlp, Builtins.list_p, no_output, enforce_arg_exact_count, assert_throw, front,
      bind, Except.bind, pure, Except.pure]
  refine ⟨fun v => ⟨hcall v w, is_list_iff_ProperList v⟩, ?_, ?_, ?_, ?_, ?_, ?_, ?_, ?_⟩
  · intro base tokens pf begin end_ l0 rest nodes hne hsplit hrest hhead hnodes
    exact parse_immediate_list base tokens pf begin end_ l0 rest nodes hne hsplit hrest hhead
      hnodes
  · intro fuel env es vs w1 w2 h
    refine ⟨eval_construct_list fuel env es vs w1 w2 h, evaluated_last_to_first_length h,
      (is_list_iff_ProperList _).1 (is_list_construct_list vs), ?_, ?_⟩
    · simp [call, hlen, length_construct_list]
    · rw [hcall, is_list_construct_list]
  · intro fuel env env1 es v w1 w2 h
    obtain ⟨vs, h1, h2, h3⟩ := construct_list_evaluated fuel env env1 es v w1 w2 h
    exact ⟨vs, h1, h2, evaluated_last_to_first_length h3, h3,
      ((evaluated_last_to_first_iff_reverse es vs w1 w2).1 h3).2⟩
  · exact fun more => main_batch_fuel_mono 20 more _ _ (by decide)
  · exact fun more => main_batch_fuel_mono 20 more _ _ (by decide)
  · exact fun more => main_batch_fuel_mono 20 more _ _ (by decide)
  · exact fun more => main_batch_fuel_mono 20 more _ _ (by decide)
  · exact fun more => main_batch_fuel_mono 20 more _ _ (by decide)

set_option maxRecDepth 100000 in
/-- C12 on the form `(list (+ 1 2) (display 7) (cons 1 2))`: its parse, its evaluation to the
list of the three values (the second one is the quiet value of `display`), and what the batch
driver prints for lists of several lengths. -/
theorem C12_list_identity_witness :
    parse_immediate 0
        ["(", "list", "(", "+", "1", "2", ")", "(", "display", "7", ")",
          "(", "cons", "1", "2", ")", ")"] 3 0 17
      = .ok (construct_list [ProcNode [VarNode "+", IntNode 1, IntNode 2],
          ProcNode [VarNode "display", IntNode 7], PairNode (IntNode 1) (IntNode 2)]) ∧
    (eval (5 + 3 + 1)
        (construct_list [ProcNode [VarNode "+", IntNode 1, IntNode 2],
          ProcNode [VarNode "display", IntNode 7], PairNode (IntNode 1) (IntNode 2)])
        Env.initial World.initial
        = (.ok (construct_list [IntNode 3, NullNode "", PairNode (IntNode 1) (IntNode 2)]),
            Env.initial, ⟨[], [], "7"⟩) ∧
      [IntNode 3, NullNode "", PairNode (IntNode 1) (IntNode 2)].length = 3 ∧
      ProperList (construct_list [IntNode 3, NullNode "", PairNode (IntNode 1) (IntNode 2)]) ∧
      call (eval 0) (BuiltinNode "length")
          [construct_list [IntNode 3, NullNode "", PairNode (IntNode 1) (IntNode 2)]]
          ⟨[], [], "7"⟩
        = (.ok (IntNode (wrap32
            [IntNode 3, NullNode "", PairNode (IntNode 1) (IntNode 2)].length)), ⟨[], [], "7"⟩) ∧
      call (eval 0) (BuiltinNode "list?")
          [construct_list [IntNode 3, NullNode "", PairNode (IntNode 1) (IntNode 2)]]
          ⟨[], [], "7"⟩
        = (.ok (BoolNode true), ⟨[], [], "7"⟩)) ∧
    main_batch 20 "(list? (list))" = some "#t\n" ∧
    main_batch 20 "(list? (list 1 2 3))" = some "#t\n" ∧
    main_batch 20 "(list? (list (list 1 2) (cons 3 4)))" = some "#t\n" ∧
    main_batch 20 "(list? (cons 1 (cons 2 (list))))" = some "#t\n" ∧
    main_batch 20 "(list? (cons 1 (cons 2 3)))" = some "#f\n" ∧
    main_batch 20 "(list? 5)" = some "#f\n" ∧
    main_batch 20 "(list? car)" = some "#f\n" ∧
    main_batch 20 "(list (+ 1 2) (list) (cons 1 2))" = some "(3 () (1 . 2))\n" :=
  ⟨(C12_list_identity (eval 0) World.initial).2.1 0 _ 2 0 17 1 [2, 7, 11, 16] _ (by decide)
      rfl (by decide) rfl rfl,
    (C12_list_identity (eval 0) World.initial).2.2.1 5 Env.initial
      [ProcNode [VarNode "+", IntNode 1, IntNode 2], ProcNode [VarNode "display", IntNode 7],
        PairNode (IntNode 1) (IntNode 2)]
      [IntNode 3, NullNode "", PairNode (IntNode 1) (IntNode 2)] World.initial ⟨[], [], "7"⟩
      (.cons (ProcNode [VarNode "+", IntNode 1, IntNode 2])
        [ProcNode [VarNode "display", IntNode 7], PairNode (IntNode 1) (IntNode 2)]
        (IntNode 3) [NullNode "", PairNode (IntNode 1) (IntNode 2)]
        World.initial ⟨[], [], "7"⟩ ⟨[], [], "7"⟩
        (.cons (ProcNode [VarNode "display", IntNode 7]) [PairNode (IntNode 1) (IntNode 2)]
          (NullNode "") [PairNode (IntNode 1) (IntNode 2)]
          World.initial World.initial ⟨[], [], "7"⟩
          (.cons (PairNode (IntNode 1) (IntNode 2)) [] (PairNode (IntNode 1) (IntNode 2)) []
            World.initial World.initial World.initial (.nil _) rfl) rfl) rfl),
    by decide, by decide, by decide, by decide, by decide, by decide, by decide, by decide⟩

/-! ## Where the exceptions of the evaluator come from -/

theorem SeqNode_eval_thrown {ev : Evaluator}
    (hev : ∀ x env w e, (ev x env w).1 = .error e → thrown_by_eval e) (seq : List ASTNode)
    (env : Env) (w : World) (e : Err) (h : (SeqNode_eval ev seq env w).1 = .error e) :
    thrown_by_eval e := by
  induction seq generalizing env w with
  | nil => simp [SeqNode_eval] at h
  | cons it rest ih =>
    cases rest with
    | nil => exact hev it env w e (by simpa [SeqNode_eval] using h)
    | cons y ys =>
      rcases hr : ev it env w with ⟨r, env1, w1⟩
      cases r with
      | error e0 =>
        simp only [SeqNode_eval, hr, Except.error.injEq] at h
        subst h
        exact hev it env w e0 (by rw [hr])
      | ok v =>
        simp only [SeqNode_eval, hr] at h
        exact ih env1 w1 h

theorem eval_args_thrown {ev : Evaluator}
    (hev : ∀ x env w e, (ev x env w).1 = .error e → thrown_by_eval e) (nodes : List ASTNode)
    (env : Env) (w : World) (e : Err) (h : (eval_args ev nodes env w).1 = .error e) :
    thrown_by_eval e := by
  induction nodes generalizing env w with
  | nil => simp [eval_args] at h
  | cons node rest ih =>
    rcases hr : ev node env w with ⟨r, env1, w1⟩
    cases r with
    | error e0 =>
      simp only [eval_args, hr, Except.error.injEq] at h
      subst h
      exact hev node env w e0 (by rw [hr])
    | ok v =>
      rcases hr2 : eval_args ev rest env1 w1 with ⟨r2, env2, w2⟩
      cases r2 with
      | error e2 =>
        simp only [eval_args, hr, hr2, Except.error.injEq] at h
        subst h
        exact ih env1 w1 (by rw [hr2])
      | ok vs => simp [eval_args, hr, hr2] at h

theorem LetNode_loop_thrown {ev : Evaluator}
    (hev : ∀ x env w e, (ev x env w).1 = .error e → thrown_by_eval e) (star_ : Bool)
    (bs : List (String × ASTNode)) (current env : Env) (w : World) (e : Err)
    (h : (LetNode_loop ev star_ bs current env w).1 = .error e) : thrown_by_eval e := by
  induction bs generalizing current env w with
  | nil => simp [LetNode_loop] at h
  | cons b rest ih =>
    cases star_ with
    | true =>
      rcases hr : ev b.2 current w with ⟨r, c1, w1⟩
      cases r with
      | error e0 =>
        simp only [LetNode_loop, hr, if_true, Except.error.injEq] at h
        subst h
        exact hev b.2 current w e0 (by rw [hr])
      | ok v =>
        simp only [LetNode_loop, hr, if_true] at h
        exact ih _ env _ h
    | false =>
      rcases hr : ev b.2 env w with ⟨r, env1, w1⟩
      cases r with
      | error e0 =>
        simp only [LetNode_loop, hr, Bool.false_eq_true, if_false, Except.error.injEq] at h
        subst h
        exact hev b.2 env w e0 (by rw [hr])
      | ok v =>
        simp only [LetNode_loop, hr, Bool.false_eq_true, if_false] at h
        exact ih _ env1 _ h

theorem LetNode_eval_thrown {ev : Evaluator}
    (hev : ∀ x env w e, (ev x env w).1 = .error e → thrown_by_eval e)
    (bs : List (String × ASTNode)) (body : ASTNode) (star_ : Bool) (env : Env) (w : World)
    (e : Err) (h : (LetNode_eval ev bs body star_ env w).1 = .error e) : thrown_by_eval e := by
  rcases hr : LetNode_loop ev star_ bs env env w with ⟨r, env1, w1⟩
  cases r with
  | error e0 =>
    simp only [LetNode_eval, hr, Except.error.injEq] at h
    subst h
    exact LetNode_loop_thrown hev star_ bs env env w e0 (by rw [hr])
  | ok c =>
    simp only [LetNode_eval, hr] at h
    exact hev body c w1 e h

theorem call_thrown {ev : Evaluator}
    (hev : ∀ x env w e, (ev x env w).1 = .error e → thrown_by_eval e) (proc : ASTNode)
    (args : List ASTNode) (w : World) (e : Err) (h : (call ev proc args w).1 = .error e) :
    thrown_by_eval e := by
  cases proc with
  | BuiltinNode name =>
    simp only [call] at h
    cases hf : Builtins.functions.find name with
    | none =>
      simp only [hf, Except.error.injEq] at h
      subst h
      exact .undefined _
    | some fxn_ =>
      simp only [hf] at h
      exact .builtin name fxn_ args w.out e hf h
  | LambdaNode id arg_list_ body_ name_ =>
    simp only [call, LambdaNode_call] at h
    split at h
    · rename_i hne
      simp only [throw_error, Except.error.injEq] at h
      subst h
      exact .arity_check arg_list_.length args.length hne
    · cases hc : w.env_.find id with
      | none =>
        simp only [hc, Except.error.injEq] at h
        subst h
        exact .undefined _
      | some captured =>
        simp only [hc] at h
        exact hev _ _ _ e h
  | IntNode _ | BoolNode _ | UnitNode | NullNode _ | SeqNode _ | VarNode _ | BindNode _ _
  | LetNode _ _ _ | ProcNode _ | PairNode _ _ | CondNode _ _ | AndNode _ | OrNode _ =>
    simp only [call, throw_error, Except.error.injEq] at h
    subst h
    exact .non_callable

theorem ProcNode_eval_thrown {ev : Evaluator}
    (hev : ∀ x env w e, (ev x env w).1 = .error e → thrown_by_eval e) (nodes : List ASTNode)
    (env : Env) (w : World) (e : Err) (h : (ProcNode_eval ev nodes env w).1 = .error e) :
    thrown_by_eval e := by
  cases nodes with
  | nil =>
    simp only [ProcNode_eval, Except.error.injEq] at h
    subst h
    exact .undefined _
  | cons head rest =>
    rcases hr : ev head env w with ⟨r, env1, w1⟩
    cases r with
    | error e0 =>
      simp only [ProcNode_eval, hr, Except.error.injEq] at h
      subst h
      exact hev head env w e0 (by rw [hr])
    | ok proc =>
      rcases hr2 : eval_args ev rest env1 w1 with ⟨r2, env2, w2⟩
      cases r2 with
      | error e2 =>
        simp only [ProcNode_eval, hr, hr2, Except.error.injEq] at h
        subst h
        exact eval_args_thrown hev rest env1 w1 e2 (by rw [hr2])
      | ok args =>
        simp only [ProcNode_eval, hr, hr2] at h
        exact call_thrown hev proc args w2 e h

theorem PairNode_eval_thrown {ev : Evaluator}
    (hev : ∀ x env w e, (ev x env w).1 = .error e → thrown_by_eval e) (first_ second_ : ASTNode)
    (env : Env) (w : World) (e : Err) (h : (PairNode_eval ev first_ second_ env w).1 = .error e) :
    thrown_by_eval e := by
  rcases hr : ev second_ env w with ⟨r, env1, w1⟩
  cases r with
  | error e0 =>
    simp only [PairNode_eval, hr, Except.error.injEq] at h
    subst h
    exact hev second_ env w e0 (by rw [hr])
  | ok l =>
    rcases hr2 : ev first_ env1 w1 with ⟨r2, env2, w2⟩
    cases r2 with
    | error e2 =>
      simp only [PairNode_eval, hr, hr2, Except.error.injEq] at h
      subst h
      exact hev first_ env1 w1 e2 (by rw [hr2])
    | ok r => simp [PairNode_eval, hr, hr2] at h

theorem CondNode_eval_thrown {ev : Evaluator}
    (hev : ∀ x env w e, (ev x env w).1 = .error e → thrown_by_eval e) (ps ns : List ASTNode)
    (env : Env) (w : World) (e : Err) (h : (CondNode_eval ev ps ns env w).1 = .error e) :
    thrown_by_eval e := by
  induction ps generalizing ns env w with
  | nil => simp [CondNode_eval] at h
  | cons l ls ih =>
    cases ns with
    | nil =>
      simp only [CondNode_eval, Except.error.injEq] at h
      subst h
      exact .undefined _
    | cons r rs =>
      rcases hr : ev l env w with ⟨res, env1, w1⟩
      cases res with
      | error e0 =>
        simp only [CondNode_eval, hr, Except.error.injEq] at h
        subst h
        exact hev l env w e0 (by rw [hr])
      | ok v =>
        by_cases hb : get_boolean v = true
        · simp only [CondNode_eval, hr, hb, if_true] at h
          exact hev r env1 w1 e h
        · simp only [CondNode_eval, hr, hb, if_false] at h
          exact ih rs env1 w1 h

theorem AndNode_loop_thrown {ev : Evaluator}
    (hev : ∀ x env w e, (ev x env w).1 = .error e → thrown_by_eval e) (nodes : List ASTNode)
    (val : Option ASTNode) (env : Env) (w : World) (e : Err)
    (h : (AndNode_loop ev nodes val env w).1 = .error e) : thrown_by_eval e := by
  induction nodes generalizing val env w with
  | nil =>
    cases val with
    | none =>
      simp only [AndNode_loop, Except.error.injEq] at h
      subst h
      exact .undefined _
    | some x => simp [AndNode_loop] at h
  | cons node rest ih =>
    rcases hr : ev node env w with ⟨res, env1, w1⟩
    cases res with
    | error e0 =>
      simp only [AndNode_loop, hr, Except.error.injEq] at h
      subst h
      exact hev node env w e0 (by rw [hr])
    | ok v =>
      by_cases hb : get_boolean v = true
      · simp only [AndNode_loop, hr, hb, Bool.not_true, Bool.false_eq_true, if_false] at h
        exact ih (some v) env1 w1 h
      · simp [AndNode_loop, hr, hb] at h

theorem OrNode_eval_thrown {ev : Evaluator}
    (hev : ∀ x env w e, (ev x env w).1 = .error e → thrown_by_eval e) (nodes : List ASTNode)
    (env : Env) (w : World) (e : Err) (h : (OrNode_eval ev nodes env w).1 = .error e) :
    thrown_by_eval e := by
  induction nodes generalizing env w with
  | nil => simp [OrNode_eval] at h
  | cons node rest ih =>
    rcases hr : ev node env w with ⟨res, env1, w1⟩
    cases res with
    | error e0 =>
      simp only [OrNode_eval, hr, Except.error.injEq] at h
      subst h
      exact hev node env w e0 (by rw [hr])
    | ok v =>
      by_cases hb : get_boolean v = true
      · simp [OrNode_eval, hr, hb] at h
      · simp only [OrNode_eval, hr, hb, if_false] at h
        exact ih env1 w1 h

/-- Every exception of `eval` comes from one of the places listed in `thrown_by_eval`. -/
theorem eval_thrown (fuel : Nat) (x : ASTNode) (env : Env) (w : World) (e : Err)
    (h : (eval fuel x env w).1 = .error e) : thrown_by_eval e := by
  induction fuel generalizing x env w e with
  | zero =>
    simp only [eval, Except.error.injEq] at h
    subst h
    exact .out_of_fuel
  | succ n ih =>
    cases x with
    | IntNode v => simp [eval] at h
    | BoolNode v => simp [eval] at h
    | UnitNode => simp [eval] at h
    | NullNode m =>
      simp only [eval, Except.error.injEq] at h
      subst h
      exact .quiet
    | SeqNode s => exact SeqNode_eval_thrown ih s env w e (by simpa [eval] using h)
    | VarNode name =>
      simp only [eval, VarNode_eval] at h
      cases hf : env.find w name with
      | error e0 =>
        simp only [hf, Except.error.injEq] at h
        subst h
        unfold Env.find at hf
        split at hf
        · simp at hf
        · split at hf
          · simp at hf
          · split at hf
            · simp at hf
            · simp only [throw_error, Except.error.injEq] at hf
              subst hf
              exact .unbound name
      | ok found =>
        simp only [hf] at h
        exact ih found env w e h
    | BindNode name value =>
      simp only [eval, BindNode_eval] at h
      rcases hr : eval n value env w with ⟨r, env1, w1⟩
      cases r with
      | error e0 =>
        simp only [hr, Except.error.injEq] at h
        subst h
        exact ih value env w e0 (by rw [hr])
      | ok v => simp [hr] at h
    | LetNode bs body star => exact LetNode_eval_thrown ih bs body star env w e (by simpa [eval] using h)
    | ProcNode nodes => exact ProcNode_eval_thrown ih nodes env w e (by simpa [eval] using h)
    | BuiltinNode name => simp [eval] at h
    | LambdaNode id al body name => simp [eval, LambdaNode_eval] at h
    | PairNode a b => exact PairNode_eval_thrown ih a b env w e (by simpa [eval] using h)
    | CondNode ps ns => exact CondNode_eval_thrown ih ps ns env w e (by simpa [eval] using h)
    | AndNode nodes =>
      simp only [eval, AndNode_eval] at h
      split at h
      · simp at h
      · exact AndNode_loop_thrown ih nodes none env w e h
    | OrNode nodes => exact OrNode_eval_thrown ih nodes env w e (by simpa [eval] using h)

/-! ### The message of the arity check -/

theorem unordered_map.mem_of_find {κ α : Type} [DecidableEq κ] (m : unordered_map κ α) (k : κ)
    (v : α) (h : m.find k = some v) : (k, v) ∈ m := by
  induction m with
  | nil => simp [unordered_map.find] at h
  | cons hd tl ih =>
    obtain ⟨k', v'⟩ := hd
    by_cases e : k' = k
    · simp only [unordered_map.find, e, if_true, Option.some.injEq] at h
      subst h e
      exact List.mem_cons_self _ _
    · simp only [unordered_map.find, e, if_false] at h
      exact List.mem_cons_of_mem _ (ih h)

theorem is_arity_error_arity_message (expected actual : Nat) :
    is_arity_error (.thrown (arity_message expected actual)) = true := by
  simp only [is_arity_error, arity_message, String.data_append, List.append_assoc,
    List.isPrefixOf_iff_prefix]
  exact List.prefix_append _ _

/-- A message that starts with `procedure` is not the message of the arity check. -/
theorem assert_throw_not_arity (loc msg : String) (condition : Bool) :
    ∀ e, assert_throw loc msg condition = .error e → is_arity_error e = false := by
  intro e he
  unfold assert_throw at he
  split at he
  · simp only [Except.error.injEq] at he
    subst he
    simp only [is_arity_error, String.data_append, List.append_assoc]
    rfl
  · simp at he

theorem bind_not_arity {α β : Type} (x : Except Err α) (f : α → Except Err β)
    (hx : ∀ e, x = .error e → is_arity_error e = false)
    (hf : ∀ a, x = .ok a → ∀ e, f a = .error e → is_arity_error e = false) :
    ∀ e, (x >>= f) = .error e → is_arity_error e = false := by
  intro e he
  cases x with
  | error e0 =>
    simp only [bind, Except.bind, Except.error.injEq] at he
    subst he
    exact hx e0 rfl
  | ok a => exact hf a rfl e he

theorem ite_not_arity {β : Type} (c : Prop) [Decidable c] (a b : Except Err β)
    (ha : ∀ e, a = .error e → is_arity_error e = false)
    (hb : ∀ e, b = .error e → is_arity_error e = false) :
    ∀ e, (if c then a else b) = .error e → is_arity_error e = false := by
  split
  · exact ha
  · exact hb

theorem pure_not_arity {β : Type} (x : β) :
    ∀ e, (pure x : Except Err β) = .error e → is_arity_error e = false := by
  intro e he
  simp [pure, Except.pure] at he

theorem error_not_arity {β : Type} (e0 : Err) (h0 : is_arity_error e0 = false) :
    ∀ e, (.error e0 : Except Err β) = .error e → is_arity_error e = false := by
  intro e he
  simp only [Except.error.injEq] at he
  subst he
  exact h0

theorem enforce_arg_exact_count_not_arity (fname : String) (args : List ASTNode) (count : Nat) :
    ∀ e, enforce_arg_exact_count fname args count = .error e → is_arity_error e = false :=
  assert_throw_not_arity _ _ _

theorem enforce_min_arg_count_not_arity (fname : String) (args : List ASTNode) (count : Nat) :
    ∀ e, enforce_min_arg_count fname args count = .error e → is_arity_error e = false :=
  assert_throw_not_arity _ _ _

theorem enforce_all_numeric_not_arity (fname : String) (args : List ASTNode) :
    ∀ e, enforce_all_numeric fname args = .error e → is_arity_error e = false :=
  assert_throw_not_arity _ _ _

theorem enforce_all_list_not_arity (fname : String) (args : List ASTNode) :
    ∀ e, enforce_all_list fname args = .error e → is_arity_error e = false :=
  assert_throw_not_arity _ _ _

theorem front_not_arity (args : List ASTNode) :
    ∀ e, front args = .error e → is_arity_error e = false := by
  intro e he
  cases args with
  | nil =>
    simp only [front, Except.error.injEq] at he
    subst he
    rfl
  | cons _ _ => simp [front] at he

theorem back_not_arity (args : List ASTNode) :
    ∀ e, back args = .error e → is_arity_error e = false := by
  intro e he
  unfold back at he
  split at he
  · simp only [Except.error.injEq] at he
    subst he
    rfl
  · simp at he

theorem get_numeric_not_arity (x : ASTNode) :
    ∀ e, get_numeric x = .error e → is_arity_error e = false := by
  intro e he
  cases x <;> simp only [get_numeric, Except.error.injEq] at he <;> first
    | (subst he; decide)
    | exact absurd he (by simp)

theorem get_not_arity (x : ASTNode) (idx : Nat) :
    ∀ e, get x idx = .error e → is_arity_error e = false := by
  intro e he
  cases x <;> simp only [get, Except.error.injEq] at he <;> first
    | (subst he; decide)
    | exact absurd he (by simp)

theorem accumulate_not_arity (args : List ASTNode) (init : Int) (op : Int → Int → Except Err Int)
    (hop : ∀ a b e, op a b = .error e → is_arity_error e = false) :
    ∀ e, accumulate args init op = .error e → is_arity_error e = false := by
  unfold accumulate
  induction args generalizing init with
  | nil =>
    intro e he
    simp [List.foldlM, pure, Except.pure] at he
  | cons x xs ih =>
    simp only [List.foldlM]
    apply bind_not_arity
    · apply bind_not_arity
      · exact get_numeric_not_arity x
      · intro n _
        exact hop init n
    · intro a _
      exact ih a

theorem adjacent_find_is_end_not_arity (pred : Int → Int → Bool) (args : List ASTNode) :
    ∀ e, adjacent_find_is_end pred args = .error e → is_arity_error e = false := by
  induction args with
  | nil =>
    intro e he
    simp [adjacent_find_is_end, pure, Except.pure] at he
  | cons a rest ih =>
    cases rest with
    | nil =>
      intro e he
      simp [adjacent_find_is_end, pure, Except.pure] at he
    | cons b rest2 =>
      simp only [adjacent_find_is_end]
      apply bind_not_arity
      · exact get_numeric_not_arity a
      · intro x _
        apply bind_not_arity
        · exact get_numeric_not_arity b
        · intro y _
          apply ite_not_arity
          · exact pure_not_arity _
          · exact ih

theorem foldlM_get_numeric_not_arity (step : Int → Int → Int) (rest : List ASTNode) (x : Int) :
    ∀ e, rest.foldlM (fun acc b => do
        let y ← get_numeric b
        pure (step acc y)) x = .error e → is_arity_error e = false := by
  induction rest generalizing x with
  | nil =>
    intro e he
    simp [List.foldlM, pure, Except.pure] at he
  | cons b bs ih =>
    simp only [List.foldlM]
    apply bind_not_arity
    · apply bind_not_arity
      · exact get_numeric_not_arity b
      · intro y _
        exact pure_not_arity _
    · intro a _
      exact ih a

theorem max_element_not_arity (comp : Int → Int → Bool) (args : List ASTNode) :
    ∀ e, max_element comp args = .error e → is_arity_error e = false := by
  cases args with
  | nil =>
    intro e he
    simp only [max_element, Except.error.injEq] at he
    subst he
    rfl
  | cons a rest =>
    simp only [max_element]
    apply bind_not_arity
    · exact get_numeric_not_arity a
    · intro x _
      exact foldlM_get_numeric_not_arity (fun largest y => if comp largest y then y else largest)
        rest x

theorem min_element_not_arity (comp : Int → Int → Bool) (args : List ASTNode) :
    ∀ e, min_element comp args = .error e → is_arity_error e = false := by
  cases args with
  | nil =>
    intro e he
    simp only [min_element, Except.error.injEq] at he
    subst he
    rfl
  | cons a rest =>
    simp only [min_element]
    apply bind_not_arity
    · exact get_numeric_not_arity a
    · intro x _
      exact foldlM_get_numeric_not_arity
        (fun smallest y => if comp y smallest then y else smallest) rest x

theorem get_length_not_arity : ∀ (x : ASTNode) (count : Nat),
    ∀ e, get_length x count = .error e → is_arity_error e = false
  | UnitNode, _, e, he => by simp [get_length] at he
  | PairNode _ second_, count, e, he => by
    simp only [get_length] at he
    exact get_length_not_arity second_ (count + 1) e he
  | IntNode _, _, e, he | BoolNode _, _, e, he | NullNode _, _, e, he | SeqNode _, _, e, he
  | VarNode _, _, e, he | BindNode _ _, _, e, he | LetNode _ _ _, _, e, he
  | ProcNode _, _, e, he | BuiltinNode _, _, e, he | LambdaNode _ _ _ _, _, e, he
  | CondNode _ _, _, e, he | AndNode _, _, e, he | OrNode _, _, e, he => by
    simp only [get_length, Except.error.injEq] at he
    subst he
    decide

theorem concat_not_arity : ∀ (l r : ASTNode),
    ∀ e, concat l r = .error e → is_arity_error e = false
  | UnitNode, _, e, he => by simp [concat] at he
  | PairNode _ second_, r, e, he => by
    simp only [concat] at he
    exact bind_not_arity _ _ (concat_not_arity second_ r) (fun _ _ => pure_not_arity _) e he
  | IntNode _, _, e, he | BoolNode _, _, e, he | NullNode _, _, e, he | SeqNode _, _, e, he
  | VarNode _, _, e, he | BindNode _ _, _, e, he | LetNode _ _ _, _, e, he
  | ProcNode _, _, e, he | BuiltinNode _, _, e, he | LambdaNode _ _ _ _, _, e, he
  | CondNode _ _, _, e, he | AndNode _, _, e, he | OrNode _, _, e, he => by
    simp only [concat, Except.error.injEq] at he
    subst he
    decide

theorem display_not_arity (args : List ASTNode) (out : String) :
    ∀ e, (Builtins.display args out).1 = .error e → is_arity_error e = false := by
  intro e he
  unfold Builtins.display at he
  split at he
  · simp at he
  · rename_i e0 _ h0
    simp only [Except.error.injEq] at he
    subst he
    exact enforce_arg_exact_count_not_arity _ _ _ _ h0
  · rename_i e0 _ h0
    simp only [Except.error.injEq] at he
    subst he
    exact front_not_arity _ _ h0

theorem newline_not_arity (args : List ASTNode) (out : String) :
    ∀ e, (Builtins.newline args out).1 = .error e → is_arity_error e = false := by
  intro e he
  unfold Builtins.newline at he
  split at he
  · simp at he
  · rename_i e0 h0
    simp only [Except.error.injEq] at he
    subst he
    exact enforce_arg_exact_count_not_arity _ _ _ _ h0

/-- No built-in of the table throws a message that starts like the message of the arity check
of a closure. -/
theorem builtin_not_arity (name : String) (fxn_ : builtin_fxn)
    (h : Builtins.functions.find name = some fxn_) (args : List ASTNode) (out : String) :
    ∀ e, (fxn_ args out).1 = .error e → is_arity_error e = false := by
  have hall : ∀ p ∈ Builtins.functions,
      ∀ e, (p.2 args out).1 = .error e → is_arity_error e = false := by
    simp only [Builtins.functions, List.forall_mem_cons, List.not_mem_nil, false_implies,
      implies_true, and_true]
    refine ⟨?_, ?_, ?_, ?_, ?_, ?_, ?_, ?_, ?_, ?_, ?_, ?_, ?_, ?_, ?_, ?_, ?_, ?_, ?_, ?_, ?_, ?_, ?_, ?_, ?_, ?_, ?_, ?_⟩
    all_goals first
      | exact display_not_arity args out
      | exact newline_not_arity args out
      | (simp only [Builtins.mul, Builtins.add, Builtins.sub, Builtins.div, Builtins.max, Builtins.min,
          Builtins.eq, Builtins.lt, Builtins.gt, Builtins.le, Builtins.ge, Builtins.abs,
          Builtins.expt, Builtins.modulo, Builtins.zero_p, Builtins.car, Builtins.cdr,
          Builtins.length, Builtins.append, Builtins.not, Builtins.boolean_p,
          Builtins.integer_p, Builtins.pair_p, Builtins.list_p, Builtins.procedure_p,
          Builtins.null_p, no_output]
         repeat (first
           | exact pure_not_arity _
           | exact error_not_arity _ (by decide)
           | exact enforce_arg_exact_count_not_arity _ _ _
           | exact enforce_min_arg_count_not_arity _ _ _
           | exact enforce_all_numeric_not_arity _ _
           | exact enforce_all_list_not_arity _ _
           | exact front_not_arity _
           | exact back_not_arity _
           | exact get_numeric_not_arity _
           | exact get_not_arity _ _
           | exact adjacent_find_is_end_not_arity _ _
           | exact max_element_not_arity _ _
           | exact min_element_not_arity _ _
           | exact get_length_not_arity _ _
           | exact concat_not_arity _ _
           | (apply accumulate_not_arity; intro _ _)
           | apply ite_not_arity
           | (apply bind_not_arity)
           | intro _ _))
  exact hall (name, fxn_) (unordered_map.mem_of_find _ _ _ h)

/-- The decimal digits of a natural number: no blank among them, and they determine the
number. -/
theorem toString_nat_spec (k : Nat) :
    ∃ ds : List Char, (toString k).data = ds ∧ (∀ c ∈ ds, c ≠ ' ') ∧
      ds.foldl (fun a d => 10 * a + ((d.toNat : Int) - 48)) 0 = k := by
  obtain ⟨pre, hpre, _, hmem, hfold⟩ := toDigitsCore_spec (k + 1) k [] (Nat.lt_succ_self k)
  refine ⟨pre, ?_, ?_, ?_⟩
  · have : (toString k).data = Nat.toDigitsCore 10 (k + 1) k [] := rfl
    rw [this, hpre]
    simp
  · intro c hc
    have := hmem c hc
    simp only [List.mem_cons, List.mem_singleton, List.not_mem_nil, or_false] at this
    rcases this with rfl | rfl | rfl | rfl | rfl | rfl | rfl | rfl | rfl | rfl <;> decide
  · simpa using hfold 0

theorem toString_nat_injective (k n : Nat) (h : toString k = toString n) : k = n := by
  obtain ⟨ds, h1, _, h2⟩ := toString_nat_spec k
  obtain ⟨ds2, h3, _, h4⟩ := toString_nat_spec n
  have : ds = ds2 := by rw [← h1, ← h3, h]
  subst this
  have : (k : Int) = n := by rw [← h2, ← h4]
  exact_mod_cast this

/-- Two texts without blanks, each followed by a blank, that give the same text are the same. -/
theorem append_blank_inj (K K2 X Y : List Char) (hK : ∀ c ∈ K, c ≠ ' ')
    (hK2 : ∀ c ∈ K2, c ≠ ' ') (h : K ++ ' ' :: X = K2 ++ ' ' :: Y) : K = K2 ∧ X = Y := by
  induction K generalizing K2 with
  | nil =>
    cases K2 with
    | nil => simpa using h
    | cons c cs =>
      simp only [List.nil_append, List.cons_append, List.cons.injEq] at h
      exact absurd h.1.symm (hK2 c (List.mem_cons_self _ _))
  | cons a as ih =>
    cases K2 with
    | nil =>
      simp only [List.nil_append, List.cons_append, List.cons.injEq] at h
      exact absurd h.1 (hK a (List.mem_cons_self _ _))
    | cons c cs =>
      simp only [List.cons_append, List.cons.injEq] at h
      obtain ⟨r1, r2⟩ := ih cs (fun x hx => hK x (List.mem_cons_of_mem _ hx))
        (fun x hx => hK2 x (List.mem_cons_of_mem _ hx)) h.2
      exact ⟨by rw [h.1, r1], r2⟩

/-- The message of the arity check names the two numbers. -/
theorem arity_message_inj (k n k2 n2 : Nat) (h : arity_message k n = arity_message k2 n2) :
    k = k2 ∧ n = n2 := by
  obtain ⟨K, hK, hKb, _⟩ := toString_nat_spec k
  obtain ⟨K2, hK2, hK2b, _⟩ := toString_nat_spec k2
  have hd := congrArg String.data h
  simp only [arity_message, String.data_append, List.append_assoc] at hd
  have hd2 := List.append_cancel_left hd
  rw [hK, hK2] at hd2
  simp only [List.cons_append, List.nil_append] at hd2
  obtain ⟨e1, e2⟩ := append_blank_inj K K2 _ _ hKb hK2b hd2
  have e3 : (toString n).data = (toString n2).data := by simpa using e2
  constructor
  · apply toString_nat_injective
    apply String.ext
    rw [hK, hK2, e1]
  · apply toString_nat_injective
    exact String.ext e3

/-- An exception of `eval` that starts like the message of the arity check is the message of
an arity check that failed: the two numbers it names differ. -/
theorem eval_arity_error (fuel : Nat) (x : ASTNode) (env : Env) (w : World) (e : Err)
    (h : (eval fuel x env w).1 = .error e) (ha : is_arity_error e = true) :
    ∃ expected actual, actual ≠ expected ∧ e = .thrown (arity_message expected actual) := by
  have ht := eval_thrown fuel x env w e h
  cases ht with
  | out_of_fuel => simp [is_arity_error] at ha
  | undefined s => simp [is_arity_error] at ha
  | quiet => simp [is_arity_error] at ha
  | unbound name =>
    exfalso
    simp only [is_arity_error, String.data_append] at ha
    simp [List.isPrefixOf] at ha
  | non_callable =>
    exfalso
    revert ha
    decide
  | arity_check expected actual hne => exact ⟨expected, actual, hne, rfl⟩
  | builtin name fxn_ args out e hf he =>
    rw [builtin_not_arity name fxn_ hf args out e he] at ha
    exact absurd ha (by decide)

/-- No evaluation throws the message of an arity check with two equal numbers. -/
theorem eval_not_arity_message (fuel : Nat) (x : ASTNode) (env : Env) (w : World) (k : Nat) :
    (eval fuel x env w).1 ≠ .error (.thrown (arity_message k k)) := by
  intro h
  obtain ⟨expected, actual, hne, he⟩ :=
    eval_arity_error fuel x env w _ h (is_arity_error_arity_message k k)
  simp only [Err.thrown.injEq] at he
  obtain ⟨h1, h2⟩ := arity_message_inj k k expected actual he
  exact hne (h2.symm.trans h1)

/-! ## C13: the arity of a closure -/

/-- What `ProcNode::eval` does once the head and the arguments have been evaluated. -/
theorem ProcNode_eval_in_order (fuel : Nat) (head : ASTNode) (rest : List ASTNode) (env : Env)
    (w w1 w2 : World) (proc : ASTNode) (args : List ASTNode)
    (hhead : eval fuel head env w = (.ok proc, env, w1))
    (hargs : evaluated_in_order (eval fuel) env rest w1 args w2) :
    eval (fuel + 1) (ProcNode (head :: rest)) env w
      = ((call (eval fuel) proc args w2).1, env, (call (eval fuel) proc args w2).2) := by
  have h2 := (eval_args_iff_in_order (eval_env fuel) rest args env env w1 w2).2 ⟨rfl, hargs⟩
  simp [eval, ProcNode_eval, hhead, h2]

/-- C13.  A call of a closure with `k` parameters on `n` arguments throws the message of the
arity check, `runtime: lambda function requires k args; called with n`, if and only if
`n ≠ k`.  If `n ≠ k` the call leaves the state as it was, for every body and every evaluator:
the body is not evaluated.  If `n = k` the call is not stopped by the check: its outcome is
that of evaluating the body in the frame built from the captured environment.  A procedure
call whose head evaluates to the closure and whose arguments evaluate to `n ≠ k` values ends
with that error, in the state the evaluation of the arguments left. -/
theorem C13_closure_arity (fuel : Nat) (id : Nat) (arg_list_ : List String) (body_ : ASTNode)
    (name_ : String) (args : List ASTNode) (w : World) :
    ((call (eval fuel) (LambdaNode id arg_list_ body_ name_) args w).1
        = .error (.thrown (arity_message arg_list_.length args.length)) ↔
      args.length ≠ arg_list_.length) ∧
    arity_message arg_list_.length args.length
      = "runtime: lambda function requires " ++ toString arg_list_.length
        ++ " args; called with " ++ toString args.length ∧
    (args.length ≠ arg_list_.length → ∀ ev : Evaluator,
      call ev (LambdaNode id arg_list_ body_ name_) args w
        = (.error (.thrown (arity_message arg_list_.length args.length)), w)) ∧
    (args.length = arg_list_.length → ∀ (ev : Evaluator) (captured : Env),
      w.env_.find id = some captured →
      ∃ current : Env,
        call ev (LambdaNode id arg_list_ body_ name_) args w
          = ((ev body_ current w).1, (ev body_ current w).2.2)) ∧
    (args.length ≠ arg_list_.length →
      ∀ (head : ASTNode) (rest : List ASTNode) (env : Env) (w0 w1 : World),
        eval fuel head env w0 = (.ok (LambdaNode id arg_list_ body_ name_), env, w1) →
        evaluated_in_order (eval fuel) env rest w1 args w →
        eval (fuel + 1) (ProcNode (head :: rest)) env w0
          = (.error (.thrown (arity_message arg_list_.length args.length)), env, w)) := by
  have h1 : args.length ≠ arg_list_.length →
      ∀ ev : Evaluator, call ev (LambdaNode id arg_list_ body_ name_) args w
        = (.error (.thrown (arity_message arg_list_.length args.length)), w) := by
    intro hne ev
    simp [call, LambdaNode_call, hne, throw_error, arity_message]
  have h2 : args.length = arg_list_.length → ∀ (ev : Evaluator) (captured : Env),
      w.env_.find id = some captured →
      ∃ current : Env,
        call ev (LambdaNode id arg_list_ body_ name_) args w
          = ((ev body_ current w).1, (ev body_ current w).2.2) := by
    intro heq ev captured hcap
    refine ⟨(if name_ ≠ "" then
        ((bind_arguments arg_list_ args captured w).1.insert
          (bind_arguments arg_list_ args captured w).2 name_
          (LambdaNode id arg_list_ body_ name_) false)
        else bind_arguments arg_list_ args captured w).1, ?_⟩
    have hw := bind_arguments_world arg_list_ args captured w
    by_cases hname : name_ = ""
    · simp [call, LambdaNode_call, heq, hcap, hname, hw]
    · simp [call, LambdaNode_call, heq, hcap, hname, hw, Env.insert]
  refine ⟨⟨?_, fun hne => by rw [h1 hne]⟩, rfl, h1, h2, ?_⟩
  · intro h heq
    cases hcap : w.env_.find id with
    | none => simp [call, LambdaNode_call, heq, hcap] at h
    | some captured =>
      obtain ⟨current, hc⟩ := h2 heq (eval fuel) captured hcap
      rw [hc, heq] at h
      exact eval_not_arity_message fuel body_ current w _ h
  · intro hne head rest env w0 w1 hhead hargs
    rw [ProcNode_eval_in_order fuel head rest env w0 w1 w _ args hhead hargs, h1 hne]

set_option maxRecDepth 100000 in
/-- C13 on a closure with two parameters called with one argument, whatever the body would do,
and the outputs of the batch driver: a call with too few or too many arguments prints the error
and nothing else (the `display` of the body does not run), a call with the right number runs
the body. -/
theorem C13_closure_arity_witness :
    call (eval 5) (LambdaNode 0 ["x", "y"] (ProcNode [VarNode "display", IntNode 1]) "")
        [IntNode 7] World.initial
      = (.error (.thrown (arity_message 2 1)), World.initial) ∧
    arity_message 2 1 = "runtime: lambda function requires 2 args; called with 1" ∧
    main_batch 20 "((lambda (x y) (display 1)) 7)"
      = some "error: runtime: lambda function requires 2 args; called with 1\n" ∧
    main_batch 20 "((lambda (x y) (display 1)) 7 8 9)"
      = some "error: runtime: lambda function requires 2 args; called with 3\n" ∧
    main_batch 20 "((lambda () (display 1)) 7)"
      = some "error: runtime: lambda function requires 0 args; called with 1\n" ∧
    main_batch 20 "(define (f x) (define y x)) (f) y"
      = some "error: runtime: lambda function requires 1 args; called with 0\n" ∧
    main_batch 20 "((lambda (x y) (display 1)) 7 8)" = some "1" ∧
    main_batch 20 "((lambda () (display 1)))" = some "1" ∧
    main_batch 20 "((lambda (x) ((lambda (a b) a) x)) 1)"
      = some "error: runtime: lambda function requires 2 args; called with 1\n" :=
  ⟨(C13_closure_arity 5 0 ["x", "y"] (ProcNode [VarNode "display", IntNode 1]) ""
      [IntNode 7] World.initial).2.2.1 (by decide) (eval 5),
    by decide, by decide, by decide, by decide, by decide, by decide, by decide, by decide⟩

/-! ## C14: the frame of a call -/

/-- A name that is not a parameter is bound after `bind_arguments` to what it was bound
before. -/
theorem bind_arguments_other (names : List String) (vs : List ASTNode) (current : Env)
    (w : World) (m : String) (hm : m ∉ names) :
    (bind_arguments names vs current w).1.bindings_.find m = current.bindings_.find m := by
  induction names generalizing vs current w with
  | nil => cases vs <;> simp [bind_arguments]
  | cons l ls ih =>
    cases vs with
    | nil => simp [bind_arguments]
    | cons r rs =>
      simp only [List.mem_cons, not_or] at hm
      simp only [bind_arguments, Env.insert, Bool.false_eq_true, if_false]
      rw [ih rs _ w hm.2]
      exact unordered_map.find_insert_other _ _ _ _ hm.1

/-- With pairwise different parameter names, `bind_arguments` binds every parameter to the
argument at the same position. -/
theorem bind_arguments_zip (names : List String) (vs : List ASTNode) (current : Env)
    (w : World) (hnd : names.Nodup) (p : String) (v : ASTNode) (hpv : (p, v) ∈ names.zip vs) :
    (bind_arguments names vs current w).1.bindings_.find p = some v := by
  induction names generalizing vs current w with
  | nil => simp at hpv
  | cons l ls ih =>
    cases vs with
    | nil => simp at hpv
    | cons r rs =>
      simp only [List.nodup_cons] at hnd
      simp only [List.zip_cons_cons, List.mem_cons, Prod.mk.injEq] at hpv
      simp only [bind_arguments, Env.insert, Bool.false_eq_true, if_false]
      rcases hpv with ⟨rfl, rfl⟩ | hpv
      · rw [bind_arguments_other ls rs _ w p hnd.1]
        exact unordered_map.find_insert_same _ _ _
      · exact ih rs _ w hnd.2 hpv

/-- A parameter that does not occur again later in the parameter list is bound to the argument
at its position. -/
theorem bind_arguments_split (pre post : List String) (p : String) (vpre vpost : List ASTNode)
    (v : ASTNode) (current : Env) (w : World) (hlen : vpre.length = pre.length)
    (hp : p ∉ post) :
    (bind_arguments (pre ++ p :: post) (vpre ++ v :: vpost) current w).1.bindings_.find p
      = some v := by
  induction pre generalizing vpre current with
  | nil =>
    cases vpre with
    | nil =>
      simp only [List.nil_append, bind_arguments, Env.insert, Bool.false_eq_true, if_false]
      rw [bind_arguments_other post vpost _ w p hp]
      exact unordered_map.find_insert_same _ _ _
    | cons _ _ => simp at hlen
  | cons l ls ih =>
    cases vpre with
    | nil => simp at hlen
    | cons r rs =>
      simp only [List.length_cons, Nat.add_right_cancel_iff] at hlen
      simp only [List.cons_append, bind_arguments, Env.insert, Bool.false_eq_true, if_false]
      exact ih rs _ hlen

/-- C14 as the source has it.  A call of a closure on as many arguments as it has parameters
evaluates the body in the frame `current`: the captured frame, then the parameters bound in
order, then the self-name (if there is one) bound to the closure.  The evaluation of the body
starts in the state of the call: the binding changes neither the top-level nor a captured
environment.  Looking up a parameter in `current` gives the argument at the same position if
the parameter does not occur again later in the parameter list and is not the self-name; so it
does for every parameter when the names are pairwise different and none of them is the
self-name.  A name that is neither a parameter nor the self-name is bound in `current` as in
the captured frame, and a self-name is bound to the closure. -/
theorem C14_call_frame (ev : Evaluator) (id : Nat) (arg_list_ : List String) (body_ : ASTNode)
    (name_ : String) (args : List ASTNode) (w : World) (captured : Env)
    (hlen : args.length = arg_list_.length) (hcap : w.env_.find id = some captured) :
    ∃ current : Env,
      call ev (LambdaNode id arg_list_ body_ name_) args w
        = ((ev body_ current w).1, (ev body_ current w).2.2) ∧
      (∀ (pre post : List String) (p : String) (vpre vpost : List ASTNode) (v : ASTNode),
        arg_list_ = pre ++ p :: post → args = vpre ++ v :: vpost → vpre.length = pre.length →
        p ∉ post → (p ≠ name_ ∨ name_ = "") → current.find w p = .ok v) ∧
      (arg_list_.Nodup → name_ ∉ arg_list_ →
        ∀ p v, (p, v) ∈ arg_list_.zip args → current.find w p = .ok v) ∧
      (∀ m, m ∉ arg_list_ → (m ≠ name_ ∨ name_ = "") →
        current.bindings_.find m = captured.bindings_.find m) ∧
      (name_ ≠ "" → current.find w name_ = .ok (LambdaNode id arg_list_ body_ name_)) := by
  have hw := bind_arguments_world arg_list_ args captured w
  by_cases hname : name_ = ""
  · refine ⟨(bind_arguments arg_list_ args captured w).1, ?_, ?_, ?_, ?_, ?_⟩
    · simp [call, LambdaNode_call, hlen, hcap, hname, hw]
    · intro pre post p vpre vpost v hl hv hlen2 hp _
      subst hl hv
      simp [Env.find, bind_arguments_split pre post p vpre vpost v captured w hlen2 hp]
    · intro hnd _ p v hpv
      simp [Env.find, bind_arguments_zip arg_list_ args captured w hnd p v hpv]
    · intro m hm _
      exact bind_arguments_other arg_list_ args captured w m hm
    · intro h
      exact absurd hname h
  · refine ⟨((bind_arguments arg_list_ args captured w).1.insert w name_
        (LambdaNode id arg_list_ body_ name_) false).1, ?_, ?_, ?_, ?_, ?_⟩
    · simp [call, LambdaNode_call, hlen, hcap, hname, hw, Env.insert]
    · intro pre post p vpre vpost v hl hv hlen2 hp hpn
      subst hl hv
      have hne : p ≠ name_ := by
        rcases hpn with h | h
        · exact h
        · exact absurd h hname
      simp [Env.find, Env.insert, unordered_map.find_insert_other _ _ _ _ hne,
        bind_arguments_split pre post p vpre vpost v captured w hlen2 hp]
    · intro hnd hself p v hpv
      have hp : p ∈ arg_list_ := (List.of_mem_zip hpv).1
      have hne : p ≠ name_ := fun e => hself (e ▸ hp)
      simp [Env.find, Env.insert, unordered_map.find_insert_other _ _ _ _ hne,
        bind_arguments_zip arg_list_ args captured w hnd p v hpv]
    · intro m hm hmn
      have hne : m ≠ name_ := by
        rcases hmn with h | h
        · exact h
        · exact absurd h hname
      simp [Env.insert, unordered_map.find_insert_other _ _ _ _ hne,
        bind_arguments_other arg_list_ args captured w m hm]
    · intro _
      simp [Env.find, Env.insert, unordered_map.find_insert_same]


set_option maxRecDepth 100000 in
/-- C14 on the closure of `(lambda (a b) (display b))` captured in a frame that binds `c`,
called on 1 and 2: the body runs in the frame that binds `c`, `a` and `b`; and the outputs of
the batch driver for calls that show each parameter. -/
theorem C14_call_frame_witness :
    (∃ current : Env,
      call (eval 5) (LambdaNode 0 ["a", "b"] (ProcNode [VarNode "display", VarNode "b"]) "")
          [IntNode 1, IntNode 2] ⟨[], [(0, ⟨[("c", IntNode 3)]⟩)], ""⟩
        = ((eval 5 (ProcNode [VarNode "display", VarNode "b"]) current
              ⟨[], [(0, ⟨[("c", IntNode 3)]⟩)], ""⟩).1,
            (eval 5 (ProcNode [VarNode "display", VarNode "b"]) current
              ⟨[], [(0, ⟨[("c", IntNode 3)]⟩)], ""⟩).2.2) ∧
      (∀ (pre post : List String) (p : String) (vpre vpost : List ASTNode) (v : ASTNode),
        ["a", "b"] = pre ++ p :: post → [IntNode 1, IntNode 2] = vpre ++ v :: vpost →
        vpre.length = pre.length → p ∉ post → (p ≠ "" ∨ "" = "") →
        current.find ⟨[], [(0, ⟨[("c", IntNode 3)]⟩)], ""⟩ p = .ok v) ∧
      (["a", "b"].Nodup → "" ∉ ["a", "b"] →
        ∀ p v, (p, v) ∈ ["a", "b"].zip [IntNode 1, IntNode 2] →
          current.find ⟨[], [(0, ⟨[("c", IntNode 3)]⟩)], ""⟩ p = .ok v) ∧
      (∀ m, m ∉ ["a", "b"] → (m ≠ "" ∨ "" = "") →
        current.bindings_.find m = (⟨[("c", IntNode 3)]⟩ : Env).bindings_.find m) ∧
      ("" ≠ "" → current.find ⟨[], [(0, ⟨[("c", IntNode 3)]⟩)], ""⟩ ""
        = .ok (LambdaNode 0 ["a", "b"] (ProcNode [VarNode "display", VarNode "b"]) ""))) ∧
    call (eval 5) (LambdaNode 0 ["a", "b"] (ProcNode [VarNode "display", VarNode "b"]) "")
        [IntNode 1, IntNode 2] ⟨[], [(0, ⟨[("c", IntNode 3)]⟩)], ""⟩
      = (.ok (NullNode ""), ⟨[], [(0, ⟨[("c", IntNode 3)]⟩)], "2"⟩) ∧
    main_batch 20 "((lambda (a b c) (list a b c)) 1 2 3)" = some "(1 2 3)\n" ∧
    main_batch 20 "(define (f a b) (list b a)) (f 1 2)" = some "(2 1)\n" ∧
    main_batch 20 "(define a 10) ((lambda (a) (display a)) 1) a" = some "110\n" :=
  ⟨C14_call_frame (eval 5) 0 ["a", "b"] (ProcNode [VarNode "display", VarNode "b"]) ""
      [IntNode 1, IntNode 2] ⟨[], [(0, ⟨[("c", IntNode 3)]⟩)], ""⟩ ⟨[("c", IntNode 3)]⟩
      rfl rfl,
    rfl, by decide, by decide, by decide⟩

set_option maxRecDepth 100000 in
/-- C14 as stated fails when a parameter name is repeated or equals the self-name.  In the call
of the closure of `(lambda (x x) x)` on 1 and 2 the body finds 2 under the first parameter, not
1, and the batch driver prints 2.  In the call of `f` defined by `(define (f f) f)` on 1 the
body finds the closure under the parameter `f`, not 1. -/
theorem C14_counterexample :
    (∀ (ev : Evaluator) (body_ : ASTNode) (captured : Env),
      call ev (LambdaNode 0 ["x", "x"] body_ "") [IntNode 1, IntNode 2]
          ⟨[], [(0, captured)], ""⟩
        = ((ev body_ ⟨(captured.bindings_.insert_or_assign "x" (IntNode 1)).insert_or_assign
              "x" (IntNode 2)⟩ ⟨[], [(0, captured)], ""⟩).1,
          (ev body_ ⟨(captured.bindings_.insert_or_assign "x" (IntNode 1)).insert_or_assign
              "x" (IntNode 2)⟩ ⟨[], [(0, captured)], ""⟩).2.2) ∧
      Env.find ⟨(captured.bindings_.insert_or_assign "x" (IntNode 1)).insert_or_assign
          "x" (IntNode 2)⟩ ⟨[], [(0, captured)], ""⟩ "x" = .ok (IntNode 2)) ∧
    (∀ more, main_batch (20 + more) "((lambda (x x) x) 1 2)" = some "2\n") ∧
    (∀ more, main_batch (20 + more) "(define (f f) f) (f 1)"
      = some "#<Lambda>: [f] ( f ) \n") := by
  refine ⟨?_, ?_, ?_⟩
  · intro ev body_ captured
    constructor
    · simp [call, LambdaNode_call, unordered_map.find, bind_arguments, Env.insert]
    · simp [Env.find, unordered_map.find_insert_same]
  · exact fun more => main_batch_fuel_mono 20 more _ _ (by decide)
  · exact fun more => main_batch_fuel_mono 20 more _ _ (by decide)

/-! ## C15: a head that is not callable -/

/-- The virtual `call` of a node that is neither a built-in nor a closure is the one of the
base class: it throws, whatever the arguments are. -/
theorem call_not_callable (ev : Evaluator) (proc : ASTNode) (args : List ASTNode) (w : World)
    (h : is_callable proc = false) :
    call ev proc args w = (.error (.thrown "non-callable type cannot be called"), w) := by
  cases proc <;> simp [is_callable] at h <;> simp [call, throw_error]

/-- C15 as the source has it.  When the head of a procedure call evaluates to a value that is
neither a built-in nor a closure, the call throws the `std::string`
`non-callable type cannot be called`, but only after all the arguments have been evaluated, in
order: the state left is the state after the last argument, so the side effects of the
arguments have occurred.  If the evaluation of the arguments throws, that exception is the
outcome of the call. -/
theorem C15_non_callable_head (fuel : Nat) (head : ASTNode) (rest : List ASTNode) (env : Env)
    (w w1 : World) (proc : ASTNode)
    (hhead : eval fuel head env w = (.ok proc, env, w1))
    (hproc : is_callable proc = false) :
    (∀ args w2, evaluated_in_order (eval fuel) env rest w1 args w2 →
      eval (fuel + 1) (ProcNode (head :: rest)) env w
        = (.error (.thrown "non-callable type cannot be called"), env, w2)) ∧
    (∀ e env2 w2, eval_args (eval fuel) rest env w1 = (.error e, env2, w2) →
      eval (fuel + 1) (ProcNode (head :: rest)) env w = (.error e, env2, w2)) := by
  constructor
  · intro args w2 hargs
    rw [ProcNode_eval_in_order fuel head rest env w w1 w2 proc args hhead hargs,
      call_not_callable _ proc args w2 hproc]
  · intro e env2 w2 hargs
    simp [eval, ProcNode_eval, hhead, hargs]

set_option maxRecDepth 100000 in
/-- C15 on the call `(1 (display 5))`: it throws after `5` has been written. -/
theorem C15_non_callable_head_witness :
    eval (5 + 1) (ProcNode [IntNode 1, ProcNode [VarNode "display", IntNode 5]]) Env.initial
        World.initial
      = (.error (.thrown "non-callable type cannot be called"), Env.initial, ⟨[], [], "5"⟩) :=
  (C15_non_callable_head 5 (IntNode 1) [ProcNode [VarNode "display", IntNode 5]] Env.initial
    World.initial World.initial (IntNode 1) rfl rfl).1 [NullNode ""] ⟨[], [], "5"⟩
    (.cons (ProcNode [VarNode "display", IntNode 5]) [] (NullNode "") [] World.initial
      ⟨[], [], "5"⟩ ⟨[], [], "5"⟩ rfl (.nil _))

set_option maxRecDepth 100000 in
/-- C15 as stated fails: the arguments are evaluated before the head is called.  The text
`(1 (display 5))` writes 5 and then reports the error; `(1 (define z 7))` leaves `z` defined at
top level; and `(1 foo)` reports the unbound variable of the argument, not the head. -/
theorem C15_counterexample :
    (∀ more, main_batch (20 + more) "(1 (display 5))"
      = some "5error: non-callable type cannot be called\n") ∧
    (∀ more, eval (10 + more) (ProcNode [IntNode 1, BindNode "z" (IntNode 7)]) Env.initial
        World.initial
      = (.error (.thrown "non-callable type cannot be called"), Env.initial,
          ⟨[("z", IntNode 7)], [], ""⟩)) ∧
    (∀ more, main_batch (20 + more) "(1 foo)" = some "error: unbound variable: foo\n") :=
  ⟨fun more => main_batch_fuel_mono 20 more _ _ (by decide),
    fun more => eval_fuel_mono_of_eq 10 more _ _ _ _ rfl (by simp),
    fun more => main_batch_fuel_mono 20 more _ _ (by decide)⟩

/-! ## What holds across every change of the state holds across an evaluation -/

theorem SeqNode_eval_respects {R : World → World → Prop} (hR : WorldRelation R)
    {ev : Evaluator} (hev : Respects R ev) (seq : List ASTNode) (env : Env) (w : World) :
    R w (SeqNode_eval ev seq env w).2.2 := by
  induction seq generalizing env w with
  | nil => exact hR.1 w
  | cons it rest ih =>
    cases rest with
    | nil => exact hev it env w
    | cons y ys =>
      have h := hev it env w
      rcases hr : ev it env w with ⟨r, env1, w1⟩
      rw [hr] at h
      cases r with
      | error e => simpa [SeqNode_eval, hr] using h
      | ok v =>
        simp only [SeqNode_eval, hr]
        exact hR.2.1 _ _ _ h (ih env1 w1)

theorem eval_args_respects {R : World → World → Prop} (hR : WorldRelation R)
    {ev : Evaluator} (hev : Respects R ev) (nodes : List ASTNode) (env : Env) (w : World) :
    R w (eval_args ev nodes env w).2.2 := by
  induction nodes generalizing env w with
  | nil => exact hR.1 w
  | cons node rest ih =>
    have h := hev node env w
    rcases hr : ev node env w with ⟨r, env1, w1⟩
    rw [hr] at h
    cases r with
    | error e => simpa [eval_args, hr] using h
    | ok v =>
      have h2 := ih env1 w1
      rcases hr2 : eval_args ev rest env1 w1 with ⟨r2, env2, w2⟩
      rw [hr2] at h2
      cases r2 <;> simpa [eval_args, hr, hr2] using hR.2.1 _ _ _ h h2

theorem LetNode_loop_respects {R : World → World → Prop} (hR : WorldRelation R)
    {ev : Evaluator} (hev : Respects R ev) (star_ : Bool) (bs : List (String × ASTNode))
    (current env : Env) (w : World) : R w (LetNode_loop ev star_ bs current env w).2.2 := by
  induction bs generalizing current env w with
  | nil => exact hR.1 w
  | cons b rest ih =>
    cases star_ with
    | true =>
      have h := hev b.2 current w
      rcases hr : ev b.2 current w with ⟨r, c1, w1⟩
      rw [hr] at h
      cases r with
      | error e => simpa [LetNode_loop, hr] using h
      | ok v =>
        simp only [LetNode_loop, hr, if_true, Env.insert, Bool.false_eq_true, if_false]
        exact hR.2.1 _ _ _ h (ih _ env w1)
    | false =>
      have h := hev b.2 env w
      rcases hr : ev b.2 env w with ⟨r, env1, w1⟩
      rw [hr] at h
      cases r with
      | error e => simpa [LetNode_loop, hr] using h
      | ok v =>
        simp only [LetNode_loop, hr, Env.insert, Bool.false_eq_true, if_false]
        exact hR.2.1 _ _ _ h (ih _ env1 w1)

theorem LetNode_eval_respects {R : World → World → Prop} (hR : WorldRelation R)
    {ev : Evaluator} (hev : Respects R ev) (bs : List (String × ASTNode)) (body : ASTNode)
    (star_ : Bool) (env : Env) (w : World) : R w (LetNode_eval ev bs body star_ env w).2.2 := by
  have h := LetNode_loop_respects hR hev star_ bs env env w
  rcases hr : LetNode_loop ev star_ bs env env w with ⟨r, env1, w1⟩
  rw [hr] at h
  cases r with
  | error e => simpa [LetNode_eval, hr] using h
  | ok c =>
    simp only [LetNode_eval, hr]
    exact hR.2.1 _ _ _ h (hev body c w1)

theorem call_respects {R : World → World → Prop} (hR : WorldRelation R)
    {ev : Evaluator} (hev : Respects R ev) (proc : ASTNode) (args : List ASTNode) (w : World) :
    R w (call ev proc args w).2 := by
  cases proc with
  | BuiltinNode name =>
    simp only [call]
    cases hf : Builtins.functions.find name with
    | none => exact hR.1 w
    | some fxn_ => exact hR.2.2.2.2 w name fxn_ args hf
  | LambdaNode id arg_list_ body_ name_ =>
    simp only [call, LambdaNode_call]
    split
    · exact hR.1 w
    · cases hc : w.env_.find id with
      | none => exact hR.1 w
      | some captured =>
        have hwb := bind_arguments_world arg_list_ args captured w
        rcases hr : bind_arguments arg_list_ args captured w with ⟨c1, w1⟩
        rw [hr] at hwb
        simp only at hwb
        subst hwb
        by_cases hn : name_ = ""
        · simpa [hn, hr] using hev body_ c1 w1
        · simpa [hn, hr, Env.insert] using hev body_
            ⟨c1.bindings_.insert_or_assign name_ (LambdaNode id arg_list_ body_ name_)⟩ w1
  | IntNode _ | BoolNode _ | UnitNode | NullNode _ | SeqNode _ | VarNode _ | BindNode _ _
  | LetNode _ _ _ | ProcNode _ | PairNode _ _ | CondNode _ _ | AndNode _ | OrNode _ =>
    exact hR.1 w

theorem ProcNode_eval_respects {R : World → World → Prop} (hR : WorldRelation R)
    {ev : Evaluator} (hev : Respects R ev) (nodes : List ASTNode) (env : Env) (w : World) :
    R w (ProcNode_eval ev nodes env w).2.2 := by
  cases nodes with
  | nil => exact hR.1 w
  | cons head rest =>
    have h := hev head env w
    rcases hr : ev head env w with ⟨r, env1, w1⟩
    rw [hr] at h
    cases r with
    | error e => simpa [ProcNode_eval, hr] using h
    | ok proc =>
      have h2 := eval_args_respects hR hev rest env1 w1
      rcases hr2 : eval_args ev rest env1 w1 with ⟨r2, env2, w2⟩
      rw [hr2] at h2
      cases r2 with
      | error e => simpa [ProcNode_eval, hr, hr2] using hR.2.1 _ _ _ h h2
      | ok args =>
        simp only [ProcNode_eval, hr, hr2]
        exact hR.2.1 _ _ _ (hR.2.1 _ _ _ h h2) (call_respects hR hev proc args w2)

theorem PairNode_eval_respects {R : World → World → Prop} (hR : WorldRelation R)
    {ev : Evaluator} (hev : Respects R ev) (first_ second_ : ASTNode) (env : Env) (w : World) :
    R w (PairNode_eval ev first_ second_ env w).2.2 := by
  have h := hev second_ env w
  rcases hr : ev second_ env w with ⟨r, env1, w1⟩
  rw [hr] at h
  cases r with
  | error e => simpa [PairNode_eval, hr] using h
  | ok l =>
    have h2 := hev first_ env1 w1
    rcases hr2 : ev first_ env1 w1 with ⟨r2, env2, w2⟩
    rw [hr2] at h2
    cases r2 <;> simpa [PairNode_eval, hr, hr2] using hR.2.1 _ _ _ h h2

theorem CondNode_eval_respects {R : World → World → Prop} (hR : WorldRelation R)
    {ev : Evaluator} (hev : Respects R ev) (ps ns : List ASTNode) (env : Env) (w : World) :
    R w (CondNode_eval ev ps ns env w).2.2 := by
  induction ps generalizing ns env w with
  | nil => exact hR.1 w
  | cons l ls ih =>
    cases ns with
    | nil => exact hR.1 w
    | cons r rs =>
      have h := hev l env w
      rcases hr : ev l env w with ⟨res, env1, w1⟩
      rw [hr] at h
      cases res with
      | error e => simpa [CondNode_eval, hr] using h
      | ok v =>
        by_cases hb : get_boolean v = true
        · simp only [CondNode_eval, hr, hb, if_true]
          exact hR.2.1 _ _ _ h (hev r env1 w1)
        · simp only [CondNode_eval, hr, hb, if_false]
          exact hR.2.1 _ _ _ h (ih rs env1 w1)

theorem AndNode_loop_respects {R : World → World → Prop} (hR : WorldRelation R)
    {ev : Evaluator} (hev : Respects R ev) (nodes : List ASTNode) (val : Option ASTNode)
    (env : Env) (w : World) : R w (AndNode_loop ev nodes val env w).2.2 := by
  induction nodes generalizing val env w with
  | nil => cases val <;> exact hR.1 w
  | cons node rest ih =>
    have h := hev node env w
    rcases hr : ev node env w with ⟨res, env1, w1⟩
    rw [hr] at h
    cases res with
    | error e => simpa [AndNode_loop, hr] using h
    | ok v =>
      by_cases hb : get_boolean v = true
      · simp only [AndNode_loop, hr, hb, Bool.not_true, Bool.false_eq_true, if_false]
        exact hR.2.1 _ _ _ h (ih (some v) env1 w1)
      · simpa [AndNode_loop, hr, hb] using h

theorem OrNode_eval_respects {R : World → World → Prop} (hR : WorldRelation R)
    {ev : Evaluator} (hev : Respects R ev) (nodes : List ASTNode) (env : Env) (w : World) :
    R w (OrNode_eval ev nodes env w).2.2 := by
  induction nodes generalizing env w with
  | nil => exact hR.1 w
  | cons node rest ih =>
    have h := hev node env w
    rcases hr : ev node env w with ⟨res, env1, w1⟩
    rw [hr] at h
    cases res with
    | error e => simpa [OrNode_eval, hr] using h
    | ok v =>
      by_cases hb : get_boolean v = true
      · simpa [OrNode_eval, hr, hb] using h
      · simp only [OrNode_eval, hr, hb, if_false]
        exact hR.2.1 _ _ _ h (ih env1 w1)

/-- A relation that holds across every single change of the state holds between the state
before and the state after any evaluation. -/
theorem eval_respects {R : World → World → Prop} (hR : WorldRelation R) (fuel : Nat) :
    Respects R (eval fuel) := by
  induction fuel with
  | zero => intro x env w; exact hR.1 w
  | succ n ih =>
    intro x env w
    cases x with
    | IntNode v => exact hR.1 w
    | BoolNode v => exact hR.1 w
    | UnitNode => exact hR.1 w
    | NullNode m => exact hR.1 w
    | SeqNode s => exact SeqNode_eval_respects hR ih s env w
    | VarNode name =>
      simp only [eval, VarNode_eval]
      cases env.find w name with
      | error e => exact hR.1 w
      | ok found => exact ih found env w
    | BindNode name value =>
      simp only [eval, BindNode_eval]
      have h := ih value env w
      rcases hr : eval n value env w with ⟨r, env1, w1⟩
      rw [hr] at h
      cases r with
      | error e => exact h
      | ok v =>
        simp only [Env.insert, if_true]
        exact hR.2.1 _ _ _ h (hR.2.2.1 w1 name v)
    | LetNode bs body star => exact LetNode_eval_respects hR ih bs body star env w
    | ProcNode nodes => exact ProcNode_eval_respects hR ih nodes env w
    | BuiltinNode name => exact hR.1 w
    | LambdaNode id al body name => exact hR.2.2.2.1 w id env
    | PairNode a b => exact PairNode_eval_respects hR ih a b env w
    | CondNode ps ns => exact CondNode_eval_respects hR ih ps ns env w
    | AndNode nodes =>
      simp only [eval, AndNode_eval]
      split
      · exact hR.1 w
      · exact AndNode_loop_respects hR ih nodes none env w
    | OrNode nodes => exact OrNode_eval_respects hR ih nodes env w

/-! ### The output only grows -/

/-- A built-in of the table only appends to the output. -/
theorem builtin_out (name : String) (fxn_ : builtin_fxn)
    (h : Builtins.functions.find name = some fxn_) (args : List ASTNode) (out : String) :
    ∃ s, (fxn_ args out).2 = out ++ s := by
  have hall : ∀ p ∈ Builtins.functions, ∃ s, (p.2 args out).2 = out ++ s := by
    simp only [Builtins.functions, List.forall_mem_cons, List.not_mem_nil, false_implies,
      implies_true, and_true]
    refine ⟨?_, ?_, ?_, ?_, ?_, ?_, ?_, ?_, ?_, ?_, ?_, ?_, ?_, ?_, ?_, ?_, ?_, ?_, ?_, ?_, ?_, ?_, ?_, ?_, ?_, ?_, ?_, ?_⟩
    all_goals first
      | (unfold Builtins.display
         split
         · exact ⟨_, rfl⟩
         · exact ⟨"", by simp⟩
         · exact ⟨"", by simp⟩)
      | (unfold Builtins.newline
         split
         · exact ⟨_, rfl⟩
         · exact ⟨"", by simp⟩)
      | exact ⟨"", by simp [Builtins.mul, Builtins.add, Builtins.sub, Builtins.div, Builtins.max, Builtins.min,
          Builtins.eq, Builtins.lt, Builtins.gt, Builtins.le, Builtins.ge, Builtins.abs,
          Builtins.expt, Builtins.modulo, Builtins.zero_p, Builtins.car, Builtins.cdr,
          Builtins.length, Builtins.append, Builtins.not, Builtins.boolean_p,
          Builtins.integer_p, Builtins.pair_p, Builtins.list_p, Builtins.procedure_p,
          Builtins.null_p, no_output]⟩
  exact hall (name, fxn_) (unordered_map.mem_of_find _ _ _ h)

/-- To have the output of the state before as the start of one's output is a relation that
holds across every change of the state. -/
theorem has_written_relation : WorldRelation fun w w2 => ∃ s, has_written w w2 s := by
  refine ⟨fun w => ⟨"", by simp [has_written]⟩, ?_, fun w _ _ => ⟨"", by simp [has_written]⟩,
    fun w _ _ => ⟨"", by simp [has_written]⟩, ?_⟩
  · rintro a b c ⟨s, hs⟩ ⟨t, ht⟩
    exact ⟨s ++ t, by simp only [has_written] at *; rw [ht, hs, String.append_assoc]⟩
  · intro w name fxn_ args hf
    obtain ⟨s, hs⟩ := builtin_out name fxn_ hf args w.out
    exact ⟨s, hs⟩

/-- An evaluation only appends to the output. -/
theorem eval_out (fuel : Nat) (x : ASTNode) (env : Env) (w : World) :
    ∃ s, has_written w (eval fuel x env w).2.2 s :=
  eval_respects has_written_relation fuel x env w

/-- A call only appends to the output. -/
theorem call_out (fuel : Nat) (proc : ASTNode) (args : List ASTNode) (w : World) :
    ∃ s, has_written w (call (eval fuel) proc args w).2 s :=
  call_respects has_written_relation (eval_respects has_written_relation fuel) proc args w

/-- The output after the evaluation of a list of nodes in order is the output before followed
by what the nodes have written, one after the other. -/
theorem evaluated_in_order_out (fuel : Nat) (env : Env) (es vs : List ASTNode) (w w2 : World)
    (h : evaluated_in_order (eval fuel) env es w vs w2) :
    ∃ os : List String, os.length = es.length ∧
      has_written w w2 (os.foldr (fun o rest => o ++ rest) "") := by
  induction h with
  | nil w => exact ⟨[], rfl, by simp [has_written]⟩
  | cons e es v vs w w1 w2 he _ ih =>
    obtain ⟨os, hlen, hos⟩ := ih
    obtain ⟨o, ho⟩ := eval_out fuel e env w
    rw [he] at ho
    refine ⟨o :: os, by simp [hlen], ?_⟩
    simp only [has_written] at *
    rw [hos, ho, List.foldr_cons, String.append_assoc]

/-! ## C16: the order of evaluation in a procedure call -/

/-- When `eval_args` throws, some argument threw after the arguments before it had been
evaluated in order; the arguments after it were not evaluated. -/
theorem eval_args_error {ev : Evaluator} (hev : EnvPreserving ev) (es : List ASTNode)
    (env env1 : Env) (w w3 : World) (e : Err)
    (h : eval_args ev es env w = (.error e, env1, w3)) :
    env1 = env ∧ ∃ pre a post vs w2, es = pre ++ a :: post ∧
      evaluated_in_order ev env pre w vs w2 ∧ ev a env w2 = (.error e, env, w3) := by
  induction es generalizing w with
  | nil => simp [eval_args] at h
  | cons x xs ih =>
    have hx := hev x env w
    rcases hr : ev x env w with ⟨r, env0, w0⟩
    rw [hr] at hx
    simp only at hx
    subst hx
    cases r with
    | error e0 =>
      simp only [eval_args, hr, Prod.mk.injEq, Except.error.injEq] at h
      obtain ⟨h1, h2, h3⟩ := h
      subst h1 h2 h3
      exact ⟨rfl, [], x, xs, [], w, rfl, .nil _, hr⟩
    | ok v =>
      rcases hr2 : eval_args ev xs env0 w0 with ⟨r2, env2, w2⟩
      cases r2 with
      | ok vs => simp [eval_args, hr, hr2] at h
      | error e2 =>
        simp only [eval_args, hr, hr2, Prod.mk.injEq, Except.error.injEq] at h
        obtain ⟨h1, h2, h3⟩ := h
        subst h1 h2 h3
        obtain ⟨h4, pre, a, post, vs, w2, hes, hpre, ha⟩ := ih w0 hr2
        exact ⟨h4, x :: pre, a, post, v :: vs, w2, by simp [hes],
          .cons x pre v vs w w0 w2 hr hpre, ha⟩

/-- An argument that throws ends `eval_args`: the arguments after it are not evaluated. -/
theorem eval_args_stops {ev : Evaluator} (env : Env) (pre post : List ASTNode) (a : ASTNode)
    (vs : List ASTNode) (w w2 w3 : World) (e : Err)
    (hpre : evaluated_in_order ev env pre w vs w2) (ha : ev a env w2 = (.error e, env, w3)) :
    eval_args ev (pre ++ a :: post) env w = (.error e, env, w3) := by
  induction hpre with
  | nil w => simp [eval_args, ha]
  | cons x xs v vs w w1 w2 hx _ ih => simp [eval_args, hx, ih ha]

/-- C16.  A procedure call `(h a1 ... an)` evaluates the head `h` first, then the arguments one
after the other from left to right, each once, each in the state its predecessor left, and then
calls the value of the head on the list of the values, in the state the last argument left:
the state after the call (output and top-level) is built up in this order, and its output is
the output before, followed by what the head wrote, what the arguments wrote and what the call
wrote.  Every call that returns a value has gone through these steps.  If the head throws, no
argument is evaluated; if an argument throws, the arguments after it are not evaluated and
nothing is called. -/
theorem C16_argument_order (fuel : Nat) (head : ASTNode) (rest : List ASTNode) (env : Env)
    (w : World) :
    (∀ proc w1 args w2, eval fuel head env w = (.ok proc, env, w1) →
      evaluated_in_order (eval fuel) env rest w1 args w2 →
      eval (fuel + 1) (ProcNode (head :: rest)) env w
        = ((call (eval fuel) proc args w2).1, env, (call (eval fuel) proc args w2).2)) ∧
    (∀ v env3 w3, eval (fuel + 1) (ProcNode (head :: rest)) env w = (.ok v, env3, w3) →
      ∃ proc w1 args w2, eval fuel head env w = (.ok proc, env, w1) ∧
        evaluated_in_order (eval fuel) env rest w1 args w2 ∧ args.length = rest.length ∧
        call (eval fuel) proc args w2 = (.ok v, w3) ∧ env3 = env) ∧
    (∀ e env1 w1, eval fuel head env w = (.error e, env1, w1) →
      eval (fuel + 1) (ProcNode (head :: rest)) env w = (.error e, env1, w1)) ∧
    (∀ proc w1 pre a post vs w2 e w3, eval fuel head env w = (.ok proc, env, w1) →
      rest = pre ++ a :: post → evaluated_in_order (eval fuel) env pre w1 vs w2 →
      eval fuel a env w2 = (.error e, env, w3) →
      eval (fuel + 1) (ProcNode (head :: rest)) env w = (.error e, env, w3)) ∧
    (∀ proc w1 args w2, eval fuel head env w = (.ok proc, env, w1) →
      evaluated_in_order (eval fuel) env rest w1 args w2 →
      ∃ oh oas oc, has_written w w1 oh ∧ has_written w1 w2 oas ∧
        has_written w2 (call (eval fuel) proc args w2).2 oc ∧
        has_written w (eval (fuel + 1) (ProcNode (head :: rest)) env w).2.2
          (oh ++ oas ++ oc)) := by
  refine ⟨?_, ?_, ?_, ?_, ?_⟩
  · intro proc w1 args w2 hhead hargs
    exact ProcNode_eval_in_order fuel head rest env w w1 w2 proc args hhead hargs
  · intro v env3 w3 h
    have hh := eval_env fuel head env w
    rcases hr : eval fuel head env w with ⟨r, env1, w1⟩
    rw [hr] at hh
    simp only at hh
    subst hh
    cases r with
    | error e => simp [eval, ProcNode_eval, hr] at h
    | ok proc =>
      rcases hr2 : eval_args (eval fuel) rest env1 w1 with ⟨r2, env2, w2⟩
      cases r2 with
      | error e => simp [eval, ProcNode_eval, hr, hr2] at h
      | ok args =>
        obtain ⟨h1, h2⟩ := (eval_args_iff_in_order (eval_env fuel) rest args env1 env2 w1 w2).1 hr2
        subst h1
        simp only [eval, ProcNode_eval, hr, hr2, Prod.mk.injEq] at h
        obtain ⟨h3, h4, h5⟩ := h
        refine ⟨proc, w1, args, w2, rfl, h2, evaluated_in_order_length h2, ?_, h4.symm⟩
        rw [← h3, ← h5]
  · intro e env1 w1 h
    simp [eval, ProcNode_eval, h]
  · intro proc w1 pre a post vs w2 e w3 hhead hrest hpre ha
    subst hrest
    simp [eval, ProcNode_eval, hhead, eval_args_stops env pre post a vs w1 w2 w3 e hpre ha]
  · intro proc w1 args w2 hhead hargs
    obtain ⟨oh, hoh⟩ := eval_out fuel head env w
    rw [hhead] at hoh
    obtain ⟨os, _, hos⟩ := evaluated_in_order_out fuel env rest args w1 w2 hargs
    obtain ⟨oc, hoc⟩ := call_out fuel proc args w2
    refine ⟨oh, _, oc, hoh, hos, hoc, ?_⟩
    rw [ProcNode_eval_in_order fuel head rest env w w1 w2 proc args hhead hargs]
    simp only [has_written] at *
    rw [hoc, hos, hoh]
    simp only [String.append_assoc]

set_option maxRecDepth 100000 in
/-- C16 on `((begin (display 1) +) (begin (display 2) 10) (begin (display 3) 20))`: the digits
are written in the order head, first argument, second argument, and then the sum is printed. -/
theorem C16_argument_order_witness :
    eval (5 + 1) (ProcNode [SeqNode [ProcNode [VarNode "display", IntNode 1], VarNode "+"],
        SeqNode [ProcNode [VarNode "display", IntNode 2], IntNode 10],
        SeqNode [ProcNode [VarNode "display", IntNode 3], IntNode 20]]) Env.initial
        World.initial
      = ((call (eval 5) (BuiltinNode "+") [IntNode 10, IntNode 20] ⟨[], [], "123"⟩).1,
          Env.initial,
          (call (eval 5) (BuiltinNode "+") [IntNode 10, IntNode 20] ⟨[], [], "123"⟩).2) ∧
    call (eval 5) (BuiltinNode "+") [IntNode 10, IntNode 20] ⟨[], [], "123"⟩
      = (.ok (IntNode 30), ⟨[], [], "123"⟩) ∧
    main_batch 20 "((begin (display 1) +) (begin (display 2) 10) (begin (display 3) 20))"
      = some "12330\n" ∧
    main_batch 20 "(- (begin (display 1) 10) (begin (display 2) 3))" = some "127\n" ∧
    main_batch 20 "(+ (begin (define x 1) x) (begin (define x 2) x) x)" = some "5\n" ∧
    main_batch 20 "((lambda (a b) (display 3)) (display 1) (display 2))" = some "123" ∧
    main_batch 20 "(+ (begin (display 1) 1) (car 5) (begin (display 3) 3))"
      = some "1error: cannot get element of non-pair type\n" :=
  ⟨(C16_argument_order 5 (SeqNode [ProcNode [VarNode "display", IntNode 1], VarNode "+"])
      [SeqNode [ProcNode [VarNode "display", IntNode 2], IntNode 10],
        SeqNode [ProcNode [VarNode "display", IntNode 3], IntNode 20]] Env.initial
      World.initial).1 (BuiltinNode "+") ⟨[], [], "1"⟩ [IntNode 10, IntNode 20]
      ⟨[], [], "123"⟩ rfl
      (.cons (SeqNode [ProcNode [VarNode "display", IntNode 2], IntNode 10])
        [SeqNode [ProcNode [VarNode "display", IntNode 3], IntNode 20]] (IntNode 10)
        [IntNode 20] ⟨[], [], "1"⟩ ⟨[], [], "12"⟩ ⟨[], [], "123"⟩ rfl
        (.cons (SeqNode [ProcNode [VarNode "display", IntNode 3], IntNode 20]) [] (IntNode 20)
          [] ⟨[], [], "12"⟩ ⟨[], [], "123"⟩ ⟨[], [], "123"⟩ rfl (.nil _))),
    rfl, by decide, by decide, by decide, by decide, by decide⟩

/-! ## C17: `cond` -/

/-- The loop of `CondNode::eval` runs through the predicates that evaluate to `#f`, without
evaluating their branches, and goes on behind them. -/
theorem CondNode_eval_through {ev : Evaluator} {env : Env} (pre : List ASTNode)
    (fs : List ASTNode) (w w1 : World) (h : evaluated_in_order ev env pre w fs w1)
    (hf : ∀ f ∈ fs, f = BoolNode false) (bpre : List ASTNode) (hlen : bpre.length = pre.length)
    (ps bs : List ASTNode) :
    CondNode_eval ev (pre ++ ps) (bpre ++ bs) env w = CondNode_eval ev ps bs env w1 := by
  induction h generalizing bpre with
  | nil w =>
    cases bpre with
    | nil => rfl
    | cons _ _ => simp at hlen
  | cons e es v vs w w1 w2 he _ ih =>
    cases bpre with
    | nil => simp at hlen
    | cons b bpre =>
      simp only [List.length_cons, Nat.add_right_cancel_iff] at hlen
      have hv : v = BoolNode false := hf v (List.mem_cons_self _ _)
      subst hv
      have := ih (fun f hf2 => hf f (List.mem_cons_of_mem _ hf2)) bpre hlen
      simp [CondNode_eval, he, get_boolean, this]

/-- The lowering of `cond` in `parse_immediate`. -/
theorem parse_immediate_cond (base : Nat) (tokens : List String) (pf begin end_ : Nat)
    (l0 : Nat) (rest : List Nat) (pred seq : List ASTNode) (hne : begin ≠ end_)
    (hsplit : split_level tokens begin end_ = .ok (l0 :: rest)) (hrest : rest ≠ [])
    (hhead : deref tokens l0 = .ok "cond")
    (hlist : parse_cond_list tokens (parse_immediate base tokens pf) rest = .ok (pred, seq)) :
    parse_immediate base tokens (pf + 1) begin end_ = .ok (CondNode pred seq) := by
  obtain ⟨hb, last, hl, he, hunit⟩ := split_level_ok hsplit
  have hnu : ¬ begin + 1 = last := by
    intro h
    have := hunit h
    simp only [List.cons.injEq] at this
    exact hrest this.2
  have hlen : ¬ (rest.length + 1 ≤ 1) := by
    cases rest with
    | nil => exact absurd rfl hrest
    | cons _ _ => simp
  simp [parse_immediate, parse_immediate_body, hne, hb, hl, he, hnu, hsplit, index, hhead,
    hlist, hlen, bind, Except.bind, pure, Except.pure]

/-- C17.  Evaluating a `CondNode` evaluates the predicates in order.  When the predicates
before the `i`-th one evaluate to `#f` and the `i`-th one to any other value, the outcome is
that of evaluating the `i`-th branch next: the later predicates and the other branches are not
evaluated.  When all predicates evaluate to `#f` (or there is none), the value is the quiet
value with the empty message.  A predicate that throws ends the evaluation. -/
theorem C17_cond (fuel : Nat) (env : Env) (w : World) :
    (∀ (pre post bpre bpost fs : List ASTNode) (q b v : ASTNode) (w1 w2 : World),
      bpre.length = pre.length → evaluated_in_order (eval fuel) env pre w fs w1 →
      (∀ f ∈ fs, f = BoolNode false) → eval fuel q env w1 = (.ok v, env, w2) →
      v ≠ BoolNode false →
      eval (fuel + 1) (CondNode (pre ++ q :: post) (bpre ++ b :: bpost)) env w
        = eval fuel b env w2) ∧
    (∀ (ps bs fs : List ASTNode) (w1 : World), bs.length = ps.length →
      evaluated_in_order (eval fuel) env ps w fs w1 → (∀ f ∈ fs, f = BoolNode false) →
      eval (fuel + 1) (CondNode ps bs) env w = (.ok (NullNode ""), env, w1)) ∧
    (∀ (pre post bpre bpost fs : List ASTNode) (q b : ASTNode) (e : Err) (w1 w2 : World),
      bpre.length = pre.length → evaluated_in_order (eval fuel) env pre w fs w1 →
      (∀ f ∈ fs, f = BoolNode false) → eval fuel q env w1 = (.error e, env, w2) →
      eval (fuel + 1) (CondNode (pre ++ q :: post) (bpre ++ b :: bpost)) env w
        = (.error e, env, w2)) ∧
    (∀ (base : Nat) (tokens : List String) (pf begin end_ l0 : Nat) (rest : List Nat)
        (pred seq : List ASTNode), begin ≠ end_ →
      split_level tokens begin end_ = .ok (l0 :: rest) → rest ≠ [] →
      deref tokens l0 = .ok "cond" →
      parse_cond_list tokens (parse_immediate base tokens pf) rest = .ok (pred, seq) →
      parse_immediate base tokens (pf + 1) begin end_ = .ok (CondNode pred seq)) := by
  have hstep : ∀ (ps bs : List ASTNode), eval (fuel + 1) (CondNode ps bs) env w
      = CondNode_eval (eval fuel) ps bs env w := fun _ _ => rfl
  refine ⟨?_, ?_, ?_, ?_⟩
  · intro pre post bpre bpost fs q b v w1 w2 hlen hpre hf hq hv
    have hb := (get_boolean_eq_true_iff v).2 hv
    rw [hstep, CondNode_eval_through pre fs w w1 hpre hf bpre hlen]
    simp [CondNode_eval, hq, hb]
  · intro ps bs fs w1 hlen hps hf
    have := CondNode_eval_through ps fs w w1 hps hf bs hlen [] []
    simp only [List.append_nil] at this
    rw [hstep, this]
    simp [CondNode_eval]
  · intro pre post bpre bpost fs q b e w1 w2 hlen hpre hf hq
    rw [hstep, CondNode_eval_through pre fs w w1 hpre hf bpre hlen]
    simp [CondNode_eval, hq]
  · intro base tokens pf begin end_ l0 rest pred seq hne hsplit hrest hhead hlist
    exact parse_immediate_cond base tokens pf begin end_ l0 rest pred seq hne hsplit hrest
      hhead hlist

set_option maxRecDepth 100000 in
/-- C17 on `(cond (#f (display 1)) (2 (display 2)) ((display 3) 4))`: the second predicate is
the first that is not `#f`, so only `2` is written; and what the batch driver prints for conds
whose predicates write. -/
theorem C17_cond_witness :
    eval (5 + 1) (CondNode [BoolNode false, IntNode 2, ProcNode [VarNode "display", IntNode 3]]
        [ProcNode [VarNode "display", IntNode 1], ProcNode [VarNode "display", IntNode 2],
          IntNode 4]) Env.initial World.initial
      = eval 5 (ProcNode [VarNode "display", IntNode 2]) Env.initial World.initial ∧
    parse_immediate 0
        ["(", "cond", "(", "#f", "1", ")", "(", "2", "3", ")", ")"] 3 0 11
      = .ok (CondNode [BoolNode false, IntNode 2] [IntNode 1, IntNode 3]) ∧
    main_batch 20 "(cond (#f (display 1)) (2 (display 2)) ((display 3) 4))" = some "2" ∧
    main_batch 20 "(cond ((begin (display 1) #f) (display 2)) ((begin (display 3) 0) 5) (#t 6))"
      = some "135\n" ∧
    main_batch 20 "(cond ((begin (display 1) #f) 2) ((begin (display 3) #f) 4))" = some "13" ∧
    main_batch 20 "(cond)" = some "" ∧
    main_batch 20 "(display (cond (#f 1)))" = some "" ∧
    main_batch 20 "(cond ((= 1 2) 10) ((car 5) 20) (#t 30))"
      = some "error: cannot get element of non-pair type\n" :=
  ⟨(C17_cond 5 Env.initial World.initial).1 [BoolNode false]
      [ProcNode [VarNode "display", IntNode 3]] [ProcNode [VarNode "display", IntNode 1]]
      [IntNode 4] [BoolNode false] (IntNode 2) (ProcNode [VarNode "display", IntNode 2])
      (IntNode 2) World.initial World.initial rfl
      (.cons (BoolNode false) [] (BoolNode false) [] World.initial World.initial World.initial
        rfl (.nil _))
      (by simp) rfl (by simp),
    (C17_cond 5 Env.initial World.initial).2.2.2 0 _ 2 0 11 1 [2, 6, 10] _ _ (by decide) rfl
      (by decide) rfl rfl,
    by decide, by decide, by decide, by decide, by decide, by decide⟩

/-! ## Evaluation without `define` -/

/-- A value found in a map all of whose values satisfy a test satisfies it. -/
theorem unordered_map.all_find {κ α : Type} [DecidableEq κ] (P : κ × α → Bool)
    (m : unordered_map κ α) (k : κ) (v : α) (hm : List.all m P = true)
    (hP : ∀ k1 k2 a, P (k1, a) = P (k2, a)) (h : m.find k = some v) : P (k, v) = true := by
  induction m with
  | nil => simp [unordered_map.find] at h
  | cons hd tl ih =>
    obtain ⟨k', v'⟩ := hd
    simp only [List.all_cons, Bool.and_eq_true] at hm
    by_cases e : k' = k
    · simp only [unordered_map.find, e, if_true, Option.some.injEq] at h
      subst h
      rw [hP k k' v']
      exact hm.1
    · simp only [unordered_map.find, e, if_false] at h
      exact ih hm.2 h

/-- Writing a value that satisfies a test into a map all of whose values satisfy it gives such
a map. -/
theorem unordered_map.all_insert {κ α : Type} [DecidableEq κ] (P : κ × α → Bool)
    (m : unordered_map κ α) (k : κ) (v : α) (hm : List.all m P = true) (hv : P (k, v) = true) :
    List.all (m.insert_or_assign k v) P = true := by
  induction m with
  | nil => simp [unordered_map.insert_or_assign, hv]
  | cons hd tl ih =>
    obtain ⟨k', v'⟩ := hd
    simp only [List.all_cons, Bool.and_eq_true] at hm
    by_cases e : k' = k
    · simp [unordered_map.insert_or_assign, e, hv, hm.2]
    · simp [unordered_map.insert_or_assign, e, hm.1, ih hm.2]

theorem frame_no_define_find (frame : Frame) (name : String) (v : ASTNode)
    (hf : frame_no_define frame = true) (h : frame.find name = some v) : no_define v = true :=
  unordered_map.all_find (fun kv => no_define kv.2) frame name v hf (fun _ _ _ => rfl) h

theorem frame_no_define_insert (frame : Frame) (name : String) (v : ASTNode)
    (hf : frame_no_define frame = true) (hv : no_define v = true) :
    frame_no_define (frame.insert_or_assign name v) = true :=
  unordered_map.all_insert (fun kv => no_define kv.2) frame name v hf hv

/-- What `Env::find` returns in an environment without `define` is without `define`. -/
theorem Env.find_no_define (env : Env) (w : World) (name : String) (v : ASTNode)
    (henv : frame_no_define env.bindings_ = true) (hw : world_no_define w = true)
    (h : env.find w name = .ok v) : no_define v = true := by
  simp only [world_no_define, Bool.and_eq_true] at hw
  unfold Env.find at h
  cases h1 : env.bindings_.find name with
  | some x =>
    simp only [h1, Except.ok.injEq] at h
    subst h
    exact frame_no_define_find _ _ _ henv h1
  | none =>
    simp only [h1] at h
    cases h2 : w.toplvl.find name with
    | some x =>
      simp only [h2, Except.ok.injEq] at h
      subst h
      exact frame_no_define_find _ _ _ hw.1 h2
    | none =>
      simp only [h2] at h
      split at h
      · simp only [Except.ok.injEq] at h
        subst h
        rfl
      · simp [throw_error] at h

theorem no_define_each_iff (nodes : List ASTNode) :
    no_define_each nodes = true ↔ ∀ x ∈ nodes, no_define x = true := by
  induction nodes with
  | nil => simp [no_define_each]
  | cons x xs ih => simp [no_define_each, ih]

/-! ### The built-ins return nothing with a `define` in it -/

theorem bind_no_define {α : Type} (x : Except Err α) (f : α → Except Err ASTNode)
    (h : ∀ a, x = .ok a → ∀ v, f a = .ok v → no_define v = true) :
    ∀ v, (x >>= f) = .ok v → no_define v = true := by
  intro v hv
  cases x with
  | error e => simp [bind, Except.bind] at hv
  | ok a => exact h a rfl v hv

theorem ite_no_define (c : Prop) [Decidable c] (a b : Except Err ASTNode)
    (ha : ∀ v, a = .ok v → no_define v = true) (hb : ∀ v, b = .ok v → no_define v = true) :
    ∀ v, (if c then a else b) = .ok v → no_define v = true := by
  split
  · exact ha
  · exact hb

theorem pure_no_define (x : ASTNode) (hx : no_define x = true) :
    ∀ v, (pure x : Except Err ASTNode) = .ok v → no_define v = true := by
  intro v hv
  simp only [pure, Except.pure, Except.ok.injEq] at hv
  subst hv
  exact hx

theorem error_no_define (e : Err) :
    ∀ v, (.error e : Except Err ASTNode) = .ok v → no_define v = true := by
  intro v hv
  simp at hv

theorem front_mem {args : List ASTNode} {f : ASTNode} (h : front args = .ok f) : f ∈ args := by
  cases args with
  | nil => simp [front] at h
  | cons a rest =>
    simp only [front, Except.ok.injEq] at h
    subst h
    exact List.mem_cons_self _ _

theorem back_mem {args : List ASTNode} {b : ASTNode} (h : back args = .ok b) : b ∈ args := by
  unfold back at h
  cases hl : args.getLast? with
  | none => simp [hl] at h
  | some a =>
    simp only [hl, Except.ok.injEq] at h
    subst h
    exact List.mem_of_getLast?_eq_some hl

theorem get_no_define (f : ASTNode) (idx : Nat) (hf : no_define f = true) :
    ∀ v, get f idx = .ok v → no_define v = true := by
  intro v hv
  cases f with
  | PairNode a b =>
    simp only [no_define, Bool.and_eq_true] at hf
    simp only [get, Except.ok.injEq] at hv
    subst hv
    split
    · exact hf.1
    · exact hf.2
  | _ => simp [get] at hv

theorem concat_no_define : ∀ (l r : ASTNode), no_define l = true → no_define r = true →
    ∀ v, concat l r = .ok v → no_define v = true
  | UnitNode, r, _, hr, v, hv => by
    simp only [concat, Except.ok.injEq] at hv
    subst hv
    exact hr
  | PairNode a b, r, hl, hr, v, hv => by
    simp only [no_define, Bool.and_eq_true] at hl
    simp only [concat, bind, Except.bind] at hv
    cases hc : concat b r with
    | error e => simp [hc] at hv
    | ok rest =>
      simp only [hc, pure, Except.pure, Except.ok.injEq] at hv
      subst hv
      simp [no_define, hl.1, concat_no_define b r hl.2 hr rest hc]
  | IntNode _, _, _, _, _, hv => by simp [concat] at hv
  | BoolNode _, _, _, _, _, hv => by simp [concat] at hv
  | NullNode _, _, _, _, _, hv => by simp [concat] at hv
  | SeqNode _, _, _, _, _, hv => by simp [concat] at hv
  | VarNode _, _, _, _, _, hv => by simp [concat] at hv
  | BindNode _ _, _, _, _, _, hv => by simp [concat] at hv
  | LetNode _ _ _, _, _, _, _, hv => by simp [concat] at hv
  | ProcNode _, _, _, _, _, hv => by simp [concat] at hv
  | BuiltinNode _, _, _, _, _, hv => by simp [concat] at hv
  | LambdaNode _ _ _ _, _, _, _, _, hv => by simp [concat] at hv
  | CondNode _ _, _, _, _, _, hv => by simp [concat] at hv
  | AndNode _, _, _, _, _, hv => by simp [concat] at hv
  | OrNode _, _, _, _, _, hv => by simp [concat] at hv

theorem display_no_define (args : List ASTNode) (out : String) :
    ∀ v, (Builtins.display args out).1 = .ok v → no_define v = true := by
  intro v hv
  unfold Builtins.display at hv
  split at hv
  · simp only [Except.ok.injEq] at hv
    subst hv
    rfl
  · simp at hv
  · simp at hv

theorem newline_no_define (args : List ASTNode) (out : String) :
    ∀ v, (Builtins.newline args out).1 = .ok v → no_define v = true := by
  intro v hv
  unfold Builtins.newline at hv
  split at hv
  · simp only [Except.ok.injEq] at hv
    subst hv
    rfl
  · simp at hv

/-- A built-in of the table, called on arguments without `define`, returns a value without
`define`. -/
theorem builtin_no_define (name : String) (fxn_ : builtin_fxn)
    (h : Builtins.functions.find name = some fxn_) (args : List ASTNode) (out : String)
    (hargs : ∀ a ∈ args, no_define a = true) :
    ∀ v, (fxn_ args out).1 = .ok v → no_define v = true := by
  have hall : ∀ p ∈ Builtins.functions, ∀ v, (p.2 args out).1 = .ok v → no_define v = true := by
    simp only [Builtins.functions, List.forall_mem_cons, List.not_mem_nil, false_implies,
      implies_true, and_true]
    refine ⟨?_, ?_, ?_, ?_, ?_, ?_, ?_, ?_, ?_, ?_, ?_, ?_, ?_, ?_, ?_, ?_, ?_, ?_, ?_, ?_, ?_, ?_, ?_, ?_, ?_, ?_, ?_, ?_⟩
    all_goals first
      | exact display_no_define args out
      | exact newline_no_define args out
      | (simp only [Builtins.mul, Builtins.add, Builtins.sub, Builtins.div, Builtins.max, Builtins.min,
          Builtins.eq, Builtins.lt, Builtins.gt, Builtins.le, Builtins.ge, Builtins.abs,
          Builtins.expt, Builtins.modulo, Builtins.zero_p, Builtins.car, Builtins.cdr,
          Builtins.length, Builtins.append, Builtins.not, Builtins.boolean_p,
          Builtins.integer_p, Builtins.pair_p, Builtins.list_p, Builtins.procedure_p,
          Builtins.null_p, no_output]
         repeat (first
           | exact pure_no_define _ rfl
           | exact error_no_define _
           | exact get_no_define _ _ (hargs _ (front_mem (by assumption)))
           | exact concat_no_define _ _ (hargs _ (front_mem (by assumption)))
               (hargs _ (back_mem (by assumption)))
           | apply ite_no_define
           | (apply bind_no_define; intro _ _)))
  exact hall (name, fxn_) (unordered_map.mem_of_find _ _ _ h)

/-! ### The methods of the nodes, without `define` -/

theorem SeqNode_eval_no_define {ev : Evaluator} (hev : DefineFree ev) (seq : List ASTNode)
    (env : Env) (w : World) (hs : no_define_each seq = true)
    (henv : frame_no_define env.bindings_ = true) (hw : world_no_define w = true) :
    (SeqNode_eval ev seq env w).2.1 = env ∧ (SeqNode_eval ev seq env w).2.2.toplvl = w.toplvl ∧
      world_no_define (SeqNode_eval ev seq env w).2.2 = true ∧
      ∀ v, (SeqNode_eval ev seq env w).1 = .ok v → no_define v = true := by
  induction seq generalizing env w with
  | nil => simp [SeqNode_eval, hw, no_define]
  | cons it rest ih =>
    simp only [no_define_each, Bool.and_eq_true] at hs
    cases rest with
    | nil => simpa [SeqNode_eval] using hev it env w hs.1 henv hw
    | cons y ys =>
      obtain ⟨e1, e2, e3, _⟩ := hev it env w hs.1 henv hw
      rcases hr : ev it env w with ⟨r, env1, w1⟩
      rw [hr] at e1 e2 e3
      simp only at e1 e2 e3
      subst e1
      cases r with
      | error e => simp [SeqNode_eval, hr, e2, e3]
      | ok v =>
        obtain ⟨i1, i2, i3, i4⟩ := ih env1 w1 hs.2 henv e3
        simp only [SeqNode_eval, hr]
        exact ⟨i1, i2.trans e2, i3, i4⟩

theorem eval_args_no_define {ev : Evaluator} (hev : DefineFree ev) (nodes : List ASTNode)
    (env : Env) (w : World) (hs : no_define_each nodes = true)
    (henv : frame_no_define env.bindings_ = true) (hw : world_no_define w = true) :
    (eval_args ev nodes env w).2.1 = env ∧ (eval_args ev nodes env w).2.2.toplvl = w.toplvl ∧
      world_no_define (eval_args ev nodes env w).2.2 = true ∧
      ∀ vs, (eval_args ev nodes env w).1 = .ok vs → ∀ a ∈ vs, no_define a = true := by
  induction nodes generalizing env w with
  | nil => simp [eval_args, hw]
  | cons node rest ih =>
    simp only [no_define_each, Bool.and_eq_true] at hs
    obtain ⟨e1, e2, e3, e4⟩ := hev node env w hs.1 henv hw
    rcases hr : ev node env w with ⟨r, env1, w1⟩
    rw [hr] at e1 e2 e3 e4
    simp only at e1 e2 e3 e4
    subst e1
    cases r with
    | error e => simp [eval_args, hr, e2, e3]
    | ok v =>
      obtain ⟨i1, i2, i3, i4⟩ := ih env1 w1 hs.2 henv e3
      rcases hr2 : eval_args ev rest env1 w1 with ⟨r2, env2, w2⟩
      rw [hr2] at i1 i2 i3 i4
      simp only at i1 i2 i3 i4
      subst i1
      cases r2 with
      | error e => simp [eval_args, hr, hr2, i2.trans e2, i3]
      | ok vs =>
        simp only [eval_args, hr, hr2]
        refine ⟨trivial, i2.trans e2, i3, ?_⟩
        intro vs2 hvs a ha
        simp only [Except.ok.injEq] at hvs
        subst hvs
        rcases List.mem_cons.mp ha with rfl | ha
        · exact e4 _ rfl
        · exact i4 vs rfl a ha

theorem LetNode_loop_no_define {ev : Evaluator} (hev : DefineFree ev) (star_ : Bool)
    (bs : List (String × ASTNode)) (current env : Env) (w : World)
    (hs : no_define_bindings bs = true) (hcur : frame_no_define current.bindings_ = true)
    (henv : frame_no_define env.bindings_ = true) (hw : world_no_define w = true) :
    (LetNode_loop ev star_ bs current env w).2.1 = env ∧
      (LetNode_loop ev star_ bs current env w).2.2.toplvl = w.toplvl ∧
      world_no_define (LetNode_loop ev star_ bs current env w).2.2 = true ∧
      ∀ c, (LetNode_loop ev star_ bs current env w).1 = .ok c →
        frame_no_define c.bindings_ = true := by
  induction bs generalizing current env w with
  | nil =>
    refine ⟨rfl, rfl, hw, ?_⟩
    intro c hc
    simp only [LetNode_loop, Except.ok.injEq] at hc
    subst hc
    exact hcur
  | cons b rest ih =>
    simp only [no_define_bindings, Bool.and_eq_true] at hs
    cases star_ with
    | true =>
      obtain ⟨e1, e2, e3, e4⟩ := hev b.2 current w hs.1 hcur hw
      rcases hr : ev b.2 current w with ⟨r, c1, w1⟩
      rw [hr] at e1 e2 e3 e4
      simp only at e1 e2 e3 e4
      subst e1
      cases r with
      | error e => simp [LetNode_loop, hr, e2, e3]
      | ok v =>
        have hc2 := frame_no_define_insert c1.bindings_ b.1 v hcur (e4 v rfl)
        obtain ⟨i1, i2, i3, i4⟩ := ih ⟨c1.bindings_.insert_or_assign b.1 v⟩ env w1 hs.2 hc2 henv e3
        simp only [LetNode_loop, hr, Env.insert, Bool.false_eq_true, if_false, if_true]
        exact ⟨i1, i2.trans e2, i3, i4⟩
    | false =>
      obtain ⟨e1, e2, e3, e4⟩ := hev b.2 env w hs.1 henv hw
      rcases hr : ev b.2 env w with ⟨r, env1, w1⟩
      rw [hr] at e1 e2 e3 e4
      simp only at e1 e2 e3 e4
      subst e1
      cases r with
      | error e => simp [LetNode_loop, hr, e2, e3]
      | ok v =>
        have hc2 := frame_no_define_insert current.bindings_ b.1 v hcur (e4 v rfl)
        obtain ⟨i1, i2, i3, i4⟩ :=
          ih ⟨current.bindings_.insert_or_assign b.1 v⟩ env1 w1 hs.2 hc2 henv e3
        simp only [LetNode_loop, hr, Env.insert, Bool.false_eq_true, if_false]
        exact ⟨i1, i2.trans e2, i3, i4⟩

theorem LetNode_eval_no_define {ev : Evaluator} (hev : DefineFree ev)
    (bs : List (String × ASTNode)) (body : ASTNode) (star_ : Bool) (env : Env) (w : World)
    (hs : no_define_bindings bs = true) (hb : no_define body = true)
    (henv : frame_no_define env.bindings_ = true) (hw : world_no_define w = true) :
    (LetNode_eval ev bs body star_ env w).2.1 = env ∧
      (LetNode_eval ev bs body star_ env w).2.2.toplvl = w.toplvl ∧
      world_no_define (LetNode_eval ev bs body star_ env w).2.2 = true ∧
      ∀ v, (LetNode_eval ev bs body star_ env w).1 = .ok v → no_define v = true := by
  obtain ⟨e1, e2, e3, e4⟩ := LetNode_loop_no_define hev star_ bs env env w hs henv henv hw
  rcases hr : LetNode_loop ev star_ bs env env w with ⟨r, env1, w1⟩
  rw [hr] at e1 e2 e3 e4
  simp only at e1 e2 e3 e4
  subst e1
  cases r with
  | error e => simp [LetNode_eval, hr, e2, e3]
  | ok c =>
    obtain ⟨_, i2, i3, i4⟩ := hev body c w1 hb (e4 c rfl) e3
    rcases hr2 : ev body c w1 with ⟨r2, c2, w2⟩
    rw [hr2] at i2 i3 i4
    simp only at i2 i3 i4
    simp only [LetNode_eval, hr, hr2]
    exact ⟨trivial, i2.trans e2, i3, i4⟩

theorem bind_arguments_no_define (names : List String) (vs : List ASTNode) (current : Env)
    (w : World) (hcur : frame_no_define current.bindings_ = true)
    (hvs : ∀ a ∈ vs, no_define a = true) :
    frame_no_define (bind_arguments names vs current w).1.bindings_ = true := by
  induction names generalizing vs current w with
  | nil => cases vs <;> simpa [bind_arguments] using hcur
  | cons l ls ih =>
    cases vs with
    | nil => simpa [bind_arguments] using hcur
    | cons r rs =>
      simp only [bind_arguments, Env.insert, Bool.false_eq_true, if_false]
      exact ih rs _ w
        (frame_no_define_insert _ _ _ hcur (hvs r (List.mem_cons_self _ _)))
        (fun a ha => hvs a (List.mem_cons_of_mem _ ha))

theorem call_no_define {ev : Evaluator} (hev : DefineFree ev) (proc : ASTNode)
    (args : List ASTNode) (w : World) (hp : no_define proc = true)
    (hargs : ∀ a ∈ args, no_define a = true) (hw : world_no_define w = true) :
    (call ev proc args w).2.toplvl = w.toplvl ∧ world_no_define (call ev proc args w).2 = true ∧
      ∀ v, (call ev proc args w).1 = .ok v → no_define v = true := by
  cases proc with
  | BuiltinNode name =>
    simp only [call]
    cases hf : Builtins.functions.find name with
    | none => simp [hw]
    | some fxn_ =>
      refine ⟨rfl, ?_, ?_⟩
      · simpa [world_no_define] using hw
      · exact builtin_no_define name fxn_ hf args w.out hargs
  | LambdaNode id arg_list_ body_ name_ =>
    simp only [call, LambdaNode_call]
    split
    · simp [throw_error, hw]
    · cases hc : w.env_.find id with
      | none => simp [hw]
      | some captured =>
        have hw2 := hw
        simp only [world_no_define, Bool.and_eq_true] at hw2
        have hcap : frame_no_define captured.bindings_ = true :=
          unordered_map.all_find (fun (ie : Nat × Env) => frame_no_define ie.2.bindings_) w.env_ id
            captured
            hw2.2 (fun _ _ _ => rfl) hc
        have hb : no_define body_ = true := by simpa [no_define] using hp
        have h1 := bind_arguments_no_define arg_list_ args captured w hcap hargs
        have hwb := bind_arguments_world arg_list_ args captured w
        rcases hr : bind_arguments arg_list_ args captured w with ⟨c1, w1⟩
        rw [hr] at h1 hwb
        simp only at h1 hwb
        subst hwb
        by_cases hn : name_ = ""
        · obtain ⟨_, i2, i3, i4⟩ := hev body_ c1 w1 hb h1 hw
          simpa [hn, hr] using ⟨i2, i3, i4⟩
        · have h2 := frame_no_define_insert c1.bindings_ name_
            (LambdaNode id arg_list_ body_ name_) h1 hp
          obtain ⟨_, i2, i3, i4⟩ :=
            hev body_ ⟨c1.bindings_.insert_or_assign name_ (LambdaNode id arg_list_ body_ name_)⟩
              w1 hb h2 hw
          simpa [hn, hr, Env.insert] using ⟨i2, i3, i4⟩
  | _ => simp [call, throw_error, hw]

theorem ProcNode_eval_no_define {ev : Evaluator} (hev : DefineFree ev) (nodes : List ASTNode)
    (env : Env) (w : World) (hs : no_define_each nodes = true)
    (henv : frame_no_define env.bindings_ = true) (hw : world_no_define w = true) :
    (ProcNode_eval ev nodes env w).2.1 = env ∧
      (ProcNode_eval ev nodes env w).2.2.toplvl = w.toplvl ∧
      world_no_define (ProcNode_eval ev nodes env w).2.2 = true ∧
      ∀ v, (ProcNode_eval ev nodes env w).1 = .ok v → no_define v = true := by
  cases nodes with
  | nil => simp [ProcNode_eval, hw]
  | cons head rest =>
    simp only [no_define_each, Bool.and_eq_true] at hs
    obtain ⟨e1, e2, e3, e4⟩ := hev head env w hs.1 henv hw
    rcases hr : ev head env w with ⟨r, env1, w1⟩
    rw [hr] at e1 e2 e3 e4
    simp only at e1 e2 e3 e4
    subst e1
    cases r with
    | error e => simp [ProcNode_eval, hr, e2, e3]
    | ok proc =>
      obtain ⟨i1, i2, i3, i4⟩ := eval_args_no_define hev rest env1 w1 hs.2 henv e3
      rcases hr2 : eval_args ev rest env1 w1 with ⟨r2, env2, w2⟩
      rw [hr2] at i1 i2 i3 i4
      simp only at i1 i2 i3 i4
      subst i1
      cases r2 with
      | error e => simp [ProcNode_eval, hr, hr2, i2.trans e2, i3]
      | ok args =>
        obtain ⟨c2, c3, c4⟩ := call_no_define hev proc args w2 (e4 proc rfl) (i4 args rfl) i3
        simp only [ProcNode_eval, hr, hr2]
        exact ⟨trivial, c2.trans (i2.trans e2), c3, c4⟩

theorem PairNode_eval_no_define {ev : Evaluator} (hev : DefineFree ev) (first_ second_ : ASTNode)
    (env : Env) (w : World) (h1 : no_define first_ = true) (h2 : no_define second_ = true)
    (henv : frame_no_define env.bindings_ = true) (hw : world_no_define w = true) :
    (PairNode_eval ev first_ second_ env w).2.1 = env ∧
      (PairNode_eval ev first_ second_ env w).2.2.toplvl = w.toplvl ∧
      world_no_define (PairNode_eval ev first_ second_ env w).2.2 = true ∧
      ∀ v, (PairNode_eval ev first_ second_ env w).1 = .ok v → no_define v = true := by
  obtain ⟨e1, e2, e3, e4⟩ := hev second_ env w h2 henv hw
  rcases hr : ev second_ env w with ⟨r, env1, w1⟩
  rw [hr] at e1 e2 e3 e4
  simp only at e1 e2 e3 e4
  subst e1
  cases r with
  | error e => simp [PairNode_eval, hr, e2, e3]
  | ok l =>
    obtain ⟨i1, i2, i3, i4⟩ := hev first_ env1 w1 h1 henv e3
    rcases hr2 : ev first_ env1 w1 with ⟨r2, env2, w2⟩
    rw [hr2] at i1 i2 i3 i4
    simp only at i1 i2 i3 i4
    subst i1
    cases r2 with
    | error e => simp [PairNode_eval, hr, hr2, i2.trans e2, i3]
    | ok r =>
      simp only [PairNode_eval, hr, hr2]
      refine ⟨trivial, i2.trans e2, i3, ?_⟩
      intro v hv
      simp only [Except.ok.injEq] at hv
      subst hv
      simp [no_define, e4 l rfl, i4 r rfl]

theorem CondNode_eval_no_define {ev : Evaluator} (hev : DefineFree ev) (ps ns : List ASTNode)
    (env : Env) (w : World) (hps : no_define_each ps = true) (hns : no_define_each ns = true)
    (henv : frame_no_define env.bindings_ = true) (hw : world_no_define w = true) :
    (CondNode_eval ev ps ns env w).2.1 = env ∧
      (CondNode_eval ev ps ns env w).2.2.toplvl = w.toplvl ∧
      world_no_define (CondNode_eval ev ps ns env w).2.2 = true ∧
      ∀ v, (CondNode_eval ev ps ns env w).1 = .ok v → no_define v = true := by
  induction ps generalizing ns env w with
  | nil => simp [CondNode_eval, hw, no_define]
  | cons l ls ih =>
    cases ns with
    | nil => simp [CondNode_eval, hw]
    | cons r rs =>
      simp only [no_define_each, Bool.and_eq_true] at hps hns
      obtain ⟨e1, e2, e3, _⟩ := hev l env w hps.1 henv hw
      rcases hr : ev l env w with ⟨res, env1, w1⟩
      rw [hr] at e1 e2 e3
      simp only at e1 e2 e3
      subst e1
      cases res with
      | error e => simp [CondNode_eval, hr, e2, e3]
      | ok v =>
        by_cases hb : get_boolean v = true
        · obtain ⟨i1, i2, i3, i4⟩ := hev r env1 w1 hns.1 henv e3
          simp only [CondNode_eval, hr, hb, if_true]
          exact ⟨i1, i2.trans e2, i3, i4⟩
        · obtain ⟨i1, i2, i3, i4⟩ := ih rs env1 w1 hps.2 hns.2 henv e3
          simp only [CondNode_eval, hr, hb, if_false]
          exact ⟨i1, i2.trans e2, i3, i4⟩

theorem AndNode_loop_no_define {ev : Evaluator} (hev : DefineFree ev) (nodes : List ASTNode)
    (val : Option ASTNode) (env : Env) (w : World) (hs : no_define_each nodes = true)
    (hval : ∀ v, val = some v → no_define v = true)
    (henv : frame_no_define env.bindings_ = true) (hw : world_no_define w = true) :
    (AndNode_loop ev nodes val env w).2.1 = env ∧
      (AndNode_loop ev nodes val env w).2.2.toplvl = w.toplvl ∧
      world_no_define (AndNode_loop ev nodes val env w).2.2 = true ∧
      ∀ v, (AndNode_loop ev nodes val env w).1 = .ok v → no_define v = true := by
  induction nodes generalizing val env w with
  | nil =>
    cases val with
    | none => simp [AndNode_loop, hw]
    | some x =>
      refine ⟨rfl, rfl, hw, ?_⟩
      intro v hv
      simp only [AndNode_loop, Except.ok.injEq] at hv
      subst hv
      exact hval x rfl
  | cons node rest ih =>
    simp only [no_define_each, Bool.and_eq_true] at hs
    obtain ⟨e1, e2, e3, e4⟩ := hev node env w hs.1 henv hw
    rcases hr : ev node env w with ⟨res, env1, w1⟩
    rw [hr] at e1 e2 e3 e4
    simp only at e1 e2 e3 e4
    subst e1
    cases res with
    | error e => simp [AndNode_loop, hr, e2, e3]
    | ok v =>
      by_cases hb : get_boolean v = true
      · obtain ⟨i1, i2, i3, i4⟩ := ih (some v) env1 w1 hs.2
          (fun x hx => by cases hx; exact e4 v rfl) henv e3
        simp only [AndNode_loop, hr, hb, Bool.not_true, Bool.false_eq_true, if_false]
        exact ⟨i1, i2.trans e2, i3, i4⟩
      · simp only [AndNode_loop, hr, hb, Bool.not_false, if_true]
        refine ⟨trivial, e2, e3, ?_⟩
        intro x hx
        simp only [Except.ok.injEq] at hx
        subst hx
        exact e4 v rfl

theorem OrNode_eval_no_define {ev : Evaluator} (hev : DefineFree ev) (nodes : List ASTNode)
    (env : Env) (w : World) (hs : no_define_each nodes = true)
    (henv : frame_no_define env.bindings_ = true) (hw : world_no_define w = true) :
    (OrNode_eval ev nodes env w).2.1 = env ∧
      (OrNode_eval ev nodes env w).2.2.toplvl = w.toplvl ∧
      world_no_define (OrNode_eval ev nodes env w).2.2 = true ∧
      ∀ v, (OrNode_eval ev nodes env w).1 = .ok v → no_define v = true := by
  induction nodes generalizing env w with
  | nil => simp [OrNode_eval, hw, no_define]
  | cons node rest ih =>
    simp only [no_define_each, Bool.and_eq_true] at hs
    obtain ⟨e1, e2, e3, e4⟩ := hev node env w hs.1 henv hw
    rcases hr : ev node env w with ⟨res, env1, w1⟩
    rw [hr] at e1 e2 e3 e4
    simp only at e1 e2 e3 e4
    subst e1
    cases res with
    | error e => simp [OrNode_eval, hr, e2, e3]
    | ok v =>
      by_cases hb : get_boolean v = true
      · simp only [OrNode_eval, hr, hb, if_true]
        refine ⟨trivial, e2, e3, ?_⟩
        intro x hx
        simp only [Except.ok.injEq] at hx
        subst hx
        exact e4 v rfl
      · obtain ⟨i1, i2, i3, i4⟩ := ih env1 w1 hs.2 henv e3
        simp only [OrNode_eval, hr, hb, if_false]
        exact ⟨i1, i2.trans e2, i3, i4⟩

/-- Evaluation of a node without `define`, in a frame and a state that hold no node with a
`define`, leaves the frame and the top-level as they were, and what it returns and what it
leaves in the state is again without `define`. -/
theorem eval_no_define (fuel : Nat) : DefineFree (eval fuel) := by
  induction fuel with
  | zero =>
    intro x env w _ _ hw
    simp [eval, hw]
  | succ n ih =>
    intro x env w hx henv hw
    cases x with
    | IntNode v => simp [eval, hw, no_define]
    | BoolNode v => simp [eval, hw, no_define]
    | UnitNode => simp [eval, hw, no_define]
    | NullNode m => simp [eval, hw]
    | SeqNode s =>
      simpa [eval] using SeqNode_eval_no_define ih s env w (by simpa [no_define] using hx) henv hw
    | VarNode name =>
      simp only [eval, VarNode_eval]
      cases hf : env.find w name with
      | error e => simp [hw]
      | ok found => exact ih found env w (Env.find_no_define env w name found henv hw hf) henv hw
    | BindNode name value => simp [no_define] at hx
    | LetNode bs body star =>
      simp only [no_define, Bool.and_eq_true] at hx
      simpa [eval] using LetNode_eval_no_define ih bs body star env w hx.1 hx.2 henv hw
    | ProcNode nodes =>
      simpa [eval] using
        ProcNode_eval_no_define ih nodes env w (by simpa [no_define] using hx) henv hw
    | BuiltinNode name => simp [eval, hw, no_define]
    | LambdaNode id al body name =>
      simp only [eval, LambdaNode_eval]
      refine ⟨trivial, trivial, ?_, ?_⟩
      · simp only [world_no_define, Bool.and_eq_true] at hw ⊢
        exact ⟨hw.1, unordered_map.all_insert
          (fun (ie : Nat × Env) => frame_no_define ie.2.bindings_) w.env_
          id env hw.2 henv⟩
      · intro v hv
        simp only [Except.ok.injEq] at hv
        subst hv
        exact hx
    | PairNode a b =>
      simp only [no_define, Bool.and_eq_true] at hx
      simpa [eval] using PairNode_eval_no_define ih a b env w hx.1 hx.2 henv hw
    | CondNode ps ns =>
      simp only [no_define, Bool.and_eq_true] at hx
      simpa [eval] using CondNode_eval_no_define ih ps ns env w hx.1 hx.2 henv hw
    | AndNode nodes =>
      simp only [eval, AndNode_eval]
      split
      · simp [hw, no_define]
      · exact AndNode_loop_no_define ih nodes none env w (by simpa [no_define] using hx)
          (fun v hv => by cases hv) henv hw
    | OrNode nodes =>
      simpa [eval] using
        OrNode_eval_no_define ih nodes env w (by simpa [no_define] using hx) henv hw

/-! ## C18: `let` is local -/

/-- C18 as the source has it.  Evaluating a `let` or `let*` form never changes the local frame
of the environment it is evaluated in.  It leaves the top-level unchanged when no `define`
occurs in its binding expressions and its body and none occurs in a node the environment
holds: the values bound in the local frame and at top level, and those bound in the captured
environments of the closures (so no closure that can be called has a `define` in its body).
Then every name is bound after the evaluation to what it was bound before: the names of the
`let` are not visible afterwards. -/
theorem C18_let_locality (fuel : Nat) (bs : List (String × ASTNode)) (body : ASTNode)
    (star_ : Bool) (env : Env) (w : World) :
    (eval fuel (LetNode bs body star_) env w).2.1 = env ∧
    (no_define_bindings bs = true → no_define body = true →
      frame_no_define env.bindings_ = true → world_no_define w = true →
      (eval fuel (LetNode bs body star_) env w).2.2.toplvl = w.toplvl ∧
      ∀ name, (eval fuel (LetNode bs body star_) env w).2.1.find
          (eval fuel (LetNode bs body star_) env w).2.2 name = env.find w name) := by
  refine ⟨eval_env fuel _ env w, ?_⟩
  intro hbs hbody henv hw
  have hx : no_define (LetNode bs body star_) = true := by simp [no_define, hbs, hbody]
  obtain ⟨e1, e2, _, _⟩ := eval_no_define fuel (LetNode bs body star_) env w hx henv hw
  refine ⟨e2, ?_⟩
  intro name
  rw [e1]
  simp only [Env.find, e2]

set_option maxRecDepth 100000 in
/-- C18 on `(let ((x 1) (y 2)) (display (+ x y)))`, evaluated in a frame that binds `a` over a
top-level that binds `x` to 10: the frame and the top-level are the same afterwards, and `x`
is found to be 10 again.  The batch driver prints 3 and then 10 for the text that goes on with
`x`, and reports `y` as unbound after the form. -/
theorem C18_let_locality_witness :
    ((eval 10 (LetNode [("x", IntNode 1), ("y", IntNode 2)]
        (SeqNode [ProcNode [VarNode "display", ProcNode [VarNode "+", VarNode "x", VarNode "y"]]])
        false) ⟨[("a", IntNode 0)]⟩ ⟨[("x", IntNode 10)], [], ""⟩).2.2.toplvl
        = [("x", IntNode 10)] ∧
      ∀ name, (eval 10 (LetNode [("x", IntNode 1), ("y", IntNode 2)]
          (SeqNode [ProcNode [VarNode "display",
            ProcNode [VarNode "+", VarNode "x", VarNode "y"]]])
          false) ⟨[("a", IntNode 0)]⟩ ⟨[("x", IntNode 10)], [], ""⟩).2.1.find
        (eval 10 (LetNode [("x", IntNode 1), ("y", IntNode 2)]
          (SeqNode [ProcNode [VarNode "display",
            ProcNode [VarNode "+", VarNode "x", VarNode "y"]]])
          false) ⟨[("a", IntNode 0)]⟩ ⟨[("x", IntNode 10)], [], ""⟩).2.2 name
        = Env.find ⟨[("a", IntNode 0)]⟩ ⟨[("x", IntNode 10)], [], ""⟩ name) ∧
    eval 10 (LetNode [("x", IntNode 1), ("y", IntNode 2)]
        (SeqNode [ProcNode [VarNode "display", ProcNode [VarNode "+", VarNode "x", VarNode "y"]]])
        false) ⟨[("a", IntNode 0)]⟩ ⟨[("x", IntNode 10)], [], ""⟩
      = (.ok (NullNode ""), ⟨[("a", IntNode 0)]⟩, ⟨[("x", IntNode 10)], [], "3"⟩) ∧
    main_batch 20 "(define x 10) (let ((x 1) (y 2)) (display (+ x y))) x" = some "310\n" ∧
    main_batch 20 "(define x 10) (let* ((x 1) (y x)) (display (+ x y))) x" = some "210\n" ∧
    main_batch 20 "(let ((x 1) (y 2)) (display (+ x y))) y"
      = some "3error: unbound variable: y\n" :=
  ⟨(C18_let_locality 10 [("x", IntNode 1), ("y", IntNode 2)]
      (SeqNode [ProcNode [VarNode "display", ProcNode [VarNode "+", VarNode "x", VarNode "y"]]])
      false ⟨[("a", IntNode 0)]⟩ ⟨[("x", IntNode 10)], [], ""⟩).2 rfl rfl rfl rfl,
    rfl, by decide, by decide, by decide⟩

set_option maxRecDepth 100000 in
/-- C18 as stated fails.  After `(define (g) (define z 1))` the form `(let ((x 5)) (g))` has no
`define` in its binding expressions and its body, yet evaluating it binds `z` at top level: the
body calls a closure whose body is a `define`.  The batch driver prints 1 for the text that
goes on with `z`. -/
theorem C18_counterexample :
    no_define_bindings [("x", IntNode 5)] = true ∧
    no_define (SeqNode [ProcNode [VarNode "g"]]) = true ∧
    (∀ more, eval (10 + more) (BindNode "g" (LambdaNode 2 [] (BindNode "z" (IntNode 1)) "g"))
        Env.initial World.initial
      = (.ok (NullNode "g"), Env.initial,
          ⟨[("g", LambdaNode 2 [] (BindNode "z" (IntNode 1)) "g")], [(2, Env.initial)], ""⟩)) ∧
    unordered_map.find [("g", LambdaNode 2 [] (BindNode "z" (IntNode 1)) "g")] "z" = none ∧
    (∀ more, eval (10 + more)
        (LetNode [("x", IntNode 5)] (SeqNode [ProcNode [VarNode "g"]]) false) Env.initial
        ⟨[("g", LambdaNode 2 [] (BindNode "z" (IntNode 1)) "g")], [(2, Env.initial)], ""⟩
      = (.ok (NullNode "z"), Env.initial,
          ⟨[("g", LambdaNode 2 [] (BindNode "z" (IntNode 1)) "g"), ("z", IntNode 1)],
            [(2, ⟨[("x", IntNode 5)]⟩)], ""⟩)) ∧
    (∀ more, main_batch (20 + more) "(define (g) (define z 1)) (let ((x 5)) (g)) z"
      = some "1\n") ∧
    (∀ more, main_batch (20 + more) "(define (g) (define z 1)) (let* ((x (g))) 2) z"
      = some "1\n") :=
  ⟨rfl, rfl, fun more => eval_fuel_mono_of_eq 10 more _ _ _ _ rfl (by simp), rfl,
    fun more => eval_fuel_mono_of_eq 10 more _ _ _ _ rfl (by simp),
    fun more => main_batch_fuel_mono 20 more _ _ (by decide),
    fun more => main_batch_fuel_mono 20 more _ _ (by decide)⟩

/-! ## C19: `Env::insert` -/

/-- C19.  `insert(name, v, true)` changes the top-level only, and `insert(name, v, false)` the
local frame only.  In the layer written, `name` then maps to `v`, whether or not it was bound
before, and every other name maps to what it did.  So `find(name)` gives `v` after a local
insert, it gives `v` after a top-level insert when the local frame does not bind `name`, and
`find(m)` is unchanged for every other name `m`. -/
theorem C19_env_insert (env : Env) (w : World) (name : String) (v : ASTNode) :
    ((env.insert w name v true).1 = env ∧
      (env.insert w name v true).2.env_ = w.env_ ∧
      (env.insert w name v true).2.out = w.out ∧
      (env.insert w name v true).2.toplvl.find name = some v ∧
      ∀ m, m ≠ name → (env.insert w name v true).2.toplvl.find m = w.toplvl.find m) ∧
    ((env.insert w name v false).2 = w ∧
      (env.insert w name v false).1.bindings_.find name = some v ∧
      ∀ m, m ≠ name →
        (env.insert w name v false).1.bindings_.find m = env.bindings_.find m) ∧
    (env.insert w name v false).1.find (env.insert w name v false).2 name = .ok v ∧
    (env.bindings_.find name = none →
      (env.insert w name v true).1.find (env.insert w name v true).2 name = .ok v) ∧
    (∀ m top, m ≠ name →
      (env.insert w name v top).1.find (env.insert w name v top).2 m = env.find w m) := by
  refine ⟨⟨?_, ?_, ?_, ?_, ?_⟩, ⟨?_, ?_, ?_⟩, ?_, ?_, ?_⟩
  · simp [Env.insert]
  · simp [Env.insert]
  · simp [Env.insert]
  · simp [Env.insert, unordered_map.find_insert_same]
  · intro m hm
    simp [Env.insert, unordered_map.find_insert_other _ _ _ _ hm]
  · simp [Env.insert]
  · simp [Env.insert, unordered_map.find_insert_same]
  · intro m hm
    simp [Env.insert, unordered_map.find_insert_other _ _ _ _ hm]
  · simp [Env.insert, Env.find, unordered_map.find_insert_same]
  · intro h
    simp [Env.insert, Env.find, unordered_map.find_insert_same, h]
  · intro m top hm
    cases top <;> simp [Env.insert, Env.find, unordered_map.find_insert_other _ _ _ _ hm]

/-- C19 on a frame that binds `x` and `y` over a top-level that binds `x` and `z`: a local
insert of `x` overwrites the local `x`; a top-level insert of `z` is found, as `z` is not bound
locally; a top-level insert of `x` stays hidden behind the local `x`. -/
theorem C19_env_insert_witness :
    (Env.insert ⟨[("x", IntNode 1), ("y", IntNode 2)]⟩
        ⟨[("x", IntNode 3), ("z", IntNode 4)], [], ""⟩ "x" (IntNode 7) false)
      = (⟨[("x", IntNode 7), ("y", IntNode 2)]⟩, ⟨[("x", IntNode 3), ("z", IntNode 4)], [], ""⟩) ∧
    (Env.insert ⟨[("x", IntNode 1), ("y", IntNode 2)]⟩
        ⟨[("x", IntNode 3), ("z", IntNode 4)], [], ""⟩ "z" (IntNode 7) true)
      = (⟨[("x", IntNode 1), ("y", IntNode 2)]⟩, ⟨[("x", IntNode 3), ("z", IntNode 7)], [], ""⟩) ∧
    Env.find ⟨[("x", IntNode 1), ("y", IntNode 2)]⟩
        ⟨[("x", IntNode 3), ("z", IntNode 7)], [], ""⟩ "z" = .ok (IntNode 7) ∧
    Env.find ⟨[("x", IntNode 1), ("y", IntNode 2)]⟩
        ⟨[("x", IntNode 9), ("z", IntNode 4)], [], ""⟩ "x" = .ok (IntNode 1) ∧
    (Env.insert ⟨[("x", IntNode 1), ("y", IntNode 2)]⟩
        ⟨[("x", IntNode 3), ("z", IntNode 4)], [], ""⟩ "z" (IntNode 7) true).1.find
      (Env.insert ⟨[("x", IntNode 1), ("y", IntNode 2)]⟩
        ⟨[("x", IntNode 3), ("z", IntNode 4)], [], ""⟩ "z" (IntNode 7) true).2 "z"
      = .ok (IntNode 7) :=
  ⟨rfl, rfl, rfl, rfl,
    (C19_env_insert ⟨[("x", IntNode 1), ("y", IntNode 2)]⟩
      ⟨[("x", IntNode 3), ("z", IntNode 4)], [], ""⟩ "z" (IntNode 7)).2.2.2.1 rfl⟩

/-! ## C20: the status of the tokenizer -/

/-- A `)` at depth zero, in terms of the counts of the parentheses before it. -/
theorem closes_at_depth_zero_iff (cs : List Char) (depth : Nat) :
    closes_at_depth_zero cs depth = true ↔
      ∃ pre post, cs = pre ++ ')' :: post ∧ depth + pre.count '(' = pre.count ')' := by
  induction cs generalizing depth with
  | nil => simp [closes_at_depth_zero]
  | cons c cs ih =>
    by_cases ho : c = '('
    · subst ho
      simp only [closes_at_depth_zero, if_true, ih]
      constructor
      · rintro ⟨pre, post, rfl, h⟩
        refine ⟨'(' :: pre, post, rfl, ?_⟩
        have hc : List.count ')' ('(' :: pre) = List.count ')' pre :=
          List.count_cons_of_ne (by decide) _
        rw [List.count_cons_self, hc]
        omega
      · rintro ⟨pre, post, h1, h2⟩
        cases pre with
        | nil => simp at h1
        | cons x pre =>
          simp only [List.cons_append, List.cons.injEq] at h1
          obtain ⟨hx, hcs⟩ := h1
          subst hx
          have hc : List.count ')' ('(' :: pre) = List.count ')' pre :=
            List.count_cons_of_ne (by decide) _
          rw [List.count_cons_self, hc] at h2
          exact ⟨pre, post, hcs, by omega⟩
    · by_cases hc : c = ')'
      · subst hc
        by_cases hd : depth = 0
        · subst hd
          simp only [closes_at_depth_zero, ho, if_false, if_true, true_iff]
          exact ⟨[], cs, rfl, by simp⟩
        · simp only [closes_at_depth_zero, ho, if_false, if_true, hd, ih]
          constructor
          · rintro ⟨pre, post, rfl, h⟩
            refine ⟨')' :: pre, post, rfl, ?_⟩
            have hc2 : List.count '(' (')' :: pre) = List.count '(' pre :=
              List.count_cons_of_ne (by decide) _
            rw [List.count_cons_self, hc2]
            omega
          · rintro ⟨pre, post, h1, h2⟩
            cases pre with
            | nil =>
              simp only [List.count_nil] at h2
              omega
            | cons x pre =>
              simp only [List.cons_append, List.cons.injEq] at h1
              obtain ⟨hx, hcs⟩ := h1
              subst hx
              have hc2 : List.count '(' (')' :: pre) = List.count '(' pre :=
                List.count_cons_of_ne (by decide) _
              rw [List.count_cons_self, hc2] at h2
              exact ⟨pre, post, hcs, by omega⟩
      · simp only [closes_at_depth_zero, ho, hc, if_false, ih]
        constructor
        · rintro ⟨pre, post, rfl, h⟩
          refine ⟨c :: pre, post, rfl, ?_⟩
          rw [List.count_cons_of_ne (Ne.symm ho), List.count_cons_of_ne (Ne.symm hc)]
          exact h
        · rintro ⟨pre, post, h1, h2⟩
          cases pre with
          | nil =>
            simp only [List.nil_append, List.cons.injEq] at h1
            exact absurd h1.1 hc
          | cons x pre =>
            simp only [List.cons_append, List.cons.injEq] at h1
            obtain ⟨hx, hcs⟩ := h1
            subst hx
            rw [List.count_cons_of_ne (Ne.symm ho), List.count_cons_of_ne (Ne.symm hc)] at h2
            exact ⟨pre, post, hcs, h2⟩

/-- Without a `)` at depth zero, the text closes no more parentheses than were open. -/
theorem count_le_of_not_closes (cs : List Char) (depth : Nat)
    (h : closes_at_depth_zero cs depth = false) :
    cs.count ')' ≤ depth + cs.count '(' := by
  induction cs generalizing depth with
  | nil => simp
  | cons c cs ih =>
    by_cases ho : c = '('
    · subst ho
      simp only [closes_at_depth_zero, if_true] at h
      have := ih _ h
      have hc : List.count ')' ('(' :: cs) = List.count ')' cs :=
        List.count_cons_of_ne (by decide) _
      rw [List.count_cons_self, hc]
      omega
    · by_cases hc : c = ')'
      · subst hc
        by_cases hd : depth = 0
        · simp [closes_at_depth_zero, hd] at h
        · simp only [closes_at_depth_zero, ho, if_false, if_true, hd] at h
          have := ih _ h
          have hc2 : List.count '(' (')' :: cs) = List.count '(' cs :=
            List.count_cons_of_ne (by decide) _
          rw [List.count_cons_self, hc2]
          omega
      · simp only [closes_at_depth_zero, ho, hc, if_false] at h
        rw [List.count_cons_of_ne (Ne.symm ho), List.count_cons_of_ne (Ne.symm hc)]
        exact ih _ h


/-- Lower-casing turns no other character into a parenthesis. -/
theorem tolower_paren (c : Char) :
    (tolower c = '(' → c = '(') ∧ (tolower c = ')' → c = ')') := by
  obtain ⟨n, hn⟩ : ∃ n, c.toNat = n := ⟨_, rfl⟩
  by_cases hr : n ≥ 65 ∧ n ≤ 90
  · simp only [tolower, Char.toLower, hn, hr, and_self, if_true]
    obtain ⟨h1, h2⟩ := hr
    interval_cases n <;> exact ⟨fun h => absurd h (by decide), fun h => absurd h (by decide)⟩
  · simp only [tolower, Char.toLower, hn, hr, if_false]
    exact ⟨id, id⟩

/-- A token without parentheses is pushed as a token that is neither `(` nor `)`; the depth
counter stays, and the token buffer is then empty. -/
theorem try_push_facts (p : Parser) (token : String)
    (h : '(' ∉ token.data ∧ ')' ∉ token.data) :
    (try_push p token).1.paren_ = p.paren_ ∧
    (try_push p token).1.tokens_.count "(" = p.tokens_.count "(" ∧
    (try_push p token).1.tokens_.count ")" = p.tokens_.count ")" ∧
    '(' ∉ (try_push p token).2.data ∧ ')' ∉ (try_push p token).2.data := by
  unfold try_push
  by_cases he : token = ""
  · simp [he]
  · simp only [ne_eq, he, not_false_eq_true, if_true, List.count_append]
    have h1 : String.mk (token.data.map tolower) ≠ "(" := by
      intro e
      have e2 : token.data.map tolower = ['('] := congrArg String.data e
      cases hd : token.data with
      | nil => simp [hd] at e2
      | cons c cs =>
        rw [hd] at e2
        simp only [List.map_cons, List.cons.injEq] at e2
        have := (tolower_paren c).1 e2.1
        exact h.1 (by rw [hd, this]; exact List.mem_cons_self _ _)
    have h2 : String.mk (token.data.map tolower) ≠ ")" := by
      intro e
      have e2 : token.data.map tolower = [')'] := congrArg String.data e
      cases hd : token.data with
      | nil => simp [hd] at e2
      | cons c cs =>
        rw [hd] at e2
        simp only [List.map_cons, List.cons.injEq] at e2
        have := (tolower_paren c).2 e2.1
        exact h.2 (by rw [hd, this]; exact List.mem_cons_self _ _)
    refine ⟨trivial, ?_, ?_, ?_, ?_⟩
    · simp [List.count_singleton, h1]
    · simp [List.count_singleton, h2]
    · simp
    · simp

/-- The loop of the tokenizer and the parentheses of the text outside comments: it returns
`failure` exactly at a `)` at depth zero; otherwise the depth counter and the numbers of `(`
and `)` tokens grow by the numbers of these characters, and the status says whether the depth
counter ends at zero. -/
theorem tokenize_loop_status (src : List Char) (p : Parser) (token : String)
    (in_comment : Bool) (htok : '(' ∉ token.data ∧ ')' ∉ token.data) :
    ((tokenize_loop src p token in_comment).1 = status.failure ↔
      closes_at_depth_zero (outside_comments src in_comment) p.paren_ = true) ∧
    ((tokenize_loop src p token in_comment).1 ≠ status.failure →
      (tokenize_loop src p token in_comment).2.paren_
          + (outside_comments src in_comment).count ')'
        = p.paren_ + (outside_comments src in_comment).count '(' ∧
      (tokenize_loop src p token in_comment).2.tokens_.count "("
        = p.tokens_.count "(" + (outside_comments src in_comment).count '(' ∧
      (tokenize_loop src p token in_comment).2.tokens_.count ")"
        = p.tokens_.count ")" + (outside_comments src in_comment).count ')' ∧
      (tokenize_loop src p token in_comment).1
        = (if (tokenize_loop src p token in_comment).2.paren_ = 0 then status.success
            else status.incomplete)) := by
  induction src generalizing p token in_comment with
  | nil =>
    obtain ⟨h1, h2, h3, _, _⟩ := try_push_facts p token htok
    rcases hr : try_push p token with ⟨q, tk⟩
    rw [hr] at h1 h2 h3
    simp only at h1 h2 h3
    simp only [tokenize_loop, hr, outside_comments, closes_at_depth_zero, List.count_nil,
      Nat.add_zero]
    refine ⟨?_, fun _ => ⟨h1, h2, h3, trivial⟩⟩
    constructor
    · intro h
      split at h <;> simp at h
    · intro h
      simp at h
  | cons c src ih =>
    obtain ⟨h1, h2, h3, h4, h5⟩ := try_push_facts p token htok
    rcases hr : try_push p token with ⟨q, tk⟩
    rw [hr] at h1 h2 h3 h4 h5
    simp only at h1 h2 h3 h4 h5
    cases in_comment with
    | true =>
      have := ih p token (decide (c ≠ '\n')) htok
      simpa [tokenize_loop, outside_comments] using this
    | false =>
      by_cases hsemi : c = ';'
      · subst hsemi
        have := ih q tk true ⟨h4, h5⟩
        rw [h1, h2, h3] at this
        simpa [tokenize_loop, outside_comments, hr] using this
      · by_cases ho : c = '('
        · subst ho
          have := ih { q with tokens_ := q.tokens_ ++ ["("], paren_ := q.paren_ + 1 } tk false
            ⟨h4, h5⟩
          have hcc : List.count ')' ('(' :: outside_comments src false)
              = List.count ')' (outside_comments src false) :=
            List.count_cons_of_ne (by decide) _
          simp only [tokenize_loop, outside_comments, hsemi, if_false, if_true,
            Bool.false_eq_true, closes_at_depth_zero, List.count_cons_self, hcc, hr, h1]
          simp only [List.count_append, List.count_singleton, beq_self_eq_true, if_true,
            h1, h2, h3] at this
          refine ⟨this.1, fun hne => ?_⟩
          obtain ⟨a, b, c2, d⟩ := this.2 hne
          have e3 : (if ("(" == ")") = true then 1 else 0) = 0 := by decide
          rw [e3] at c2
          exact ⟨by omega, by omega, by omega, d⟩
        · by_cases hc : c = ')'
          · subst hc
            have hoc : List.count '(' (')' :: outside_comments src false)
                = List.count '(' (outside_comments src false) :=
              List.count_cons_of_ne (by decide) _
            by_cases hd : p.paren_ = 0
            · simp [tokenize_loop, outside_comments, closes_at_depth_zero, hr, h1, hd]
            · have := ih { q with tokens_ := q.tokens_ ++ [")"], paren_ := q.paren_ - 1 } tk
                false ⟨h4, h5⟩
              have hle : ¬ (p.paren_ ≤ 0) := by omega
              simp only [tokenize_loop, outside_comments, hsemi, ho, if_false, if_true,
                Bool.false_eq_true, closes_at_depth_zero, List.count_cons_self, hoc, hr, hd,
                hle, h1]
              simp only [List.count_append, List.count_singleton, beq_self_eq_true, if_true,
                h1, h2, h3] at this
              refine ⟨this.1, fun hne => ?_⟩
              obtain ⟨a, b, c2, d⟩ := this.2 hne
              have e3 : (if (")" == "(") = true then 1 else 0) = 0 := by decide
              rw [e3] at b
              exact ⟨by omega, by omega, by omega, d⟩
          · have hco : List.count '(' (c :: outside_comments src false)
                = List.count '(' (outside_comments src false) :=
              List.count_cons_of_ne (Ne.symm ho) _
            have hcc : List.count ')' (c :: outside_comments src false)
                = List.count ')' (outside_comments src false) :=
              List.count_cons_of_ne (Ne.symm hc) _
            by_cases hsp : isspace c = true
            · have := ih q tk false ⟨h4, h5⟩
              rw [h1, h2, h3] at this
              simpa [tokenize_loop, outside_comments, hsemi, ho, hc, hsp, hr,
                closes_at_depth_zero, hco, hcc] using this
            · by_cases heof : is_EOF c = true
              · have := ih p token false htok
                simpa [tokenize_loop, outside_comments, hsemi, ho, hc, hsp, heof,
                  closes_at_depth_zero, hco, hcc] using this
              · have hpush : '(' ∉ (token.push c).data ∧ ')' ∉ (token.push c).data := by
                  simp only [String.data_push, List.mem_append, List.mem_singleton, not_or]
                  exact ⟨⟨htok.1, Ne.symm ho⟩, ⟨htok.2, Ne.symm hc⟩⟩
                have := ih p (token.push c) false hpush
                simpa [tokenize_loop, outside_comments, hsemi, ho, hc, hsp, heof,
                  closes_at_depth_zero, hco, hcc] using this

/-- C20.  Fed to a freshly reset tokenizer, a text gives `failure` exactly when, outside its
comments, some `)` stands where as many `)` as `(` have gone before.  Otherwise it gives
`success` when the text has as many `(` as `)` outside comments and `incomplete` when it has
more `(`, and these are the only cases.  After a call that does not fail the depth counter is
the number of `(` tokens minus the number of `)` tokens in the token buffer. -/
theorem C20_tokenizer_status (p : Parser) (src : List Char) :
    ((p.reset.tokenize src).1 = status.failure ↔
      ∃ pre post, outside_comments src false = pre ++ ')' :: post ∧
        pre.count '(' = pre.count ')') ∧
    ((p.reset.tokenize src).1 ≠ status.failure →
      ((p.reset.tokenize src).1 = status.success ↔
        (outside_comments src false).count '(' = (outside_comments src false).count ')') ∧
      ((p.reset.tokenize src).1 = status.incomplete ↔
        (outside_comments src false).count ')' < (outside_comments src false).count '(') ∧
      (outside_comments src false).count ')' ≤ (outside_comments src false).count '(' ∧
      (p.reset.tokenize src).2.paren_
        = (p.reset.tokenize src).2.tokens_.count "("
          - (p.reset.tokenize src).2.tokens_.count ")" ∧
      (p.reset.tokenize src).2.tokens_.count ")"
        ≤ (p.reset.tokenize src).2.tokens_.count "(") := by
  have hmain := tokenize_loop_status src p.reset "" false (by simp)
  have h0 : p.reset.paren_ = 0 := rfl
  have ht : p.reset.tokens_ = [] := rfl
  simp only [Parser.tokenize]
  rw [h0, ht] at hmain
  simp only [List.count_nil, Nat.zero_add] at hmain
  refine ⟨?_, fun hne => ?_⟩
  · rw [hmain.1, closes_at_depth_zero_iff]
    simp
  · obtain ⟨a, b, c, d⟩ := hmain.2 hne
    have hnc : closes_at_depth_zero (outside_comments src false) 0 = false := by
      cases hcz : closes_at_depth_zero (outside_comments src false) 0 with
      | false => rfl
      | true => exact absurd (hmain.1.2 hcz) hne
    have hle := count_le_of_not_closes _ _ hnc
    simp only [Nat.zero_add] at hle
    refine ⟨?_, ?_, hle, by omega, by omega⟩
    · rw [d]
      by_cases hz : (tokenize_loop src p.reset "" false).2.paren_ = 0
      · simp only [hz, if_true, true_iff]
        omega
      · simp only [hz, if_false]
        constructor
        · intro h
          exact absurd h (by decide)
        · intro h
          omega
    · rw [d]
      by_cases hz : (tokenize_loop src p.reset "" false).2.paren_ = 0
      · simp only [hz, if_true]
        constructor
        · intro h
          exact absurd h (by decide)
        · intro h
          omega
      · simp only [hz, if_false, true_iff]
        omega

set_option maxRecDepth 100000 in
/-- C20 on four texts: `)` right away and `(a))` fail; `(a ; )` followed by a line `b)` is a
success, the first `)` being in a comment; `((a)` is incomplete with depth one; `; )` is a
success. -/
theorem C20_tokenizer_status_witness :
    ((Parser.new false).reset.tokenize "(a))".data).1 = status.failure ∧
    (∃ pre post, outside_comments "(a))".data false = pre ++ ')' :: post ∧
      pre.count '(' = pre.count ')') ∧
    (Parser.new false).reset.tokenize ")".data = (status.failure, ⟨0, false, []⟩) ∧
    (Parser.new false).reset.tokenize "(a ; )\n b)".data
      = (status.success, ⟨0, false, ["(", "a", "b", ")"]⟩) ∧
    (Parser.new true).reset.tokenize "((a)".data
      = (status.incomplete, ⟨1, true, ["(", "(", "a", ")"]⟩) ∧
    (Parser.new false).reset.tokenize "; )".data = (status.success, ⟨0, false, []⟩) ∧
    outside_comments "(a ; )\n b)".data false = "(a  b)".data :=
  ⟨by decide,
    ((C20_tokenizer_status (Parser.new false) "(a))".data).1).1 (by decide),
    by decide, by decide, by decide, by decide, by decide⟩

/-! ## C21: the tokens -/

/-- The lambda `try_push` in terms of the run that has come to its end. -/
theorem try_push_finished (p : Parser) (token : String) :
    try_push p token
      = ({ p with tokens_ := p.tokens_
            ++ (finished token.data).map fun run => String.mk (run.map tolower) }, "") := by
  rcases token with ⟨cs⟩
  cases cs with
  | nil =>
      have e : (⟨[]⟩ : String) = "" := rfl
      simp [try_push, finished, e]
  | cons c cs =>
      have e : (⟨c :: cs⟩ : String) ≠ "" := by
        intro h
        have := congrArg String.data h
        simp at this
      simp [try_push, finished, e]

/-- The loop of the tokenizer appends the reference tokens of the rest of the text, when it
does not fail and meets no byte 255 outside comments. -/
theorem tokenize_loop_tokens (src : List Char) (p : Parser) (token : String) (in_comment : Bool)
    (hok : (tokenize_loop src p token in_comment).1 ≠ status.failure)
    (hff : ∀ c ∈ outside_comments src in_comment, is_EOF c = false) :
    (tokenize_loop src p token in_comment).2.tokens_
      = p.tokens_ ++ (runs (without_comments src in_comment) token.data).map
          fun run => String.mk (run.map tolower) := by
  induction src generalizing p token in_comment with
  | nil =>
      simp only [tokenize_loop, try_push_finished, without_comments, runs]
  | cons c src ih =>
      cases in_comment with
      | true =>
          simp only [tokenize_loop, if_true, without_comments] at hok ⊢
          exact ih p token _ hok (by simpa [outside_comments] using hff)
      | false =>
          by_cases h1 : c = ';'
          · subst h1
            have hsp : isspace '\n' = true := by decide
            have e1 : ¬ ('\n' = '(' ∨ '\n' = ')') := by decide
            simp only [tokenize_loop, Bool.false_eq_true, if_false, if_true,
              try_push_finished] at hok ⊢
            rw [ih _ _ _ hok (by simpa [outside_comments] using hff)]
            simp [without_comments, runs, hsp, e1, List.append_assoc]
          · by_cases h2 : c = '('
            · subst h2
              have e1 : tolower '(' = '(' := by decide
              simp only [tokenize_loop, Bool.false_eq_true, if_false, if_true, h1,
                try_push_finished] at hok ⊢
              rw [ih _ _ _ hok (by
                intro x hx
                exact hff x (by simp [outside_comments, hx]))]
              simp [without_comments, runs, e1, List.append_assoc]
            · by_cases h3 : c = ')'
              · subst h3
                have e1 : tolower ')' = ')' := by decide
                simp only [tokenize_loop, Bool.false_eq_true, if_false, if_true, h1, h2,
                  try_push_finished] at hok ⊢
                by_cases hp : p.paren_ ≤ 0
                · simp [hp] at hok
                · simp only [hp, if_false] at hok ⊢
                  rw [ih _ _ _ hok (by
                    intro x hx
                    exact hff x (by simp [outside_comments, hx]))]
                  simp [without_comments, runs, e1, List.append_assoc]
              · have hc : ¬ (c = '(' ∨ c = ')') := by simp [h2, h3]
                cases hs : isspace c with
                | true =>
                    simp only [tokenize_loop, Bool.false_eq_true, if_false, if_true, h1, h2, h3,
                      hs, try_push_finished] at hok ⊢
                    rw [ih _ _ _ hok (by
                      intro x hx
                      exact hff x (by simp [outside_comments, h1, hx]))]
                    simp [without_comments, runs, h1, hc, hs, List.append_assoc]
                | false =>
                    have he : is_EOF c = false := hff c (by simp [outside_comments, h1])
                    simp only [tokenize_loop, Bool.false_eq_true, if_false, if_true, h1, h2, h3,
                      hs, he, Bool.not_false] at hok ⊢
                    rw [ih _ _ _ hok (by
                      intro x hx
                      exact hff x (by simp [outside_comments, h1, hx]))]
                    simp [without_comments, runs, h1, hc, hs]

/-- Lower-casing leaves a character as it is or takes a capital letter to a small one. -/
theorem tolower_cases (c : Char) :
    tolower c = c ∨
      (65 ≤ c.toNat ∧ c.toNat ≤ 90 ∧ 97 ≤ (tolower c).toNat ∧ (tolower c).toNat ≤ 122) := by
  obtain ⟨n, hn⟩ : ∃ n, c.toNat = n := ⟨_, rfl⟩
  by_cases hr : n ≥ 65 ∧ n ≤ 90
  · right
    simp only [tolower, Char.toLower, hn, hr, and_self, if_true]
    obtain ⟨h1, h2⟩ := hr
    interval_cases n <;> exact ⟨trivial, trivial, by decide, by decide⟩
  · left
    simp only [tolower, Char.toLower, hn, hr, if_false]

/-- A character that is no letter is the lower case of itself only. -/
theorem tolower_eq_special (c s : Char) (hs : s.toNat < 65 ∨ 122 < s.toNat) :
    tolower c = s ↔ c = s := by
  constructor
  · intro h
    rcases tolower_cases c with e | ⟨_, _, h3, h4⟩
    · rw [← e]; exact h
    · rw [h] at h3 h4
      omega
  · rintro rfl
    rcases tolower_cases c with e | ⟨h1, h2, _, _⟩
    · exact e
    · omega

theorem isspace_toNat (c : Char) (h : isspace c = true) : c.toNat < 65 := by
  simp only [isspace, Bool.or_eq_true, decide_eq_true_eq] at h
  rcases h with ((((rfl | rfl) | rfl) | rfl) | rfl) | rfl <;> decide

theorem isspace_tolower (c : Char) : isspace (tolower c) = isspace c := by
  rcases tolower_cases c with e | ⟨h1, h2, h3, h4⟩
  · rw [e]
  · have a : isspace (tolower c) = false := by
      cases h : isspace (tolower c) with
      | false => rfl
      | true => have := isspace_toNat _ h; omega
    have b : isspace c = false := by
      cases h : isspace c with
      | false => rfl
      | true => have := isspace_toNat _ h; omega
    rw [a, b]

theorem is_EOF_tolower (c : Char) : is_EOF (tolower c) = is_EOF c := by
  rcases tolower_cases c with e | ⟨h1, h2, h3, h4⟩
  · rw [e]
  · have a : is_EOF (tolower c) = false := by simp [is_EOF]; omega
    have b : is_EOF c = false := by simp [is_EOF]; omega
    rw [a, b]

theorem tolower_idem (c : Char) : tolower (tolower c) = tolower c := by
  rcases tolower_cases c with e | ⟨h1, h2, h3, h4⟩
  · rw [e, e]
  · rcases tolower_cases (tolower c) with e | ⟨h5, h6, _, _⟩
    · exact e
    · omega

theorem finished_mem (run r : List Char) (h : r ∈ finished run) : r = run ∧ run ≠ [] := by
  unfold finished at h
  by_cases e : run = []
  · simp [e] at h
  · simp only [e, if_false, List.mem_singleton] at h
    exact ⟨h, e⟩

/-- What `try_push` appends is a token as the specification describes it. -/
theorem try_push_clean (p : Parser) (token : String) (hp : ∀ t ∈ p.tokens_, clean_token t)
    (ht : ∀ c ∈ token.data, c ≠ '(' ∧ c ≠ ')' ∧ c ≠ ';' ∧ isspace c = false) :
    (∀ t ∈ (try_push p token).1.tokens_, clean_token t) ∧ (try_push p token).2 = "" := by
  rw [try_push_finished]
  refine ⟨?_, rfl⟩
  intro t hmem
  simp only [List.mem_append, List.mem_map] at hmem
  rcases hmem with hmem | ⟨r, hr, rfl⟩
  · exact hp t hmem
  · obtain ⟨rfl, hne⟩ := finished_mem _ _ hr
    refine ⟨?_, Or.inr (Or.inr ?_)⟩
    · intro e
      have e2 := congrArg String.data e
      have e3 : "".data = [] := rfl
      rw [e3] at e2
      simp only [List.map_eq_nil_iff] at e2
      exact hne e2
    · intro c hc
      simp only [List.mem_map] at hc
      obtain ⟨d, hd, rfl⟩ := hc
      obtain ⟨h1, h2, h3, h4⟩ := ht d hd
      refine ⟨?_, ?_, ?_, ?_⟩
      · exact fun e => h1 ((tolower_eq_special d '(' (by decide)).1 e)
      · exact fun e => h2 ((tolower_eq_special d ')' (by decide)).1 e)
      · exact fun e => h3 ((tolower_eq_special d ';' (by decide)).1 e)
      · rw [isspace_tolower]; exact h4

theorem clean_paren : clean_token "(" ∧ clean_token ")" :=
  ⟨⟨by decide, Or.inl rfl⟩, ⟨by decide, Or.inr (Or.inl rfl)⟩⟩

/-- Every token the loop of the tokenizer leaves in the buffer is a token as the specification
describes it. -/
theorem tokenize_loop_clean (src : List Char) (p : Parser) (token : String) (in_comment : Bool)
    (hp : ∀ t ∈ p.tokens_, clean_token t)
    (ht : ∀ c ∈ token.data, c ≠ '(' ∧ c ≠ ')' ∧ c ≠ ';' ∧ isspace c = false) :
    ∀ t ∈ (tokenize_loop src p token in_comment).2.tokens_, clean_token t := by
  induction src generalizing p token in_comment with
  | nil =>
      simp only [tokenize_loop]
      exact (try_push_clean p token hp ht).1
  | cons c src ih =>
      obtain ⟨hq, hbuf⟩ := try_push_clean p token hp ht
      rcases hr : try_push p token with ⟨q, tk⟩
      rw [hr] at hq hbuf
      simp only at hq hbuf
      subst hbuf
      have hempty : ∀ c ∈ "".data, c ≠ '(' ∧ c ≠ ')' ∧ c ≠ ';' ∧ isspace c = false := by
        intro c hc
        have e3 : "".data = [] := rfl
        rw [e3] at hc
        simp at hc
      cases in_comment with
      | true =>
          simp only [tokenize_loop, if_true]
          exact ih p token _ hp ht
      | false =>
          by_cases h1 : c = ';'
          · simp only [tokenize_loop, Bool.false_eq_true, if_false, h1, if_true, hr]
            exact ih q "" _ hq hempty
          · by_cases h2 : c = '('
            · subst h2
              simp only [tokenize_loop, Bool.false_eq_true, if_false, h1, if_true, hr]
              apply ih _ "" _ _ hempty
              intro t hmem
              simp only [List.mem_append, List.mem_singleton] at hmem
              rcases hmem with hmem | rfl
              · exact hq t hmem
              · exact clean_paren.1
            · by_cases h3 : c = ')'
              · subst h3
                simp only [tokenize_loop, Bool.false_eq_true, if_false, h1, h2, if_true, hr]
                by_cases hle : q.paren_ ≤ 0
                · simp only [hle, if_true]
                  exact hq
                · simp only [hle, if_false]
                  apply ih _ "" _ _ hempty
                  intro t hmem
                  simp only [List.mem_append, List.mem_singleton] at hmem
                  rcases hmem with hmem | rfl
                  · exact hq t hmem
                  · exact clean_paren.2
              · cases hs : isspace c with
                | true =>
                    simp only [tokenize_loop, Bool.false_eq_true, if_false, h1, h2, h3, hs,
                      if_true, hr]
                    exact ih q "" _ hq hempty
                | false =>
                    cases he : is_EOF c with
                    | true =>
                        simp only [tokenize_loop, Bool.false_eq_true, if_false, h1, h2, h3, hs,
                          he, Bool.not_true]
                        exact ih p token _ hp ht
                    | false =>
                        simp only [tokenize_loop, Bool.false_eq_true, if_false, h1, h2, h3, hs,
                          he, Bool.not_false, if_true]
                        apply ih p _ _ hp
                        intro d hd
                        simp only [String.data_push, List.mem_append, List.mem_singleton] at hd
                        rcases hd with hd | rfl
                        · exact ht d hd
                        · exact ⟨h2, h3, h1, hs⟩

/-- Two token buffers with the same lower case are pushed as the same token. -/
theorem try_push_lower (p : Parser) (token token2 : String)
    (h : token2.data.map tolower = token.data.map tolower) :
    try_push p token2 = try_push p token := by
  have hf : (finished token2.data).map (fun run => String.mk (run.map tolower))
      = (finished token.data).map (fun run => String.mk (run.map tolower)) := by
    unfold finished
    by_cases e : token.data = []
    · have e2 : token2.data = [] := by
        rw [e] at h
        simpa using h
      simp [e, e2]
    · have e2 : ¬ token2.data = [] := by
        intro e2
        rw [e2] at h
        exact e (by simpa using h.symm)
      simp [e, e2, h]
  rw [try_push_finished, try_push_finished, hf]

/-- The loop of the tokenizer on the lower-cased text. -/
theorem tokenize_loop_lower (src : List Char) (p : Parser) (token token2 : String)
    (in_comment : Bool) (h : token2.data.map tolower = token.data.map tolower) :
    tokenize_loop (src.map tolower) p token2 in_comment = tokenize_loop src p token in_comment := by
  induction src generalizing p token token2 in_comment with
  | nil => simp only [List.map_nil, tokenize_loop, try_push_lower p token token2 h]
  | cons c src ih =>
      have hnl : (tolower c = '\n') ↔ (c = '\n') := tolower_eq_special c '\n' (by decide)
      have hsc : (tolower c = ';') ↔ (c = ';') := tolower_eq_special c ';' (by decide)
      have hop : (tolower c = '(') ↔ (c = '(') := tolower_eq_special c '(' (by decide)
      have hcl : (tolower c = ')') ↔ (c = ')') := tolower_eq_special c ')' (by decide)
      have hpush : (token2.push (tolower c)).data.map tolower
          = (token.push c).data.map tolower := by
        simp only [String.data_push, List.map_append, List.map_cons, List.map_nil, h,
          tolower_idem]
      have hempty : ("" : String).data.map tolower = ("" : String).data.map tolower := rfl
      simp only [List.map_cons, tokenize_loop, hnl, hsc, hop, hcl, isspace_tolower,
        is_EOF_tolower, try_push_lower p token token2 h]
      cases in_comment with
      | true =>
          have hd : decide (tolower c ≠ '\n') = decide (c ≠ '\n') := by simp [hnl]
          simp only [if_true, hd]
          exact ih p token token2 _ h
      | false =>
          simp only [Bool.false_eq_true, if_false]
          rcases hr : try_push p token with ⟨q, tk⟩
          have htk : tk = "" := by
            have := congrArg Prod.snd hr
            rw [try_push_finished] at this
            exact this.symm
          subst htk
          simp only
          split
          · exact ih _ _ _ _ hempty
          · split
            · exact ih _ _ _ _ hempty
            · split
              · split
                · rfl
                · exact ih _ _ _ _ hempty
              · split
                · exact ih _ _ _ _ hempty
                · split
                  · exact ih _ _ _ _ hpush
                  · exact ih _ _ _ _ h

set_option maxRecDepth 100000 in
/-- C21.  Fed to a freshly reset tokenizer, a text without a `)` at depth zero and without the
byte 255 outside its comments leaves the reference tokenization in the token buffer: the
comments replaced by a separator, each `(` and `)` a token of its own, each maximal run of
other characters that are not white space one token, all in lower case.  For every text, each
token in the buffer is not empty and is `(`, `)` or free of white space, `;` and parentheses,
and the lower-cased text gives the same status and the same tokens.  The byte 255 is dropped:
the tokenizer compares the `char` it has read with `EOF`, so the bytes `a`, 255, `b` give the
one token `ab`, where the reference tokenization has the token of the three bytes. -/
theorem C21_tokenizer_output (p : Parser) (src : List Char) :
    (closes_at_depth_zero (outside_comments src false) 0 = false →
      (∀ c ∈ outside_comments src false, is_EOF c = false) →
      (p.reset.tokenize src).2.tokens_ = reference_tokens src) ∧
    (∀ t ∈ (p.reset.tokenize src).2.tokens_, clean_token t) ∧
    p.reset.tokenize (src.map tolower) = p.reset.tokenize src ∧
    (Parser.new false).reset.tokenize "(Define X ; (c\n 12)(y)".data
      = (status.success, ⟨0, false, ["(", "define", "x", "12", ")", "(", "y", ")"]⟩) ∧
    reference_tokens "(Define X ; (c\n 12)(y)".data
      = ["(", "define", "x", "12", ")", "(", "y", ")"] ∧
    (Parser.new false).reset.tokenize "a;b".data = (status.success, ⟨0, false, ["a"]⟩) ∧
    reference_tokens "a;b\nc".data = ["a", "c"] ∧
    (Parser.new false).reset.tokenize ['a', Char.ofNat 255, 'b']
      = (status.success, ⟨0, false, ["ab"]⟩) ∧
    reference_tokens ['a', Char.ofNat 255, 'b'] = [String.mk ['a', Char.ofNat 255, 'b']] := by
  refine ⟨?_, ?_, ?_, by decide, by decide, by decide, by decide, by decide, by decide⟩
  · intro hclose hff
    have hst := (tokenize_loop_status src p.reset "" false (by simp)).1
    have h0 : p.reset.paren_ = 0 := rfl
    rw [h0] at hst
    have hok : (tokenize_loop src p.reset "" false).1 ≠ status.failure := by
      intro hf
      rw [hst.1 hf] at hclose
      exact absurd hclose (by decide)
    have := tokenize_loop_tokens src p.reset "" false hok hff
    simpa [Parser.tokenize, reference_tokens, Parser.reset] using this
  · apply tokenize_loop_clean
    · intro t ht
      simp [Parser.reset] at ht
    · intro c hc
      have e3 : "".data = [] := rfl
      rw [e3] at hc
      simp at hc
  · exact tokenize_loop_lower src p.reset "" "" false rfl

/-! ## C22: tokens after the first form -/

/-- The scan of `split_level` stops at the first `)` of the level, wherever it stands: on a
form `(head)` followed by any tokens that end in `)` it returns the head and the last `)`. -/
theorem split_level_first_close (head : String) (rest : List String) (h1 : head ≠ "(")
    (h2 : head ≠ ")") :
    split_level ("(" :: head :: ")" :: (rest ++ [")"])) 0 (rest.length + 4)
      = .ok [1, rest.length + 3] := by
  have hlast : ("(" :: head :: ")" :: (rest ++ [")"])).get? (rest.length + 3) = some ")" := by
    simp
  have hlen : ("(" :: head :: ")" :: (rest ++ [")"])).length + 1 = (rest.length + 3) + 1 + 1 := by
    simp
  simp only [split_level, deref, prev, hlast, hlen, split_level_scan, List.get?_cons_zero,
    List.get?_cons_succ, bind, Except.bind, pure, Except.pure]
  simp [h1, h2]

/-- The form `(head)` with one of the heads that take any number of elements, followed by any
tokens that end in `)`, is parsed as the form alone. -/
theorem parse_immediate_first_form (base fuel : Nat) (rest : List String) :
    parse_immediate base ("(" :: "list" :: ")" :: (rest ++ [")"])) (fuel + 1) 0 (rest.length + 4)
      = .ok UnitNode ∧
    parse_immediate base ("(" :: "begin" :: ")" :: (rest ++ [")"])) (fuel + 1) 0 (rest.length + 4)
      = .ok (SeqNode []) ∧
    parse_immediate base ("(" :: "and" :: ")" :: (rest ++ [")"])) (fuel + 1) 0 (rest.length + 4)
      = .ok (AndNode []) ∧
    parse_immediate base ("(" :: "or" :: ")" :: (rest ++ [")"])) (fuel + 1) 0 (rest.length + 4)
      = .ok (OrNode []) ∧
    parse_immediate base ("(" :: "cond" :: ")" :: (rest ++ [")"])) (fuel + 1) 0 (rest.length + 4)
      = .ok (CondNode [] []) := by
  have hlast : ∀ head : String,
      ("(" :: head :: ")" :: (rest ++ [")"])).get? (rest.length + 3) = some ")" := by
    intro head
    simp
  have hne : ¬ (0 = rest.length + 4) := by omega
  have hne2 : ¬ (0 + 1 = rest.length + 3) := by omega
  refine ⟨?_, ?_, ?_, ?_, ?_⟩
  · simp [parse_immediate, parse_immediate_body, hne, hne2, deref, prev, hlast,
      split_level_first_close "list" rest (by decide) (by decide), index, parse_ranges,
      construct_list, bind, Except.bind, pure, Except.pure]
  · simp [parse_immediate, parse_immediate_body, hne, hne2, deref, prev, hlast,
      split_level_first_close "begin" rest (by decide) (by decide), index, parse_ranges,
      bind, Except.bind, pure, Except.pure]
  · simp [parse_immediate, parse_immediate_body, hne, hne2, deref, prev, hlast,
      split_level_first_close "and" rest (by decide) (by decide), index, parse_ranges,
      bind, Except.bind, pure, Except.pure]
  · simp [parse_immediate, parse_immediate_body, hne, hne2, deref, prev, hlast,
      split_level_first_close "or" rest (by decide) (by decide), index, parse_ranges,
      bind, Except.bind, pure, Except.pure]
  · simp [parse_immediate, parse_immediate_body, hne, hne2, deref, prev, hlast,
      split_level_first_close "cond" rest (by decide) (by decide), index, parse_cond_list,
      bind, Except.bind, pure, Except.pure]

set_option maxRecDepth 100000 in
/-- C22.  A form `(head)` whose head is `list`, `begin`, `and`, `or` or `cond`, followed by any
tokens that end in `)`, is parsed as the form alone and the tokens after it are dropped: the
scan of `split_level` stops at the first `)` of the level.  The read-eval-print loop so takes
the line `(list) (1 2)` for `()`, `(begin) (foo)` for an empty sequence and `(and) (x)` for
`#t`, with every amount of fuel from 2 on, where the tokenizer reports success on each of these
lines.  Other lines with tokens after the first form are rejected with a parse error.  The
batch driver, which wraps the text in `(begin ` and `)`, prints `()` for the text
`(list)) (display (x)`. -/
theorem C22_tokens_after_first_form (env : Env) (w : World) :
    (∀ (base fuel : Nat) (rest : List String),
      parse_immediate base ("(" :: "list" :: ")" :: (rest ++ [")"])) (fuel + 1) 0
          (rest.length + 4) = .ok UnitNode ∧
      parse_immediate base ("(" :: "begin" :: ")" :: (rest ++ [")"])) (fuel + 1) 0
          (rest.length + 4) = .ok (SeqNode []) ∧
      parse_immediate base ("(" :: "and" :: ")" :: (rest ++ [")"])) (fuel + 1) 0
          (rest.length + 4) = .ok (AndNode []) ∧
      parse_immediate base ("(" :: "or" :: ")" :: (rest ++ [")"])) (fuel + 1) 0
          (rest.length + 4) = .ok (OrNode []) ∧
      parse_immediate base ("(" :: "cond" :: ")" :: (rest ++ [")"])) (fuel + 1) 0
          (rest.length + 4) = .ok (CondNode [] [])) ∧
    (Parser.new true).reset.tokenize "(list) (1 2)".data
      = (status.success,
          { paren_ := 0, multiline_ := true, tokens_ := ["(", "list", ")", "(", "1", "2", ")"] }) ∧
    (Parser.new true).reset.tokenize "(begin) (foo)".data
      = (status.success,
          { paren_ := 0, multiline_ := true, tokens_ := ["(", "begin", ")", "(", "foo", ")"] }) ∧
    (Parser.new true).reset.tokenize "(and) (x)".data
      = (status.success,
          { paren_ := 0, multiline_ := true, tokens_ := ["(", "and", ")", "(", "x", ")"] }) ∧
    (∀ base more : Nat,
      read_eval base (2 + more) [] "(list) (1 2)" env w = (some (.ok UnitNode, env, w), [])) ∧
    (∀ base more : Nat,
      read_eval base (2 + more) [] "(begin) (foo)" env w
        = (some (.ok (NullNode ""), env, w), [])) ∧
    (∀ base more : Nat,
      read_eval base (2 + more) [] "(and) (x)" env w
        = (some (.ok (BoolNode true), env, w), [])) ∧
    (∀ base : Nat, read_eval base 20 [] "(f a) (g b)" env w
      = (some (.error (.thrown "parser: invalid s-expression"), env, w), [])) ∧
    (∀ base : Nat, read_eval base 20 [] "(list 1) (2)" env w
      = (some (.error (.thrown "parser: invalid s-expression"), env, w), [])) ∧
    (∀ base : Nat, read_eval base 20 [] "() (x)" env w
      = (some (.error (.thrown "parser: failed to split s-expression"), env, w), [])) ∧
    (∀ base : Nat, read_eval base 20 [] "1 2" env w
      = (some (.error (.thrown "parser: invalid s-expression"), env, w), [])) ∧
    main_batch 20 "(list)) (display (x)" = some "()\n" := by
  have t1 : (Parser.new true).reset.tokenize "(list) (1 2)".data
      = (status.success,
          { paren_ := 0, multiline_ := true, tokens_ := ["(", "list", ")", "(", "1", "2", ")"] }) := by
    decide
  have t2 : (Parser.new true).reset.tokenize "(begin) (foo)".data
      = (status.success,
          { paren_ := 0, multiline_ := true, tokens_ := ["(", "begin", ")", "(", "foo", ")"] }) := by
    decide
  have t3 : (Parser.new true).reset.tokenize "(and) (x)".data
      = (status.success,
          { paren_ := 0, multiline_ := true, tokens_ := ["(", "and", ")", "(", "x", ")"] }) := by
    decide
  have u1 : tokenize_unread "(list) (1 2)".data 0 false = [] := by decide
  have u2 : tokenize_unread "(begin) (foo)".data 0 false = [] := by decide
  have u3 : tokenize_unread "(and) (x)".data 0 false = [] := by decide
  refine ⟨parse_immediate_first_form, t1, t2, t3, ?_, ?_, ?_, fun _ => rfl, fun _ => rfl,
    fun _ => rfl, fun _ => rfl, by decide⟩
  · intro base more
    have hp := (parse_immediate_first_form base (more + 1) ["(", "1", "2"]).1
    have e : 2 + more = more + 1 + 1 := by omega
    rw [e]
    simp only [List.cons_append, List.nil_append, List.length_cons, List.length_nil] at hp
    simp only [read_eval, Parser.parse, List.nil_append, t1, u1]
    simp [hp]
    rfl
  · intro base more
    have hp := (parse_immediate_first_form base (more + 1) ["(", "foo"]).2.1
    have e : 2 + more = more + 1 + 1 := by omega
    rw [e]
    simp only [List.cons_append, List.nil_append, List.length_cons, List.length_nil] at hp
    simp only [read_eval, Parser.parse, List.nil_append, t2, u2]
    simp [hp]
    rfl
  · intro base more
    have hp := (parse_immediate_first_form base (more + 1) ["(", "x"]).2.2.1
    have e : 2 + more = more + 1 + 1 := by omega
    rw [e]
    simp only [List.cons_append, List.nil_append, List.length_cons, List.length_nil] at hp
    simp only [read_eval, Parser.parse, List.nil_append, t3, u3]
    simp [hp]
    rfl

/-! ## C23: the names in binding lists -/

/-- The loop over an argument list accepts single identifier tokens only: when it returns, every
range it went over is one token long and the token is an identifier. -/
theorem parse_arg_list_ok (tokens : List String) (level : List Nat) (args : List String)
    (h : parse_arg_list tokens level = .ok args) :
    args.length = level.length - 1 ∧ (∀ a ∈ args, is_identifier a = true) ∧
      ∀ (i : Nat) (hi : i + 1 < level.length),
        level.get ⟨i + 1, hi⟩ = level.get ⟨i, Nat.lt_of_succ_lt hi⟩ + 1 ∧
        tokens.get? (level.get ⟨i, Nat.lt_of_succ_lt hi⟩) = args.get? i := by
  induction level generalizing args with
  | nil =>
      simp only [parse_arg_list, pure, Except.pure, Except.ok.injEq] at h
      subst h
      exact ⟨rfl, by simp, fun i hi => absurd hi (by simp)⟩
  | cons l level ih =>
      cases level with
      | nil =>
          simp only [parse_arg_list, pure, Except.pure, Except.ok.injEq] at h
          subst h
          exact ⟨rfl, by simp, fun i hi => absurd hi (by simp)⟩
      | cons r rest =>
          simp only [parse_arg_list, bind, Except.bind] at h
          by_cases hd : (r : Int) - (l : Int) ≠ 1
          · simp [hd, throw_error] at h
          · simp only [hd, if_false] at h
            cases ht : deref tokens l with
            | error e => simp [ht] at h
            | ok t =>
                simp only [ht] at h
                cases hid : is_identifier t with
                | false => simp [hid, throw_error] at h
                | true =>
                    simp only [hid, Bool.not_true, Bool.false_eq_true, if_false] at h
                    cases hr : parse_arg_list tokens (r :: rest) with
                    | error e => simp [hr] at h
                    | ok args2 =>
                        simp only [hr, pure, Except.pure, Except.ok.injEq] at h
                        subst h
                        obtain ⟨hlen, hids, hpos⟩ := ih args2 hr
                        have hrl : r = l + 1 := by
                          have : (r : Int) - (l : Int) = 1 := by
                            by_contra hc
                            exact hd hc
                          omega
                        have htok : tokens.get? l = some t := by
                          unfold deref at ht
                          split at ht
                          · next t2 hg =>
                              simp only [Except.ok.injEq] at ht
                              rw [← ht]
                              exact hg
                          · simp at ht
                        refine ⟨by simp [hlen], ?_, ?_⟩
                        · intro a ha
                          rcases List.mem_cons.1 ha with rfl | ha
                          · exact hid
                          · exact hids a ha
                        · intro i hi
                          cases i with
                          | zero => exact ⟨hrl, by simpa using htok⟩
                          | succ i =>
                              have := hpos i (by simpa using hi)
                              simpa using this

/-- The identifier test of the loop over the binding list of `let` reads the token at the start
of the binding, which is the `(` that `split_level` has just checked, so it never fails: the
loop is the loop without the test, and the name of a binding is taken as it stands. -/
theorem parse_bindings_unchecked (tokens : List String) (parse : Nat → Nat → Except Err ASTNode)
    (l r : Nat) (rest : List Nat) :
    parse_bindings tokens parse (l :: r :: rest) = (do
      let pair ← split_level tokens l r
      if pair.length ≠ 3 then throw_error "let: illegal binding list"
      else
        let p0 ← index pair 0
        let p1 ← index pair 1
        let p2 ← index pair 2
        let name ← deref tokens p0
        let node ← parse p1 p2
        let bindings ← parse_bindings tokens parse (r :: rest)
        pure ((name, node) :: bindings)) := by
  rw [parse_bindings]
  cases hs : split_level tokens l r with
  | error e => rfl
  | ok pair =>
      obtain ⟨hb, -⟩ := split_level_ok hs
      have hid : is_identifier "(" = true := by decide
      simp only [bind, Except.bind, hb, hid, Bool.not_true, Bool.false_eq_true, if_false]

set_option maxRecDepth 100000 in
/-- C23.  The parameters of `lambda` and of the `define` of a procedure are checked: the loop
over them returns only when every parameter is a single token that is an identifier, so
`(lambda (1) 1)`, `(lambda ((x)) 1)`, `(define (f 1) 1)` and `(define (f (x)) 1)` are rejected
with `lambda: illegal argument list`.  The name of a binding of `let` and `let*` and the name
of the procedure in `define` are not: the test of the binding loop reads the `(` of the
binding and never fails, and `define` has no test for the name; `(let ((1 2)) 3)` and
`(let (((a) 2)) 3)` are accepted and evaluate to 3, and `(define (1 x) x)` is accepted. -/
theorem C23_binding_names (tokens : List String) :
    (∀ (level : List Nat) (args : List String), parse_arg_list tokens level = .ok args →
      args.length = level.length - 1 ∧ (∀ a ∈ args, is_identifier a = true) ∧
      ∀ (i : Nat) (hi : i + 1 < level.length),
        level.get ⟨i + 1, hi⟩ = level.get ⟨i, Nat.lt_of_succ_lt hi⟩ + 1 ∧
        tokens.get? (level.get ⟨i, Nat.lt_of_succ_lt hi⟩) = args.get? i) ∧
    (∀ (parse : Nat → Nat → Except Err ASTNode) (l r : Nat) (rest : List Nat),
      parse_bindings tokens parse (l :: r :: rest) = (do
        let pair ← split_level tokens l r
        if pair.length ≠ 3 then throw_error "let: illegal binding list"
        else
          let p0 ← index pair 0
          let p1 ← index pair 1
          let p2 ← index pair 2
          let name ← deref tokens p0
          let node ← parse p1 p2
          let bindings ← parse_bindings tokens parse (r :: rest)
          pure ((name, node) :: bindings))) ∧
    main_batch 20 "(lambda (1) 1)" = some "error: lambda: illegal argument list\n" ∧
    main_batch 20 "(lambda ((x)) 1)" = some "error: lambda: illegal argument list\n" ∧
    main_batch 20 "(lambda (#t) 1)" = some "error: lambda: illegal argument list\n" ∧
    main_batch 20 "(define (f 1) 1)" = some "error: lambda: illegal argument list\n" ∧
    main_batch 20 "(define (f (x)) 1)" = some "error: lambda: illegal argument list\n" ∧
    parse_immediate 0 ["(", "let", "(", "(", "1", "2", ")", ")", "3", ")"] 20 0 10
      = .ok (LetNode [("1", IntNode 2)] (SeqNode [IntNode 3]) false) ∧
    parse_immediate 0 ["(", "let", "(", "(", "(", "a", ")", "2", ")", ")", "3", ")"] 20 0 12
      = .ok (LetNode [("(", IntNode 2)] (SeqNode [IntNode 3]) false) ∧
    parse_immediate 0 ["(", "define", "(", "1", "x", ")", "x", ")"] 20 0 8
      = .ok (BindNode "1" (LambdaNode 0 ["x"] (VarNode "x") "1")) ∧
    main_batch 20 "(let ((1 2)) 3)" = some "3\n" ∧
    main_batch 20 "(let (((a) 2)) 3)" = some "3\n" ∧
    main_batch 20 "(let* ((#t 2)) 3)" = some "3\n" ∧
    main_batch 20 "(define (1 x) x)" = some "" ∧
    main_batch 20 "(define (1 x) x) (display 7)" = some "7" := by
  refine ⟨parse_arg_list_ok tokens, parse_bindings_unchecked tokens, ?_, ?_, ?_, ?_, ?_,
    rfl, rfl, rfl, ?_, ?_, ?_, ?_, ?_⟩ <;> decide

/-! ## C24: atoms -/

theorem isDigit_facts (c : Char) (h : c.isDigit = true) :
    c ≠ '-' ∧ c ≠ '+' ∧ isspace c = false := by
  refine ⟨?_, ?_, ?_⟩
  · rintro rfl
    exact absurd h (by decide)
  · rintro rfl
    exact absurd h (by decide)
  · cases hs : isspace c with
    | false => rfl
    | true =>
        simp only [isspace, Bool.or_eq_true, decide_eq_true_eq] at hs
        rcases hs with ((((rfl | rfl) | rfl) | rfl) | rfl) | rfl <;> exact absurd h (by decide)

/-- Function `std::stoi` on a token that starts with a numeral: the optional sign and the
longest run of digits give the value, whatever follows. -/
theorem stoi_numeral (sign ds rest : List Char) (hs : sign = [] ∨ sign = ['-'] ∨ sign = ['+'])
    (hne : ds ≠ []) (hd : ∀ c ∈ ds, c.isDigit = true)
    (hr : ∀ c, rest.head? = some c → c.isDigit = false) :
    stoi (String.mk (sign ++ ds ++ rest)) =
      (if numeral_value sign ds < INT_MIN ∨ INT_MAX < numeral_value sign ds then .out_of_range
        else .value (numeral_value sign ds)) := by
  unfold numeral_value
  have htake : (ds ++ rest).takeWhile Char.isDigit = ds := by
    rw [List.takeWhile_append_of_pos hd]
    cases rest with
    | nil => simp
    | cons r rest =>
        have := hr r rfl
        simp [List.takeWhile_cons, this]
  obtain ⟨d, ds2, hds⟩ := List.exists_cons_of_ne_nil hne
  have hdf := isDigit_facts d (hd d (by rw [hds]; exact List.mem_cons_self _ _))
  have hsp1 : isspace '-' = false := by decide
  have hsp2 : isspace '+' = false := by decide
  rcases hs with rfl | rfl | rfl
  · have e : ([] : List Char) ≠ ['-'] := by decide
    simp only [List.nil_append, e, if_false]
    have hdrop : (ds ++ rest).dropWhile isspace = ds ++ rest := by
      rw [hds]
      simp [List.dropWhile_cons, hdf.2.2]
    simp only [stoi, hdrop]
    rw [hds] at htake ⊢
    simp only [List.cons_append, hdf.1, hdf.2.1, if_false] at htake ⊢
    simp only [htake, decimal]
    simp
  · simp only [if_true, List.singleton_append, List.cons_append, List.nil_append, stoi,
      List.dropWhile_cons, hsp1, Bool.false_eq_true, if_false, htake, hne, decimal]
  · have e : ['+'] ≠ ['-'] := by decide
    have e2 : '+' ≠ '-' := by decide
    simp only [e, if_false, List.singleton_append, List.cons_append, List.nil_append, stoi,
      List.dropWhile_cons, hsp2, Bool.false_eq_true, e2, if_true, htake, hne, decimal]

/-- Function `std::stoi` on a token that does not start with a numeral. -/
theorem stoi_invalid (t : String) (hsp : ∀ c, t.data.head? = some c → isspace c = false)
    (h : starts_with_numeral t = false) : stoi t = .invalid_argument := by
  rcases t with ⟨cs⟩
  cases cs with
  | nil => rfl
  | cons c cs =>
      have hc : isspace c = false := hsp c rfl
      cases cs with
      | nil =>
          simp only [starts_with_numeral] at h
          by_cases h1 : c = '-'
          · subst h1; rfl
          · by_cases h2 : c = '+'
            · subst h2; rfl
            · simp [stoi, List.dropWhile_cons, hc, h1, h2, List.takeWhile_cons, h]
      | cons d cs =>
          simp only [starts_with_numeral] at h
          by_cases h1 : c = '-'
          · subst h1
            simp only [true_or, if_true] at h
            simp [stoi, List.dropWhile_cons, hc, List.takeWhile_cons, h]
          · by_cases h2 : c = '+'
            · subst h2
              simp only [or_true, if_true] at h
              simp [stoi, List.dropWhile_cons, hc, List.takeWhile_cons, h]
            · simp only [h1, h2, or_self, if_false] at h
              simp [stoi, List.dropWhile_cons, hc, h1, h2, List.takeWhile_cons, h]

theorem head_dropWhile_isDigit (cs : List Char) (c : Char)
    (h : (cs.dropWhile Char.isDigit).head? = some c) : c.isDigit = false := by
  induction cs with
  | nil => simp at h
  | cons d cs ih =>
      cases hd : d.isDigit with
      | true =>
          simp only [List.dropWhile_cons, hd, if_true] at h
          exact ih h
      | false =>
          simp only [List.dropWhile_cons, hd, Bool.false_eq_true, if_false, List.head?_cons,
            Option.some.injEq] at h
          rw [← h]
          exact hd

theorem digits_split (cs : List Char) (c : Char) (hc : c.isDigit = true) :
    ∃ ds rest, c :: cs = ds ++ rest ∧ ds ≠ [] ∧ (∀ x ∈ ds, x.isDigit = true) ∧
      ∀ x, rest.head? = some x → x.isDigit = false := by
  refine ⟨c :: cs.takeWhile Char.isDigit, cs.dropWhile Char.isDigit, ?_, by simp, ?_,
    head_dropWhile_isDigit cs⟩
  · simp [List.takeWhile_append_dropWhile]
  · intro x hx
    rcases List.mem_cons.1 hx with rfl | hx
    · exact hc
    · exact (List.mem_takeWhile_imp hx)

/-- A token that starts with a numeral is a sign or nothing, a run of digits that is not
empty, and a rest that does not start with a digit. -/
theorem starts_with_numeral_split (t : String) (h : starts_with_numeral t = true) :
    ∃ sign ds rest, t = String.mk (sign ++ ds ++ rest) ∧
      (sign = [] ∨ sign = ['-'] ∨ sign = ['+']) ∧ ds ≠ [] ∧ (∀ c ∈ ds, c.isDigit = true) ∧
      ∀ c, rest.head? = some c → c.isDigit = false := by
  rcases t with ⟨cs⟩
  cases cs with
  | nil => simp [starts_with_numeral] at h
  | cons c cs =>
      cases cs with
      | nil =>
          simp only [starts_with_numeral] at h
          exact ⟨[], [c], [], rfl, Or.inl rfl, by simp, by simpa using h, by simp⟩
      | cons d cs =>
          simp only [starts_with_numeral] at h
          by_cases h1 : c = '-' ∨ c = '+'
          · simp only [h1, if_true] at h
            obtain ⟨ds, rest, e, hne, hd, hr⟩ := digits_split cs d h
            refine ⟨[c], ds, rest, ?_, ?_, hne, hd, hr⟩
            · simp [e]
            · rcases h1 with rfl | rfl
              · exact Or.inr (Or.inl rfl)
              · exact Or.inr (Or.inr rfl)
          · simp only [h1, if_false] at h
            obtain ⟨ds, rest, e, hne, hd, hr⟩ := digits_split (d :: cs) c h
            exact ⟨[], ds, rest, by simp [e], Or.inl rfl, hne, hd, hr⟩

/-- The branch of `parse_immediate` for a single token that is not `(`. -/
theorem parse_immediate_atom (base fuel : Nat) (t : String) (h : t ≠ "(") :
    parse_immediate base [t] (fuel + 1) 0 1 =
      (if t = "#t" then .ok (BoolNode true)
        else if t = "#f" then .ok (BoolNode false)
        else match stoi t with
          | .value v => .ok (IntNode v)
          | .out_of_range => .error (.thrown "parser: integer too large")
          | .invalid_argument => .ok (VarNode t)) := by
  simp only [parse_immediate, parse_immediate_body, deref, List.get?_cons_zero, bind, Except.bind,
    h, if_false, throw_error, pure, Except.pure]
  simp

/-- C24.  A single token `#t` or `#f` parses to the boolean.  A token that starts with a numeral
(an optional sign `-` or `+` and the longest run of decimal digits that follows) parses to the
integer the numeral denotes when that fits in an `int`, and to the parse error
`parser: integer too large` when it does not, whatever follows the digits in the token.  Every
other token but `(` parses to the variable reference with that name.  Each token that starts
with a numeral has exactly one such reading. -/
theorem C24_atoms (base fuel : Nat) :
    parse_immediate base ["#t"] (fuel + 1) 0 1 = .ok (BoolNode true) ∧
    parse_immediate base ["#f"] (fuel + 1) 0 1 = .ok (BoolNode false) ∧
    (∀ sign ds rest : List Char, sign = [] ∨ sign = ['-'] ∨ sign = ['+'] → ds ≠ [] →
      (∀ c ∈ ds, c.isDigit = true) → (∀ c, rest.head? = some c → c.isDigit = false) →
      parse_immediate base [String.mk (sign ++ ds ++ rest)] (fuel + 1) 0 1
        = (if numeral_value sign ds < INT_MIN ∨ INT_MAX < numeral_value sign ds then
            .error (.thrown "parser: integer too large")
          else .ok (IntNode (numeral_value sign ds)))) ∧
    (∀ t : String, t ≠ "(" → t ≠ "#t" → t ≠ "#f" →
      (∀ c, t.data.head? = some c → isspace c = false) → starts_with_numeral t = false →
      parse_immediate base [t] (fuel + 1) 0 1 = .ok (VarNode t)) ∧
    (∀ t : String, starts_with_numeral t = true →
      ∃ sign ds rest, t = String.mk (sign ++ ds ++ rest) ∧
        (sign = [] ∨ sign = ['-'] ∨ sign = ['+']) ∧ ds ≠ [] ∧ (∀ c ∈ ds, c.isDigit = true) ∧
        ∀ c, rest.head? = some c → c.isDigit = false) := by
  refine ⟨rfl, rfl, ?_, ?_, starts_with_numeral_split⟩
  · intro sign ds rest hs hne hd hr
    obtain ⟨d, ds2, hds⟩ := List.exists_cons_of_ne_nil hne
    have hdig : d.isDigit = true := hd d (by rw [hds]; exact List.mem_cons_self _ _)
    have hp : d ≠ '(' := by
      rintro rfl
      exact absurd hdig (by decide)
    have hh : d ≠ '#' := by
      rintro rfl
      exact absurd hdig (by decide)
    have h1 : String.mk (sign ++ ds ++ rest) ≠ "(" := by
      intro e
      have e2 := congrArg String.data e
      rcases hs with rfl | rfl | rfl
      · rw [hds] at e2
        simp at e2
        exact hp e2.1
      · simp at e2
      · simp at e2
    have h2 : ∀ b : Char, String.mk (sign ++ ds ++ rest) ≠ String.mk ['#', b] := by
      intro b e
      have e2 := congrArg String.data e
      rcases hs with rfl | rfl | rfl
      · rw [hds] at e2
        simp at e2
        exact hh e2.1
      · simp at e2
      · simp at e2
    have h3 : String.mk (sign ++ ds ++ rest) ≠ "#t" := h2 't'
    have h4 : String.mk (sign ++ ds ++ rest) ≠ "#f" := h2 'f'
    rw [parse_immediate_atom base fuel _ h1, stoi_numeral sign ds rest hs hne hd hr]
    simp only [h3, h4, if_false]
    by_cases hv : numeral_value sign ds < INT_MIN ∨ INT_MAX < numeral_value sign ds
    · simp only [hv, if_true]
    · simp only [hv, if_false]
  · intro t h1 h2 h3 hsp hnum
    rw [parse_immediate_atom base fuel _ h1, stoi_invalid t hsp hnum]
    simp only [h2, h3, if_false]

set_option maxRecDepth 100000 in
/-- C24 on the tokens `-42` and `foo`, and what the batch driver prints for single atoms. -/
theorem C24_atoms_witness :
    parse_immediate 0 ["-42"] 1 0 1 = .ok (IntNode (-42)) ∧
    parse_immediate 0 ["foo"] 1 0 1 = .ok (VarNode "foo") ∧
    main_batch 20 "#t" = some "#t\n" ∧
    main_batch 20 "#f" = some "#f\n" ∧
    main_batch 20 "42" = some "42\n" ∧
    main_batch 20 "-42" = some "-42\n" ∧
    main_batch 20 "+42" = some "42\n" ∧
    main_batch 20 "2147483647" = some "2147483647\n" ∧
    main_batch 20 "-2147483648" = some "-2147483648\n" ∧
    main_batch 20 "2147483648" = some "error: parser: integer too large\n" ∧
    main_batch 20 "-2147483649" = some "error: parser: integer too large\n" ∧
    main_batch 20 "foo" = some "error: unbound variable: foo\n" ∧
    main_batch 20 "-" = some "#<Builtin>: -\n" ∧
    main_batch 20 "a1" = some "error: unbound variable: a1\n" := by
  have h := C24_atoms 0 0
  have h1 := h.2.2.1 ['-'] ['4', '2'] [] (by decide) (by decide) (by decide) (by decide)
  have h2 := h.2.2.2.1 "foo" (by decide) (by decide) (by decide) (by decide) (by decide)
  refine ⟨h1, h2, ?_, ?_, ?_, ?_, ?_, ?_, ?_, ?_, ?_, ?_, ?_, ?_⟩ <;> decide

set_option maxRecDepth 100000 in
/-- Against C24 as claimed: the tokens `12abc` and `1+` are not numerals in their entirety and
parse to integers, not to variable references; `99999999999x` is no numeral and gives the error
of an integer that is too large. -/
theorem C24_counterexample :
    parse_immediate 0 ["12abc"] 1 0 1 = .ok (IntNode 12) ∧
    parse_immediate 0 ["1+"] 1 0 1 = .ok (IntNode 1) ∧
    parse_immediate 0 ["99999999999x"] 1 0 1 = .error (.thrown "parser: integer too large") ∧
    main_batch 20 "12abc" = some "12\n" ∧
    main_batch 20 "1+" = some "1\n" ∧
    main_batch 20 "(define 1+ 5)" = some "error: define: illegal syntax\n" ∧
    main_batch 20 "99999999999x" = some "error: parser: integer too large\n" := by
  refine ⟨rfl, rfl, rfl, ?_, ?_, ?_, ?_⟩ <;> decide

/-! ## Integer arithmetic of the built-ins -/

theorem wrap32_of_fits (x : Int) (h : fits_int x = true) : wrap32 x = x := by
  simp only [fits_int, INT_MIN, INT_MAX, Bool.and_eq_true, decide_eq_true_eq] at h
  unfold wrap32
  omega

theorem all_numeric_ints (as : List Int) : (as.map IntNode).all is_numeric = true := by
  induction as with
  | nil => rfl
  | cons a as ih => 
      simp only [List.map_cons, List.all_cons, is_numeric, Bool.true_and]
      exact ih

theorem enforce_all_numeric_ints (fname : String) (as : List Int) :
    enforce_all_numeric fname (as.map IntNode) = .ok () := by
  simp only [enforce_all_numeric, assert_throw, all_numeric_ints]
  rfl

theorem enforce_all_numeric_fails (fname : String) (args : List ASTNode)
    (h : args.all is_numeric = false) :
    enforce_all_numeric fname args
      = .error (.thrown ("procedure `" ++ fname ++ "`: " ++ "all arguments must be numeric")) := by
  simp only [enforce_all_numeric, assert_throw, h]
  rfl

/-- Algorithm `std::accumulate` over integers with an operation whose results fit: the left
fold. -/
theorem accumulate_fold (op : Int → Int → Int) (as : List Int) (init : Int)
    (h : ∀ x ∈ partial_results op init as, fits_int x = true) :
    accumulate (as.map IntNode) init (fun a b => pure (wrap32 (op a b)))
      = .ok (as.foldl op init) := by
  induction as generalizing init with
  | nil => rfl
  | cons a as ih =>
      have h1 : wrap32 (op init a) = op init a :=
        wrap32_of_fits _ (h _ (by simp [partial_results]))
      have h2 := ih (op init a) (fun x hx => h x (by simp [partial_results, hx]))
      simp only [accumulate] at h2 ⊢
      simp only [List.map_cons, List.foldlM, get_numeric, bind, Except.bind, pure, Except.pure,
        h1, List.foldl_cons]
      exact h2

/-- The fold of the built-in `/` over non-zero divisors with results that fit: the left fold of
the division that truncates toward zero. -/
theorem accumulate_tdiv (as : List Int) (init : Int) (hz : ∀ b ∈ as, b ≠ 0)
    (h : ∀ x ∈ partial_results Int.tdiv init as, fits_int x = true) :
    accumulate (as.map IntNode) init (fun a b =>
        if b = 0 then throw_error "runtime: division by zero"
        else if quotient_overflows a b then .error (.undefined "quotient of INT_MIN by -1")
        else pure (wrap32 (Int.tdiv a b)))
      = .ok (as.foldl Int.tdiv init) := by
  induction as generalizing init with
  | nil => rfl
  | cons a as ih =>
      have hf : fits_int (Int.tdiv init a) = true := h _ (by simp [partial_results])
      have h1 : wrap32 (Int.tdiv init a) = Int.tdiv init a := wrap32_of_fits _ hf
      have ha : a ≠ 0 := hz a (by simp)
      have ho : quotient_overflows init a = false := by
        cases hq : quotient_overflows init a with
        | false => rfl
        | true =>
            simp only [quotient_overflows, Bool.and_eq_true, decide_eq_true_eq] at hq
            rw [hq.1, hq.2] at hf
            exact absurd hf (by decide)
      have h2 := ih (Int.tdiv init a) (fun b hb => hz b (by simp [hb]))
        (fun x hx => h x (by simp [partial_results, hx]))
      simp only [accumulate] at h2 ⊢
      simp only [List.map_cons, List.foldlM, get_numeric, bind, Except.bind, pure, Except.pure,
        h1, ha, ho, if_false, Bool.false_eq_true, List.foldl_cons]
      exact h2

/-- Subtracting one after the other is subtracting the sum. -/
theorem foldl_sub_eq (as : List Int) (a : Int) : as.foldl (· - ·) a = a - as.sum := by
  induction as generalizing a with
  | nil => simp
  | cons b as ih => simp only [List.foldl_cons, ih, List.sum_cons]; omega

theorem foldl_add_eq (as : List Int) (a : Int) : as.foldl (· + ·) a = a + as.sum := by
  induction as generalizing a with
  | nil => simp
  | cons b as ih => simp only [List.foldl_cons, ih, List.sum_cons]; omega

theorem foldl_mul_eq (as : List Int) (a : Int) : as.foldl (· * ·) a = a * as.prod := by
  induction as generalizing a with
  | nil => simp
  | cons b as ih => simp only [List.foldl_cons, ih, List.prod_cons]; ring

theorem add_ints (as : List Int) (out : String)
    (h : ∀ x ∈ partial_results (· + ·) 0 as, fits_int x = true) :
    Builtins.add (as.map IntNode) out = (.ok (IntNode as.sum), out) := by
  have e := foldl_add_eq as 0
  simp only [zero_add] at e
  have ha := accumulate_fold _ _ _ h
  simp only [pure, Except.pure] at ha
  simp only [Builtins.add, no_output, enforce_all_numeric_ints, bind,
    Except.bind, pure, Except.pure, ha, e]

theorem mul_ints (as : List Int) (out : String)
    (h : ∀ x ∈ partial_results (· * ·) 1 as, fits_int x = true) :
    Builtins.mul (as.map IntNode) out = (.ok (IntNode as.prod), out) := by
  have e := foldl_mul_eq as 1
  simp only [one_mul] at e
  have ha := accumulate_fold _ _ _ h
  simp only [pure, Except.pure] at ha
  simp only [Builtins.mul, no_output, enforce_all_numeric_ints, bind,
    Except.bind, pure, Except.pure, ha, e]

theorem enforce_min_one (fname : String) (a : ASTNode) (rest : List ASTNode) :
    enforce_min_arg_count fname (a :: rest) 1 = .ok () := by
  simp [enforce_min_arg_count, assert_throw]

theorem sub_ints (a : Int) (rest : List Int) (out : String)
    (h : ∀ x ∈ partial_results (· - ·) a rest, fits_int x = true) :
    Builtins.sub ((a :: rest).map IntNode) out = (.ok (IntNode (rest.foldl (· - ·) a)), out) := by
  have e := enforce_all_numeric_ints "-" (a :: rest)
  simp only [List.map_cons] at e
  have ha := accumulate_fold _ _ _ h
  simp only [pure, Except.pure] at ha
  simp only [Builtins.sub, no_output, List.map_cons, enforce_min_one, e, front, get_numeric,
    List.tail_cons, bind, Except.bind, pure, Except.pure, ha]

theorem div_ints (a : Int) (rest : List Int) (out : String) (hz : ∀ b ∈ rest, b ≠ 0)
    (h : ∀ x ∈ partial_results Int.tdiv a rest, fits_int x = true) :
    Builtins.div ((a :: rest).map IntNode) out = (.ok (IntNode (rest.foldl Int.tdiv a)), out) := by
  have e := enforce_all_numeric_ints "/" (a :: rest)
  simp only [List.map_cons] at e
  have ha := accumulate_tdiv _ _ hz h
  simp only [pure, Except.pure] at ha
  simp only [Builtins.div, no_output, List.map_cons, enforce_min_one, e, front, get_numeric,
    List.tail_cons, bind, Except.bind, pure, Except.pure, ha]

theorem nonempty_of_all_false (args : List ASTNode) (h : args.all is_numeric = false) :
    ∃ a rest, args = a :: rest := by
  cases args with
  | nil => simp at h
  | cons a rest => exact ⟨a, rest, rfl⟩

/-- C25.  On integer arguments whose intermediate results fit in an `int`, `+` returns the sum
and `*` the product (0 and 1 on no arguments); `-` on `a1 ... an` returns the left fold
`a1 - a2 - ... - an`, which is `a1` minus the sum of the others, and `/` with non-zero
`a2 ... an` returns the left fold of the division that truncates toward zero; so `(- a)` and
`(/ a)` are `a`.  `(-)` and `(/)` throw a `std::string` (recoverable), and so does each of the
four on a list with an argument that is not an integer. -/
theorem C25_arithmetic_folds (ev : Evaluator) (w : World) :
    (∀ as : List Int, (∀ x ∈ partial_results (· + ·) 0 as, fits_int x = true) →
      call ev (BuiltinNode "+") (as.map IntNode) w = (.ok (IntNode as.sum), w)) ∧
    (∀ as : List Int, (∀ x ∈ partial_results (· * ·) 1 as, fits_int x = true) →
      call ev (BuiltinNode "*") (as.map IntNode) w = (.ok (IntNode as.prod), w)) ∧
    (∀ (a : Int) (rest : List Int), (∀ x ∈ partial_results (· - ·) a rest, fits_int x = true) →
      call ev (BuiltinNode "-") ((a :: rest).map IntNode) w
        = (.ok (IntNode (rest.foldl (· - ·) a)), w) ∧
      rest.foldl (· - ·) a = a - rest.sum) ∧
    (∀ (a : Int) (rest : List Int), (∀ b ∈ rest, b ≠ 0) →
      (∀ x ∈ partial_results Int.tdiv a rest, fits_int x = true) →
      call ev (BuiltinNode "/") ((a :: rest).map IntNode) w
        = (.ok (IntNode (rest.foldl Int.tdiv a)), w)) ∧
    (∀ a : Int, call ev (BuiltinNode "-") [IntNode a] w = (.ok (IntNode a), w) ∧
      call ev (BuiltinNode "/") [IntNode a] w = (.ok (IntNode a), w)) ∧
    call ev (BuiltinNode "+") [] w = (.ok (IntNode 0), w) ∧
    call ev (BuiltinNode "*") [] w = (.ok (IntNode 1), w) ∧
    call ev (BuiltinNode "-") [] w
      = (.error (.thrown "procedure `-`: expected at least 1 args, got 0"), w) ∧
    call ev (BuiltinNode "/") [] w
      = (.error (.thrown "procedure `/`: expected at least 1 args, got 0"), w) ∧
    (∀ args : List ASTNode, args.all is_numeric = false →
      call ev (BuiltinNode "+") args w
        = (.error (.thrown "procedure `+`: all arguments must be numeric"), w) ∧
      call ev (BuiltinNode "*") args w
        = (.error (.thrown "procedure `*`: all arguments must be numeric"), w) ∧
      call ev (BuiltinNode "-") args w
        = (.error (.thrown "procedure `-`: all arguments must be numeric"), w) ∧
      call ev (BuiltinNode "/") args w
        = (.error (.thrown "procedure `/`: all arguments must be numeric"), w)) := by
  have hadd : Builtins.functions.find "+" = some Builtins.add := rfl
  have hmul : Builtins.functions.find "*" = some Builtins.mul := rfl
  have hsub : Builtins.functions.find "-" = some Builtins.sub := rfl
  have hdiv : Builtins.functions.find "/" = some Builtins.div := rfl
  refine ⟨?_, ?_, ?_, ?_, ?_, rfl, rfl, rfl, rfl, ?_⟩
  · intro as h
    simp only [call, hadd, add_ints as w.out h]
  · intro as h
    simp only [call, hmul, mul_ints as w.out h]
  · intro a rest h
    refine ⟨?_, foldl_sub_eq rest a⟩
    simp only [call, hsub, sub_ints a rest w.out h]
  · intro a rest hz h
    simp only [call, hdiv, div_ints a rest w.out hz h]
  · intro a
    exact ⟨rfl, rfl⟩
  · intro args h
    obtain ⟨a, rest, rfl⟩ := nonempty_of_all_false args h
    have e1 : "procedure `" ++ "+" ++ "`: " ++ "all arguments must be numeric"
        = "procedure `+`: all arguments must be numeric" := by decide
    have e2 : "procedure `" ++ "*" ++ "`: " ++ "all arguments must be numeric"
        = "procedure `*`: all arguments must be numeric" := by decide
    have e3 : "procedure `" ++ "-" ++ "`: " ++ "all arguments must be numeric"
        = "procedure `-`: all arguments must be numeric" := by decide
    have e4 : "procedure `" ++ "/" ++ "`: " ++ "all arguments must be numeric"
        = "procedure `/`: all arguments must be numeric" := by decide
    refine ⟨?_, ?_, ?_, ?_⟩
    · simp only [call, hadd, Builtins.add, no_output, enforce_all_numeric_fails _ _ h, bind,
        Except.bind, e1]
    · simp only [call, hmul, Builtins.mul, no_output, enforce_all_numeric_fails _ _ h, bind,
        Except.bind, e2]
    · simp only [call, hsub, Builtins.sub, no_output, enforce_min_one,
        enforce_all_numeric_fails _ _ h, bind, Except.bind, e3]
    · simp only [call, hdiv, Builtins.div, no_output, enforce_min_one,
        enforce_all_numeric_fails _ _ h, bind, Except.bind, e4]

set_option maxRecDepth 100000 in
/-- C25 on `(+ 1 2 3)`, `(* 2 3 4)`, `(- 10 1 2)` and `(/ -7 2)`, and what the batch driver
prints for the calls of the claim. -/
theorem C25_arithmetic_folds_witness :
    ((∀ x ∈ partial_results (· + ·) 0 [1, 2, 3], fits_int x = true) →
      call (eval 0) (BuiltinNode "+") ([1, 2, 3].map IntNode) World.initial
        = (.ok (IntNode ([1, 2, 3] : List Int).sum), World.initial)) ∧
    call (eval 0) (BuiltinNode "+") [IntNode 1, IntNode 2, IntNode 3] World.initial
      = (.ok (IntNode 6), World.initial) ∧
    call (eval 0) (BuiltinNode "*") [IntNode 2, IntNode 3, IntNode 4] World.initial
      = (.ok (IntNode 24), World.initial) ∧
    call (eval 0) (BuiltinNode "-") [IntNode 10, IntNode 1, IntNode 2] World.initial
      = (.ok (IntNode 7), World.initial) ∧
    call (eval 0) (BuiltinNode "/") [IntNode (-7), IntNode 2] World.initial
      = (.ok (IntNode (-3)), World.initial) ∧
    main_batch 20 "(+ 1 2 3)" = some "6\n" ∧
    main_batch 20 "(- 5)" = some "5\n" ∧
    main_batch 20 "(/ 5)" = some "5\n" ∧
    main_batch 20 "(+)" = some "0\n" ∧
    main_batch 20 "(*)" = some "1\n" ∧
    main_batch 20 "(/ 100 7 2)" = some "7\n" ∧
    main_batch 20 "(/ -7 2)" = some "-3\n" ∧
    main_batch 20 "(-)" = some "error: procedure `-`: expected at least 1 args, got 0\n" ∧
    main_batch 20 "(/)" = some "error: procedure `/`: expected at least 1 args, got 0\n" ∧
    main_batch 20 "(+ 1 #t)" = some "error: procedure `+`: all arguments must be numeric\n" ∧
    main_batch 20 "(- (list) 1)"
      = some "error: procedure `-`: all arguments must be numeric\n" := by
  have h := C25_arithmetic_folds (eval 0) World.initial
  have h1 := h.1 [1, 2, 3]
  have h3 := h.2.2.1 10 [1, 2] (by decide)
  have h4 := h.2.2.2.1 (-7) [2] (by decide) (by decide)
  have h2 := h.2.1 [2, 3, 4] (by decide)
  refine ⟨h1, h1 (by decide), h2, h3.1, h4, ?_, ?_, ?_, ?_, ?_, ?_, ?_, ?_, ?_, ?_, ?_⟩ <;> decide

/-! ## C26: division by zero -/

/-- The fold of the built-in `/` throws `runtime: division by zero` exactly when it reaches a
zero divisor, which it does when no earlier step is the quotient of `INT_MIN` by `-1`. -/
theorem accumulate_div_zero_iff (rest : List Int) (a : Int) :
    accumulate (rest.map IntNode) a (fun a b =>
        if b = 0 then throw_error "runtime: division by zero"
        else if quotient_overflows a b then .error (.undefined "quotient of INT_MIN by -1")
        else pure (wrap32 (Int.tdiv a b)))
      = .error (.thrown "runtime: division by zero")
    ↔ ∃ pre post, rest = pre ++ 0 :: post ∧ (∀ b ∈ pre, b ≠ 0) ∧
        quotients_defined a pre = true := by
  induction rest generalizing a with
  | nil =>
      constructor
      · intro h
        exact absurd h (by simp [accumulate, List.foldlM, pure, Except.pure])
      · rintro ⟨pre, post, h, -⟩
        simp at h
  | cons b rest ih =>
      by_cases hb : b = 0
      · subst hb
        constructor
        · intro _
          exact ⟨[], rest, rfl, by simp, rfl⟩
        · intro _
          simp [accumulate, List.foldlM, get_numeric, bind, Except.bind, throw_error]
      · cases ho : quotient_overflows a b with
        | true =>
            constructor
            · intro h
              simp [accumulate, List.foldlM, get_numeric, bind, Except.bind, hb, ho] at h
            · rintro ⟨pre, post, h, hz, hq⟩
              cases pre with
              | nil =>
                  simp only [List.nil_append, List.cons.injEq] at h
                  exact absurd h.1 hb
              | cons p pre =>
                  simp only [List.cons_append, List.cons.injEq] at h
                  rw [← h.1] at hq
                  simp [quotients_defined, ho] at hq
        | false =>
            have e : accumulate ((b :: rest).map IntNode) a (fun a b =>
                if b = 0 then throw_error "runtime: division by zero"
                else if quotient_overflows a b then
                  .error (.undefined "quotient of INT_MIN by -1")
                else pure (wrap32 (Int.tdiv a b)))
              = accumulate (rest.map IntNode) (wrap32 (Int.tdiv a b)) (fun a b =>
                if b = 0 then throw_error "runtime: division by zero"
                else if quotient_overflows a b then
                  .error (.undefined "quotient of INT_MIN by -1")
                else pure (wrap32 (Int.tdiv a b))) := by
              simp [accumulate, List.foldlM, get_numeric, bind, Except.bind, hb, ho, pure,
                Except.pure]
            rw [e, ih]
            constructor
            · rintro ⟨pre, post, h, hz, hq⟩
              refine ⟨b :: pre, post, by simp [h], ?_, by simp [quotients_defined, ho, hq]⟩
              intro x hx
              rcases List.mem_cons.1 hx with rfl | hx
              · exact hb
              · exact hz x hx
            · rintro ⟨pre, post, h, hz, hq⟩
              cases pre with
              | nil =>
                  simp only [List.nil_append, List.cons.injEq] at h
                  exact absurd h.1 hb
              | cons p pre =>
                  simp only [List.cons_append, List.cons.injEq] at h
                  rw [← h.1] at hq
                  simp only [quotients_defined, ho, Bool.not_false, Bool.true_and] at hq
                  exact ⟨pre, post, h.2, fun x hx => hz x (by simp [hx]), hq⟩

/-- The only `std::string` the fold of the built-in `/` throws is `runtime: division by zero`. -/
theorem accumulate_div_thrown (rest : List Int) (a : Int) (msg : String)
    (h : accumulate (rest.map IntNode) a (fun a b =>
        if b = 0 then throw_error "runtime: division by zero"
        else if quotient_overflows a b then .error (.undefined "quotient of INT_MIN by -1")
        else pure (wrap32 (Int.tdiv a b))) = .error (.thrown msg)) :
    msg = "runtime: division by zero" := by
  induction rest generalizing a with
  | nil => simp [accumulate, List.foldlM, pure, Except.pure] at h
  | cons b rest ih =>
      by_cases hb : b = 0
      · simp [accumulate, List.foldlM, get_numeric, bind, Except.bind, hb, throw_error] at h
        exact h.symm
      · cases ho : quotient_overflows a b with
        | true => simp [accumulate, List.foldlM, get_numeric, bind, Except.bind, hb, ho] at h
        | false =>
            apply ih (wrap32 (Int.tdiv a b))
            simpa [accumulate, List.foldlM, get_numeric, bind, Except.bind, hb, ho, pure,
              Except.pure] using h

/-- A list with a zero splits at its first zero. -/
theorem split_at_first_zero (rest : List Int) (h : (0 : Int) ∈ rest) :
    ∃ pre post, rest = pre ++ 0 :: post ∧ ∀ b ∈ pre, b ≠ 0 := by
  induction rest with
  | nil => simp at h
  | cons b rest ih =>
      by_cases hb : b = 0
      · exact ⟨[], rest, by simp [hb], by simp⟩
      · rcases List.mem_cons.1 h with h0 | h0
        · exact absurd h0.symm hb
        · obtain ⟨pre, post, e, hz⟩ := ih h0
          refine ⟨b :: pre, post, by simp [e], ?_⟩
          intro x hx
          rcases List.mem_cons.1 hx with rfl | hx
          · exact hb
          · exact hz x hx

/-- Without a divisor `-1` no quotient overflows. -/
theorem quotients_defined_of_no_minus_one (pre : List Int) (a : Int) (h : (-1 : Int) ∉ pre) :
    quotients_defined a pre = true := by
  induction pre generalizing a with
  | nil => rfl
  | cons b pre ih =>
      have hb : b ≠ -1 := fun e => h (by simp [e])
      have hp : (-1 : Int) ∉ pre := fun e => h (by simp [e])
      simp [quotients_defined, quotient_overflows, hb, ih _ hp]

/-- The built-in `/` on integers, in terms of its fold. -/
theorem div_ints_eq (a : Int) (rest : List Int) (out : String) :
    Builtins.div ((a :: rest).map IntNode) out
      = ((accumulate (rest.map IntNode) a (fun a b =>
          if b = 0 then throw_error "runtime: division by zero"
          else if quotient_overflows a b then .error (.undefined "quotient of INT_MIN by -1")
          else pure (wrap32 (Int.tdiv a b)))).map IntNode, out) := by
  have e := enforce_all_numeric_ints "/" (a :: rest)
  simp only [List.map_cons] at e
  simp only [Builtins.div, no_output, List.map_cons, enforce_min_one, e, front, get_numeric,
    List.tail_cons, bind, Except.bind, pure, Except.pure, Except.map]

/-- The built-in `modulo` on two integers. -/
theorem modulo_ints (a b : Int) (out : String) :
    Builtins.modulo [IntNode a, IntNode b] out
      = (if b = 0 then .error (.thrown "runtime: division by zero")
          else if quotient_overflows a b then .error (.undefined "remainder of INT_MIN by -1")
          else .ok (IntNode (wrap32 (Int.tmod a b))), out) := by
  by_cases hb : b = 0
  · simp [Builtins.modulo, no_output, enforce_arg_exact_count, enforce_all_numeric, assert_throw,
      is_numeric, front, back, get_numeric, bind, Except.bind, hb, throw_error]
  · cases ho : quotient_overflows a b <;>
    simp [Builtins.modulo, no_output, enforce_arg_exact_count, enforce_all_numeric, assert_throw,
      is_numeric, front, back, get_numeric, bind, Except.bind, hb, ho, pure, Except.pure]

set_option maxRecDepth 100000 in
/-- C26.  On integers `a1 ... an`, `/` throws the `std::string` `runtime: division by zero`
exactly when the list `a2 ... an` has a zero and no step of the fold before the first zero is
the quotient of `INT_MIN` by `-1`; it throws no other `std::string`, so it throws only if some
`ai` with `i >= 2` is zero, and a zero `a1` alone never throws; it throws whenever a divisor is
zero and no divisor is `-1`.  `modulo` on two integers throws that message exactly when the
second is zero.  On `INT_MIN`, `-1`, `0` the quotient `INT_MIN / -1`, undefined in C++, is
computed before the zero is reached, and the batch driver has no output for
`(/ -2147483648 -1 0)`. -/
theorem C26_division_by_zero (ev : Evaluator) (w : World) :
    (∀ (a : Int) (rest : List Int),
      call ev (BuiltinNode "/") ((a :: rest).map IntNode) w
          = (.error (.thrown "runtime: division by zero"), w)
        ↔ ∃ pre post, rest = pre ++ 0 :: post ∧ (∀ b ∈ pre, b ≠ 0) ∧
            quotients_defined a pre = true) ∧
    (∀ (a : Int) (rest : List Int) (msg : String),
      (call ev (BuiltinNode "/") ((a :: rest).map IntNode) w).1 = .error (.thrown msg) →
        msg = "runtime: division by zero" ∧ (0 : Int) ∈ rest) ∧
    (∀ (rest : List Int) (msg : String), (0 : Int) ∉ rest →
      (call ev (BuiltinNode "/") ((0 :: rest).map IntNode) w).1 ≠ .error (.thrown msg)) ∧
    (∀ (a : Int) (rest : List Int), (0 : Int) ∈ rest → (-1 : Int) ∉ rest →
      call ev (BuiltinNode "/") ((a :: rest).map IntNode) w
        = (.error (.thrown "runtime: division by zero"), w)) ∧
    (∀ a b : Int,
      call ev (BuiltinNode "modulo") [IntNode a, IntNode b] w
          = (.error (.thrown "runtime: division by zero"), w)
        ↔ b = 0) ∧
    (∀ (a b : Int) (msg : String),
      (call ev (BuiltinNode "modulo") [IntNode a, IntNode b] w).1 = .error (.thrown msg) →
        msg = "runtime: division by zero" ∧ b = 0) ∧
    call ev (BuiltinNode "/") [IntNode INT_MIN, IntNode (-1), IntNode 0] w
      = (.error (.undefined "quotient of INT_MIN by -1"), w) ∧
    main_batch 20 "(/ 1 0)" = some "error: runtime: division by zero\n" ∧
    main_batch 20 "(/ 0 5)" = some "0\n" ∧
    main_batch 20 "(/ 7 2 0 3)" = some "error: runtime: division by zero\n" ∧
    main_batch 20 "(modulo 7 0)" = some "error: runtime: division by zero\n" ∧
    main_batch 20 "(modulo 0 7)" = some "0\n" ∧
    main_batch 20 "(/ -2147483648 -1 0)" = none := by
  have hdiv : Builtins.functions.find "/" = some Builtins.div := rfl
  have hmod : Builtins.functions.find "modulo" = some Builtins.modulo := rfl
  have key : ∀ (a : Int) (rest : List Int),
      call ev (BuiltinNode "/") ((a :: rest).map IntNode) w
        = ((accumulate (rest.map IntNode) a (fun a b =>
          if b = 0 then throw_error "runtime: division by zero"
          else if quotient_overflows a b then .error (.undefined "quotient of INT_MIN by -1")
          else pure (wrap32 (Int.tdiv a b)))).map IntNode, w) := by
    intro a rest
    simp only [call, hdiv, div_ints_eq]
  have iff1 : ∀ (a : Int) (rest : List Int),
      call ev (BuiltinNode "/") ((a :: rest).map IntNode) w
          = (.error (.thrown "runtime: division by zero"), w)
        ↔ ∃ pre post, rest = pre ++ 0 :: post ∧ (∀ b ∈ pre, b ≠ 0) ∧
            quotients_defined a pre = true := by
    intro a rest
    rw [key, ← accumulate_div_zero_iff]
    cases hacc : accumulate (rest.map IntNode) a _ with
    | error e => simp [Except.map]
    | ok v => simp [Except.map]
  have only : ∀ (a : Int) (rest : List Int) (msg : String),
      (call ev (BuiltinNode "/") ((a :: rest).map IntNode) w).1 = .error (.thrown msg) →
        msg = "runtime: division by zero" ∧ (0 : Int) ∈ rest := by
    intro a rest msg h
    rw [key] at h
    have hacc : accumulate (rest.map IntNode) a (fun a b =>
          if b = 0 then throw_error "runtime: division by zero"
          else if quotient_overflows a b then .error (.undefined "quotient of INT_MIN by -1")
          else pure (wrap32 (Int.tdiv a b))) = .error (.thrown msg) := by
      revert h
      cases accumulate (rest.map IntNode) a _ with
      | error e => simp [Except.map]
      | ok v => simp [Except.map]
    have hm := accumulate_div_thrown rest a msg hacc
    refine ⟨hm, ?_⟩
    rw [hm] at hacc
    obtain ⟨pre, post, e, -⟩ := (accumulate_div_zero_iff rest a).1 hacc
    simp [e]
  refine ⟨iff1, only, ?_, ?_, ?_, ?_, rfl, by decide, by decide, by decide, by decide, by decide,
    by decide⟩
  · intro rest msg h0 h
    exact h0 (only 0 rest msg h).2
  · intro a rest h0 h1
    obtain ⟨pre, post, e, hz⟩ := split_at_first_zero rest h0
    refine (iff1 a rest).2 ⟨pre, post, e, hz, quotients_defined_of_no_minus_one pre a ?_⟩
    intro hm
    exact h1 (by simp [e, hm])
  · intro a b
    simp only [call, hmod, modulo_ints]
    by_cases hb : b = 0
    · simp [hb]
    · cases ho : quotient_overflows a b <;> simp [hb, ho]
  · intro a b msg h
    simp only [call, hmod, modulo_ints] at h
    by_cases hb : b = 0
    · simp [hb] at h
      exact ⟨h.symm, hb⟩
    · cases ho : quotient_overflows a b <;> simp [hb, ho] at h


/-! ## C27: chains of comparisons -/

theorem adjacent_pairs_hold_cons (R : Int → Int → Prop) (a b : Int) (rest : List Int) :
    adjacent_pairs_hold R (a :: b :: rest) ↔ R a b ∧ adjacent_pairs_hold R (b :: rest) := by
  constructor
  · intro h
    refine ⟨h 0 (by simp), ?_⟩
    intro i hi
    exact h (i + 1) (by simp at hi ⊢; omega)
  · rintro ⟨h0, h⟩ i hi
    cases i with
    | zero => exact h0
    | succ i => exact h i (by simp at hi ⊢; omega)

theorem adjacent_pairs_hold_short (R : Int → Int → Prop) (as : List Int) (h : as.length ≤ 1) :
    adjacent_pairs_hold R as := by
  intro i hi
  omega

theorem adjacent_pairs_hold_congr (R S : Int → Int → Prop) (as : List Int)
    (h : ∀ a b, R a b ↔ S a b) : adjacent_pairs_hold R as ↔ adjacent_pairs_hold S as := by
  unfold adjacent_pairs_hold
  simp only [h]

/-- Algorithm `std::adjacent_find` on integers: the end is reached exactly when no two
neighbours satisfy the predicate. -/
theorem adjacent_find_ints (pred : Int → Int → Bool) (as : List Int) :
    ∃ r : Bool, adjacent_find_is_end pred (as.map IntNode) = .ok r ∧
      (r = true ↔ adjacent_pairs_hold (fun a b => pred a b = false) as) := by
  induction as with
  | nil => exact ⟨true, rfl, by simp [adjacent_pairs_hold_short]⟩
  | cons a as ih =>
      cases as with
      | nil => exact ⟨true, rfl, by simp [adjacent_pairs_hold_short]⟩
      | cons b rest =>
          obtain ⟨r, hr, hiff⟩ := ih
          cases hp : pred a b with
          | true =>
              refine ⟨false, ?_, ?_⟩
              · simp [adjacent_find_is_end, get_numeric, bind, Except.bind, hp, pure,
                  Except.pure]
              · simp [adjacent_pairs_hold_cons, hp]
          | false =>
              refine ⟨r, ?_, ?_⟩
              · simp only [List.map_cons] at hr
                simp [adjacent_find_is_end, get_numeric, bind, Except.bind, hp, hr]
              · simp [adjacent_pairs_hold_cons, hp, hiff]

/-- A comparison built-in on integers. -/
theorem comparison_ints (fname : String) (pred : Int → Int → Bool) (R : Int → Int → Prop)
    (h : ∀ a b, pred a b = false ↔ R a b) (as : List Int) :
    ∃ r : Bool,
      (do
        enforce_all_numeric fname (as.map IntNode)
        let r ← adjacent_find_is_end pred (as.map IntNode)
        pure (BoolNode r) : Except Err ASTNode) = .ok (BoolNode r) ∧
      (r = true ↔ adjacent_pairs_hold R as) := by
  obtain ⟨r, hr, hiff⟩ := adjacent_find_ints pred as
  refine ⟨r, ?_, hiff.trans (adjacent_pairs_hold_congr _ _ _ h)⟩
  simp only [enforce_all_numeric_ints, hr, bind, Except.bind, pure, Except.pure]

/-- C27.  On integers `a1 ... an` each of `=`, `<`, `>`, `<=`, `>=` returns a boolean, and it
returns `#t` exactly when every two neighbours are in the relation; so it returns `#t` on no
argument and on one argument.  On a list with an argument that is not an integer each of them
throws a `std::string` (recoverable). -/
theorem C27_comparison_chains (ev : Evaluator) (w : World) :
    (∀ as : List Int,
      (∃ r : Bool, call ev (BuiltinNode "=") (as.map IntNode) w = (.ok (BoolNode r), w) ∧
        (r = true ↔ adjacent_pairs_hold (fun a b => a = b) as)) ∧
      (∃ r : Bool, call ev (BuiltinNode "<") (as.map IntNode) w = (.ok (BoolNode r), w) ∧
        (r = true ↔ adjacent_pairs_hold (fun a b => a < b) as)) ∧
      (∃ r : Bool, call ev (BuiltinNode ">") (as.map IntNode) w = (.ok (BoolNode r), w) ∧
        (r = true ↔ adjacent_pairs_hold (fun a b => a > b) as)) ∧
      (∃ r : Bool, call ev (BuiltinNode "<=") (as.map IntNode) w = (.ok (BoolNode r), w) ∧
        (r = true ↔ adjacent_pairs_hold (fun a b => a ≤ b) as)) ∧
      (∃ r : Bool, call ev (BuiltinNode ">=") (as.map IntNode) w = (.ok (BoolNode r), w) ∧
        (r = true ↔ adjacent_pairs_hold (fun a b => a ≥ b) as))) ∧
    (∀ as : List Int, as.length ≤ 1 →
      call ev (BuiltinNode "=") (as.map IntNode) w = (.ok (BoolNode true), w) ∧
      call ev (BuiltinNode "<") (as.map IntNode) w = (.ok (BoolNode true), w) ∧
      call ev (BuiltinNode ">") (as.map IntNode) w = (.ok (BoolNode true), w) ∧
      call ev (BuiltinNode "<=") (as.map IntNode) w = (.ok (BoolNode true), w) ∧
      call ev (BuiltinNode ">=") (as.map IntNode) w = (.ok (BoolNode true), w)) ∧
    (∀ args : List ASTNode, args.all is_numeric = false →
      call ev (BuiltinNode "=") args w
        = (.error (.thrown "procedure `=`: all arguments must be numeric"), w) ∧
      call ev (BuiltinNode "<") args w
        = (.error (.thrown "procedure `<`: all arguments must be numeric"), w) ∧
      call ev (BuiltinNode ">") args w
        = (.error (.thrown "procedure `>`: all arguments must be numeric"), w) ∧
      call ev (BuiltinNode "<=") args w
        = (.error (.thrown "procedure `<=`: all arguments must be numeric"), w) ∧
      call ev (BuiltinNode ">=") args w
        = (.error (.thrown "procedure `>=`: all arguments must be numeric"), w)) := by
  have heq : Builtins.functions.find "=" = some Builtins.eq := rfl
  have hlt : Builtins.functions.find "<" = some Builtins.lt := rfl
  have hgt : Builtins.functions.find ">" = some Builtins.gt := rfl
  have hle : Builtins.functions.find "<=" = some Builtins.le := rfl
  have hge : Builtins.functions.find ">=" = some Builtins.ge := rfl
  have main : ∀ as : List Int,
      (∃ r : Bool, call ev (BuiltinNode "=") (as.map IntNode) w = (.ok (BoolNode r), w) ∧
        (r = true ↔ adjacent_pairs_hold (fun a b => a = b) as)) ∧
      (∃ r : Bool, call ev (BuiltinNode "<") (as.map IntNode) w = (.ok (BoolNode r), w) ∧
        (r = true ↔ adjacent_pairs_hold (fun a b => a < b) as)) ∧
      (∃ r : Bool, call ev (BuiltinNode ">") (as.map IntNode) w = (.ok (BoolNode r), w) ∧
        (r = true ↔ adjacent_pairs_hold (fun a b => a > b) as)) ∧
      (∃ r : Bool, call ev (BuiltinNode "<=") (as.map IntNode) w = (.ok (BoolNode r), w) ∧
        (r = true ↔ adjacent_pairs_hold (fun a b => a ≤ b) as)) ∧
      (∃ r : Bool, call ev (BuiltinNode ">=") (as.map IntNode) w = (.ok (BoolNode r), w) ∧
        (r = true ↔ adjacent_pairs_hold (fun a b => a ≥ b) as)) := by
    intro as
    refine ⟨?_, ?_, ?_, ?_, ?_⟩
    · obtain ⟨r, hr, hiff⟩ := comparison_ints "=" (fun a b => decide (a ≠ b)) (fun a b => a = b)
        (by intro a b; simp) as
      exact ⟨r, by simp only [call, heq, Builtins.eq, no_output, hr], hiff⟩
    · obtain ⟨r, hr, hiff⟩ := comparison_ints "<" (fun a b => decide (a ≥ b)) (fun a b => a < b)
        (by intro a b; simp) as
      exact ⟨r, by simp only [call, hlt, Builtins.lt, no_output, hr], hiff⟩
    · obtain ⟨r, hr, hiff⟩ := comparison_ints ">" (fun a b => decide (a ≤ b)) (fun a b => a > b)
        (by intro a b; simp) as
      exact ⟨r, by simp only [call, hgt, Builtins.gt, no_output, hr], hiff⟩
    · obtain ⟨r, hr, hiff⟩ := comparison_ints "<=" (fun a b => decide (a > b)) (fun a b => a ≤ b)
        (by intro a b; simp) as
      exact ⟨r, by simp only [call, hle, Builtins.le, no_output, hr], hiff⟩
    · obtain ⟨r, hr, hiff⟩ := comparison_ints ">=" (fun a b => decide (a < b)) (fun a b => a ≥ b)
        (by intro a b; simp) as
      exact ⟨r, by simp only [call, hge, Builtins.ge, no_output, hr], hiff⟩
  refine ⟨main, ?_, ?_⟩
  · intro as hlen
    obtain ⟨⟨r1, h1, i1⟩, ⟨r2, h2, i2⟩, ⟨r3, h3, i3⟩, ⟨r4, h4, i4⟩, ⟨r5, h5, i5⟩⟩ := main as
    rw [i1.2 (adjacent_pairs_hold_short _ as hlen)] at h1
    rw [i2.2 (adjacent_pairs_hold_short _ as hlen)] at h2
    rw [i3.2 (adjacent_pairs_hold_short _ as hlen)] at h3
    rw [i4.2 (adjacent_pairs_hold_short _ as hlen)] at h4
    rw [i5.2 (adjacent_pairs_hold_short _ as hlen)] at h5
    exact ⟨h1, h2, h3, h4, h5⟩
  · intro args h
    have e1 : "procedure `" ++ "=" ++ "`: " ++ "all arguments must be numeric"
        = "procedure `=`: all arguments must be numeric" := by decide
    have e2 : "procedure `" ++ "<" ++ "`: " ++ "all arguments must be numeric"
        = "procedure `<`: all arguments must be numeric" := by decide
    have e3 : "procedure `" ++ ">" ++ "`: " ++ "all arguments must be numeric"
        = "procedure `>`: all arguments must be numeric" := by decide
    have e4 : "procedure `" ++ "<=" ++ "`: " ++ "all arguments must be numeric"
        = "procedure `<=`: all arguments must be numeric" := by decide
    have e5 : "procedure `" ++ ">=" ++ "`: " ++ "all arguments must be numeric"
        = "procedure `>=`: all arguments must be numeric" := by decide
    refine ⟨?_, ?_, ?_, ?_, ?_⟩
    · simp only [call, heq, Builtins.eq, no_output, enforce_all_numeric_fails _ _ h, bind,
        Except.bind, e1]
    · simp only [call, hlt, Builtins.lt, no_output, enforce_all_numeric_fails _ _ h, bind,
        Except.bind, e2]
    · simp only [call, hgt, Builtins.gt, no_output, enforce_all_numeric_fails _ _ h, bind,
        Except.bind, e3]
    · simp only [call, hle, Builtins.le, no_output, enforce_all_numeric_fails _ _ h, bind,
        Except.bind, e4]
    · simp only [call, hge, Builtins.ge, no_output, enforce_all_numeric_fails _ _ h, bind,
        Except.bind, e5]

set_option maxRecDepth 100000 in
/-- C27 on `(< 1 2 3)` and on a single argument, and what the batch driver prints. -/
theorem C27_comparison_chains_witness :
    (∃ r : Bool,
      call (eval 0) (BuiltinNode "<") [IntNode 1, IntNode 2, IntNode 3] World.initial
        = (.ok (BoolNode r), World.initial) ∧
      (r = true ↔ adjacent_pairs_hold (fun a b => a < b) [1, 2, 3])) ∧
    call (eval 0) (BuiltinNode ">=") [IntNode 7] World.initial
      = (.ok (BoolNode true), World.initial) ∧
    main_batch 20 "(=)" = some "#t\n" ∧
    main_batch 20 "(< 5)" = some "#t\n" ∧
    main_batch 20 "(< 1 2 3)" = some "#t\n" ∧
    main_batch 20 "(< 1 3 2)" = some "#f\n" ∧
    main_batch 20 "(= 2 2 2)" = some "#t\n" ∧
    main_batch 20 "(= 2 2 3)" = some "#f\n" ∧
    main_batch 20 "(> 3 2 2)" = some "#f\n" ∧
    main_batch 20 "(>= 3 2 2)" = some "#t\n" ∧
    main_batch 20 "(<= 1 1 2)" = some "#t\n" ∧
    main_batch 20 "(<= 2 1)" = some "#f\n" ∧
    main_batch 20 "(< 1 #t)" = some "error: procedure `<`: all arguments must be numeric\n" ∧
    main_batch 20 "(= (list))" = some "error: procedure `=`: all arguments must be numeric\n" := by
  have h := C27_comparison_chains (eval 0) World.initial
  refine ⟨(h.1 [1, 2, 3]).2.1, (h.2.1 [7] (by decide)).2.2.2.2,
    ?_, ?_, ?_, ?_, ?_, ?_, ?_, ?_, ?_, ?_, ?_, ?_⟩ <;> decide

/-! ## C28: the errors of the built-ins -/

theorem assert_throw_false (loc msg : String) :
    assert_throw loc msg false = .error (.thrown ("procedure `" ++ loc ++ "`: " ++ msg)) := rfl

theorem assert_throw_true (loc msg : String) : assert_throw loc msg true = .ok () := rfl

/-- A built-in that checks that every argument is an integer. -/
theorem numeric_named (name : String) (k : List ASTNode → Except Err ASTNode)
    (args : List ASTNode) (out : String) (h : args.all is_numeric = false) :
    ∃ msg, no_output (fun args => do enforce_all_numeric name args; k args) args out
      = (.error (.thrown ("procedure `" ++ name ++ "`: " ++ msg)), out) := by
  refine ⟨"all arguments must be numeric", ?_⟩
  simp only [no_output, enforce_all_numeric, h, assert_throw_false, bind, Except.bind]

/-- A built-in that checks the least number of arguments, then that they are integers. -/
theorem min_numeric_named (name : String) (n : Nat) (k : List ASTNode → Except Err ASTNode)
    (args : List ASTNode) (out : String)
    (h : (decide (n ≤ args.length) && args.all is_numeric) = false) :
    ∃ msg, no_output (fun args => do
        enforce_min_arg_count name args n; enforce_all_numeric name args; k args) args out
      = (.error (.thrown ("procedure `" ++ name ++ "`: " ++ msg)), out) := by
  cases hc : decide (n ≤ args.length) with
  | false =>
      refine ⟨("expected at least " ++ toString n ++ " args, got " ++ toString args.length), ?_⟩
      have hc2 : decide (args.length ≥ n) = false := hc
      simp only [no_output, enforce_min_arg_count, hc2, assert_throw_false, bind, Except.bind]
  | true =>
      have hc2 : decide (args.length ≥ n) = true := hc
      rw [hc] at h
      simp only [Bool.true_and] at h
      refine ⟨"all arguments must be numeric", ?_⟩
      simp only [no_output, enforce_min_arg_count, enforce_all_numeric, hc2, h,
        assert_throw_true, assert_throw_false, bind, Except.bind]

/-- A built-in that checks that the arguments are integers, then their least number. -/
theorem numeric_min_named (name : String) (n : Nat) (k : List ASTNode → Except Err ASTNode)
    (args : List ASTNode) (out : String)
    (h : (decide (n ≤ args.length) && args.all is_numeric) = false) :
    ∃ msg, no_output (fun args => do
        enforce_all_numeric name args; enforce_min_arg_count name args n; k args) args out
      = (.error (.thrown ("procedure `" ++ name ++ "`: " ++ msg)), out) := by
  cases hk : args.all is_numeric with
  | false =>
      refine ⟨"all arguments must be numeric", ?_⟩
      simp only [no_output, enforce_all_numeric, hk, assert_throw_false, bind, Except.bind]
  | true =>
      rw [hk] at h
      simp only [Bool.and_true] at h
      have hc2 : decide (args.length ≥ n) = false := h
      refine ⟨("expected at least " ++ toString n ++ " args, got " ++ toString args.length), ?_⟩
      simp only [no_output, enforce_min_arg_count, enforce_all_numeric, hc2, hk,
        assert_throw_true, assert_throw_false, bind, Except.bind]

theorem beq_eq_decide_length (args : List ASTNode) (n : Nat) :
    (args.length == n) = decide (args.length = n) := by
  by_cases h : args.length = n <;> simp [h]

/-- A built-in that checks the number of arguments. -/
theorem exact_named (name : String) (n : Nat) (k : List ASTNode → Except Err ASTNode)
    (args : List ASTNode) (out : String) (h : decide (args.length = n) = false) :
    ∃ msg, no_output (fun args => do enforce_arg_exact_count name args n; k args) args out
      = (.error (.thrown ("procedure `" ++ name ++ "`: " ++ msg)), out) := by
  refine ⟨("expected exactly " ++ toString n ++ " args, got " ++ toString args.length), ?_⟩
  simp only [no_output, enforce_arg_exact_count, beq_eq_decide_length, h, assert_throw_false,
    bind, Except.bind]

/-- A built-in that checks the number of arguments, then that they are integers. -/
theorem exact_numeric_named (name : String) (n : Nat) (k : List ASTNode → Except Err ASTNode)
    (args : List ASTNode) (out : String)
    (h : (decide (args.length = n) && args.all is_numeric) = false) :
    ∃ msg, no_output (fun args => do
        enforce_arg_exact_count name args n; enforce_all_numeric name args; k args) args out
      = (.error (.thrown ("procedure `" ++ name ++ "`: " ++ msg)), out) := by
  cases hc : decide (args.length = n) with
  | false => exact exact_named name n _ args out hc
  | true =>
      rw [hc] at h
      simp only [Bool.true_and] at h
      refine ⟨"all arguments must be numeric", ?_⟩
      simp only [no_output, enforce_arg_exact_count, enforce_all_numeric,
        beq_eq_decide_length, hc, h, assert_throw_true, assert_throw_false, bind, Except.bind]

/-- A built-in that checks the number of arguments, then that they are proper lists. -/
theorem exact_list_named (name : String) (n : Nat) (k : List ASTNode → Except Err ASTNode)
    (args : List ASTNode) (out : String)
    (h : (decide (args.length = n) && args.all is_list) = false) :
    ∃ msg, no_output (fun args => do
        enforce_arg_exact_count name args n; enforce_all_list name args; k args) args out
      = (.error (.thrown ("procedure `" ++ name ++ "`: " ++ msg)), out) := by
  cases hc : decide (args.length = n) with
  | false => exact exact_named name n _ args out hc
  | true =>
      rw [hc] at h
      simp only [Bool.true_and] at h
      refine ⟨"argument(s) must be of type list", ?_⟩
      simp only [no_output, enforce_arg_exact_count, enforce_all_list,
        beq_eq_decide_length, hc, h, assert_throw_true, assert_throw_false, bind, Except.bind]

theorem display_named (args : List ASTNode) (out : String)
    (h : decide (args.length = 1) = false) :
    ∃ msg, Builtins.display args out
      = (.error (.thrown ("procedure `" ++ "display" ++ "`: " ++ msg)), out) := by
  refine ⟨"expected exactly " ++ toString 1 ++ " args, got " ++ toString args.length, ?_⟩
  simp only [Builtins.display, enforce_arg_exact_count, beq_eq_decide_length, h,
    assert_throw_false]

theorem newline_named (args : List ASTNode) (out : String)
    (h : decide (args.length = 0) = false) :
    ∃ msg, Builtins.newline args out
      = (.error (.thrown ("procedure `" ++ "newline" ++ "`: " ++ msg)), out) := by
  refine ⟨"expected exactly " ++ toString 0 ++ " args, got " ++ toString args.length, ?_⟩
  simp only [Builtins.newline, enforce_arg_exact_count, beq_eq_decide_length, h,
    assert_throw_false]

/-- The name of the built-in is part of a message that starts with it. -/
theorem named_contains (name msg : String) :
    List.IsInfix name.data ("procedure `" ++ name ++ "`: " ++ msg).data :=
  ⟨"procedure `".data, "`: ".data ++ msg.data, by simp [String.data_append]⟩

set_option maxRecDepth 100000 in
/-- Every built-in but `not`, called on arguments that violate its precondition, throws a
message that starts with its name; for `car` and `cdr` when the number of arguments is wrong. -/
theorem builtin_named (name : String) (fxn_ : builtin_fxn) (args : List ASTNode) (out : String)
    (hf : Builtins.functions.find name = some fxn_) (hpre : precondition name args = false)
    (hnot : name ≠ "not") (hcar : name = "car" ∨ name = "cdr" → args.length ≠ 1) :
    ∃ msg, fxn_ args out = (.error (.thrown ("procedure `" ++ name ++ "`: " ++ msg)), out) := by
  have hall : ∀ p ∈ Builtins.functions, ∀ (args : List ASTNode) (out : String),
      precondition p.1 args = false → p.1 ≠ "not" →
      (p.1 = "car" ∨ p.1 = "cdr" → args.length ≠ 1) →
      ∃ msg, p.2 args out = (.error (.thrown ("procedure `" ++ p.1 ++ "`: " ++ msg)), out) := by
    simp only [Builtins.functions, List.forall_mem_cons, List.not_mem_nil, false_implies,
      implies_true, and_true]
    refine ⟨?_, ?_, ?_, ?_, ?_, ?_, ?_, ?_, ?_, ?_, ?_, ?_, ?_, ?_, ?_, ?_, ?_, ?_, ?_, ?_, ?_,
      ?_, ?_, ?_, ?_, ?_, ?_, ?_⟩
    all_goals intro args out hpre hnot hcar
    all_goals first
      | exact absurd rfl hnot
      | exact numeric_named _ _ args out hpre
      | exact min_numeric_named _ 1 _ args out hpre
      | exact numeric_min_named _ 1 _ args out hpre
      | exact exact_numeric_named _ _ _ args out hpre
      | exact exact_list_named _ _ _ args out hpre
      | exact exact_named _ _ _ args out (decide_eq_false (hcar (Or.inl trivial)))
      | exact exact_named _ _ _ args out (decide_eq_false (hcar (Or.inr trivial)))
      | exact exact_named _ _ _ args out hpre
      | exact display_named args out hpre
      | exact newline_named args out hpre
  exact hall (name, fxn_) (unordered_map.mem_of_find _ _ _ hf) args out hpre hnot hcar

/-- C28.  Every built-in of the table other than `not`, called on arguments that violate its
precondition, throws a `std::string` (recoverable) of the form
``procedure `NAME`: ...`` with its own name, which the message so contains; for `car` and `cdr`
this is so when the number of arguments is wrong.  Called on one argument that is not a pair,
`car` and `cdr` throw the `std::string` of `ASTNode::get`, `cannot get element of non-pair
type`. -/
theorem C28_builtin_errors (ev : Evaluator) (w : World) :
    (∀ (name : String) (fxn_ : builtin_fxn) (args : List ASTNode),
      Builtins.functions.find name = some fxn_ → precondition name args = false →
      name ≠ "not" → (name = "car" ∨ name = "cdr" → args.length ≠ 1) →
      ∃ msg, call ev (BuiltinNode name) args w
          = (.error (.thrown ("procedure `" ++ name ++ "`: " ++ msg)), w) ∧
        List.IsInfix name.data ("procedure `" ++ name ++ "`: " ++ msg).data) ∧
    (∀ v : ASTNode, is_pair v = false →
      precondition "car" [v] = false ∧ precondition "cdr" [v] = false ∧
      call ev (BuiltinNode "car") [v] w
        = (.error (.thrown "cannot get element of non-pair type"), w) ∧
      call ev (BuiltinNode "cdr") [v] w
        = (.error (.thrown "cannot get element of non-pair type"), w)) := by
  refine ⟨?_, ?_⟩
  · intro name fxn_ args hf hpre hnot hcar
    obtain ⟨msg, h⟩ := builtin_named name fxn_ args w.out hf hpre hnot hcar
    refine ⟨msg, ?_, named_contains name msg⟩
    simp only [call, hf, h]
  · intro v hv
    have hcar : Builtins.functions.find "car" = some Builtins.car := rfl
    have hcdr : Builtins.functions.find "cdr" = some Builtins.cdr := rfl
    have hp1 : precondition "car" [v] = false := by
      have e : precondition "car" [v] = (decide ([v].length = 1) && [v].all is_pair) := rfl
      rw [e]
      simp [hv]
    have hp2 : precondition "cdr" [v] = false := by
      have e : precondition "cdr" [v] = (decide ([v].length = 1) && [v].all is_pair) := rfl
      rw [e]
      simp [hv]
    refine ⟨hp1, hp2, ?_, ?_⟩
    · cases v <;> first | rfl | exact absurd hv (by simp [is_pair])
    · cases v <;> first | rfl | exact absurd hv (by simp [is_pair])

set_option maxRecDepth 100000 in
/-- C28 on `(abs 1 2)` and `(length 5)`, and what the batch driver prints for calls that violate
the precondition of a built-in. -/
theorem C28_builtin_errors_witness :
    (∃ msg, call (eval 0) (BuiltinNode "abs") [IntNode 1, IntNode 2] World.initial
        = (.error (.thrown ("procedure `" ++ "abs" ++ "`: " ++ msg)), World.initial) ∧
      List.IsInfix "abs".data ("procedure `" ++ "abs" ++ "`: " ++ msg).data) ∧
    (∃ msg, call (eval 0) (BuiltinNode "length") [IntNode 5] World.initial
        = (.error (.thrown ("procedure `" ++ "length" ++ "`: " ++ msg)), World.initial) ∧
      List.IsInfix "length".data ("procedure `" ++ "length" ++ "`: " ++ msg).data) ∧
    main_batch 20 "(abs 1 2)" = some "error: procedure `abs`: expected exactly 1 args, got 2\n" ∧
    main_batch 20 "(length 5)"
      = some "error: procedure `length`: argument(s) must be of type list\n" ∧
    main_batch 20 "(car)" = some "error: procedure `car`: expected exactly 1 args, got 0\n" ∧
    main_batch 20 "(cdr 1 2)" = some "error: procedure `cdr`: expected exactly 1 args, got 2\n" ∧
    main_batch 20 "(newline 1)"
      = some "error: procedure `newline`: expected exactly 0 args, got 1\n" ∧
    main_batch 20 "(max)" = some "error: procedure `max`: expected at least 1 args, got 0\n" ∧
    main_batch 20 "(zero? #t)" = some "error: procedure `zero?`: all arguments must be numeric\n" ∧
    main_batch 20 "(car 3)" = some "error: cannot get element of non-pair type\n" := by
  have h := C28_builtin_errors (eval 0) World.initial
  refine ⟨h.1 "abs" Builtins.abs [IntNode 1, IntNode 2] rfl (by decide) (by decide) (by decide),
    h.1 "length" Builtins.length [IntNode 5] rfl (by decide) (by decide) (by decide),
    ?_, ?_, ?_, ?_, ?_, ?_, ?_, ?_⟩ <;> decide

set_option maxRecDepth 100000 in
/-- Against C28 as claimed: `(car 3)` and `(cdr #t)` violate the precondition of `car` and `cdr`
and the message printed does not contain the name of the built-in; neither does the message
for `(not)` and `(not 1 2)`, which names `newline`. -/
theorem C28_counterexample :
    precondition "car" [IntNode 3] = false ∧
    main_batch 20 "(car 3)" = some "error: cannot get element of non-pair type\n" ∧
    ¬ List.IsInfix "car".data "cannot get element of non-pair type".data ∧
    precondition "cdr" [BoolNode true] = false ∧
    main_batch 20 "(cdr #t)" = some "error: cannot get element of non-pair type\n" ∧
    ¬ List.IsInfix "cdr".data "cannot get element of non-pair type".data ∧
    precondition "not" [] = false ∧
    main_batch 20 "(not)" = some "error: procedure `newline`: expected exactly 1 args, got 0\n" ∧
    ¬ List.IsInfix "not".data "procedure `newline`: expected exactly 1 args, got 0".data ∧
    precondition "not" [IntNode 1, IntNode 2] = false ∧
    main_batch 20 "(not 1 2)"
      = some "error: procedure `newline`: expected exactly 1 args, got 2\n" ∧
    ¬ List.IsInfix "not".data "procedure `newline`: expected exactly 1 args, got 2".data := by
  refine ⟨?_, ?_, ?_, ?_, ?_, ?_, ?_, ?_, ?_, ?_, ?_, ?_⟩ <;> decide

/-! ## C29: the frame of the caller -/

/-- A reference to a name that is bound to a closure evaluates the closure again: the member
`env_` of the closure is replaced by the frame in which the reference stands. -/
theorem VarNode_eval_closure (fuel : Nat) (name : String) (env : Env) (w : World) (id : Nat)
    (arg_list_ : List String) (body_ : ASTNode) (name_ : String)
    (h : env.find w name = .ok (LambdaNode id arg_list_ body_ name_)) :
    eval (fuel + 2) (VarNode name) env w
      = (.ok (LambdaNode id arg_list_ body_ name_), env,
          { w with env_ := w.env_.insert_or_assign id env }) := by
  simp [eval, VarNode_eval, h, LambdaNode_eval]

set_option maxRecDepth 100000 in
/-- C29.  A closure called through its name sees the frame of the caller: the reference to the
name replaces the captured environment of the closure by the frame in which the reference
stands.  After `(define y 1)`, `(define (g) y)` and `(define (h y) (g))` the call `(h 5)`
evaluates to 5, the `y` of the caller `h`, with every amount of fuel from 20 on; called at top
level, `(g)` evaluates to 1. -/
theorem C29_caller_frame_seen :
    (∀ (fuel : Nat) (name : String) (env : Env) (w : World) (id : Nat) (arg_list_ : List String)
        (body_ : ASTNode) (name_ : String),
      env.find w name = .ok (LambdaNode id arg_list_ body_ name_) →
      eval (fuel + 2) (VarNode name) env w
        = (.ok (LambdaNode id arg_list_ body_ name_), env,
            { w with env_ := w.env_.insert_or_assign id env })) ∧
    (∀ more, main_batch (20 + more) "(define y 1) (define (g) y) (define (h y) (g)) (h 5)"
      = some "5\n") ∧
    (∀ more, main_batch (20 + more) "(define y 1) (define (g) y) (define (h y) (g)) (g)"
      = some "1\n") ∧
    (∀ more, main_batch (20 + more) "(define y 1) (define (g) y) (define (h z) (g)) (h 5)"
      = some "1\n") := by
  refine ⟨VarNode_eval_closure, ?_, ?_, ?_⟩
  · intro more
    exact main_batch_fuel_mono 20 more _ _ (by decide)
  · intro more
    exact main_batch_fuel_mono 20 more _ _ (by decide)
  · intro more
    exact main_batch_fuel_mono 20 more _ _ (by decide)

/-! ## C30: two closures from one lambda expression -/

/-- Evaluating a lambda expression returns the node itself and stores the environment in it; a
second evaluation returns the same node and replaces the environment of the first. -/
theorem LambdaNode_eval_twice (id : Nat) (arg_list_ : List String) (body_ : ASTNode)
    (name_ : String) (env1 env2 : Env) (w : World) :
    (LambdaNode_eval id arg_list_ body_ name_ env1 w).1
      = .ok (LambdaNode id arg_list_ body_ name_) ∧
    (LambdaNode_eval id arg_list_ body_ name_ env1 w).2.2.env_.find id = some env1 ∧
    (LambdaNode_eval id arg_list_ body_ name_ env2
        (LambdaNode_eval id arg_list_ body_ name_ env1 w).2.2).1
      = .ok (LambdaNode id arg_list_ body_ name_) ∧
    (LambdaNode_eval id arg_list_ body_ name_ env2
        (LambdaNode_eval id arg_list_ body_ name_ env1 w).2.2).2.2.env_.find id = some env2 := by
  simp [LambdaNode_eval, unordered_map.find_insert_same]

set_option maxRecDepth 100000 in
/-- C30.  The closures obtained from two evaluations of one lambda expression are one object:
the second evaluation replaces the environment the first closure sees.  With
`(define (make-adder n) (lambda (x) (+ x n)))` the expression
`((make-adder 1) ((make-adder 2) 0))` evaluates to 4, not 3, with every amount of fuel from 20
on: the closure made for `n = 1` adds 2. -/
theorem C30_one_closure_object :
    (∀ (id : Nat) (arg_list_ : List String) (body_ : ASTNode) (name_ : String) (env1 env2 : Env)
        (w : World),
      (LambdaNode_eval id arg_list_ body_ name_ env1 w).1
        = .ok (LambdaNode id arg_list_ body_ name_) ∧
      (LambdaNode_eval id arg_list_ body_ name_ env1 w).2.2.env_.find id = some env1 ∧
      (LambdaNode_eval id arg_list_ body_ name_ env2
          (LambdaNode_eval id arg_list_ body_ name_ env1 w).2.2).1
        = .ok (LambdaNode id arg_list_ body_ name_) ∧
      (LambdaNode_eval id arg_list_ body_ name_ env2
          (LambdaNode_eval id arg_list_ body_ name_ env1 w).2.2).2.2.env_.find id = some env2) ∧
    (∀ more, main_batch (20 + more)
        "(define (make-adder n) (lambda (x) (+ x n))) ((make-adder 1) ((make-adder 2) 0))"
      = some "4\n") ∧
    (∀ more, main_batch (20 + more)
        "(define (make-adder n) (lambda (x) (+ x n))) ((make-adder 2) 0)" = some "2\n") ∧
    (∀ more, main_batch (20 + more)
        "(define (make-adder n) (lambda (x) (+ x n))) ((make-adder 1) 2)" = some "3\n") := by
  refine ⟨LambdaNode_eval_twice, ?_, ?_, ?_⟩
  · intro more
    exact main_batch_fuel_mono 20 more _ _ (by decide)
  · intro more
    exact main_batch_fuel_mono 20 more _ _ (by decide)
  · intro more
    exact main_batch_fuel_mono 20 more _ _ (by decide)

/-! ## C31: the text of the batch driver -/

/-- The loop of the tokenizer on a text followed by `)`, started one level deep behind the
tokens `pre`, when the loop on the text alone succeeds: the `)` closes the level, unless the
text ends inside a comment, which then takes the `)` in. -/
theorem tokenize_loop_wrapped (pre : List String) (src : List Char) (p : Parser) (token : String)
    (in_comment : Bool) (r : Parser)
    (h : tokenize_loop src p token in_comment = (status.success, r)) :
    tokenize_loop (src ++ [')'])
        { p with paren_ := p.paren_ + 1, tokens_ := pre ++ p.tokens_ } token in_comment
      = (if ends_in_comment src in_comment then
          (status.incomplete, { r with paren_ := 1, tokens_ := pre ++ r.tokens_ })
        else (status.success, { r with paren_ := 0, tokens_ := pre ++ r.tokens_ ++ [")"] })) := by
  induction src generalizing p token in_comment with
  | nil =>
      simp only [tokenize_loop, try_push_finished] at h
      have hp : p.paren_ = 0 := by
        by_contra hne
        simp [hne] at h
      simp only [hp, if_true, Prod.mk.injEq, true_and] at h
      subst h
      have e1 : ¬ (')' = ';') := by decide
      have e2 : ¬ (')' = '(') := by decide
      cases in_comment with
      | true =>
          simp [tokenize_loop, try_push_finished, ends_in_comment, hp, List.append_assoc]
      | false =>
          simp [tokenize_loop, try_push_finished, ends_in_comment, hp, e1, e2, finished,
            List.append_assoc]
  | cons c src ih =>
      cases in_comment with
      | true =>
          simp only [List.cons_append, tokenize_loop, if_true, ends_in_comment] at h ⊢
          exact ih p token _ h
      | false =>
          simp only [List.cons_append, tokenize_loop, Bool.false_eq_true, if_false,
            try_push_finished, ends_in_comment] at h ⊢
          by_cases h1 : c = ';'
          · simp only [h1, if_true, decide_True] at h ⊢
            have := ih _ _ _ h
            simpa [List.append_assoc] using this
          · simp only [h1, if_false, decide_False] at h ⊢
            by_cases h2 : c = '('
            · simp only [h2, if_true] at h ⊢
              have := ih _ _ _ h
              simpa [List.append_assoc, Nat.add_right_comm] using this
            · simp only [h2, if_false] at h ⊢
              by_cases h3 : c = ')'
              · simp only [h3, if_true] at h ⊢
                by_cases hp : p.paren_ ≤ 0
                · simp [hp] at h
                · simp only [hp, if_false] at h ⊢
                  have hp1 : ¬ (p.paren_ + 1 ≤ 0) := by omega
                  simp only [hp1, if_false]
                  have := ih _ _ _ h
                  have e : p.paren_ - 1 + 1 = p.paren_ + 1 - 1 := by omega
                  simpa [List.append_assoc, e] using this
              · simp only [h3, if_false] at h ⊢
                cases hs : isspace c with
                | true =>
                    simp only [hs, if_true] at h ⊢
                    have := ih _ _ _ h
                    simpa [List.append_assoc] using this
                | false =>
                    simp only [hs, Bool.false_eq_true, if_false] at h ⊢
                    cases he : is_EOF c with
                    | true =>
                        simp only [he, Bool.not_true, Bool.false_eq_true, if_false] at h ⊢
                        exact ih _ _ _ h
                    | false =>
                        simp only [he, Bool.not_false, if_true] at h ⊢
                        exact ih _ _ _ h

/-- The tokenizer of the batch driver on the first characters of its text, `(begin `. -/
theorem tokenize_begin (rest : List Char) :
    tokenize_loop ("(begin ".data ++ rest) (Parser.new false) "" false
      = tokenize_loop rest ⟨1, false, ["(", "begin"]⟩ "" false := by
  have e : "(begin ".data = ['(', 'b', 'e', 'g', 'i', 'n', ' '] := rfl
  rw [e]
  simp [tokenize_loop, try_push, isspace, is_EOF, Parser.new, tolower]
  rfl

/-- The tokenizer of the batch driver on the text of a program that is tokenized with success
when fed alone. -/
theorem tokenize_batch_text (file : List Char) (t : List String)
    (h : (Parser.new false).reset.tokenize file = (status.success, ⟨0, false, t⟩)) :
    (Parser.new false).tokenize ("(begin ".data ++ file ++ ")".data)
      = (if ends_in_comment file false then (status.incomplete, ⟨1, false, "(" :: "begin" :: t⟩)
        else (status.success, ⟨0, false, "(" :: "begin" :: t ++ [")"]⟩)) := by
  have e : ")".data = [')'] := rfl
  have hw := tokenize_loop_wrapped ["(", "begin"] file (Parser.new false).reset "" false _ h
  simp only [Parser.tokenize, e, List.append_assoc, tokenize_begin]
  simpa [Parser.new, Parser.reset] using hw

set_option maxRecDepth 100000 in
/-- C31.  For a program text that is tokenized with success and tokens `t` when fed alone, the
text of the batch driver, `(begin ` and the program and `)`, is tokenized with success and the
tokens `(`, `begin`, `t`, `)` when the program does not end inside a comment.  When it does, the
comment takes the closing `)` in: the tokenizer returns `incomplete` with depth one and the
tokens `(`, `begin`, `t`, and the driver prints
`error: parser: input does not form a valid expression` whatever the fuel.  So for
`(+ 1 2) ; done`, which prints `3` once a newline follows the comment. -/
theorem C31_batch_wrapping (file : String) (t : List String) :
    ((Parser.new false).reset.tokenize file.data = (status.success, ⟨0, false, t⟩) →
      (ends_in_comment file.data false = false →
        (Parser.new false).tokenize ("(begin " ++ file ++ ")").data
          = (status.success, ⟨0, false, "(" :: "begin" :: t ++ [")"]⟩)) ∧
      (ends_in_comment file.data false = true →
        (Parser.new false).tokenize ("(begin " ++ file ++ ")").data
            = (status.incomplete, ⟨1, false, "(" :: "begin" :: t⟩) ∧
        ∀ fuel, main_batch fuel file
          = some "error: parser: input does not form a valid expression\n")) ∧
    (Parser.new false).reset.tokenize "(+ 1 2) ; done".data
      = (status.success, ⟨0, false, ["(", "+", "1", "2", ")"]⟩) ∧
    ends_in_comment "(+ 1 2) ; done".data false = true ∧
    (Parser.new false).tokenize "(begin (+ 1 2) ; done)".data
      = (status.incomplete, ⟨1, false, ["(", "begin", "(", "+", "1", "2", ")"]⟩) ∧
    main_batch 20 "(+ 1 2) ; done"
      = some "error: parser: input does not form a valid expression\n" ∧
    main_batch 20 "(+ 1 2) ; done\n" = some "3\n" ∧
    main_batch 20 "(+ 1 2)" = some "3\n" ∧
    main_batch 20 "; only a comment" = some "error: parser: input does not form a valid expression\n" ∧
    main_batch 20 "(display 1) ; one\n(display 2) ; two\n" = some "12" := by
  refine ⟨?_, by decide, by decide, by decide, by decide, by decide, by decide, by decide,
    by decide⟩
  intro h
  have hd : ("(begin " ++ file ++ ")").data = "(begin ".data ++ file.data ++ ")".data := by
    simp [String.data_append]
  have hw := tokenize_batch_text file.data t h
  rw [← hd] at hw
  refine ⟨?_, ?_⟩
  · intro he
    rw [hw, he]
    rfl
  · intro he
    rw [he] at hw
    simp only [if_true] at hw
    refine ⟨hw, ?_⟩
    intro fuel
    simp only [main_batch, Parser.parse, hw]
    rfl

/-! ## C32: feeding the tokenizer in pieces -/

/-- A call of the tokenizer on `s2` after a call on `s1` that did not fail is the rest of one
call on `s1`, a newline and `s2`.  Inside a comment the token buffer is empty. -/
theorem tokenize_loop_feed (s2 s1 : List Char) (p : Parser) (token : String) (in_comment : Bool)
    (hinv : in_comment = true → token = "")
    (hok : (tokenize_loop s1 p token in_comment).1 ≠ status.failure) :
    tokenize_loop s2 (tokenize_loop s1 p token in_comment).2 "" false
      = tokenize_loop (s1 ++ '\n' :: s2) p token in_comment := by
  induction s1 generalizing p token in_comment with
  | nil =>
      have hsp : isspace '\n' = true := by decide
      have e1 : ¬ ('\n' = ';') := by decide
      have e2 : ¬ ('\n' = '(') := by decide
      have e3 : ¬ ('\n' = ')') := by decide
      cases in_comment with
      | true =>
          have ht := hinv rfl
          subst ht
          simp [tokenize_loop, try_push]
      | false =>
          simp only [List.nil_append, tokenize_loop, Bool.false_eq_true, if_false, e1, e2, e3,
            hsp, if_true, try_push_finished]
  | cons c s1 ih =>
      cases in_comment with
      | true =>
          simp only [List.cons_append, tokenize_loop, if_true] at hok ⊢
          exact ih p token _ (fun _ => hinv rfl) hok
      | false =>
          simp only [List.cons_append, tokenize_loop, Bool.false_eq_true, if_false,
            try_push_finished] at hok ⊢
          by_cases h1 : c = ';'
          · simp only [h1, if_true] at hok ⊢
            exact ih _ _ _ (fun _ => rfl) hok
          · simp only [h1, if_false] at hok ⊢
            by_cases h2 : c = '('
            · simp only [h2, if_true] at hok ⊢
              exact ih _ _ _ (fun h => absurd h (by decide)) hok
            · simp only [h2, if_false] at hok ⊢
              by_cases h3 : c = ')'
              · simp only [h3, if_true] at hok ⊢
                by_cases hp : p.paren_ ≤ 0
                · simp [hp] at hok
                · simp only [hp, if_false] at hok ⊢
                  exact ih _ _ _ (fun h => absurd h (by decide)) hok
              · simp only [h3, if_false] at hok ⊢
                cases hs : isspace c with
                | true =>
                    simp only [hs, if_true] at hok ⊢
                    exact ih _ _ _ (fun h => absurd h (by decide)) hok
                | false =>
                    simp only [hs, Bool.false_eq_true, if_false] at hok ⊢
                    cases he : is_EOF c with
                    | true =>
                        simp only [he, Bool.not_true, Bool.false_eq_true, if_false] at hok ⊢
                        exact ih _ _ _ (fun h => absurd h (by decide)) hok
                    | false =>
                        simp only [he, Bool.not_false, if_true] at hok ⊢
                        exact ih _ _ _ (fun h => absurd h (by decide)) hok

/-- C32.  When a call of the tokenizer on `s1` does not return `failure`, a second call on `s2`
returns the status, the token buffer and the depth counter that one call on `s1`, a newline
and `s2` returns from the same start, in particular from a reset tokenizer.  `reset` empties
the token buffer and sets the depth counter to zero, whatever they were, and keeps
`multiline_`. -/
theorem C32_multi_feed (p : Parser) (s1 s2 : List Char)
    (h : (p.tokenize s1).1 ≠ status.failure) :
    (p.tokenize s1).2.tokenize s2 = p.tokenize (s1 ++ '\n' :: s2) ∧
    ((p.reset.tokenize s1).1 ≠ status.failure →
      (p.reset.tokenize s1).2.tokenize s2 = p.reset.tokenize (s1 ++ '\n' :: s2)) ∧
    (∀ q : Parser, q.reset.tokens_ = [] ∧ q.reset.paren_ = 0 ∧
      q.reset.multiline_ = q.multiline_) := by
  refine ⟨?_, ?_, fun q => ⟨rfl, rfl, rfl⟩⟩
  · exact tokenize_loop_feed s2 s1 p "" false (fun h => absurd h (by decide)) h
  · intro h2
    exact tokenize_loop_feed s2 s1 p.reset "" false (fun h => absurd h (by decide)) h2

/-- C32 on the two lines `(define x ; first` and `5) x`: the first call is incomplete with
depth one, the second completes the form. -/
theorem C32_multi_feed_witness :
    ((Parser.new true).tokenize "(define x ; first".data).1 ≠ status.failure ∧
    (Parser.new true).tokenize "(define x ; first".data
      = (status.incomplete, ⟨1, true, ["(", "define", "x"]⟩) ∧
    ((Parser.new true).tokenize "(define x ; first".data).2.tokenize "5) x".data
      = (Parser.new true).tokenize ("(define x ; first".data ++ '\n' :: "5) x".data) ∧
    ((Parser.new true).tokenize "(define x ; first".data).2.tokenize "5) x".data
      = (status.success, ⟨0, true, ["(", "define", "x", "5", ")", "x"]⟩) ∧
    (Parser.new true).tokenize "(define x ; first\n5) x".data
      = (status.success, ⟨0, true, ["(", "define", "x", "5", ")", "x"]⟩) ∧
    (⟨3, true, ["(", "(", "("]⟩ : Parser).reset = ⟨0, true, []⟩ :=
  ⟨by decide, by decide,
    (C32_multi_feed (Parser.new true) "(define x ; first".data "5) x".data (by decide)).1,
    by decide, by decide, rfl⟩

/-! ## C33: the parser reads inside its range -/

/-- The position `close_pos` gives is a position of the list and holds a `)`. -/
theorem close_pos_lt (ts : List String) (depth k : Nat) (h : close_pos ts depth = some k) :
    k < ts.length ∧ ts.get? k = some ")" := by
  induction ts generalizing depth k with
  | nil => simp [close_pos] at h
  | cons t ts ih =>
      simp only [close_pos] at h
      by_cases h1 : t = "("
      · simp only [h1, if_true, Option.map_eq_some'] at h
        obtain ⟨j, hj, rfl⟩ := h
        have := ih _ _ hj
        exact ⟨by simp [this.1], by simpa using this.2⟩
      · simp only [h1, if_false] at h
        by_cases h2 : t = ")"
        · simp only [h2, if_true] at h
          by_cases h3 : depth = 0
          · simp only [h3, if_true, Option.some.injEq] at h
            subst h
            simp [h2]
          · simp only [h3, if_false, Option.map_eq_some'] at h
            obtain ⟨j, hj, rfl⟩ := h
            have := ih _ _ hj
            exact ⟨by simp [this.1], by simpa using this.2⟩
        · simp only [h2, if_false, Option.map_eq_some'] at h
          obtain ⟨j, hj, rfl⟩ := h
          have := ih _ _ hj
          exact ⟨by simp [this.1], by simpa using this.2⟩

/-- A form that is closed at depth `a + b + 1` is first closed at depth `a`, and from there
on at depth `b`. -/
theorem close_pos_split (ts : List String) (a b j : Nat)
    (h : close_pos ts (a + b + 1) = some j) :
    ∃ k, close_pos ts a = some k ∧ k < j ∧ close_pos (ts.drop (k + 1)) b = some (j - k - 1) := by
  induction ts generalizing a j with
  | nil => simp [close_pos] at h
  | cons t ts ih =>
      simp only [close_pos] at h
      by_cases h1 : t = "("
      · simp only [h1, if_true, Option.map_eq_some'] at h
        obtain ⟨j2, hj, rfl⟩ := h
        have e : a + b + 1 + 1 = (a + 1) + b + 1 := by omega
        rw [e] at hj
        obtain ⟨k, hk, hlt, hrest⟩ := ih (a + 1) j2 hj
        refine ⟨k + 1, by simp [close_pos, h1, hk], by omega, ?_⟩
        have e2 : j2 + 1 - (k + 1) - 1 = j2 - k - 1 := by omega
        simpa [e2] using hrest
      · simp only [h1, if_false] at h
        by_cases h2 : t = ")"
        · have hne : ¬ (a + b + 1 = 0) := by omega
          simp only [h2, if_true, hne, if_false, Option.map_eq_some'] at h
          obtain ⟨j2, hj, rfl⟩ := h
          cases a with
          | zero =>
              refine ⟨0, by simp [close_pos, h2], by omega, ?_⟩
              simpa using hj
          | succ a2 =>
              have e : a2 + 1 + b + 1 - 1 = a2 + b + 1 := by omega
              rw [e] at hj
              obtain ⟨k, hk, hlt, hrest⟩ := ih a2 j2 hj
              refine ⟨k + 1, by simp [close_pos, h2, hk], by omega, ?_⟩
              have e2 : j2 + 1 - (k + 1) - 1 = j2 - k - 1 := by omega
              simpa [e2] using hrest
        · simp only [h2, if_false, Option.map_eq_some'] at h
          obtain ⟨j2, hj, rfl⟩ := h
          obtain ⟨k, hk, hlt, hrest⟩ := ih a j2 hj
          refine ⟨k + 1, by simp [close_pos, h1, h2, hk], by omega, ?_⟩
          have e2 : j2 + 1 - (k + 1) - 1 = j2 - k - 1 := by omega
          simpa [e2] using hrest

/-- Tokens that end at depth zero close the form they continue. -/
theorem close_pos_of_depth_after (ts : List String) (depth : Nat)
    (h : depth_after ts (depth + 1) = some 0) : ∃ k, close_pos ts depth = some k := by
  induction ts generalizing depth with
  | nil => simp [depth_after] at h
  | cons t ts ih =>
      simp only [depth_after] at h
      by_cases h1 : t = "("
      · simp only [h1, if_true] at h
        obtain ⟨k, hk⟩ := ih _ h
        exact ⟨k + 1, by simp [close_pos, h1, hk]⟩
      · simp only [h1, if_false] at h
        by_cases h2 : t = ")"
        · have hne : ¬ (depth + 1 = 0) := by omega
          simp only [h2, if_true, hne, if_false, Nat.add_sub_cancel] at h
          cases depth with
          | zero => exact ⟨0, by simp [close_pos, h2]⟩
          | succ d =>
              obtain ⟨k, hk⟩ := ih _ h
              exact ⟨k + 1, by simp [close_pos, h2, hk]⟩
        · simp only [h2, if_false] at h
          obtain ⟨k, hk⟩ := ih _ h
          exact ⟨k + 1, by simp [close_pos, h1, h2, hk]⟩

/-- The depth after two lists of tokens, one read after the other. -/
theorem depth_after_append (ts us : List String) (depth : Nat) :
    depth_after (ts ++ us) depth = (depth_after ts depth).bind (depth_after us) := by
  induction ts generalizing depth with
  | nil => simp [depth_after]
  | cons t ts ih =>
      show depth_after (t :: (ts ++ us)) depth = _
      simp only [depth_after]
      by_cases h1 : t = "("
      · simp only [h1, if_true, ih]
      · simp only [h1, if_false]
        by_cases h2 : t = ")"
        · simp only [h2, if_true]
          by_cases h3 : depth = 0
          · simp [h3]
          · simp only [h3, if_false, ih]
        · simp only [h2, if_false, ih]

theorem drop_of_get (T : List String) (i : Nat) (t : String) (h : T.get? i = some t) :
    T.drop i = t :: T.drop (i + 1) := by
  have hlt : i < T.length := by
    by_contra hc
    have : T.get? i = none := by simp; omega
    rw [this] at h
    exact absurd h (by simp)
  rw [List.drop_eq_getElem_cons hlt]
  have : T[i]? = some t := by simpa using h
  rw [List.getElem?_eq_getElem hlt] at this
  simp only [Option.some.injEq] at this
  rw [this]

theorem get_of_drop (T : List String) (i : Nat) (t : String) (rest : List String)
    (h : T.drop i = t :: rest) : T.get? i = some t ∧ T.drop (i + 1) = rest := by
  have hlt : i < T.length := by
    by_contra hc
    have : T.drop i = [] := List.drop_eq_nil_of_le (by omega)
    rw [this] at h
    exact absurd h (by simp)
  rw [List.drop_eq_getElem_cons hlt] at h
  simp only [List.cons.injEq] at h
  refine ⟨?_, h.2⟩
  simp [List.getElem?_eq_getElem hlt, h.1]

theorem deref_of_get (T : List String) (i : Nat) (t : String) (h : T.get? i = some t) :
    deref T i = .ok t := by
  simp only [deref, h]

theorem get_of_deref (T : List String) (i : Nat) (t : String) (h : deref T i = .ok t) :
    T.get? i = some t := by
  unfold deref at h
  split at h
  · next t2 hg =>
      simp only [Except.ok.injEq] at h
      rw [← h]
      exact hg
  · simp at h

theorem get_of_lt (T : List String) (i : Nat) (h : i < T.length) : ∃ t, T.get? i = some t :=
  ⟨T[i], by simp [List.getElem?_eq_getElem h]⟩

theorem agree_refl (T : List String) (b e : Nat) : agree T T b e := fun _ _ _ => rfl

theorem agree_sub (T T2 : List String) (b e l r : Nat) (h : agree T T2 b e) (hl : b ≤ l)
    (hr : r ≤ e) : agree T T2 l r :=
  fun i h1 h2 => h i (by omega) (by omega)

theorem agree_length (T T2 : List String) (b e : Nat) (h : agree T T2 b e) (hbe : b < e)
    (he : e ≤ T.length) : e ≤ T2.length := by
  obtain ⟨t, ht⟩ := get_of_lt T (e - 1) (by omega)
  have := h (e - 1) (by omega) (by omega)
  rw [ht] at this
  by_contra hc
  have hn : T2.get? (e - 1) = none := by simp; omega
  rw [hn] at this
  exact absurd this (by simp)

theorem agree_deref (T T2 : List String) (b e i : Nat) (h : agree T T2 b e) (hb : b ≤ i)
    (hi : i < e) : deref T2 i = deref T i := by
  simp only [deref, h i hb hi]

/-- The loop of `find_match` stops at the `)` that closes the form, and reads nothing after
it. -/
theorem find_match_loop_found (T T2 : List String) (b e : Nat) (hag : agree T T2 b e)
    (rounds : Nat) :
    ∀ (it depth k : Nat), b ≤ it → close_pos (T.drop it) depth = some k → it + k < e →
      k < rounds → find_match_loop T2 e rounds it (depth + 1) = .ok (it + k, 0) := by
  induction rounds with
  | zero => intro it depth k _ _ _ hk; omega
  | succ rounds ih =>
      intro it depth k hb hc hlt hk
      have hne : ¬ (it = e) := by omega
      cases hd : T.drop it with
      | nil => simp [hd, close_pos] at hc
      | cons t rest =>
          obtain ⟨hg, hrest⟩ := get_of_drop T it t rest hd
          have hder : deref T2 it = .ok t := by
            rw [agree_deref T T2 b e it hag hb (by omega)]
            exact deref_of_get T it t hg
          rw [hd] at hc
          simp only [close_pos] at hc
          simp only [find_match_loop, hne, if_false, hder, bind, Except.bind]
          by_cases h1 : t = "("
          · simp only [h1, if_true, Option.map_eq_some'] at hc ⊢
            obtain ⟨j, hj, rfl⟩ := hc
            rw [← hrest] at hj
            have := ih (it + 1) (depth + 1) j (by omega) hj (by omega) (by omega)
            simp only [Nat.add_one_ne_zero, if_false, this]
            have e2 : it + 1 + j = it + (j + 1) := by omega
            rw [e2]
          · simp only [h1, if_false] at hc ⊢
            by_cases h2 : t = ")"
            · simp only [h2, if_true] at hc ⊢
              by_cases h3 : depth = 0
              · simp only [h3, if_true, Option.some.injEq] at hc
                subst hc
                subst h3
                simp [pure, Except.pure]
              · simp only [h3, if_false, Option.map_eq_some'] at hc
                obtain ⟨j, hj, rfl⟩ := hc
                rw [← hrest] at hj
                have hd1 : depth + 1 - 1 = (depth - 1) + 1 := by omega
                have := ih (it + 1) (depth - 1) j (by omega) hj (by omega) (by omega)
                simp only [hd1, Nat.add_one_ne_zero, if_false, this]
                have e2 : it + 1 + j = it + (j + 1) := by omega
                rw [e2]
            · simp only [h2, if_false, Option.map_eq_some'] at hc ⊢
              obtain ⟨j, hj, rfl⟩ := hc
              rw [← hrest] at hj
              have := ih (it + 1) depth j (by omega) hj (by omega) (by omega)
              simp only [Nat.add_one_ne_zero, if_false, this]
              have e2 : it + 1 + j = it + (j + 1) := by omega
              rw [e2]

/-- Function `find_match` on a `(` that is closed inside the range: the position of the `)`. -/
theorem find_match_found (T T2 : List String) (b e it k : Nat) (hag : agree T T2 b e)
    (hb : b ≤ it) (he : e ≤ T.length) (hg : T.get? it = some "(")
    (hc : close_pos (T.drop (it + 1)) 0 = some k) (hlt : it + 1 + k < e) :
    find_match T2 it e = .ok (it + 1 + k) := by
  have hlen := agree_length T T2 b e hag (by omega) he
  have hder : deref T2 it = .ok "(" := by
    rw [agree_deref T T2 b e it hag hb (by omega)]
    exact deref_of_get T it _ hg
  have := find_match_loop_found T T2 b e hag (T2.length + 1) (it + 1) 0 k (by omega) hc hlt
    (by omega)
  simp only [find_match, hder, bind, Except.bind, ne_eq, not_true_eq_false, if_false, this,
    pure, Except.pure]

theorem each_range_mono (R S : Nat → Nat → Prop) (h : ∀ l r, R l r → S l r) :
    ∀ xs : List Nat, each_range R xs → each_range S xs
  | [], _ => trivial
  | [_], _ => trivial
  | l :: r :: rest, hx => ⟨h l r hx.1, each_range_mono R S h (r :: rest) hx.2⟩

theorem each_range_mem (R : Nat → Nat → Prop) (P : Nat → Prop) :
    ∀ xs : List Nat, each_range R xs → (∀ x ∈ xs, P x) →
      each_range (fun l r => R l r ∧ P l ∧ P r) xs
  | [], _, _ => trivial
  | [_], _, _ => trivial
  | l :: r :: rest, hx, hp =>
      ⟨⟨hx.1, hp l (by simp), hp r (by simp)⟩,
        each_range_mem R P (r :: rest) hx.2 (fun x hm => hp x (by simp [hm]))⟩

theorem each_range_last (R : Nat → Nat → Prop) (m m2 : Nat) (h : ∀ l, R l m → R l m2) :
    ∀ xs : List Nat, each_range R (xs ++ [m]) → each_range R (xs ++ [m2])
  | [], _ => trivial
  | [x], hx => ⟨h x hx.1, trivial⟩
  | _ :: r :: rest, hx => ⟨hx.1, each_range_last R m m2 h (r :: rest) hx.2⟩

theorem each_range_tail (R : Nat → Nat → Prop) (x : Nat) (xs : List Nat)
    (h : each_range R (x :: xs)) : each_range R xs := by
  cases xs with
  | nil => trivial
  | cons y ys => exact h.2

theorem each_range_drop (R : Nat → Nat → Prop) (k : Nat) :
    ∀ xs : List Nat, each_range R xs → each_range R (xs.drop k) := by
  induction k with
  | zero => intro xs h; simpa using h
  | succ k ih =>
      intro xs h
      cases xs with
      | nil => trivial
      | cons x xs =>
          simp only [List.drop_succ_cons]
          exact ih xs (each_range_tail R x xs h)

theorem closed_start_atom (T : List String) (it : Nat) (t : String) (hg : T.get? it = some t)
    (hne : t ≠ "(") : closed_start T it (it + 1) := by
  have hlt : it < T.length := by
    by_contra hc
    have : T.get? it = none := by simp; omega
    rw [this] at hg
    exact absurd hg (by simp)
  refine ⟨by omega, by omega, ?_⟩
  intro h
  rw [hg] at h
  simp only [Option.some.injEq] at h
  exact absurd h hne

theorem closed_start_mono (T : List String) (l m m2 : Nat) (h : closed_start T l m)
    (hm : m ≤ m2) (hlen : m2 ≤ T.length) : closed_start T l m2 := by
  obtain ⟨h1, _, h3⟩ := h
  refine ⟨by omega, hlen, ?_⟩
  intro hg
  obtain ⟨k, hk, hlt⟩ := h3 hg
  exact ⟨k, hk, by omega⟩

/-- The scan of `split_level` over the elements of a form that is closed at `m`: it collects
the positions where the elements start and stops at `m`; two neighbours among these positions
and `m` bound a range that holds the element that starts it. -/
theorem split_level_scan_elements (T : List String) (b e : Nat) (he : e ≤ T.length) (n : Nat) :
    ∀ (it m : Nat), m - it ≤ n → b ≤ it → it ≤ m → m < e →
      close_pos (T.drop it) 0 = some (m - it) →
      ∃ starts : List Nat, (∀ s ∈ starts, it ≤ s ∧ s < m) ∧
        (starts ++ [m]).head? = some it ∧ each_range (closed_start T) (starts ++ [m]) ∧
        ∀ (T2 : List String) (rounds : Nat) (indices : List Nat), agree T T2 b e →
          m - it < rounds → split_level_scan T2 e rounds it indices = .ok (indices ++ starts) := by
  induction n with
  | zero =>
      intro it m hn hb him hme hc
      have him2 : it = m := by omega
      subst him2
      simp only [Nat.sub_self] at hc
      have hg : T.get? it = some ")" := by
        have := (close_pos_lt _ _ _ hc).2
        cases hd : T.drop it with
        | nil => simp [hd] at this
        | cons t rest =>
            rw [hd] at this
            simp only [List.get?_cons_zero, Option.some.injEq] at this
            rw [this] at hd
            exact (get_of_drop T it _ rest hd).1
      refine ⟨[], by simp, by simp, trivial, ?_⟩
      intro T2 rounds indices hag hr
      cases rounds with
      | zero => omega
      | succ rounds =>
          have hder : deref T2 it = .ok ")" := by
            rw [agree_deref T T2 b e it hag hb hme]
            exact deref_of_get T it _ hg
          simp [split_level_scan, hder, bind, Except.bind, pure, Except.pure]
  | succ n ih =>
      intro it m hn hb him hme hc
      by_cases him2 : it = m
      · exact ih it m (by omega) hb him hme hc
      · cases hd : T.drop it with
        | nil => simp [hd, close_pos] at hc
        | cons t rest =>
            obtain ⟨hg, hrest⟩ := get_of_drop T it t rest hd
            rw [hd] at hc
            simp only [close_pos] at hc
            by_cases h1 : t = "("
            · simp only [h1, if_true, Option.map_eq_some'] at hc
              obtain ⟨j, hj, hjm⟩ := hc
              obtain ⟨k, hk, hkj, hrest2⟩ := close_pos_split rest 0 0 j hj
              rw [← hrest, List.drop_drop] at hrest2
              have e1 : it + 1 + (k + 1) = it + 1 + k + 1 := by omega
              rw [e1] at hrest2
              have e2 : j - k - 1 = m - (it + 1 + k + 1) := by omega
              rw [e2] at hrest2
              obtain ⟨starts, hs1, hs2, hs3, hs4⟩ :=
                ih (it + 1 + k + 1) m (by omega) (by omega) (by omega) hme hrest2
              rw [← hrest] at hk
              rw [h1] at hg
              refine ⟨it :: starts, ?_, by simp, ?_, ?_⟩
              · intro s hs
                rcases List.mem_cons.1 hs with rfl | hs
                · omega
                · have := hs1 s hs
                  omega
              · cases hst : starts ++ [m] with
                | nil => simp at hst
                | cons x xs =>
                    rw [hst] at hs2 hs3
                    simp only [List.head?_cons, Option.some.injEq] at hs2
                    subst hs2
                    rw [List.cons_append, hst]
                    exact ⟨⟨by omega, by omega, fun _ => ⟨k, hk, by omega⟩⟩, hs3⟩
              · intro T2 rounds indices hag hr
                cases rounds with
                | zero => omega
                | succ rounds =>
                    have hder : deref T2 it = .ok "(" := by
                      rw [agree_deref T T2 b e it hag hb (by omega)]
                      exact deref_of_get T it _ hg
                    have hfm := find_match_found T T2 b e it k hag hb he hg hk (by omega)
                    have hne : ¬ ("(" = ")") := by decide
                    simp only [split_level_scan, hder, bind, Except.bind, hne, if_false, if_true,
                      hfm, hs4 T2 rounds (indices ++ [it]) hag (by omega)]
                    simp
            · simp only [h1, if_false] at hc
              by_cases h2 : t = ")"
              · simp only [h2, if_true, Option.some.injEq] at hc
                omega
              · simp only [h2, if_false, Option.map_eq_some'] at hc
                obtain ⟨j, hj, hjm⟩ := hc
                rw [← hrest] at hj
                have e2 : j = m - (it + 1) := by omega
                rw [e2] at hj
                obtain ⟨starts, hs1, hs2, hs3, hs4⟩ :=
                  ih (it + 1) m (by omega) (by omega) (by omega) hme hj
                refine ⟨it :: starts, ?_, by simp, ?_, ?_⟩
                · intro s hs
                  rcases List.mem_cons.1 hs with rfl | hs
                  · omega
                  · have := hs1 s hs
                    omega
                · cases hst : starts ++ [m] with
                  | nil => simp at hst
                  | cons x xs =>
                      rw [hst] at hs2 hs3
                      simp only [List.head?_cons, Option.some.injEq] at hs2
                      subst hs2
                      rw [List.cons_append, hst]
                      exact ⟨closed_start_atom T it t hg h1, hs3⟩
                · intro T2 rounds indices hag hr
                  cases rounds with
                  | zero => omega
                  | succ rounds =>
                      have hder : deref T2 it = .ok t := by
                        rw [agree_deref T T2 b e it hag hb (by omega)]
                        exact deref_of_get T it _ hg
                      simp only [split_level_scan, hder, bind, Except.bind, h1, h2, if_false,
                        hs4 T2 rounds (indices ++ [it]) hag (by omega)]
                      simp

/-- Function `split_level` on a range that holds the `)` of its first `(`: it returns, or throws
a `std::string`, and reads only tokens of the range; the positions it returns lie inside the
range after `begin`, and two neighbours among them bound a range of the same kind. -/
theorem split_level_closed (T : List String) (b e : Nat) (hcs : closed_start T b e) :
    ∃ r : Except Err (List Nat), recoverable r ∧
      (∀ level, r = .ok level →
        (∀ x ∈ level, b < x ∧ x < e) ∧ each_range (closed_start T) level ∧ level ≠ []) ∧
      ∀ T2, agree T T2 b e → split_level T2 b e = r := by
  obtain ⟨hbe, he, hinv⟩ := hcs
  obtain ⟨t0, ht0⟩ := get_of_lt T b (by omega)
  obtain ⟨t1, ht1⟩ := get_of_lt T (e - 1) (by omega)
  have hprev : prev e = .ok (e - 1) := by
    have : ¬ (e = 0) := by omega
    simp [prev, this]
  have hd0 : ∀ T2, agree T T2 b e → deref T2 b = .ok t0 := by
    intro T2 hag
    rw [agree_deref T T2 b e b hag (by omega) hbe]
    exact deref_of_get T b _ ht0
  have hd1 : ∀ T2, agree T T2 b e → deref T2 (e - 1) = .ok t1 := by
    intro T2 hag
    rw [agree_deref T T2 b e (e - 1) hag (by omega) (by omega)]
    exact deref_of_get T _ _ ht1
  by_cases h0 : t0 = "("
  · by_cases h1 : t1 = ")"
    · rw [h0] at ht0
      obtain ⟨k, hk, hkm⟩ := hinv ht0
      by_cases hu : b + 1 = e - 1
      · refine ⟨.ok [e - 1], Or.inl ⟨_, rfl⟩, ?_, ?_⟩
        · intro level hl
          simp only [Except.ok.injEq] at hl
          subst hl
          refine ⟨?_, trivial, by simp⟩
          intro x hx
          simp only [List.mem_singleton] at hx
          omega
        · intro T2 hag
          simp [split_level, hd0 T2 hag, hd1 T2 hag, hprev, h0, h1, hu, bind, Except.bind,
            pure, Except.pure]
      · have hc : close_pos (T.drop (b + 1)) 0 = some (b + 1 + k - (b + 1)) := by
          rw [hk]
          congr 1
          omega
        obtain ⟨starts, hs1, hs2, hs3, hs4⟩ :=
          split_level_scan_elements T b e he (b + 1 + k - (b + 1)) (b + 1) (b + 1 + k)
            (by omega) (by omega) (by omega) hkm hc
        refine ⟨.ok (starts ++ [e - 1]), Or.inl ⟨_, rfl⟩, ?_, ?_⟩
        · intro level hl
          simp only [Except.ok.injEq] at hl
          subst hl
          refine ⟨?_, ?_, by simp⟩
          · intro x hx
            rcases List.mem_append.1 hx with hx | hx
            · have := hs1 x hx
              omega
            · simp only [List.mem_singleton] at hx
              omega
          · exact each_range_last (closed_start T) (b + 1 + k) (e - 1)
              (fun l hl => closed_start_mono T l _ _ hl (by omega) (by omega)) starts hs3
        · intro T2 hag
          have hlen := agree_length T T2 b e hag hbe he
          have hscan := hs4 T2 (T2.length + 1) [] hag (by omega)
          simp only [split_level, hd0 T2 hag, hd1 T2 hag, hprev, h0, h1, bind, Except.bind, ne_eq,
            not_true_eq_false, if_false, hu, not_false_eq_true, if_true, hscan, pure, Except.pure,
            List.nil_append]
    · refine ⟨throw_error "parser: could not parse s-expression", Or.inr ⟨_, rfl⟩, ?_, ?_⟩
      · intro level hl
        simp [throw_error] at hl
      · intro T2 hag
        simp [split_level, hd0 T2 hag, hd1 T2 hag, hprev, h0, h1, bind, Except.bind]
  · refine ⟨throw_error "parser: could not parse s-expression", Or.inr ⟨_, rfl⟩, ?_, ?_⟩
    · intro level hl
      simp [throw_error] at hl
    · intro T2 hag
      simp [split_level, hd0 T2 hag, h0, bind, Except.bind]

theorem same_of_recoverable {α : Type} (x : Except Err α) (h : recoverable x) :
    same_recoverable x x := ⟨rfl, h⟩

theorem same_pure {α : Type} (a : α) : same_recoverable (pure a : Except Err α) (pure a) :=
  ⟨rfl, Or.inl ⟨a, rfl⟩⟩

theorem same_throw {α : Type} (msg : String) :
    same_recoverable (throw_error msg : Except Err α) (throw_error msg) :=
  ⟨rfl, Or.inr ⟨msg, rfl⟩⟩

/-- A step of a computation in `Except` on two token lists. -/
theorem bind_same {α β : Type} (x x2 : Except Err α) (k k2 : α → Except Err β)
    (hx : same_recoverable x x2) (hk : ∀ a, x = .ok a → same_recoverable (k a) (k2 a)) :
    same_recoverable (x >>= k) (x2 >>= k2) := by
  obtain ⟨rfl, hr⟩ := hx
  rcases hr with ⟨a, ha⟩ | ⟨msg, hm⟩
  · subst ha
    exact hk a rfl
  · subst hm
    exact ⟨rfl, Or.inr ⟨msg, rfl⟩⟩

theorem ite_same {β : Type} (c : Prop) [Decidable c] (a a2 b b2 : Except Err β)
    (ha : c → same_recoverable a a2) (hb : ¬ c → same_recoverable b b2) :
    same_recoverable (if c then a else b) (if c then a2 else b2) := by
  by_cases hc : c
  · simp only [hc, if_true]
    exact ha hc
  · simp only [hc, if_false]
    exact hb hc

theorem index_same (level : List Nat) (k : Nat) (h : k < level.length) :
    same_recoverable (index level k) (index level k) := by
  refine same_of_recoverable _ (Or.inl ⟨level[k], ?_⟩)
  simp [index, List.getElem?_eq_getElem h]

theorem index_get (level : List Nat) (k x : Nat) (h : index level k = .ok x) :
    level.get? k = some x := by
  unfold index at h
  split at h
  · next y hy =>
      simp only [Except.ok.injEq] at h
      rw [← h]
      exact hy
  · simp at h

theorem each_range_get (R : Nat → Nat → Prop) :
    ∀ (level : List Nat) (i l r : Nat), each_range R level → level.get? i = some l →
      level.get? (i + 1) = some r → R l r
  | [], _, _, _, _, h, _ => by simp at h
  | [_], i, _, _, _, _, h => by simp at h
  | x :: y :: rest, 0, l, r, hx, h1, h2 => by
      simp only [List.get?_cons_zero, Option.some.injEq, List.get?_cons_succ] at h1 h2
      subst h1
      subst h2
      exact hx.1
  | x :: y :: rest, i + 1, l, r, hx, h1, h2 => by
      simp only [List.get?_cons_succ] at h1 h2
      exact each_range_get R (y :: rest) i l r hx.2 h1 (by simpa using h2)

theorem each_range_index (R : Nat → Nat → Prop) (level : List Nat) (i l r : Nat)
    (h : each_range R level) (h1 : index level i = .ok l) (h2 : index level (i + 1) = .ok r) :
    R l r :=
  each_range_get R level i l r h (index_get _ _ _ h1) (index_get _ _ _ h2)

/-- The loops that parse every range of a list of positions. -/
theorem parse_ranges_same (parse parse2 : Nat → Nat → Except Err ASTNode)
    (R : Nat → Nat → Prop)
    (hparse : ∀ l r, R l r → same_recoverable (parse l r) (parse2 l r)) :
    ∀ level : List Nat, each_range R level →
      same_recoverable (parse_ranges parse level) (parse_ranges parse2 level)
  | [], _ => same_pure _
  | [_], _ => same_pure _
  | l :: r :: rest, h => by
      simp only [parse_ranges]
      refine bind_same _ _ _ _ (hparse l r h.1) ?_
      intro node _
      refine bind_same _ _ _ _ (parse_ranges_same parse parse2 R hparse (r :: rest) h.2) ?_
      intro nodes _
      exact same_pure _

/-- The loops over an argument list. -/
theorem parse_arg_list_same (T T2 : List String) (R : Nat → Nat → Prop)
    (hder : ∀ l r, R l r → same_recoverable (deref T l) (deref T2 l)) :
    ∀ level : List Nat, each_range R level →
      same_recoverable (parse_arg_list T level) (parse_arg_list T2 level)
  | [], _ => same_pure _
  | [_], _ => same_pure _
  | l :: r :: rest, h => by
      simp only [parse_arg_list]
      refine ite_same _ _ _ _ _ (fun _ => same_throw _) (fun _ => ?_)
      refine bind_same _ _ _ _ (hder l r h.1) ?_
      intro t _
      refine ite_same _ _ _ _ _ (fun _ => same_throw _) (fun _ => ?_)
      refine bind_same _ _ _ _ (parse_arg_list_same T T2 R hder (r :: rest) h.2) ?_
      intro args _
      exact same_pure _

/-- The loop over the clauses of `cond`. -/
theorem parse_cond_list_same (T T2 : List String) (parse parse2 : Nat → Nat → Except Err ASTNode)
    (R : Nat → Nat → Prop)
    (hsplit : ∀ l r, R l r → same_recoverable (split_level T l r) (split_level T2 l r) ∧
      ∀ level, split_level T l r = .ok level → each_range R level)
    (hparse : ∀ l r, R l r → same_recoverable (parse l r) (parse2 l r)) :
    ∀ level : List Nat, each_range R level →
      same_recoverable (parse_cond_list T parse level) (parse_cond_list T2 parse2 level)
  | [], _ => same_pure _
  | [_], _ => same_pure _
  | l :: r :: rest, h => by
      simp only [parse_cond_list]
      refine bind_same _ _ _ _ (hsplit l r h.1).1 ?_
      intro pair hpair
      have hp := (hsplit l r h.1).2 pair hpair
      refine ite_same _ _ _ _ _ (fun _ => same_throw _) (fun hlen => ?_)
      refine bind_same _ _ _ _ (index_same pair 0 (by omega)) ?_
      intro p0 h0
      refine bind_same _ _ _ _ (index_same pair 1 (by omega)) ?_
      intro p1 h1
      refine bind_same _ _ _ _ (index_same pair 2 (by omega)) ?_
      intro p2 h2
      refine bind_same _ _ _ _ (hparse p0 p1 (each_range_index R pair 0 p0 p1 hp h0 h1)) ?_
      intro pred _
      refine bind_same _ _ _ _ (hparse p1 p2 (each_range_index R pair 1 p1 p2 hp h1 h2)) ?_
      intro seq _
      refine bind_same _ _ _ _
        (parse_cond_list_same T T2 parse parse2 R hsplit hparse (r :: rest) h.2) ?_
      intro x _
      exact same_pure _

/-- The loop over the binding list of `let` and `let*`. -/
theorem parse_bindings_same (T T2 : List String) (parse parse2 : Nat → Nat → Except Err ASTNode)
    (R : Nat → Nat → Prop)
    (hder : ∀ l r, R l r → same_recoverable (deref T l) (deref T2 l))
    (hsplit : ∀ l r, R l r → same_recoverable (split_level T l r) (split_level T2 l r) ∧
      ∀ level, split_level T l r = .ok level → each_range R level)
    (hparse : ∀ l r, R l r → same_recoverable (parse l r) (parse2 l r)) :
    ∀ level : List Nat, each_range R level →
      same_recoverable (parse_bindings T parse level) (parse_bindings T2 parse2 level)
  | [], _ => same_pure _
  | [_], _ => same_pure _
  | l :: r :: rest, h => by
      simp only [parse_bindings]
      refine bind_same _ _ _ _ (hsplit l r h.1).1 ?_
      intro pair hpair
      have hp := (hsplit l r h.1).2 pair hpair
      refine ite_same _ _ _ _ _ (fun _ => same_throw _) (fun hlen => ?_)
      refine bind_same _ _ _ _ (hder l r h.1) ?_
      intro t _
      refine ite_same _ _ _ _ _ (fun _ => same_throw _) (fun _ => ?_)
      refine bind_same _ _ _ _ (index_same pair 0 (by omega)) ?_
      intro p0 h0
      refine bind_same _ _ _ _ (index_same pair 1 (by omega)) ?_
      intro p1 h1
      refine bind_same _ _ _ _ (index_same pair 2 (by omega)) ?_
      intro p2 h2
      refine bind_same _ _ _ _ (hder p0 p1 (each_range_index R pair 0 p0 p1 hp h0 h1)) ?_
      intro name _
      refine bind_same _ _ _ _ (hparse p1 p2 (each_range_index R pair 1 p1 p2 hp h1 h2)) ?_
      intro node _
      refine bind_same _ _ _ _
        (parse_bindings_same T T2 parse parse2 R hder hsplit hparse (r :: rest) h.2) ?_
      intro bindings _
      exact same_pure _

theorem deref_same (T T2 : List String) (b e i : Nat) (hag : agree T T2 b e) (hb : b ≤ i)
    (hi : i < e) (he : e ≤ T.length) : same_recoverable (deref T i) (deref T2 i) := by
  obtain ⟨t, ht⟩ := get_of_lt T i (by omega)
  refine ⟨agree_deref T T2 b e i hag hb hi, Or.inl ⟨t, deref_of_get T i t ht⟩⟩

theorem index_ok (level : List Nat) (k : Nat) (h : k < level.length) :
    ∃ x, index level k = .ok x :=
  ⟨level[k], by simp [index, List.getElem?_eq_getElem h]⟩

theorem index_mem (level : List Nat) (k x : Nat) (h : index level k = .ok x) : x ∈ level := by
  have := index_get level k x h
  exact List.get?_mem this

/-- Function `split_level` on a range handed on by `parse_immediate`: the same on both token
lists, and the positions it returns bound ranges that are handed on in turn. -/
theorem split_level_sub (T T2 : List String) (b e l r : Nat) (hag : agree T T2 b e)
    (hb : b ≤ l) (hr : r ≤ e) (hcs : closed_start T l r) :
    same_recoverable (split_level T l r) (split_level T2 l r) ∧
      ∀ level, split_level T l r = .ok level →
        (∀ x ∈ level, l < x ∧ x < r) ∧ each_range (sub_range T l r) level ∧ level ≠ [] := by
  obtain ⟨r0, hrec, hprops, hall⟩ := split_level_closed T l r hcs
  have h1 := hall T (agree_refl T l r)
  have h2 := hall T2 (agree_sub T T2 b e l r hag hb hr)
  rw [h1, h2]
  refine ⟨⟨rfl, hrec⟩, ?_⟩
  intro level hl
  obtain ⟨hx, hch, hne⟩ := hprops level hl
  refine ⟨hx, ?_, hne⟩
  have := each_range_mem (closed_start T) (fun x => l < x ∧ x < r) level hch hx
  exact each_range_mono _ _ (fun l2 r2 h => ⟨h.1, h.2.1.1, h.2.2.2⟩) level this

set_option maxHeartbeats 1000000 in
/-- The body of `parse_immediate` on a range that holds the `)` of its first `(`, when the
recursive calls on the ranges handed on return or throw a `std::string` and do the same on
both token lists: so does the body. -/
theorem parse_immediate_body_same (base : Nat) (T T2 : List String)
    (parse parse2 : Nat → Nat → Except Err ASTNode) (b e : Nat) (hcs : closed_start T b e)
    (hag : agree T T2 b e)
    (hparse : ∀ l r, sub_range T b e l r → same_recoverable (parse l r) (parse2 l r)) :
    same_recoverable (parse_immediate_body base T parse b e)
      (parse_immediate_body base T2 parse2 b e) := by
  have hbe := hcs.1
  have he := hcs.2.1
  have hder : ∀ l r, sub_range T b e l r → same_recoverable (deref T l) (deref T2 l) := by
    intro l r h
    have h1 : l < r := h.1.1
    have h2 : b < l := h.2.1
    have h3 : r < e := h.2.2
    exact deref_same T T2 b e l hag (by omega) (by omega) he
  have hsplit : ∀ l r, sub_range T b e l r →
      same_recoverable (split_level T l r) (split_level T2 l r) ∧
        ∀ level, split_level T l r = .ok level → each_range (sub_range T b e) level := by
    intro l r h
    have h3 : b < l := h.2.1
    have h4 : r < e := h.2.2
    obtain ⟨h1, h2⟩ := split_level_sub T T2 b e l r hag (by omega) (by omega) h.1
    refine ⟨h1, ?_⟩
    intro level hl
    have := (h2 level hl).2.1
    refine each_range_mono _ _ (fun l2 r2 hs => ?_) level this
    have h5 : l < l2 := hs.2.1
    have h6 : r2 < r := hs.2.2
    exact ⟨hs.1, by omega, by omega⟩
  unfold parse_immediate_body
  refine ite_same _ _ _ _ _ (fun hc => absurd hc (by omega)) (fun _ => ?_)
  refine bind_same _ _ _ _ (deref_same T T2 b e b hag (by omega) hbe he) ?_
  intro b0 _
  refine ite_same _ _ _ _ _ (fun _ => ?_) (fun _ => ?_)
  · refine bind_same _ _ _ _ (same_of_recoverable _ (Or.inl ⟨e - 1, by
      have : ¬ (e = 0) := by omega
      simp [prev, this]⟩)) ?_
    intro last hlast
    have hl : last = e - 1 := by
      have : ¬ (e = 0) := by omega
      simp [prev, this] at hlast
      exact hlast.symm
    subst hl
    refine bind_same _ _ _ _ (deref_same T T2 b e (e - 1) hag (by omega) (by omega) he) ?_
    intro e0 _
    refine ite_same _ _ _ _ _ (fun _ => same_throw _) (fun _ => ?_)
    refine ite_same _ _ _ _ _ (fun _ => same_pure _) (fun _ => ?_)
    obtain ⟨hs1, hs2⟩ := split_level_sub T T2 b e b e hag (by omega) (by omega) hcs
    refine bind_same _ _ _ _ hs1 ?_
    intro level hlevel
    obtain ⟨hmem, hch, _⟩ := hs2 level hlevel
    refine ite_same _ _ _ _ _ (fun _ => same_throw _) (fun hlen => ?_)
    refine bind_same _ _ _ _ (index_same level 0 (by omega)) ?_
    intro l0 h0
    have hl0 := hmem l0 (index_mem level 0 l0 h0)
    refine bind_same _ _ _ _ (deref_same T T2 b e l0 hag (by omega) (by omega) he) ?_
    intro head _
    -- cons
    refine ite_same _ _ _ _ _ (fun _ => ?_) (fun _ => ?_)
    · refine ite_same _ _ _ _ _ (fun _ => same_throw _) (fun hlen4 => ?_)
      refine bind_same _ _ _ _ (index_same level 1 (by omega)) ?_
      intro l1 h1
      refine bind_same _ _ _ _ (index_same level 2 (by omega)) ?_
      intro l2 h2
      refine bind_same _ _ _ _ (index_same level 3 (by omega)) ?_
      intro l3 h3
      refine bind_same _ _ _ _ (hparse l2 l3 (each_range_index _ level 2 l2 l3 hch h2 h3)) ?_
      intro second _
      refine bind_same _ _ _ _ (hparse l1 l2 (each_range_index _ level 1 l1 l2 hch h1 h2)) ?_
      intro first _
      exact same_pure _
    -- list
    refine ite_same _ _ _ _ _ (fun _ => ?_) (fun _ => ?_)
    · refine bind_same _ _ _ _
        (parse_ranges_same parse parse2 _ hparse _ (each_range_drop _ 1 level hch)) ?_
      intro nodes _
      exact same_pure _
    -- if
    refine ite_same _ _ _ _ _ (fun _ => ?_) (fun _ => ?_)
    · refine ite_same _ _ _ _ _ (fun _ => same_throw _) (fun hlen5 => ?_)
      refine bind_same _ _ _ _ (index_same level 1 (by omega)) ?_
      intro l1 h1
      refine bind_same _ _ _ _ (index_same level 2 (by omega)) ?_
      intro l2 h2
      refine bind_same _ _ _ _ (index_same level 3 (by omega)) ?_
      intro l3 h3
      refine bind_same _ _ _ _ (index_same level 4 (by omega)) ?_
      intro l4 h4
      refine bind_same _ _ _ _ (hparse l2 l3 (each_range_index _ level 2 l2 l3 hch h2 h3)) ?_
      intro t _
      refine bind_same _ _ _ _ (hparse l3 l4 (each_range_index _ level 3 l3 l4 hch h3 h4)) ?_
      intro f _
      refine bind_same _ _ _ _ (hparse l1 l2 (each_range_index _ level 1 l1 l2 hch h1 h2)) ?_
      intro p _
      exact same_pure _
    -- cond
    refine ite_same _ _ _ _ _ (fun _ => ?_) (fun _ => ?_)
    · refine bind_same _ _ _ _
        (parse_cond_list_same T T2 parse parse2 _ hsplit hparse _
          (each_range_drop _ 1 level hch)) ?_
      intro x _
      exact same_pure _
    -- define
    refine ite_same _ _ _ _ _ (fun _ => ?_) (fun _ => ?_)
    · refine ite_same _ _ _ _ _ (fun _ => same_throw _) (fun hlen4 => ?_)
      refine bind_same _ _ _ _ (index_same level 1 (by omega)) ?_
      intro l1 h1
      refine bind_same _ _ _ _ (index_same level 2 (by omega)) ?_
      intro l2 h2
      refine bind_same _ _ _ _ (index_same level 3 (by omega)) ?_
      intro l3 h3
      have r12 := each_range_index _ level 1 l1 l2 hch h1 h2
      have r23 := each_range_index _ level 2 l2 l3 hch h2 h3
      refine bind_same _ _ _ _ (hder l1 l2 r12) ?_
      intro t1 _
      refine ite_same _ _ _ _ _ (fun _ => ?_) (fun _ => ?_)
      · refine bind_same _ _ _ _ (hsplit l1 l2 r12).1 ?_
        intro arg_iter harg
        have hach := (hsplit l1 l2 r12).2 arg_iter harg
        refine ite_same _ _ _ _ _ (fun _ => same_throw _) (fun hlen2 => ?_)
        refine bind_same _ _ _ _
          (parse_arg_list_same T T2 _ hder _ (each_range_drop _ 1 arg_iter hach)) ?_
        intro arg_list _
        refine bind_same _ _ _ _ (index_same arg_iter 0 (by omega)) ?_
        intro a0 ha0
        obtain ⟨a1, ha1⟩ := index_ok arg_iter 1 (by omega)
        refine bind_same _ _ _ _
          (hder a0 a1 (each_range_index _ arg_iter 0 a0 a1 hach ha0 ha1)) ?_
        intro name _
        refine bind_same _ _ _ _ (hparse l2 l3 r23) ?_
        intro body _
        exact same_pure _
      · refine ite_same _ _ _ _ _ (fun _ => same_throw _) (fun _ => ?_)
        refine bind_same _ _ _ _ (hparse l2 l3 r23) ?_
        intro value _
        exact same_pure _
    -- let
    refine ite_same _ _ _ _ _ (fun _ => ?_) (fun _ => ?_)
    · refine ite_same _ _ _ _ _ (fun _ => same_throw _) (fun hlen4 => ?_)
      refine bind_same _ _ _ _ (index_same level 1 (by omega)) ?_
      intro l1 h1
      refine bind_same _ _ _ _ (index_same level 2 (by omega)) ?_
      intro l2 h2
      have r12 := each_range_index _ level 1 l1 l2 hch h1 h2
      refine bind_same _ _ _ _ (hsplit l1 l2 r12).1 ?_
      intro pair_iter hpair
      have hpch := (hsplit l1 l2 r12).2 pair_iter hpair
      refine bind_same _ _ _ _
        (parse_bindings_same T T2 parse parse2 _ hder hsplit hparse _ hpch) ?_
      intro bindings _
      refine bind_same _ _ _ _
        (parse_ranges_same parse parse2 _ hparse _ (each_range_drop _ 2 level hch)) ?_
      intro nodes _
      exact same_pure _
    -- lambda
    refine ite_same _ _ _ _ _ (fun _ => ?_) (fun _ => ?_)
    · refine ite_same _ _ _ _ _ (fun _ => same_throw _) (fun hlen4 => ?_)
      refine bind_same _ _ _ _ (index_same level 1 (by omega)) ?_
      intro l1 h1
      refine bind_same _ _ _ _ (index_same level 2 (by omega)) ?_
      intro l2 h2
      refine bind_same _ _ _ _ (index_same level 3 (by omega)) ?_
      intro l3 h3
      have r12 := each_range_index _ level 1 l1 l2 hch h1 h2
      have r23 := each_range_index _ level 2 l2 l3 hch h2 h3
      refine bind_same _ _ _ _ (hsplit l1 l2 r12).1 ?_
      intro arg_iter harg
      have hach := (hsplit l1 l2 r12).2 arg_iter harg
      refine bind_same _ _ _ _ (parse_arg_list_same T T2 _ hder _ hach) ?_
      intro arg_list _
      refine bind_same _ _ _ _ (hparse l2 l3 r23) ?_
      intro body _
      exact same_pure _
    -- begin / and / or / procedure call
    refine bind_same _ _ _ _
      (parse_ranges_same parse parse2 _ hparse _ (each_range_drop _ _ level hch)) ?_
    intro nodes _
    refine ite_same _ _ _ _ _ (fun _ => same_pure _) (fun _ => ?_)
    refine ite_same _ _ _ _ _ (fun _ => same_pure _) (fun _ => ?_)
    refine ite_same _ _ _ _ _ (fun _ => same_pure _) (fun _ => ?_)
    exact same_pure _
  · refine ite_same _ _ _ _ _ (fun _ => same_throw _) (fun _ => ?_)
    refine ite_same _ _ _ _ _ (fun _ => same_pure _) (fun _ => ?_)
    refine ite_same _ _ _ _ _ (fun _ => same_pure _) (fun _ => ?_)
    cases stoi b0 with
    | value v => exact same_pure _
    | invalid_argument => exact same_pure _
    | out_of_range => exact same_throw _

/-- Function `parse_immediate` on a range that holds the `)` of its first `(`, with fuel for
the length of the range: it returns or throws a `std::string`, and does the same on a token
list that has the same tokens in the range. -/
theorem parse_immediate_same (base : Nat) (T T2 : List String) (fuel : Nat) :
    ∀ (b e : Nat), closed_start T b e → agree T T2 b e → e - b ≤ fuel →
      same_recoverable (parse_immediate base T fuel b e) (parse_immediate base T2 fuel b e) := by
  induction fuel with
  | zero =>
      intro b e hcs _ hf
      have := hcs.1
      omega
  | succ fuel ih =>
      intro b e hcs hag hf
      simp only [parse_immediate]
      refine parse_immediate_body_same base T T2 _ _ b e hcs hag ?_
      intro l r hsub
      have h1 : b < l := hsub.2.1
      have h2 : r < e := hsub.2.2
      exact ih l r hsub.1 (agree_sub T T2 b e l r hag (by omega) (by omega)) (by omega)

/-- What `try_push` appends is neither `(` nor `)`: the depth of the token buffer stays. -/
theorem try_push_depth (p : Parser) (token : String)
    (htok : '(' ∉ token.data ∧ ')' ∉ token.data)
    (hinv : depth_after p.tokens_ 0 = some p.paren_) :
    depth_after (try_push p token).1.tokens_ 0 = some (try_push p token).1.paren_ := by
  rw [try_push_finished]
  simp only [depth_after_append, hinv, Option.some_bind]
  unfold finished
  by_cases he : token.data = []
  · simp [he, depth_after]
  · simp only [he, if_false, List.map_cons, List.map_nil]
    have h1 : String.mk (token.data.map tolower) ≠ "(" := by
      intro e
      have e2 : token.data.map tolower = ['('] := congrArg String.data e
      cases hd : token.data with
      | nil => exact he hd
      | cons c cs =>
          rw [hd] at e2
          simp only [List.map_cons, List.cons.injEq] at e2
          have := (tolower_eq_special c '(' (by decide)).1 e2.1
          exact htok.1 (by rw [hd, this]; exact List.mem_cons_self _ _)
    have h2 : String.mk (token.data.map tolower) ≠ ")" := by
      intro e
      have e2 : token.data.map tolower = [')'] := congrArg String.data e
      cases hd : token.data with
      | nil => exact he hd
      | cons c cs =>
          rw [hd] at e2
          simp only [List.map_cons, List.cons.injEq] at e2
          have := (tolower_eq_special c ')' (by decide)).1 e2.1
          exact htok.2 (by rw [hd, this]; exact List.mem_cons_self _ _)
    simp [depth_after, h1, h2]

/-- The depth counter of the tokenizer is the depth of its token buffer, and no `)` of the
buffer stands at depth zero. -/
theorem tokenize_loop_depth (src : List Char) (p : Parser) (token : String) (in_comment : Bool)
    (htok : '(' ∉ token.data ∧ ')' ∉ token.data)
    (hinv : depth_after p.tokens_ 0 = some p.paren_) :
    depth_after (tokenize_loop src p token in_comment).2.tokens_ 0
      = some (tokenize_loop src p token in_comment).2.paren_ := by
  induction src generalizing p token in_comment with
  | nil =>
      simp only [tokenize_loop]
      exact try_push_depth p token htok hinv
  | cons c src ih =>
      have hq := try_push_depth p token htok hinv
      rw [try_push_finished] at hq
      have hempty : '(' ∉ ("" : String).data ∧ ')' ∉ ("" : String).data := by
        have e3 : ("" : String).data = [] := rfl
        rw [e3]
        simp
      cases in_comment with
      | true =>
          simp only [tokenize_loop, if_true]
          exact ih p token _ htok hinv
      | false =>
          simp only [tokenize_loop, Bool.false_eq_true, if_false, try_push_finished]
          by_cases h1 : c = ';'
          · simp only [h1, if_true]
            exact ih _ _ _ hempty hq
          · simp only [h1, if_false]
            by_cases h2 : c = '('
            · simp only [h2, if_true]
              refine ih _ _ _ hempty ?_
              simp only [depth_after_append, hq, Option.some_bind]
              simp [depth_after]
            · simp only [h2, if_false]
              by_cases h3 : c = ')'
              · simp only [h3, if_true]
                by_cases hle : p.paren_ ≤ 0
                · simp only [hle, if_true]
                  exact hq
                · simp only [hle, if_false]
                  refine ih _ _ _ hempty ?_
                  simp only [depth_after_append, hq, Option.some_bind]
                  have : ¬ (p.paren_ = 0) := by omega
                  simp [depth_after, this]
              · simp only [h3, if_false]
                cases hs : isspace c with
                | true =>
                    simp only [if_true]
                    exact ih _ _ _ hempty hq
                | false =>
                    simp only [Bool.false_eq_true, if_false]
                    cases he : is_EOF c with
                    | true =>
                        simp only [Bool.not_true, Bool.false_eq_true, if_false]
                        exact ih _ _ _ htok hinv
                    | false =>
                        simp only [Bool.not_false, if_true]
                        refine ih _ _ _ ?_ hinv
                        simp only [String.data_push, List.mem_append, List.mem_singleton, not_or]
                        exact ⟨⟨htok.1, fun e => h2 e.symm⟩, ⟨htok.2, fun e => h3 e.symm⟩⟩

/-- A token buffer that is not empty and ends at depth zero holds the `)` of its first `(`. -/
theorem closed_start_of_depth (tokens : List String) (hne : tokens ≠ [])
    (h : depth_after tokens 0 = some 0) : closed_start tokens 0 tokens.length := by
  cases tokens with
  | nil => exact absurd rfl hne
  | cons t rest =>
      refine ⟨by simp, le_refl _, ?_⟩
      intro hg
      simp only [List.get?_cons_zero, Option.some.injEq] at hg
      subst hg
      simp only [depth_after, if_true] at h
      obtain ⟨k, hk⟩ := close_pos_of_depth_after rest 0 h
      have := (close_pos_lt rest 0 k hk).1
      refine ⟨k, by simpa using hk, ?_⟩
      simp only [List.length_cons]
      omega

theorem agree_take (T : List String) (b e : Nat) : agree T (T.take e) b e := by
  intro i _ hi
  simp [List.getElem?_take, hi]

/-- C33.  The token buffer of a call of the tokenizer that returned `success`, when it is not
empty, holds the `)` of its first `(`.  On it `parse_immediate` over the whole buffer, with
fuel for the length of the buffer, returns a node or throws a `std::string`: it does not read
outside the token vector, does not index a result of `split_level` outside its size and does
not run out of fuel.  The same holds for every range `[begin, end_)` that holds the `)` of its
first `(`, and these are the ranges the calls hand on: `parse_immediate` and `split_level`
return on such a range what they return on a token list that has the same tokens in the range
and any tokens, or none, outside it, so no token outside the range is read; the positions
`split_level` returns lie inside the range after `begin`, and two neighbours among them bound
a range of the same kind; `find_match` on a `(` of the range returns the position of its `)`
inside the range. -/
theorem C33_parser_safety (p : Parser) (src : List Char) (base : Nat)
    (hs : (p.reset.tokenize src).1 = status.success)
    (hne : (p.reset.tokenize src).2.tokens_ ≠ []) :
    closed_start (p.reset.tokenize src).2.tokens_ 0 (p.reset.tokenize src).2.tokens_.length ∧
    (∀ fuel, (p.reset.tokenize src).2.tokens_.length ≤ fuel →
      recoverable (parse_immediate base (p.reset.tokenize src).2.tokens_ fuel 0
        (p.reset.tokenize src).2.tokens_.length)) ∧
    (∀ (T T2 : List String) (b e fuel : Nat), closed_start T b e → agree T T2 b e →
      e - b ≤ fuel →
      parse_immediate base T2 fuel b e = parse_immediate base T fuel b e ∧
      parse_immediate base (T.take e) fuel b e = parse_immediate base T fuel b e ∧
      recoverable (parse_immediate base T fuel b e)) ∧
    (∀ (T T2 : List String) (b e : Nat), closed_start T b e → agree T T2 b e →
      split_level T2 b e = split_level T b e ∧
      split_level (T.take e) b e = split_level T b e ∧
      recoverable (split_level T b e) ∧
      ∀ level, split_level T b e = .ok level →
        (∀ x ∈ level, b < x ∧ x < e) ∧ each_range (sub_range T b e) level ∧ level ≠ []) ∧
    (∀ (T T2 : List String) (b e : Nat), closed_start T b e → agree T T2 b e →
      T.get? b = some "(" →
      ∃ m, b < m ∧ m < e ∧ T.get? m = some ")" ∧ find_match T b e = .ok m ∧
        find_match T2 b e = .ok m ∧ find_match (T.take e) b e = .ok m) := by
  have hdepth := tokenize_loop_depth src p.reset "" false (by simp) rfl
  have hst := (tokenize_loop_status src p.reset "" false (by simp)).2
  have hok : (tokenize_loop src p.reset "" false).1 ≠ status.failure := by
    have : (tokenize_loop src p.reset "" false).1 = status.success := hs
    rw [this]
    decide
  have hpar : (tokenize_loop src p.reset "" false).2.paren_ = 0 := by
    have h4 := (hst hok).2.2.2
    have : (tokenize_loop src p.reset "" false).1 = status.success := hs
    rw [this] at h4
    by_contra hc
    simp [hc] at h4
  rw [hpar] at hdepth
  have hcs := closed_start_of_depth _ hne hdepth
  refine ⟨hcs, ?_, ?_, ?_, ?_⟩
  · intro fuel hf
    exact (parse_immediate_same base _ _ fuel 0 _ hcs (agree_refl _ _ _) (by omega)).2
  · intro T T2 b e fuel hc hag hf
    have h1 := parse_immediate_same base T T2 fuel b e hc hag hf
    have h2 := parse_immediate_same base T (T.take e) fuel b e hc (agree_take T b e) hf
    exact ⟨h1.1, h2.1, h1.2⟩
  · intro T T2 b e hc hag
    have h1 := split_level_sub T T2 b e b e hag (le_refl _) (le_refl _) hc
    have h2 := split_level_sub T (T.take e) b e b e (agree_take T b e) (le_refl _) (le_refl _) hc
    exact ⟨h1.1.1, h2.1.1, h1.1.2, h1.2⟩
  · intro T T2 b e hc hag hg
    obtain ⟨k, hk, hlt⟩ := hc.2.2 hg
    have hcl := close_pos_lt _ _ _ hk
    refine ⟨b + 1 + k, by omega, hlt, ?_,
      find_match_found T T b e b k (agree_refl _ _ _) (le_refl _) hc.2.1 hg hk hlt,
      find_match_found T T2 b e b k hag (le_refl _) hc.2.1 hg hk hlt,
      find_match_found T (T.take e) b e b k (agree_take T b e) (le_refl _) hc.2.1 hg hk hlt⟩
    have := hcl.2
    simpa [List.getElem?_drop] using this

set_option maxRecDepth 100000 in
/-- C33 on the text of a recursive definition, and on three texts that the tokenizer accepts
and the parser rejects with a `std::string`. -/
theorem C33_parser_safety_witness :
    ((Parser.new false).reset.tokenize
      "(define (f n) (if (= n 0) 1 (* n (f (- n 1)))))".data).1 = status.success ∧
    recoverable (parse_immediate 0
      ((Parser.new false).reset.tokenize
        "(define (f n) (if (= n 0) 1 (* n (f (- n 1)))))".data).2.tokens_ 30 0
      ((Parser.new false).reset.tokenize
        "(define (f n) (if (= n 0) 1 (* n (f (- n 1)))))".data).2.tokens_.length) ∧
    parse_immediate 0 ["(", "f", "(", "a", ")", ")", "(", "(", "b", ")", ")"] 11 0 11
      = .error (.thrown "parser: invalid s-expression") ∧
    parse_immediate 0 ["(", ")", "(", "(", ")", ")"] 6 0 6
      = .error (.thrown "parser: failed to split s-expression") ∧
    parse_immediate 0 ["(", "let", "(", "x", ")", "1", ")"] 7 0 7
      = .error (.thrown "parser: could not parse s-expression") ∧
    split_level ["(", "f", "(", "a", ")", "b", ")"] 0 7 = .ok [1, 2, 5, 6] ∧
    find_match ["(", "f", "(", "a", ")", "b", ")"] 2 7 = .ok 4 :=
  ⟨by decide,
    (C33_parser_safety (Parser.new false)
      "(define (f n) (if (= n 0) 1 (* n (f (- n 1)))))".data 0 (by decide) (by decide)).2.1 30
      (by decide),
    rfl, rfl, rfl, rfl, rfl⟩

end lisp.interpreter
